import Mathlib

/-!
# IRMover: type unification and global value linking

A shallow embedding of `lib/Linker/IRMover.cpp`.

Pointers are modelled as natural numbers: a `Type *` is an index into the
arena of type nodes owned by the `LLVMContext`, and pointer equality is
equality of indices.  Both modules live in the same context, as in the source.
A null pointer stored in a map is `none`.
-/

namespace IRMover

/-! ## Types -/

/-- The kind of a type node (`Type::TypeID`). -/
inductive TypeID
  | VoidTyID | HalfTyID | FloatTyID | DoubleTyID | X86_FP80TyID | FP128TyID
  | PPC_FP128TyID | LabelTyID | MetadataTyID | X86_MMXTyID | TokenTyID
  | IntegerTyID | FunctionTyID | StructTyID | ArrayTyID | PointerTyID | VectorTyID
  deriving DecidableEq, Repr

/-- One node of the type graph: the kind, the contained types (as indices into
the arena) and the extra properties the linker inspects. -/
structure TypeNode where
  id : TypeID
  contained : List Nat
  addressSpace : Nat
  isVarArg : Bool
  isLiteral : Bool
  isPacked : Bool
  isOpaque : Bool
  numElements : Nat
  bitWidth : Nat
  name : String
  deriving DecidableEq, Repr

/-- The node read through a dangling index: `void`, which contains nothing. -/
def TypeNode.void : TypeNode :=
  ⟨.VoidTyID, [], 0, false, false, false, false, 0, 0, ""⟩

/-- The arena of type nodes; a `Type *` is an index into it. -/
abbrev LLVMContext := List TypeNode

namespace LLVMContext

/-- Dereference a `Type *`. -/
def getType (ctx : LLVMContext) (t : Nat) : TypeNode := ctx.getD t TypeNode.void

/-- The call `Ty->getNumContainedTypes()`. -/
def getNumContainedTypes (ctx : LLVMContext) (t : Nat) : Nat :=
  (ctx.getType t).contained.length

/-- The call `Ty->getContainedType(I)`. -/
def getContainedType (ctx : LLVMContext) (t I : Nat) : Nat :=
  (ctx.getType t).contained.getD I 0

/-- The test `isa<StructType>(Ty)`. -/
def isStruct (ctx : LLVMContext) (t : Nat) : Bool :=
  decide ((ctx.getType t).id = TypeID.StructTyID)

/-- The call `STy->hasName()`. -/
def hasName (ctx : LLVMContext) (t : Nat) : Bool :=
  decide ((ctx.getType t).name ≠ "")

/-- The call `STy->setName(N)`; the linker only ever passes the empty name or
a name it has just released, so no collision renaming is involved. -/
def setName (ctx : LLVMContext) (t : Nat) (n : String) : LLVMContext :=
  ctx.modify (fun node => { node with name := n }) t

/-- The call `STy->setBody(Elements, IsPacked)`: the struct gets a body and
stops being opaque. -/
def setBody (ctx : LLVMContext) (t : Nat) (elems : List Nat) (packed : Bool) :
    LLVMContext :=
  ctx.modify
    (fun node => { node with contained := elems, isPacked := packed, isOpaque := false }) t

end LLVMContext

/-! ## `DenseMap<Type *, Type *>` -/

/-- A `DenseMap<Type *, Type *>`: at most one entry per key, a stored null
pointer being `none`. -/
abbrev DenseMap := List (Nat × Option Nat)

namespace DenseMap

/-- The map read as a partial function: the non-null value stored under `k`. -/
def lookup : DenseMap → Nat → Option Nat
  | [], _ => none
  | (k', v) :: rest, k => if k' = k then v else lookup rest k

/-- Whether the map holds an entry (possibly null) under `k`. -/
def hasKey : DenseMap → Nat → Bool
  | [], _ => false
  | (k', _) :: rest, k => if k' = k then true else hasKey rest k

/-- The effect of `operator[]` on the map: a missing key gets a null entry. -/
def subscript (m : DenseMap) (k : Nat) : DenseMap :=
  if m.hasKey k then m else m ++ [(k, none)]

/-- Store through the reference `Entry` obtained from `operator[]`. -/
def assign (m : DenseMap) (k v : Nat) : DenseMap :=
  m.map (fun e => if e.1 = k then (k, some v) else e)

/-- The call `erase(k)`. -/
def erase (m : DenseMap) (k : Nat) : DenseMap :=
  m.filter (fun e => decide (e.1 ≠ k))

end DenseMap

/-! ## `SmallPtrSet` -/

/-- A `SmallPtrSet`: a duplicate-free list of pointers. -/
abbrev SmallPtrSet := List Nat

namespace SmallPtrSet

/-- The call `insert(x)`, with the `.second` of its result: whether `x` was new. -/
def insert (s : SmallPtrSet) (x : Nat) : SmallPtrSet × Bool :=
  if x ∈ s then (s, false) else (s ++ [x], true)

/-- The call `erase(x)`. -/
def erase (s : SmallPtrSet) (x : Nat) : SmallPtrSet :=
  s.filter (fun y => decide (y ≠ x))

end SmallPtrSet

/-! ## `IRMover::IdentifiedStructTypeSet` -/

/-- The index of identified struct types of the destination module.  The
non-opaque set is keyed by shape (`StructTypeKeyInfo`): element types and
packed flag. -/
structure IdentifiedStructTypeSet where
  OpaqueStructTypes : List Nat
  NonOpaqueStructTypes : List Nat
  deriving DecidableEq, Repr

namespace IdentifiedStructTypeSet

/-- The comparison `KeyTy::operator==` of a key `(ETypes, IsPacked)` with the
key of the struct `t`. -/
def keyMatches (ctx : LLVMContext) (ETypes : List Nat) (IsPacked : Bool) (t : Nat) : Bool :=
  decide ((ctx.getType t).isPacked = IsPacked) && decide ((ctx.getType t).contained = ETypes)

/-- The lookup `findNonOpaque(ETypes, IsPacked)`. -/
def findNonOpaque (ctx : LLVMContext) (S : IdentifiedStructTypeSet) (ETypes : List Nat)
    (IsPacked : Bool) : Option Nat :=
  S.NonOpaqueStructTypes.find? (keyMatches ctx ETypes IsPacked)

/-- Insertion into the shape-keyed set: nothing happens when a struct of the
same shape is already a member. -/
def insertNonOpaque (ctx : LLVMContext) (S : IdentifiedStructTypeSet) (Ty : Nat) :
    IdentifiedStructTypeSet :=
  if S.NonOpaqueStructTypes.any
      (keyMatches ctx (ctx.getType Ty).contained (ctx.getType Ty).isPacked) then S
  else { S with NonOpaqueStructTypes := S.NonOpaqueStructTypes ++ [Ty] }

/-- The call `addNonOpaque(Ty)`. -/
def addNonOpaque (ctx : LLVMContext) (S : IdentifiedStructTypeSet) (Ty : Nat) :
    IdentifiedStructTypeSet :=
  insertNonOpaque ctx S Ty

/-- The call `switchToNonOpaque(Ty)`. -/
def switchToNonOpaque (ctx : LLVMContext) (S : IdentifiedStructTypeSet) (Ty : Nat) :
    IdentifiedStructTypeSet :=
  let S1 := insertNonOpaque ctx S Ty
  { S1 with OpaqueStructTypes := SmallPtrSet.erase S1.OpaqueStructTypes Ty }

/-- The call `addOpaque(Ty)`. -/
def addOpaque (S : IdentifiedStructTypeSet) (Ty : Nat) : IdentifiedStructTypeSet :=
  { S with OpaqueStructTypes := (SmallPtrSet.insert S.OpaqueStructTypes Ty).1 }

/-- The query `hasType(Ty)`. -/
def hasType (ctx : LLVMContext) (S : IdentifiedStructTypeSet) (Ty : Nat) : Bool :=
  if (ctx.getType Ty).isOpaque then decide (Ty ∈ S.OpaqueStructTypes)
  else
    match S.NonOpaqueStructTypes.find?
        (keyMatches ctx (ctx.getType Ty).contained (ctx.getType Ty).isPacked) with
    | none => false
    | some I => decide (I = Ty)

end IdentifiedStructTypeSet

/-! ## `TypeMapTy` -/

/-- The state of the type mapper. -/
structure TypeMapTy where
  MappedTypes : DenseMap
  SpeculativeTypes : List Nat
  SpeculativeDstOpaqueTypes : List Nat
  SrcDefinitionsToResolve : List Nat
  DstResolvedOpaqueTypes : SmallPtrSet
  DstStructTypesSet : IdentifiedStructTypeSet
  deriving DecidableEq, Repr

namespace TypeMapTy

/-- A freshly constructed type mapper over the given struct index. -/
def init (Set : IdentifiedStructTypeSet) : TypeMapTy :=
  ⟨[], [], [], [], [], Set⟩

/-- The loop over the contained types at the end of `areTypesIsomorphic`: stop
with `false` at the first pair that is not isomorphic. -/
def isoLoop (rec : TypeMapTy → Nat → Nat → Option (Bool × TypeMapTy)) :
    List (Nat × Nat) → TypeMapTy → Option (Bool × TypeMapTy)
  | [], s => some (true, s)
  | (d, t) :: rest, s =>
    match rec s d t with
    | none => none
    | some (false, s1) => some (false, s1)
    | some (true, s1) => isoLoop rec rest s1

/-- The pairs `(DstTy->getContainedType(I), SrcTy->getContainedType(I))` for
`I` from `0` up to `SrcTy->getNumContainedTypes()`. -/
def containedPairs (ctx : LLVMContext) (DstTy SrcTy : Nat) : List (Nat × Nat) :=
  (List.range (ctx.getNumContainedTypes SrcTy)).map
    (fun I => (ctx.getContainedType DstTy I, ctx.getContainedType SrcTy I))

/-- Whether the extra properties checked for the kind of `D` disagree (address
space, variadic-ness, literal and packed flags, element count). -/
def extraPropertiesDisagree (D S : TypeNode) : Bool :=
  if D.id = TypeID.PointerTyID then decide (D.addressSpace ≠ S.addressSpace)
  else if D.id = TypeID.FunctionTyID then decide (D.isVarArg ≠ S.isVarArg)
  else if D.id = TypeID.StructTyID then
    decide (D.isLiteral ≠ S.isLiteral) || decide (D.isPacked ≠ S.isPacked)
  else if D.id = TypeID.ArrayTyID then decide (D.numElements ≠ S.numElements)
  else if D.id = TypeID.VectorTyID then decide (D.numElements ≠ S.numElements)
  else false

/-- The recursive walk `TypeMapTy::areTypesIsomorphic(DstTy, SrcTy)`.  The
first argument bounds the recursion depth; `none` means the bound was hit. -/
def areTypesIsomorphic (ctx : LLVMContext) :
    Nat → TypeMapTy → Nat → Nat → Option (Bool × TypeMapTy)
  | 0, _, _, _ => none
  | fuel + 1, s0, DstTy, SrcTy =>
    let D := ctx.getType DstTy
    let S := ctx.getType SrcTy
    -- Two types with differing kinds are clearly not isomorphic.
    if D.id ≠ S.id then some (false, s0) else
    -- Type *&Entry = MappedTypes[SrcTy];
    let s := { s0 with MappedTypes := s0.MappedTypes.subscript SrcTy }
    match s.MappedTypes.lookup SrcTy with
    | some Entry => some (decide (Entry = DstTy), s)
    | none =>
      -- Two identical types are clearly isomorphic.
      if DstTy = SrcTy then
        some (true, { s with MappedTypes := s.MappedTypes.assign SrcTy DstTy })
      else if S.id = TypeID.StructTyID ∧ S.isOpaque = true then
        -- Mapping an opaque type to any struct, just keep the dest struct.
        some (true, { s with
          MappedTypes := s.MappedTypes.assign SrcTy DstTy
          SpeculativeTypes := s.SpeculativeTypes ++ [SrcTy] })
      else if S.id = TypeID.StructTyID ∧ D.isOpaque = true then
        -- Mapping a non-opaque source type to an opaque dest.
        match SmallPtrSet.insert s.DstResolvedOpaqueTypes DstTy with
        | (_, false) => some (false, s)
        | (R, true) =>
          some (true, { s with
            DstResolvedOpaqueTypes := R
            SrcDefinitionsToResolve := s.SrcDefinitionsToResolve ++ [SrcTy]
            SpeculativeTypes := s.SpeculativeTypes ++ [SrcTy]
            SpeculativeDstOpaqueTypes := s.SpeculativeDstOpaqueTypes ++ [DstTy]
            MappedTypes := s.MappedTypes.assign SrcTy DstTy })
      else if S.contained.length ≠ D.contained.length then some (false, s)
      else if D.id = TypeID.IntegerTyID then some (false, s)
      else if extraPropertiesDisagree D S = true then some (false, s)
      else
        -- Speculate that the two types line up and check the subelements.
        isoLoop (areTypesIsomorphic ctx fuel) (containedPairs ctx DstTy SrcTy)
          { s with
            MappedTypes := s.MappedTypes.assign SrcTy DstTy
            SpeculativeTypes := s.SpeculativeTypes ++ [SrcTy] }

/-- The loop of the success branch of `addTypeMapping`: every speculative
struct that has a name loses it. -/
def clearSpeculativeNames (ctx : LLVMContext) (Tys : List Nat) : LLVMContext :=
  Tys.foldl (fun c Ty => if c.isStruct Ty && c.hasName Ty then c.setName Ty "" else c) ctx

/-- The operation `TypeMapTy::addTypeMapping(DstTy, SrcTy)`.  It returns the
type arena (struct names may have been cleared) and the new mapper state. -/
def addTypeMapping (ctx : LLVMContext) (fuel : Nat) (s : TypeMapTy) (DstTy SrcTy : Nat) :
    Option (LLVMContext × TypeMapTy) :=
  match areTypesIsomorphic ctx fuel s DstTy SrcTy with
  | none => none
  | some (false, s1) =>
    -- Not isomorphic: roll out the speculative mappings.
    some (ctx, { s1 with
      MappedTypes := s1.SpeculativeTypes.foldl DenseMap.erase s1.MappedTypes
      SrcDefinitionsToResolve :=
        s1.SrcDefinitionsToResolve.take
          (s1.SrcDefinitionsToResolve.length - s1.SpeculativeDstOpaqueTypes.length)
      DstResolvedOpaqueTypes :=
        s1.SpeculativeDstOpaqueTypes.foldl SmallPtrSet.erase s1.DstResolvedOpaqueTypes
      SpeculativeTypes := []
      SpeculativeDstOpaqueTypes := [] })
  | some (true, s1) =>
    some (clearSpeculativeNames ctx s1.SpeculativeTypes,
      { s1 with SpeculativeTypes := [], SpeculativeDstOpaqueTypes := [] })

/-! ### Type construction in the context -/

/-- Modelled from the spec: structural types other than identified structs are
deduplicated by the context (`ArrayType::get`, `PointerType::get`, ...): the
node of that shape is returned when the arena already holds one, and is
appended otherwise. -/
def getUniqued (ctx : LLVMContext) (node : TypeNode) : Nat × LLVMContext :=
  if ctx.indexOf node < ctx.length then (ctx.indexOf node, ctx)
  else (ctx.length, ctx ++ [node])

/-- Modelled from the spec: `StructType::create(Context)` makes a fresh
identified struct with no name and no body (an opaque struct). -/
def createStruct (ctx : LLVMContext) : Nat × LLVMContext :=
  (ctx.length, ctx ++ [⟨TypeID.StructTyID, [], 0, false, false, false, true, 0, 0, ""⟩])

/-- The state `get` works on: the type arena, the mapper and the `Visited` set
of the current top-level call. -/
structure GetState where
  ctx : LLVMContext
  tm : TypeMapTy
  Visited : SmallPtrSet
  deriving DecidableEq, Repr

/-- The store `*Entry = V` for the entry of `Ty`. -/
def GetState.setEntry (st : GetState) (Ty V : Nat) : GetState :=
  { st with tm := { st.tm with MappedTypes := st.tm.MappedTypes.assign Ty V } }

/-- The operation `TypeMapTy::finishType(DTy, STy, ETypes)`. -/
def finishType (st : GetState) (DTy STy : Nat) (ETypes : List Nat) : GetState :=
  let c1 := st.ctx.setBody DTy ETypes (st.ctx.getType STy).isPacked
  -- Steal STy's name.
  let c2 :=
    if c1.hasName STy then (c1.setName STy "").setName DTy (c1.getType STy).name else c1
  { st with
    ctx := c2
    tm := { st.tm with
      DstStructTypesSet := IdentifiedStructTypeSet.addNonOpaque c2 st.tm.DstStructTypesSet DTy } }

/-- The loop of `get` that remaps the contained types, collecting the results
and whether any of them changed. -/
def getLoop (rec : GetState → Nat → Option (Nat × GetState)) (Ty : Nat) :
    List Nat → List Nat → Bool → GetState → Option (List Nat × Bool × GetState)
  | [], ElementTypes, AnyChange, st => some (ElementTypes, AnyChange, st)
  | I :: rest, ElementTypes, AnyChange, st =>
    match rec st (st.ctx.getContainedType Ty I) with
    | none => none
    | some (E, st1) =>
      getLoop rec Ty rest (ElementTypes ++ [E])
        (AnyChange || decide (E ≠ st1.ctx.getContainedType Ty I)) st1

/-- The tail of `get`: rebuild a modified type of the kind of `Ty` from the
remapped element types, and record it. `none` is the unreachable default of the
switch. -/
def rebuild (st : GetState) (Ty : Nat) (ElementTypes : List Nat) (AnyChange IsUniqued : Bool) :
    Option (Nat × GetState) :=
  let T := st.ctx.getType Ty
  match T.id with
  | TypeID.ArrayTyID =>
    let r := getUniqued st.ctx
      ⟨TypeID.ArrayTyID, [ElementTypes.getD 0 0], 0, false, false, false, false, T.numElements, 0, ""⟩
    some (r.1, ({ st with ctx := r.2 } : GetState).setEntry Ty r.1)
  | TypeID.VectorTyID =>
    let r := getUniqued st.ctx
      ⟨TypeID.VectorTyID, [ElementTypes.getD 0 0], 0, false, false, false, false, T.numElements, 0, ""⟩
    some (r.1, ({ st with ctx := r.2 } : GetState).setEntry Ty r.1)
  | TypeID.PointerTyID =>
    let r := getUniqued st.ctx
      ⟨TypeID.PointerTyID, [ElementTypes.getD 0 0], T.addressSpace, false, false, false, false, 0, 0, ""⟩
    some (r.1, ({ st with ctx := r.2 } : GetState).setEntry Ty r.1)
  | TypeID.FunctionTyID =>
    let r := getUniqued st.ctx
      ⟨TypeID.FunctionTyID, ElementTypes.getD 0 0 :: ElementTypes.drop 1, 0, T.isVarArg, false,
        false, false, 0, 0, ""⟩
    some (r.1, ({ st with ctx := r.2 } : GetState).setEntry Ty r.1)
  | TypeID.StructTyID =>
    let IsPacked := T.isPacked
    if IsUniqued then
      let r := getUniqued st.ctx
        ⟨TypeID.StructTyID, ElementTypes, 0, false, true, IsPacked, false, 0, 0, ""⟩
      some (r.1, ({ st with ctx := r.2 } : GetState).setEntry Ty r.1)
    else if T.isOpaque then
      -- If the type is opaque, we can just use it directly.
      some (Ty, ({ st with tm := { st.tm with
        DstStructTypesSet := st.tm.DstStructTypesSet.addOpaque Ty } } : GetState).setEntry Ty Ty)
    else
      match IdentifiedStructTypeSet.findNonOpaque st.ctx st.tm.DstStructTypesSet
          ElementTypes IsPacked with
      | some OldT =>
        some (OldT, ({ st with ctx := st.ctx.setName Ty "" } : GetState).setEntry Ty OldT)
      | none =>
        if !AnyChange then
          some (Ty, ({ st with tm := { st.tm with
            DstStructTypesSet :=
              IdentifiedStructTypeSet.addNonOpaque st.ctx st.tm.DstStructTypesSet Ty } }
              : GetState).setEntry Ty Ty)
        else
          let r := createStruct st.ctx
          some (r.1, (finishType { st with ctx := r.2 } r.1 Ty ElementTypes).setEntry Ty r.1)
  | _ => none

/-- The part of `get` after the loop over the contained types: use the entry
that appeared while they were processed, or keep the type, or rebuild it. -/
def finishGet (st2 : GetState) (Ty : Nat) (ElementTypes : List Nat)
    (AnyChange IsUniqued : Bool) : Option (Nat × GetState) :=
  -- Entry = &MappedTypes[Ty];
  let st3 : GetState :=
    { st2 with tm := { st2.tm with MappedTypes := st2.tm.MappedTypes.subscript Ty } }
  match st3.tm.MappedTypes.lookup Ty with
  | some Entry =>
    -- We found our type while recursively processing stuff.
    if st3.ctx.isStruct Entry && (st3.ctx.getType Entry).isOpaque then
      some (Entry, finishType st3 Entry Ty ElementTypes)
    else some (Entry, st3)
  | none =>
    if !AnyChange && IsUniqued then some (Ty, st3.setEntry Ty Ty)
    else rebuild st3 Ty ElementTypes AnyChange IsUniqued

/-- The recursive `TypeMapTy::get(Ty, Visited)`.  The first argument bounds the
recursion depth; `none` means the bound was hit or the unreachable default of
the switch was reached. -/
def getVisited : Nat → GetState → Nat → Option (Nat × GetState)
  | 0, _, _ => none
  | fuel + 1, st0, Ty =>
    -- Type **Entry = &MappedTypes[Ty];
    let st : GetState :=
      { st0 with tm := { st0.tm with MappedTypes := st0.tm.MappedTypes.subscript Ty } }
    match st.tm.MappedTypes.lookup Ty with
    | some Entry => some (Entry, st)
    | none =>
      -- These are types that LLVM itself will unique.
      let IsUniqued := !st.ctx.isStruct Ty || (st.ctx.getType Ty).isLiteral
      if !IsUniqued && decide (Ty ∈ st.Visited) then
        let r := createStruct st.ctx
        some (r.1, ({ st with ctx := r.2 } : GetState).setEntry Ty r.1)
      else
        let st1 : GetState :=
          if IsUniqued then st else { st with Visited := (SmallPtrSet.insert st.Visited Ty).1 }
        -- If there are no element types to map, then the type is itself.
        if st1.ctx.getNumContainedTypes Ty = 0 ∧ IsUniqued = true then
          some (Ty, st1.setEntry Ty Ty)
        else
          -- Remap all of the elements, keeping track of whether any of them change.
          match getLoop (getVisited fuel) Ty (List.range (st1.ctx.getNumContainedTypes Ty))
              [] false st1 with
          | none => none
          | some (ElementTypes, AnyChange, st2) =>
            finishGet st2 Ty ElementTypes AnyChange IsUniqued

/-- The public `TypeMapTy::get(Ty)`: a recursive `get` with a fresh `Visited`
set. It returns the mapped type, the type arena and the mapper. -/
def get (fuel : Nat) (ctx : LLVMContext) (tm : TypeMapTy) (Ty : Nat) :
    Option (Nat × LLVMContext × TypeMapTy) :=
  match getVisited fuel ⟨ctx, tm, []⟩ Ty with
  | none => none
  | some (r, st) => some (r, st.ctx, st.tm)

/-- The inner loop of `linkDefinedTypeBodies`: `Elements[I] = get(SrcSTy->getElementType(I))`. -/
def mapElements (fuel : Nat) (SrcSTy : Nat) :
    List Nat → List Nat → LLVMContext → TypeMapTy → Option (List Nat × LLVMContext × TypeMapTy)
  | [], Elements, ctx, tm => some (Elements, ctx, tm)
  | I :: rest, Elements, ctx, tm =>
    match get fuel ctx tm (ctx.getContainedType SrcSTy I) with
    | none => none
    | some (E, ctx1, tm1) => mapElements fuel SrcSTy rest (Elements ++ [E]) ctx1 tm1

/-- The outer loop of `linkDefinedTypeBodies` over `SrcDefinitionsToResolve`. -/
def linkBodies (fuel : Nat) :
    List Nat → LLVMContext → TypeMapTy → Option (LLVMContext × TypeMapTy)
  | [], ctx, tm => some (ctx, tm)
  | SrcSTy :: rest, ctx, tm =>
    let tm0 := { tm with MappedTypes := tm.MappedTypes.subscript SrcSTy }
    match tm0.MappedTypes.lookup SrcSTy with
    | none => none
    | some DstSTy =>
      -- Map the body of the source type over to a new body for the dest type.
      match mapElements fuel SrcSTy (List.range (ctx.getNumContainedTypes SrcSTy)) [] ctx tm0 with
      | none => none
      | some (Elements, ctx1, tm1) =>
        let ctx2 := ctx1.setBody DstSTy Elements (ctx1.getType SrcSTy).isPacked
        linkBodies fuel rest ctx2
          { tm1 with DstStructTypesSet :=
              IdentifiedStructTypeSet.switchToNonOpaque ctx2 tm1.DstStructTypesSet DstSTy }

/-- The operation `TypeMapTy::linkDefinedTypeBodies()`. -/
def linkDefinedTypeBodies (fuel : Nat) (ctx : LLVMContext) (tm : TypeMapTy) :
    Option (LLVMContext × TypeMapTy) :=
  match linkBodies fuel tm.SrcDefinitionsToResolve ctx tm with
  | none => none
  | some (ctx1, tm1) =>
    some (ctx1, { tm1 with SrcDefinitionsToResolve := [], DstResolvedOpaqueTypes := [] })

end TypeMapTy

end IRMover

namespace IRMover
namespace TypeMapTy

/-- What a run of `areTypesIsomorphic` may do to the mapper `s`, giving `s'`:
entries are only added; the side-lists only grow at the end; every added entry
is either recorded in `SpeculativeTypes` or maps a type to itself; and every
claim of an opaque destination struct is recorded in all three of
`SpeculativeDstOpaqueTypes`, `SrcDefinitionsToResolve` and
`DstResolvedOpaqueTypes`. -/
structure Extends (ctx : LLVMContext) (s s' : TypeMapTy) : Prop where
  mono : ∀ k v, s.MappedTypes.lookup k = some v → s'.MappedTypes.lookup k = some v
  spec : ∃ n : List Nat, s'.SpeculativeTypes = s.SpeculativeTypes ++ n ∧ n.Nodup ∧
    (∀ k ∈ n, s.MappedTypes.lookup k = none ∧ s'.MappedTypes.lookup k ≠ none) ∧
    (∀ k d, s.MappedTypes.lookup k = none → s'.MappedTypes.lookup k = some d → k ∈ n ∨ d = k)
  claims : ∃ o q : List Nat,
    s'.SpeculativeDstOpaqueTypes = s.SpeculativeDstOpaqueTypes ++ o ∧
    s'.SrcDefinitionsToResolve = s.SrcDefinitionsToResolve ++ q ∧ q.length = o.length ∧
    s'.DstResolvedOpaqueTypes = s.DstResolvedOpaqueTypes ++ o ∧
    (∀ x ∈ o, x ∉ s.DstResolvedOpaqueTypes)
  claimed : ∀ k d, s.MappedTypes.lookup k = none → s'.MappedTypes.lookup k = some d → k ≠ d →
    (ctx.getType k).id = TypeID.StructTyID → (ctx.getType k).isOpaque = false →
    (ctx.getType d).isOpaque = true → d ∈ s'.DstResolvedOpaqueTypes
  index : s'.DstStructTypesSet = s.DstStructTypesSet

end TypeMapTy
end IRMover

namespace IRMover
namespace TypeMapTy

/-- The number of types of the arena that have no (non-null) entry in the
mapping: the measure that bounds the recursion depth of
`areTypesIsomorphic`. -/
def unmappedCount (ctx : LLVMContext) (m : DenseMap) : Nat :=
  (List.range ctx.length).countP (fun i => (m.lookup i).isNone)

end TypeMapTy
end IRMover

namespace IRMover

/-! ## Example type graphs -/

/-- A type node with no contained types. -/
def TypeNode.prim (k : TypeID) : TypeNode := ⟨k, [], 0, false, false, false, false, 0, 0, ""⟩

/-- The types `i32`, `float`, `double`, `{i32, float}`, `{i32, double}`,
`{i32, float}*` and `{i32, double}*`. -/
def exampleLiteralCtx : LLVMContext :=
  [TypeNode.prim TypeID.IntegerTyID, TypeNode.prim TypeID.FloatTyID,
   TypeNode.prim TypeID.DoubleTyID,
   ⟨TypeID.StructTyID, [0, 1], 0, false, true, false, false, 0, 0, ""⟩,
   ⟨TypeID.StructTyID, [0, 2], 0, false, true, false, false, 0, 0, ""⟩,
   ⟨TypeID.PointerTyID, [3], 0, false, false, false, false, 0, 0, ""⟩,
   ⟨TypeID.PointerTyID, [4], 0, false, false, false, false, 0, 0, ""⟩]

/-- The types `%Node = type { %Node* }`, `%Node*`, `%Node.1 = type { %Node.1* }`
and `%Node.1*`. -/
def exampleNodeCtx : LLVMContext :=
  [⟨TypeID.StructTyID, [1], 0, false, false, false, false, 0, 0, "Node"⟩,
   ⟨TypeID.PointerTyID, [0], 0, false, false, false, false, 0, 0, ""⟩,
   ⟨TypeID.StructTyID, [3], 0, false, false, false, false, 0, 0, "Node.1"⟩,
   ⟨TypeID.PointerTyID, [2], 0, false, false, false, false, 0, 0, ""⟩]

/-- The types `%D = type opaque`, `%S1 = type { i32 }`, `%S2 = type { float }`,
`i32` and `float`. -/
def exampleOpaqueCtx : LLVMContext :=
  [⟨TypeID.StructTyID, [], 0, false, false, false, true, 0, 0, "D"⟩,
   ⟨TypeID.StructTyID, [3], 0, false, false, false, false, 0, 0, "S1"⟩,
   ⟨TypeID.StructTyID, [4], 0, false, false, false, false, 0, 0, "S2"⟩,
   TypeNode.prim TypeID.IntegerTyID, TypeNode.prim TypeID.FloatTyID]

end IRMover

namespace IRMover

/-- The arena `exampleNodeCtx` after `get(%Node.1)` in a fresh mapper: the
struct has been rebuilt as the new type 4 with the body `{ 5 }`, where `5` is
the new pointer to `4`, and `4` has taken over the name. -/
def exampleNodeCtxRebuilt : LLVMContext :=
  [⟨TypeID.StructTyID, [1], 0, false, false, false, false, 0, 0, "Node"⟩,
   ⟨TypeID.PointerTyID, [0], 0, false, false, false, false, 0, 0, ""⟩,
   ⟨TypeID.StructTyID, [3], 0, false, false, false, false, 0, 0, ""⟩,
   ⟨TypeID.PointerTyID, [2], 0, false, false, false, false, 0, 0, ""⟩,
   ⟨TypeID.StructTyID, [5], 0, false, false, false, false, 0, 0, "Node.1"⟩,
   ⟨TypeID.PointerTyID, [4], 0, false, false, false, false, 0, 0, ""⟩]

end IRMover

namespace IRMover
namespace TypeMapTy

/-- A run of `addTypeMapping` calls, one per pair `(DstTy, SrcTy)`, as made by
the loops of `computeTypeMapping` before `linkDefinedTypeBodies`. -/
def addTypeMappings (fuel : Nat) :
    List (Nat × Nat) → LLVMContext → TypeMapTy → Option (LLVMContext × TypeMapTy)
  | [], ctx, tm => some (ctx, tm)
  | (d, t) :: rest, ctx, tm =>
    match addTypeMapping ctx fuel tm d t with
    | none => none
    | some (ctx1, tm1) => addTypeMappings fuel rest ctx1 tm1

end TypeMapTy
end IRMover

namespace IRMover

/-- The arena `ctx'` differs from `ctx` at most in the names of its types. -/
def LLVMContext.SameShape (ctx ctx' : LLVMContext) : Prop :=
  ctx'.length = ctx.length ∧
  ∀ u, ∃ nm : String, ctx'.getType u = { ctx.getType u with name := nm }

end IRMover

namespace IRMover

/-! ## Global values, constants and modules -/

/-- The linkage categories (`GlobalValue::LinkageTypes`). -/
inductive LinkageTypes
  | ExternalLinkage | AvailableExternallyLinkage | LinkOnceAnyLinkage | LinkOnceODRLinkage
  | WeakAnyLinkage | WeakODRLinkage | AppendingLinkage | InternalLinkage | PrivateLinkage
  | ExternalWeakLinkage | CommonLinkage
  deriving DecidableEq, Repr

/-- The visibilities (`GlobalValue::VisibilityTypes`). -/
inductive VisibilityTypes
  | DefaultVisibility | HiddenVisibility | ProtectedVisibility
  deriving DecidableEq, Repr

/-- The selection kinds of a comdat (`Comdat::SelectionKind`). -/
inductive SelectionKind
  | Any | ExactMatch | Largest | NoDuplicates | SameSize
  deriving DecidableEq, Repr

/-- Which kind of global a `GlobalValue` is. -/
inductive GlobalKind
  | GlobalVariable | Function | GlobalAlias
  deriving DecidableEq, Repr

/-- Constants, as far as the linker looks into them.  A global used as a value
is `GlobalRef` of its address. -/
inductive Constant
  | GlobalRef (addr : Nat)
  | Int (ty : Nat) (v : Nat)
  | Null (ty : Nat)
  | Struct (ty : Nat) (ops : List Constant)
  | Array (ty : Nat) (elems : List Constant)
  | BitCast (c : Constant) (ty : Nat)
  deriving Repr

namespace Constant

/-- Modelled from the spec: `stripPointerCasts()` removes the pointer casts
around a value. -/
def stripPointerCasts : Constant → Constant
  | BitCast c _ => stripPointerCasts c
  | c => c

/-- The call `C->getAggregateElement(I)`: null (`none`) when there is no such
element. -/
def getAggregateElement : Constant → Nat → Option Constant
  | Struct _ ops, I => ops.get? I
  | Array _ elems, I => elems.get? I
  | _, _ => none

/-- The call `S->getOperand(I)` on a constant struct. -/
def getOperand : Constant → Nat → Option Constant
  | Struct _ ops, I => ops.get? I
  | Array _ elems, I => elems.get? I
  | BitCast c _, 0 => some c
  | _, _ => none

/-- The count `cast<ArrayType>(C->getType())->getNumElements()` of an array
constant: a constant array has as many elements as its type says. -/
def getNumElements : Constant → Nat
  | Array _ elems => elems.length
  | _ => 0

/-- The test `dyn_cast<GlobalValue>(C)`: the address of the global. -/
def asGlobalValue : Constant → Option Nat
  | GlobalRef a => some a
  | _ => none

end Constant

/-- A global value: variable, function or alias. `addr` is its identity (the
pointer); `body` is the initializer, the function body or the aliasee, and is
absent for a declaration. -/
structure GlobalValue where
  addr : Nat
  kind : GlobalKind
  name : String
  linkage : LinkageTypes
  visibility : VisibilityTypes
  valueType : Nat
  type : Nat
  isConstant : Bool
  alignment : Nat
  unnamedAddr : Bool
  sectionName : String
  threadLocalMode : Nat
  comdat : Option String
  body : Option Constant
  personalityFn : Option Constant
  prefixData : Option Constant
  prologueData : Option Constant
  deriving Repr

namespace GlobalValue

/-- The call `GV->hasName()`. -/
def hasName (g : GlobalValue) : Bool := decide (g.name ≠ "")

/-- The call `GV->hasLocalLinkage()`: internal or private. -/
def hasLocalLinkage (g : GlobalValue) : Bool :=
  decide (g.linkage = LinkageTypes.InternalLinkage) ||
    decide (g.linkage = LinkageTypes.PrivateLinkage)

/-- The call `GV->hasAppendingLinkage()`. -/
def hasAppendingLinkage (g : GlobalValue) : Bool :=
  decide (g.linkage = LinkageTypes.AppendingLinkage)

/-- The call `GV->hasAvailableExternallyLinkage()`. -/
def hasAvailableExternallyLinkage (g : GlobalValue) : Bool :=
  decide (g.linkage = LinkageTypes.AvailableExternallyLinkage)

/-- The call `GV->hasExternalWeakLinkage()`. -/
def hasExternalWeakLinkage (g : GlobalValue) : Bool :=
  decide (g.linkage = LinkageTypes.ExternalWeakLinkage)

/-- The call `GV->hasWeakLinkage()`. -/
def hasWeakLinkage (g : GlobalValue) : Bool :=
  decide (g.linkage = LinkageTypes.WeakAnyLinkage) ||
    decide (g.linkage = LinkageTypes.WeakODRLinkage)

/-- The call `GV->hasLinkOnceLinkage()`. -/
def hasLinkOnceLinkage (g : GlobalValue) : Bool :=
  decide (g.linkage = LinkageTypes.LinkOnceAnyLinkage) ||
    decide (g.linkage = LinkageTypes.LinkOnceODRLinkage)

/-- The call `GV->isDeclaration()`: the global has no body. -/
def isDeclaration (g : GlobalValue) : Bool := g.body.isNone

/-- Modelled from the spec: a destination symbol that `already has a body (is
not a pending declaration)` wins; an available-externally body is advisory and
`never the authoritative definition`, so such a global counts as a declaration
for the linker. -/
def isDeclarationForLinker (g : GlobalValue) : Bool :=
  g.hasAvailableExternallyLinkage || g.isDeclaration

/-- Modelled from the spec: `copyAttributesFrom` copies the externally-visible
attributes of `Src` (visibility, unnamed-address, alignment, section,
thread-local mode, and the function-only payloads). -/
def copyAttributesFrom (g Src : GlobalValue) : GlobalValue :=
  { g with
    visibility := Src.visibility
    unnamedAddr := Src.unnamedAddr
    alignment := Src.alignment
    sectionName := Src.sectionName
    threadLocalMode := Src.threadLocalMode
    personalityFn := Src.personalityFn
    prefixData := Src.prefixData
    prologueData := Src.prologueData }

end GlobalValue

/-- A module: its global values in order (variables, functions, aliases) and
its comdat table. -/
structure Module where
  globals : List GlobalValue
  comdats : List (String × SelectionKind)
  deriving Repr

namespace Module

/-- The lookup `M.getNamedValue(Name)` in the symbol table. -/
def getNamedValue (M : Module) (Name : String) : Option GlobalValue :=
  M.globals.find? (fun g => decide (g.name = Name))

/-- The global at address `a`. -/
def find (M : Module) (a : Nat) : Option GlobalValue :=
  M.globals.find? (fun g => decide (g.addr = a))

/-- Apply `f` to the global at address `a`. -/
def update (M : Module) (a : Nat) (f : GlobalValue → GlobalValue) : Module :=
  { M with globals := M.globals.map (fun g => if g.addr = a then f g else g) }

/-- The name a global asking for `Name` gets.  The symbol table of a module is
not part of the linker; by the comment on `forceRenaming` it `autorenames
globals that conflict`.  Here a taken name gets the first numeric suffix that
makes it free; no statement below depends on which free name is picked. -/
def uniqueName (M : Module) (Name : String) : String :=
  if Name = "" ∨ (M.getNamedValue Name).isNone then Name
  else
    match (List.range (M.globals.length + 1)).find?
        (fun k => (M.getNamedValue (Name ++ toString (k + 1))).isNone) with
    | some k => Name ++ toString (k + 1)
    | none => Name

/-- The call `GV->setName(Name)` for the global at `a`, with autorenaming. -/
def setName (M : Module) (a : Nat) (Name : String) : Module :=
  let M1 := M.update a (fun g => { g with name := "" })
  M1.update a (fun g => { g with name := M1.uniqueName Name })

/-- The call `GV->takeName(Other)`: `a` gets the name of `b`, which loses it. -/
def takeName (M : Module) (a b : Nat) : Module :=
  match M.find b with
  | none => M
  | some Other =>
    (M.update b (fun g => { g with name := "" })).update a (fun g => { g with name := Other.name })

/-- Put a new global into the module, before the global at `before` or at the
end, autorenaming it on a name conflict. -/
def insertGlobal (M : Module) (g : GlobalValue) (before : Option Nat) : Module :=
  let g1 := { g with name := M.uniqueName g.name }
  match before with
  | none => { M with globals := M.globals ++ [g1] }
  | some b =>
    { M with globals :=
        M.globals.takeWhile (fun x => decide (x.addr ≠ b)) ++ g1 ::
          M.globals.dropWhile (fun x => decide (x.addr ≠ b)) }

/-- The call `GV->eraseFromParent()`. -/
def erase (M : Module) (a : Nat) : Module :=
  { M with globals := M.globals.filter (fun g => decide (g.addr ≠ a)) }

/-- The call `M.getOrInsertComdat(Name)` followed by `setSelectionKind(K)`. -/
def setComdat (M : Module) (Name : String) (K : SelectionKind) : Module :=
  if M.comdats.any (fun c => decide (c.1 = Name)) then
    { M with comdats := M.comdats.map (fun c => if c.1 = Name then (Name, K) else c) }
  else { M with comdats := M.comdats ++ [(Name, K)] }

/-- The selection kind of the comdat `Name` of this module. -/
def selectionKind (M : Module) (Name : String) : SelectionKind :=
  match M.comdats.find? (fun c => decide (c.1 = Name)) with
  | some c => c.2
  | none => SelectionKind.Any

end Module

/-- The severity of a diagnostic. -/
inductive DiagnosticSeverity
  | DS_Error | DS_Warning
  deriving DecidableEq, Repr

/-- The state of `IRLinker`, together with what it acts on: the type arena,
the two modules, the diagnostics emitted so far, the redirections made by
`replaceAllUsesWith` (use lists themselves are not part of the model) and the
next free address for a new global. -/
structure IRLinker where
  Context : LLVMContext
  TypeMap : TypeMapTy
  DstM : Module
  SrcM : Module
  ValueMap : List (Nat × Constant)
  AliasValueMap : List (Nat × Constant)
  ValuesToLink : List Nat
  Worklist : List Nat
  DoneLinkingBodies : Bool
  HasError : Bool
  IsMetadataLinkingPostpass : Bool
  Diagnostics : List (DiagnosticSeverity × String)
  Redirected : List (Nat × Constant)
  NextAddr : Nat
  deriving Repr

namespace IRLinker

/-- The helper `maybeAdd(GV)`. -/
def maybeAdd (L : IRLinker) (GV : Nat) : IRLinker :=
  if GV ∈ L.ValuesToLink then L
  else { L with ValuesToLink := L.ValuesToLink ++ [GV], Worklist := L.Worklist ++ [GV] }

/-- The helper `emitError(Message)`; it returns true. -/
def emitError (L : IRLinker) (Message : String) : IRLinker :=
  { L with
    Diagnostics := L.Diagnostics ++ [(DiagnosticSeverity.DS_Error, Message)]
    HasError := true }

/-- The helper `emitWarning(Message)`. -/
def emitWarning (L : IRLinker) (Message : String) : IRLinker :=
  { L with Diagnostics := L.Diagnostics ++ [(DiagnosticSeverity.DS_Warning, Message)] }

/-- The lookup `ValueMap.find(GV)`. -/
def findValue (m : List (Nat × Constant)) (GV : Nat) : Option Constant :=
  (m.find? (fun e => decide (e.1 = GV))).map Prod.snd

/-- The store `ValueMap[GV] = C`. -/
def setValue (m : List (Nat × Constant)) (GV : Nat) (C : Constant) : List (Nat × Constant) :=
  if m.any (fun e => decide (e.1 = GV)) then m.map (fun e => if e.1 = GV then (GV, C) else e)
  else m ++ [(GV, C)]

/-- The method `IRLinker::getLinkedToGlobal(SrcGV)`. -/
def getLinkedToGlobal (L : IRLinker) (SrcGV : GlobalValue) : Option GlobalValue :=
  -- If the source has no name it can't link.  If it has local linkage,
  -- there is no name match-up going on.
  if !SrcGV.hasName || SrcGV.hasLocalLinkage then none
  else
    -- Otherwise see if we have a match in the destination module's symtab.
    match L.DstM.getNamedValue SrcGV.name with
    | none => none
    | some DGV =>
      -- A destination global with internal linkage is no linkage at all.
      if DGV.hasLocalLinkage then none else some DGV

/-- The method `IRLinker::shouldLink(DGV, SGV)`.  `AddLazyFor` gives the
globals the lazy-link policy passes to its `Add` callback, in order. -/
def shouldLink (AddLazyFor : GlobalValue → List Nat) (L : IRLinker)
    (DGV : Option GlobalValue) (SGV : GlobalValue) : Bool × IRLinker :=
  -- Already imported all the values.
  if L.IsMetadataLinkingPostpass then (false, L)
  else if SGV.addr ∈ L.ValuesToLink then (true, L)
  else if SGV.hasLocalLinkage then (true, L)
  else if (match DGV with
      | some D => !D.isDeclarationForLinker
      | none => false) then (false, L)
  else if SGV.hasAvailableExternallyLinkage then (true, L)
  else if L.DoneLinkingBodies then (false, L)
  else
    let L1 := (AddLazyFor SGV).foldl maybeAdd L
    (decide (SGV.addr ∈ L1.ValuesToLink), L1)

/-- The function `forceRenaming(GV, Name)` on the destination module. -/
def forceRenaming (M : Module) (GV : Nat) (Name : String) : Module :=
  match M.find GV with
  | none => M
  | some g =>
    -- If the global doesn't force its name or if it already has the right name,
    -- there is nothing for us to do.
    if g.hasLocalLinkage || decide (g.name = Name) then M
    else
      match M.getNamedValue Name with
      | some ConflictGV =>
        -- If there is a conflict, rename the conflict.
        (M.takeName GV ConflictGV.addr).setName ConflictGV.addr Name
      | none => M.setName GV Name

end IRLinker

end IRMover

namespace IRMover

namespace IRLinker

/-! ## Prototypes of globals -/

/-- The call `TypeMap.get(Ty)` on the linker state. -/
def typeMapGet (fuel : Nat) (L : IRLinker) (Ty : Nat) : Option (Nat × IRLinker) :=
  match TypeMapTy.get fuel L.Context L.TypeMap Ty with
  | none => none
  | some (T, ctx, tm) => some (T, { L with Context := ctx, TypeMap := tm })

/-- A new global of the given kind in the destination module, as made by
`new GlobalVariable(DstM, Ty, ...)`, `Function::Create` and
`GlobalAlias::create`: its type is the pointer to `Ty` in the address space,
it has no body and default attributes, and it is inserted before `before` or
at the end. The result is the address of the new global. -/
def newGlobal (L : IRLinker) (kind : GlobalKind) (Ty : Nat) (isConstant : Bool)
    (Linkage : LinkageTypes) (Name : String) (before : Option Nat) (TLMode : Nat)
    (AddressSpace : Nat) : Nat × IRLinker :=
  let p := TypeMapTy.getUniqued L.Context
    ⟨TypeID.PointerTyID, [Ty], AddressSpace, false, false, false, false, 0, 0, ""⟩
  let g : GlobalValue :=
    { addr := L.NextAddr, kind := kind, name := Name, linkage := Linkage,
      visibility := VisibilityTypes.DefaultVisibility, valueType := Ty, type := p.1,
      isConstant := isConstant, alignment := 0, unnamedAddr := false, sectionName := "",
      threadLocalMode := TLMode, comdat := none, body := none, personalityFn := none,
      prefixData := none, prologueData := none }
  (L.NextAddr,
    { L with Context := p.2, DstM := L.DstM.insertGlobal g before, NextAddr := L.NextAddr + 1 })

/-- The method `copyGlobalVariableProto(SGVar)`. -/
def copyGlobalVariableProto (fuel : Nat) (L : IRLinker) (SGVar : GlobalValue) :
    Option (Nat × IRLinker) :=
  match typeMapGet fuel L SGVar.valueType with
  | none => none
  | some (T, L1) =>
    let r := newGlobal L1 GlobalKind.GlobalVariable T SGVar.isConstant
      LinkageTypes.ExternalLinkage SGVar.name none SGVar.threadLocalMode
      (L1.Context.getType SGVar.type).addressSpace
    some (r.1,
      { r.2 with
        DstM := r.2.DstM.update r.1 (fun g => { g with alignment := SGVar.alignment }) })

/-- The method `copyFunctionProto(SF)`. -/
def copyFunctionProto (fuel : Nat) (L : IRLinker) (SF : GlobalValue) : Option (Nat × IRLinker) :=
  match typeMapGet fuel L SF.valueType with
  | none => none
  | some (T, L1) =>
    some (newGlobal L1 GlobalKind.Function T false LinkageTypes.ExternalLinkage SF.name none 0 0)

/-- The method `copyGlobalAliasProto(SGA)`. -/
def copyGlobalAliasProto (fuel : Nat) (L : IRLinker) (SGA : GlobalValue) :
    Option (Nat × IRLinker) :=
  match typeMapGet fuel L SGA.valueType with
  | none => none
  | some (Ty, L1) =>
    some (newGlobal L1 GlobalKind.GlobalAlias Ty false LinkageTypes.ExternalLinkage SGA.name none 0
      (L1.Context.getType SGA.type).addressSpace)

/-- The method `copyGlobalValueProto(SGV, ForDefinition)`; the result is the
address of the new destination global. -/
def copyGlobalValueProto (fuel : Nat) (L : IRLinker) (SGV : GlobalValue) (ForDefinition : Bool) :
    Option (Nat × IRLinker) :=
  let created : Option (Nat × IRLinker) :=
    match SGV.kind with
    | GlobalKind.GlobalVariable => copyGlobalVariableProto fuel L SGV
    | GlobalKind.Function => copyFunctionProto fuel L SGV
    | GlobalKind.GlobalAlias =>
      if ForDefinition then copyGlobalAliasProto fuel L SGV
      else
        match typeMapGet fuel L SGV.valueType with
        | none => none
        | some (T, L1) =>
          some (newGlobal L1 GlobalKind.GlobalVariable T false LinkageTypes.ExternalLinkage
            SGV.name none SGV.threadLocalMode (L1.Context.getType SGV.type).addressSpace)
  match created with
  | none => none
  | some (NewGV, L1) =>
    let M1 :=
      if ForDefinition then L1.DstM.update NewGV (fun g => { g with linkage := SGV.linkage })
      else if SGV.hasExternalWeakLinkage || SGV.hasWeakLinkage || SGV.hasLinkOnceLinkage then
        L1.DstM.update NewGV (fun g => { g with linkage := LinkageTypes.ExternalWeakLinkage })
      else L1.DstM
    let M2 := M1.update NewGV (fun g => g.copyAttributesFrom SGV)
    -- Remove these copied constants in case this stays a declaration, since
    -- they point to the source module.
    let M3 := M2.update NewGV (fun g =>
      if g.kind = GlobalKind.Function then
        { g with personalityFn := none, prefixData := none, prologueData := none }
      else g)
    some (NewGV, { L1 with DstM := M3 })

/-! ## Appending variables -/

/-- The elements `C->getAggregateElement(i)` for the indices given. -/
def collectElements (C : Constant) : List Nat → Option (List Constant)
  | [] => some []
  | i :: rest =>
    match C.getAggregateElement i, collectElements C rest with
    | some e, some es => some (e :: es)
    | _, _ => none

/-- The function `getArrayElements(C, Dest)`: the elements of the array
constant `C`, as many as its array type has; `none` when one is missing. -/
def getArrayElements (C : Constant) : Option (List Constant) :=
  collectElements C (List.range C.getNumElements)

/-- The predicate of the `remove_if` over the source elements of a 3-field
structor list: the element is dropped when its third field, after stripping
pointer casts, is a global that should not be linked.  `none` stands for a
missing third field or a key that is no global of the source module. -/
def isDeadStructor (AddLazyFor : GlobalValue → List Nat) (L : IRLinker) (E : Constant) :
    Option (Bool × IRLinker) :=
  match E.getAggregateElement 2 with
  | none => none
  | some op =>
    match op.stripPointerCasts.asGlobalValue with
    | none => some (false, L)
    | some a =>
      match L.SrcM.find a with
      | none => none
      | some Key =>
        let DGV := L.getLinkedToGlobal Key
        let r := shouldLink AddLazyFor L DGV Key
        some (!r.1, r.2)

/-- The `erase(remove_if(...))` over the source elements. -/
def removeDeadStructors (AddLazyFor : GlobalValue → List Nat) :
    List Constant → IRLinker → Option (List Constant × IRLinker)
  | [], L => some ([], L)
  | E :: rest, L =>
    match isDeadStructor AddLazyFor L E with
    | none => none
    | some (dead, L1) =>
      match removeDeadStructors AddLazyFor rest L1 with
      | none => none
      | some (kept, L2) => some (if dead then kept else E :: kept, L2)

/-- The loop that maps the source elements and appends them to `DstElements`.
`MapValue` stands for `MapValue(·, ValueMap, ValueMapperFlags, &TypeMap,
&GValMaterializer)` of the value mapper, which may change the whole linker
state through the materializer. -/
def mapSrcElements (MapValue : IRLinker → Constant → Constant × IRLinker)
    (IsOldStructor : Bool) (EltTy VoidPtrTy : Nat) :
    List Constant → List Constant → IRLinker → Option (List Constant × IRLinker)
  | [], DstElements, L => some (DstElements, L)
  | V :: rest, DstElements, L =>
    if IsOldStructor then
      match V.getOperand 0, V.getOperand 1 with
      | some O0, some O1 =>
        let E1 := MapValue L O0
        let E2 := MapValue E1.2 O1
        let NewV := Constant.Struct EltTy [E1.1, E2.1, Constant.Null VoidPtrTy]
        mapSrcElements MapValue IsOldStructor EltTy VoidPtrTy rest (DstElements ++ [NewV]) E2.2
      | _, _ => none
    else
      let NewV := MapValue L V
      mapSrcElements MapValue IsOldStructor EltTy VoidPtrTy rest (DstElements ++ [NewV.1]) NewV.2

/-- The checks of `linkAppendingVarProto` when a destination global exists:
the message of the first conflict, if any. -/
def appendingConflict (ctx : LLVMContext) (EltTy : Nat) (DstGV SrcGV : GlobalValue) :
    Option String :=
  if !SrcGV.hasAppendingLinkage || !DstGV.hasAppendingLinkage then
    some ("Linking globals named '" ++ SrcGV.name ++
      "': can only link appending global with another appending global!")
  -- Check to see that they two arrays agree on type.
  else if EltTy ≠ ctx.getContainedType DstGV.valueType 0 then
    some "Appending variables with different element types!"
  else if DstGV.isConstant ≠ SrcGV.isConstant then
    some "Appending variables linked with different const'ness!"
  else if DstGV.alignment ≠ SrcGV.alignment then
    some "Appending variables with different alignment need to be linked!"
  else if DstGV.visibility ≠ SrcGV.visibility then
    some "Appending variables with different visibility need to be linked!"
  else if DstGV.unnamedAddr ≠ SrcGV.unnamedAddr then
    some "Appending variables with different unnamed_addr need to be linked!"
  else if DstGV.sectionName ≠ SrcGV.sectionName then
    some "Appending variables with different section name need to be linked!"
  else none

/-- The second half of `linkAppendingVarProto`, from `NewSize` on: create the
new global, map the source elements behind the destination elements, set the
initializer and replace the old destination global. -/
def buildAppendingVar (MapValue : IRLinker → Constant → Constant × IRLinker) (fuel : Nat)
    (L2 : IRLinker) (DstGV : Option GlobalValue) (SrcGV : GlobalValue) (IsOldStructor : Bool)
    (EltTy VoidPtrTy : Nat) (DstElements SrcElements : List Constant) :
    Option (Option Constant × IRLinker) :=
  let NewSize := DstElements.length + SrcElements.length
  let NewType := TypeMapTy.getUniqued L2.Context
    ⟨TypeID.ArrayTyID, [EltTy], 0, false, false, false, false, NewSize, 0, ""⟩
  -- Create the new global variable.
  let NG := newGlobal { L2 with Context := NewType.2 } GlobalKind.GlobalVariable NewType.1
    SrcGV.isConstant SrcGV.linkage "" (DstGV.map (fun D => D.addr)) SrcGV.threadLocalMode
    (NewType.2.getType SrcGV.type).addressSpace
  let L3 : IRLinker :=
    { NG.2 with
      DstM :=
        forceRenaming (NG.2.DstM.update NG.1 (fun g => g.copyAttributesFrom SrcGV))
          NG.1 SrcGV.name }
  match typeMapGet fuel L3 SrcGV.type with
  | none => none
  | some (RetTy, L4) =>
    let Ret := Constant.BitCast (Constant.GlobalRef NG.1) RetTy
    -- Stop recursion.
    let L5 : IRLinker := { L4 with ValueMap := setValue L4.ValueMap SrcGV.addr Ret }
    match mapSrcElements MapValue IsOldStructor EltTy VoidPtrTy SrcElements DstElements L5 with
    | none => none
    | some (Elements, L6) =>
      let L7 : IRLinker :=
        { L6 with
          DstM := L6.DstM.update NG.1
            (fun g => { g with body := some (Constant.Array NewType.1 Elements) }) }
      -- Replace any uses of the two global variables with uses of the new global.
      match DstGV with
      | none => some (some Ret, L7)
      | some D =>
        some (some Ret,
          { L7 with
            Redirected := L7.Redirected ++
              [(D.addr, Constant.BitCast (Constant.GlobalRef NG.1) D.type)]
            DstM := L7.DstM.erase D.addr })

/-- What the head of `linkAppendingVarProto` works out from the mapped value
type `T` of the source array and its name: whether the list is a structor list
in the 3-field or in the legacy 2-field form, the `i8*` type, and the element
type (upgraded to three fields for the legacy form); the arena may have grown
by the types looked up. -/
structure AppendingShape where
  IsNewStructor : Bool
  IsOldStructor : Bool
  VoidPtrTy : Nat
  EltTy : Nat
  Context : LLVMContext
  deriving Repr

/-- The head of `linkAppendingVarProto`, up to the upgrade of the element type
of a legacy structor list. -/
def appendingShape (ctx : LLVMContext) (T : Nat) (Name : String) : AppendingShape :=
  let EltTy0 := ctx.getContainedType T 0
  let IsStructor := decide (Name = "llvm.global_ctors") || decide (Name = "llvm.global_dtors")
  let IsNewStructor := IsStructor && decide (ctx.getNumContainedTypes EltTy0 = 3)
  let IsOldStructor := IsStructor && !decide (ctx.getNumContainedTypes EltTy0 = 3)
  let i8 := TypeMapTy.getUniqued ctx
    ⟨TypeID.IntegerTyID, [], 0, false, false, false, false, 0, 8, ""⟩
  let VoidPtr := TypeMapTy.getUniqued i8.2
    ⟨TypeID.PointerTyID, [i8.1], 0, false, false, false, false, 0, 0, ""⟩
  let Elt : Nat × LLVMContext :=
    if IsOldStructor then
      TypeMapTy.getUniqued VoidPtr.2
        ⟨TypeID.StructTyID,
          [VoidPtr.2.getContainedType EltTy0 0, VoidPtr.2.getContainedType EltTy0 1, VoidPtr.1],
          0, false, true, false, false, 0, 0, ""⟩
    else (EltTy0, VoidPtr.2)
  ⟨IsNewStructor, IsOldStructor, VoidPtr.1, Elt.1, Elt.2⟩

/-- The method `IRLinker::linkAppendingVarProto(DstGV, SrcGV)`.  The outer
`none` stands for a run that does not complete (depth bound of `get`, a
missing initializer or element); the inner `none` is the null result of the
error paths. -/
def linkAppendingVarProto (MapValue : IRLinker → Constant → Constant × IRLinker)
    (AddLazyFor : GlobalValue → List Nat) (fuel : Nat) (L : IRLinker)
    (DstGV : Option GlobalValue) (SrcGV : GlobalValue) : Option (Option Constant × IRLinker) :=
  match typeMapGet fuel L SrcGV.valueType with
  | none => none
  | some (T, L0) =>
    let Sh := appendingShape L0.Context T SrcGV.name
    let L1 : IRLinker := { L0 with Context := Sh.Context }
    match DstGV.bind (fun D => appendingConflict L1.Context Sh.EltTy D SrcGV) with
    | some Message => some (none, L1.emitError Message)
    | none =>
      let DstInit : Option (List Constant) :=
        match DstGV with
        | none => some []
        | some D => D.body.bind getArrayElements
      match DstInit, SrcGV.body.bind getArrayElements with
      | some DstElements, some SrcElements0 =>
        match (if Sh.IsNewStructor then removeDeadStructors AddLazyFor SrcElements0 L1
            else some (SrcElements0, L1)) with
        | none => none
        | some (SrcElements, L2) =>
          buildAppendingVar MapValue fuel L2 DstGV SrcGV Sh.IsOldStructor Sh.EltTy Sh.VoidPtrTy
            DstElements SrcElements
      | _, _ => none

/-! ## Prototypes of ordinary globals -/

/-- The method `IRLinker::linkGlobalValueProto(SGV, ForAlias)`.  The outer
`none` stands for a run that does not complete; the inner `none` is the null
result. -/
def linkGlobalValueProto (MapValue : IRLinker → Constant → Constant × IRLinker)
    (AddLazyFor : GlobalValue → List Nat) (fuel : Nat) (L : IRLinker) (SGV : GlobalValue)
    (ForAlias : Bool) : Option (Option Constant × IRLinker) :=
  let DGV0 := L.getLinkedToGlobal SGV
  let SL := shouldLink AddLazyFor L DGV0 SGV
  let ShouldLink := SL.1
  let L1 := SL.2
  -- just missing from map
  match (if ShouldLink then
      (match findValue L1.ValueMap SGV.addr with
        | some C => some C
        | none => findValue L1.AliasValueMap SGV.addr)
      else none) with
  | some C => some (some C, L1)
  | none =>
    let DGV : Option GlobalValue :=
      if ShouldLink || !ForAlias then L1.getLinkedToGlobal SGV else none
    -- Handle the ultra special appending linkage case first.
    if SGV.hasAppendingLinkage then linkAppendingVarProto MapValue AddLazyFor fuel L1 DGV SGV
    else
      let made : Option (Option (Nat × IRLinker)) :=
        match DGV, ShouldLink with
        | some D, false => some (some (D.addr, L1))
        | _, _ =>
          -- If we are done linking global value bodies, don't link in the
          -- global value due to this reference, simply map it to null.
          if L1.DoneLinkingBodies then some none
          else
            match copyGlobalValueProto fuel L1 SGV ShouldLink with
            | none => none
            | some (NewGV, L2) =>
              if ShouldLink || !ForAlias then
                some (some (NewGV, { L2 with DstM := forceRenaming L2.DstM NewGV SGV.name }))
              else some (some (NewGV, L2))
      match made with
      | none => none
      | some none => some (none, L1)
      | some (some (NewGV, L2)) =>
        let L3 : IRLinker :=
          if ShouldLink || ForAlias then
            match SGV.comdat, (L2.DstM.find NewGV).map (fun g => g.kind) with
            | some _, some GlobalKind.GlobalAlias => L2
            | some SC, some _ =>
              -- NewGV is a GlobalObject: a variable or a function.
              { L2 with
                DstM :=
                  (L2.DstM.setComdat SC (L2.SrcM.selectionKind SC)).update NewGV
                    (fun g => { g with comdat := some SC }) }
            | _, _ => L2
          else L2
        let L4 : IRLinker :=
          if !ShouldLink && ForAlias then
            { L3 with
              DstM := L3.DstM.update NewGV
                (fun g => { g with linkage := LinkageTypes.InternalLinkage }) }
          else L3
        match DGV with
        | none => some (some (Constant.GlobalRef NewGV), L4)
        | some D =>
          match typeMapGet fuel L4 SGV.type with
          | none => none
          | some (Ty, L5) =>
            let C := Constant.BitCast (Constant.GlobalRef NewGV) Ty
            if NewGV ≠ D.addr then
              some (some C,
                { L5 with
                  Redirected := L5.Redirected ++
                    [(D.addr, Constant.BitCast (Constant.GlobalRef NewGV) D.type)]
                  DstM := L5.DstM.erase D.addr })
            else some (some C, L5)

end IRLinker

end IRMover

namespace IRMover

/-! ## Example modules -/

/-- A global variable with default attributes. -/
def GlobalValue.variable (addr : Nat) (name : String) (linkage : LinkageTypes)
    (valueType type : Nat) (body : Option Constant) : GlobalValue :=
  { addr := addr, kind := GlobalKind.GlobalVariable, name := name, linkage := linkage,
    visibility := VisibilityTypes.DefaultVisibility, valueType := valueType, type := type,
    isConstant := false, alignment := 0, unnamedAddr := false, sectionName := "",
    threadLocalMode := 0, comdat := none, body := body, personalityFn := none,
    prefixData := none, prologueData := none }

/-- The types `i32` and `i32*`. -/
def exampleIntCtx : LLVMContext :=
  [TypeNode.prim TypeID.IntegerTyID,
   ⟨TypeID.PointerTyID, [0], 0, false, false, false, false, 0, 0, ""⟩]

/-- A linker state in which the destination defines `@g = global i32 1` (at
address 100) and the source defines `@g = global i32 2` (at address 200), both
with external linkage; `i32*` is already mapped to itself.  `requested` is the
set of explicitly requested source globals. -/
def exampleLinker (requested : List Nat) : IRLinker :=
  { Context := exampleIntCtx
    TypeMap := ⟨[(1, some 1), (0, some 0)], [], [], [], [], ⟨[], []⟩⟩
    DstM := ⟨[GlobalValue.variable 100 "g" LinkageTypes.ExternalLinkage 0 1
      (some (Constant.Int 0 1))], []⟩
    SrcM := ⟨[GlobalValue.variable 200 "g" LinkageTypes.ExternalLinkage 0 1
      (some (Constant.Int 0 2))], []⟩
    ValueMap := []
    AliasValueMap := []
    ValuesToLink := requested
    Worklist := requested
    DoneLinkingBodies := false
    HasError := false
    IsMetadataLinkingPostpass := false
    Diagnostics := []
    Redirected := []
    NextAddr := 300 }

/-- The source global `@g` of `exampleLinker`. -/
def exampleSrcG : GlobalValue :=
  GlobalValue.variable 200 "g" LinkageTypes.ExternalLinkage 0 1 (some (Constant.Int 0 2))

/-- The types of a constructor list: `i32`, `void`, `void ()`, `void ()*`,
`i8`, `i8*`, `{ i32, void ()*, i8* }`, `[2 x { i32, void ()*, i8* }]`,
`[3 x { i32, void ()*, i8* }]` and the pointers to the two array types. -/
def exampleCtorsCtx : LLVMContext :=
  [⟨TypeID.IntegerTyID, [], 0, false, false, false, false, 0, 32, ""⟩,
   TypeNode.prim TypeID.VoidTyID,
   ⟨TypeID.FunctionTyID, [1], 0, false, false, false, false, 0, 0, ""⟩,
   ⟨TypeID.PointerTyID, [2], 0, false, false, false, false, 0, 0, ""⟩,
   ⟨TypeID.IntegerTyID, [], 0, false, false, false, false, 0, 8, ""⟩,
   ⟨TypeID.PointerTyID, [4], 0, false, false, false, false, 0, 0, ""⟩,
   ⟨TypeID.StructTyID, [0, 3, 5], 0, false, true, false, false, 0, 0, ""⟩,
   ⟨TypeID.ArrayTyID, [6], 0, false, false, false, false, 2, 0, ""⟩,
   ⟨TypeID.ArrayTyID, [6], 0, false, false, false, false, 3, 0, ""⟩,
   ⟨TypeID.PointerTyID, [7], 0, false, false, false, false, 0, 0, ""⟩,
   ⟨TypeID.PointerTyID, [8], 0, false, false, false, false, 0, 0, ""⟩]

/-- One element `{ i32 priority, void ()* @fn, i8* data }` of a constructor
list. -/
def ctorElement (priority fn : Nat) (data : Constant) : Constant :=
  Constant.Struct 6 [Constant.Int 0 priority, Constant.GlobalRef fn, data]

/-- The destination `@llvm.global_ctors` of `exampleCtorsLinker`: two
elements. -/
def exampleDstCtors : GlobalValue :=
  GlobalValue.variable 100 "llvm.global_ctors" LinkageTypes.AppendingLinkage 7 9
    (some (Constant.Array 7
      [ctorElement 1 101 (Constant.Null 5), ctorElement 2 102 (Constant.Null 5)]))

/-- A value mapper that maps every constant to itself and leaves the linker
alone. -/
def MapValueId (L : IRLinker) (C : Constant) : Constant × IRLinker := (C, L)

/-- A lazy-link policy that adds nothing. -/
def AddLazyForNone (_ : GlobalValue) : List Nat := []

end IRMover

namespace IRMover

namespace IRLinker

/-- The decision of `shouldLink` in the words of its specification: an ordered
cascade of rules `(applies, answer)`, of which the first applicable one
decides; when none applies the lazy-link policy is asked, every symbol it adds
that was not requested before joins the requested set and the worklist, and
the answer is whether the source symbol is requested afterwards. -/
def shouldLinkCascade (AddLazyFor : GlobalValue → List Nat) (L : IRLinker)
    (Dst : Option GlobalValue) (Src : GlobalValue) : Bool × IRLinker :=
  let rules : List (Bool × Bool) :=
    [ -- (1) metadata-only postpass: false
      (L.IsMetadataLinkingPostpass, false),
      -- (2) Src is in the explicitly requested set: true
      (decide (Src.addr ∈ L.ValuesToLink), true),
      -- (3) Src has local linkage: true
      (Src.hasLocalLinkage, true),
      -- (4) Dst exists and is not a declaration for the linker: false
      (Dst.any (fun D => !D.isDeclarationForLinker), false),
      -- (5) Src has available-externally linkage: true
      (Src.hasAvailableExternallyLinkage, true),
      -- (6) body linking is already finished: false
      (L.DoneLinkingBodies, false) ]
  match rules.find? (fun r => r.1) with
  | some r => (r.2, L)
  | none =>
    -- (7) ask the lazy-link policy
    let requested := (AddLazyFor Src).foldl
      (fun (acc : List Nat × List Nat) x =>
        if x ∈ acc.1 then acc else (acc.1 ++ [x], acc.2 ++ [x]))
      (L.ValuesToLink, L.Worklist)
    (decide (Src.addr ∈ requested.1),
      { L with ValuesToLink := requested.1, Worklist := requested.2 })

end IRLinker

end IRMover

namespace IRMover

namespace IRLinker

/-- The element `W` is what the mapping loop of `linkAppendingVarProto` makes
of the source element `V`: the image of `V` under `MapValue` (in some linker
state), or, for a legacy 2-field element, the 3-field struct of the images of
its two fields and a null third field. -/
def IsMappedElement (MapValue : IRLinker → Constant → Constant × IRLinker)
    (IsOldStructor : Bool) (EltTy VoidPtrTy : Nat) (V W : Constant) : Prop :=
  if IsOldStructor = true then
    ∃ (La Lb : IRLinker) (O0 O1 : Constant),
      V.getOperand 0 = some O0 ∧ V.getOperand 1 = some O1 ∧
      W = Constant.Struct EltTy [(MapValue La O0).1, (MapValue Lb O1).1, Constant.Null VoidPtrTy]
  else ∃ La : IRLinker, W = (MapValue La V).1

end IRLinker

end IRMover

namespace IRMover

/-! ## A legacy constructor list -/

/-- The types of `exampleCtorsCtx` followed by the legacy element type
`{ i32, void ()* }` (11), `[2 x { i32, void ()* }]` (12) and the pointer to
that array type (13). -/
def exampleLegacyCtx : LLVMContext :=
  exampleCtorsCtx ++
  [⟨TypeID.StructTyID, [0, 3], 0, false, true, false, false, 0, 0, ""⟩,
   ⟨TypeID.ArrayTyID, [11], 0, false, false, false, false, 2, 0, ""⟩,
   ⟨TypeID.PointerTyID, [12], 0, false, false, false, false, 0, 0, ""⟩]

/-- One element `{ i32 priority, void ()* @fn }` of a legacy constructor
list. -/
def legacyCtorElement (priority fn : Nat) : Constant :=
  Constant.Struct 11 [Constant.Int 0 priority, Constant.GlobalRef fn]

/-- A source `@llvm.global_ctors` in the legacy 2-field form: two elements. -/
def exampleSrcLegacyCtors : GlobalValue :=
  GlobalValue.variable 200 "llvm.global_ctors" LinkageTypes.AppendingLinkage 12 13
    (some (Constant.Array 12 [legacyCtorElement 3 201, legacyCtorElement 4 202]))

/-- A destination `@llvm.global_ctors` in the legacy 2-field form: two
elements. -/
def exampleDstLegacyCtors : GlobalValue :=
  GlobalValue.variable 100 "llvm.global_ctors" LinkageTypes.AppendingLinkage 12 13
    (some (Constant.Array 12 [legacyCtorElement 1 101, legacyCtorElement 2 102]))

/-- A linker state for merging the legacy source list into the destination
list `Dst`; every type is mapped to itself. -/
def exampleLegacyLinker (Dst : GlobalValue) : IRLinker :=
  { Context := exampleLegacyCtx
    TypeMap := ⟨(List.range 14).map (fun i => (i, some i)), [], [], [], [], ⟨[], []⟩⟩
    DstM := ⟨[Dst], []⟩
    SrcM := ⟨[exampleSrcLegacyCtors], []⟩
    ValueMap := []
    AliasValueMap := []
    ValuesToLink := []
    Worklist := []
    DoneLinkingBodies := false
    HasError := false
    IsMetadataLinkingPostpass := false
    Diagnostics := []
    Redirected := []
    NextAddr := 300 }

namespace IRLinker

/-- The linker state `L2` has the diagnostics and the failure flag of `L1`:
nothing was emitted in between. -/
def SameDiagnostics (L1 L2 : IRLinker) : Prop :=
  L2.Diagnostics = L1.Diagnostics ∧ L2.HasError = L1.HasError

/-- The seven conditions under which `linkAppendingVarProto` accepts the
destination global `DstGV` for the source global `SrcGV`, in the order of the
checks; `EltTy` is the element type the method compares. -/
def appendingAgree (ctx : LLVMContext) (EltTy : Nat) (DstGV SrcGV : GlobalValue) : Prop :=
  (SrcGV.hasAppendingLinkage = true ∧ DstGV.hasAppendingLinkage = true) ∧
  EltTy = ctx.getContainedType DstGV.valueType 0 ∧
  DstGV.isConstant = SrcGV.isConstant ∧
  DstGV.alignment = SrcGV.alignment ∧
  DstGV.visibility = SrcGV.visibility ∧
  DstGV.unnamedAddr = SrcGV.unnamedAddr ∧
  DstGV.sectionName = SrcGV.sectionName

/-- What `linkAppendingVarProto` needs to run to its end, once the value type
of the source array is mapped to `T` in the linker state `L0` and the source
initializer has the elements `Src`: the pointer type of the source global is
mapped already, the destination global (if any) passes the seven checks and
has an array initializer, every element of a 3-field structor list has a third
field which, when it is a global, is a global of the source module, and every
element of a legacy structor list has its two fields. -/
def AppendingReadable (L0 : IRLinker) (T : Nat) (DstGV : Option GlobalValue)
    (SrcGV : GlobalValue) (Src : List Constant) : Prop :=
  (∃ RetTy, L0.TypeMap.MappedTypes.lookup SrcGV.type = some RetTy) ∧
  (∀ D, DstGV = some D →
    appendingConflict (appendingShape L0.Context T SrcGV.name).Context
      (appendingShape L0.Context T SrcGV.name).EltTy D SrcGV = none ∧
    ∃ (tyD : Nat) (Dst : List Constant), D.body = some (Constant.Array tyD Dst)) ∧
  ((appendingShape L0.Context T SrcGV.name).IsNewStructor = true → ∀ E ∈ Src,
    ∃ op, E.getAggregateElement 2 = some op ∧
      ∀ a, op.stripPointerCasts.asGlobalValue = some a → ∃ K, L0.SrcM.find a = some K) ∧
  ((appendingShape L0.Context T SrcGV.name).IsOldStructor = true → ∀ V ∈ Src,
    ∃ p f, V.getOperand 0 = some p ∧ V.getOperand 1 = some f)

instance (ctx : LLVMContext) (EltTy : Nat) (DstGV SrcGV : GlobalValue) :
    Decidable (appendingAgree ctx EltTy DstGV SrcGV) := by
  unfold appendingAgree
  exact inferInstance

end IRLinker

end IRMover

namespace IRMover

/-! ## Metadata and module flags -/

/-- A piece of metadata, as far as the module flags need it: a string, an
integer constant, or a tuple whose operands are pointers to metadata. -/
inductive Metadata
  | MDString (s : String)
  | ConstantInt (v : Nat)
  | MDNode (ops : List Nat)
  deriving DecidableEq, Repr

/-- The metadata owned by the `LLVMContext`; a `Metadata *` is an index into
it, so that pointer equality is equality of indices. -/
abbrev MDContext := List Metadata

namespace MDContext

/-- The call `cast<MDNode>(N)->getOperand(I)`; `none` stands for a failed cast
or an operand that does not exist. -/
def getOperand (md : MDContext) (N I : Nat) : Option Nat :=
  match md.get? N with
  | some (Metadata.MDNode ops) => ops.get? I
  | _ => none

/-- The operands `op_begin() .. op_end()` of `cast<MDNode>(N)`. -/
def operands (md : MDContext) (N : Nat) : Option (List Nat) :=
  match md.get? N with
  | some (Metadata.MDNode ops) => some ops
  | _ => none

/-- The cast `cast<MDNode>(N)`. -/
def castMDNode (md : MDContext) (N : Nat) : Option Nat :=
  match md.get? N with
  | some (Metadata.MDNode _) => some N
  | _ => none

/-- The cast `cast<MDString>(S)`. -/
def castMDString (md : MDContext) (S : Nat) : Option Nat :=
  match md.get? S with
  | some (Metadata.MDString _) => some S
  | _ => none

/-- The call `S->getString()` on an `MDString`. -/
def getString (md : MDContext) (S : Nat) : String :=
  match md.get? S with
  | some (Metadata.MDString s) => s
  | _ => ""

/-- The call `mdconst::extract<ConstantInt>(C)->getZExtValue()`. -/
def getZExtValue (md : MDContext) (C : Nat) : Option Nat :=
  match md.get? C with
  | some (Metadata.ConstantInt v) => some v
  | _ => none

/-- Modelled from the spec: `MDNode::get(Context, Ops)` gives the uniqued tuple
of these operands, the one the context already holds or a new one. -/
def get (md : MDContext) (Ops : List Nat) : Nat × MDContext :=
  if md.indexOf (Metadata.MDNode Ops) < md.length then (md.indexOf (Metadata.MDNode Ops), md)
  else (md.length, md ++ [Metadata.MDNode Ops])

end MDContext

namespace Module

/-- Modelled from the spec: the behaviour `Module::Error` of a module flag. -/
def Error : Nat := 1

/-- Modelled from the spec: the behaviour `Module::Warning` of a module flag. -/
def Warning : Nat := 2

/-- Modelled from the spec: the behaviour `Module::Require` of a module flag. -/
def Require : Nat := 3

/-- Modelled from the spec: the behaviour `Module::Override` of a module
flag. -/
def Override : Nat := 4

/-- Modelled from the spec: the behaviour `Module::Append` of a module flag. -/
def Append : Nat := 5

/-- Modelled from the spec: the behaviour `Module::AppendUnique` of a module
flag. -/
def AppendUnique : Nat := 6

end Module

/-- A `SmallSetVector` of pointers: the elements in the order of their first
insertion. -/
abbrev SmallSetVector := List Nat

namespace SmallSetVector

/-- The call `S.insert(X)`: true when `X` was not yet an element. -/
def insert (S : SmallSetVector) (X : Nat) : SmallSetVector × Bool :=
  if X ∈ S then (S, false) else (S ++ [X], true)

/-- The call `S.insert(Start, End)` on a range of elements. -/
def insertRange (S : SmallSetVector) (Xs : List Nat) : SmallSetVector :=
  Xs.foldl (fun s x => (insert s x).1) S

end SmallSetVector

/-- The local map `Flags` of `linkModuleFlagsMetadata`: from the identifier of
a flag (an `MDString *`) to the flag and its index in the destination list.
The entry found first is the current one. -/
abbrev FlagMap := List (Nat × (Option Nat × Nat))

namespace FlagMap

/-- The call `Flags.lookup(ID)`: the null flag and index 0 when there is no
entry. -/
def lookup (m : FlagMap) (ID : Nat) : Option Nat × Nat :=
  match m.find? (fun e => decide (e.1 = ID)) with
  | some e => e.2
  | none => (none, 0)

/-- The store `Flags[ID] = std::make_pair(Op, I)`. -/
def assign (m : FlagMap) (ID Op I : Nat) : FlagMap := (ID, (some Op, I)) :: m

/-- The store `Flags[ID].first = Op`. -/
def setFirst (m : FlagMap) (ID Op : Nat) : FlagMap := (ID, (some Op, (m.lookup ID).2)) :: m

end FlagMap

/-- The module flags of the two modules, `llvm.module.flags` of `DstM` and of
`SrcM` as lists of operands (`none` when the module has no such named node),
with the metadata of their context. -/
structure ModuleFlags where
  MD : MDContext
  DstModFlags : Option (List Nat)
  SrcModFlags : Option (List Nat)
  deriving DecidableEq, Repr

/-- The state of the loops of `linkModuleFlagsMetadata`: the linker (for the
diagnostics and the failure flag), the metadata of the context, the operands
of the destination `llvm.module.flags`, and the locals `Flags` and
`Requirements`. -/
structure FlagsMerge where
  L : IRLinker
  MD : MDContext
  DstModFlags : List Nat
  Flags : FlagMap
  Requirements : SmallSetVector
  deriving Repr

end IRMover

namespace IRMover

namespace IRLinker

/-! ## Module flags -/

/-- The behaviour of the flag `Op`:
`mdconst::extract<ConstantInt>(Op->getOperand(0))->getZExtValue()`. -/
def flagBehavior (md : MDContext) (Op : Nat) : Option Nat :=
  (md.getOperand Op 0).bind md.getZExtValue

/-- The identifier of the flag `Op`: `cast<MDString>(Op->getOperand(1))`. -/
def flagID (md : MDContext) (Op : Nat) : Option Nat :=
  (md.getOperand Op 1).bind md.castMDString

/-- The test `SrcOp->getOperand(2) != DstOp->getOperand(2)`. -/
def valuesDiffer (md : MDContext) (SrcOp DstOp : Nat) : Option Bool :=
  match md.getOperand SrcOp 2, md.getOperand DstOp 2 with
  | some a, some b => some (decide (a ≠ b))
  | _, _ => none

/-- The first loop of `linkModuleFlagsMetadata`: the map of the existing module
flags and the set of the existing requirements; `I` is the index of the first
operand of the list. -/
def collectDstFlags (md : MDContext) :
    List Nat → Nat → FlagMap → SmallSetVector → Option (FlagMap × SmallSetVector)
  | [], _, Flags, Requirements => some (Flags, Requirements)
  | Op :: rest, I, Flags, Requirements =>
    match flagBehavior md Op, flagID md Op with
    | some Behavior, some ID =>
      if Behavior = Module.Require then
        match (md.getOperand Op 2).bind md.castMDNode with
        | none => none
        | some Req => collectDstFlags md rest (I + 1) Flags (Requirements.insert Req).1
      else collectDstFlags md rest (I + 1) (Flags.assign ID Op I) Requirements
    | _, _ => none

/-- The lambda `replaceDstValue(New)` of the second loop. -/
def replaceDstValue (S : FlagsMerge) (DstOp DstIndex ID New : Nat) : Option FlagsMerge :=
  match S.MD.getOperand DstOp 0 with
  | none => none
  | some Behavior =>
    let Flag := S.MD.get [Behavior, ID, New]
    some { S with
      MD := Flag.2
      DstModFlags := S.DstModFlags.set DstIndex Flag.1
      Flags := S.Flags.setFirst ID Flag.1 }

/-- The body of the second loop of `linkModuleFlagsMetadata`: merge in the
source flag `SrcOp`. -/
def mergeFlag (S : FlagsMerge) (SrcOp : Nat) : Option FlagsMerge :=
  match flagBehavior S.MD SrcOp, flagID S.MD SrcOp with
  | some SrcBehaviorValue, some ID =>
    let DstIndex := (S.Flags.lookup ID).2
    -- If this is a requirement, add it and continue.
    if SrcBehaviorValue = Module.Require then
      match (S.MD.getOperand SrcOp 2).bind S.MD.castMDNode with
      | none => none
      | some Req =>
        -- If the destination module does not already have this requirement, add it.
        if (S.Requirements.insert Req).2 then
          some { S with
            Requirements := (S.Requirements.insert Req).1
            DstModFlags := S.DstModFlags ++ [SrcOp] }
        else some { S with Requirements := (S.Requirements.insert Req).1 }
    else
      match (S.Flags.lookup ID).1 with
      | none =>
        -- If there is no existing flag with this ID, just add it.
        some { S with
          Flags := S.Flags.assign ID SrcOp S.DstModFlags.length
          DstModFlags := S.DstModFlags ++ [SrcOp] }
      | some DstOp =>
        -- Otherwise, perform a merge.
        match flagBehavior S.MD DstOp with
        | none => none
        | some DstBehaviorValue =>
          -- If either flag has override behavior, handle it first.
          if DstBehaviorValue = Module.Override then
            -- Diagnose inconsistent flags which both have override behavior.
            if SrcBehaviorValue = Module.Override then
              match valuesDiffer S.MD SrcOp DstOp with
              | none => none
              | some true =>
                some { S with
                  L := S.L.emitError ("linking module flags '" ++ S.MD.getString ID ++
                    "': IDs have conflicting override values") }
              | some false => some S
            else some S
          else if SrcBehaviorValue = Module.Override then
            -- Update the destination flag to that of the source.
            some { S with
              DstModFlags := S.DstModFlags.set DstIndex SrcOp
              Flags := S.Flags.setFirst ID SrcOp }
          -- Diagnose inconsistent merge behavior types.
          else if SrcBehaviorValue ≠ DstBehaviorValue then
            some { S with
              L := S.L.emitError ("linking module flags '" ++ S.MD.getString ID ++
                "': IDs have conflicting behaviors") }
          -- Perform the merge for standard behavior types.
          else if SrcBehaviorValue = Module.Error then
            -- Emit an error if the values differ.
            match valuesDiffer S.MD SrcOp DstOp with
            | none => none
            | some true =>
              some { S with
                L := S.L.emitError ("linking module flags '" ++ S.MD.getString ID ++
                  "': IDs have conflicting values") }
            | some false => some S
          else if SrcBehaviorValue = Module.Warning then
            -- Emit a warning if the values differ.
            match valuesDiffer S.MD SrcOp DstOp with
            | none => none
            | some true =>
              some { S with
                L := S.L.emitWarning ("linking module flags '" ++ S.MD.getString ID ++
                  "': IDs have conflicting values") }
            | some false => some S
          else if SrcBehaviorValue = Module.Append then
            match (S.MD.getOperand DstOp 2).bind S.MD.operands,
              (S.MD.getOperand SrcOp 2).bind S.MD.operands with
            | some DstValue, some SrcValue =>
              let MDs := DstValue ++ SrcValue
              let New := S.MD.get MDs
              replaceDstValue { S with MD := New.2 } DstOp DstIndex ID New.1
            | _, _ => none
          else if SrcBehaviorValue = Module.AppendUnique then
            match (S.MD.getOperand DstOp 2).bind S.MD.operands,
              (S.MD.getOperand SrcOp 2).bind S.MD.operands with
            | some DstValue, some SrcValue =>
              let Elts := (SmallSetVector.insertRange [] DstValue).insertRange SrcValue
              let New := S.MD.get Elts
              replaceDstValue { S with MD := New.2 } DstOp DstIndex ID New.1
            | _, _ => none
          else some S
  | _, _ => none

/-- The second loop of `linkModuleFlagsMetadata`, over the source flags. -/
def mergeSrcFlags : List Nat → FlagsMerge → Option FlagsMerge
  | [], S => some S
  | SrcOp :: rest, S =>
    match mergeFlag S SrcOp with
    | none => none
    | some S1 => mergeSrcFlags rest S1

/-- The body of the last loop of `linkModuleFlagsMetadata` for one requirement:
the message of the error it emits, if any; the outer `none` stands for a
failed cast or a missing operand.  The entry that `Flags[Flag]` makes for a
flag without one is the null flag, as the lookup gives. -/
def checkRequirement (md : MDContext) (Flags : FlagMap) (Requirement : Nat) :
    Option (Option String) :=
  match (md.getOperand Requirement 0).bind md.castMDString, md.getOperand Requirement 1 with
  | some Flag, some ReqValue =>
    match (Flags.lookup Flag).1 with
    | none =>
      some (some ("linking module flags '" ++ md.getString Flag ++
        "': does not have the required value"))
    | some Op =>
      match md.getOperand Op 2 with
      | none => none
      | some Value =>
        if Value ≠ ReqValue then
          some (some ("linking module flags '" ++ md.getString Flag ++
            "': does not have the required value"))
        else some none
  | _, _ => none

/-- The last loop of `linkModuleFlagsMetadata`: check all of the
requirements. -/
def checkRequirements (md : MDContext) (Flags : FlagMap) :
    List Nat → IRLinker → Option IRLinker
  | [], L => some L
  | Requirement :: rest, L =>
    match checkRequirement md Flags Requirement with
    | none => none
    | some none => checkRequirements md Flags rest L
    | some (some Message) => checkRequirements md Flags rest (L.emitError Message)

/-- The method `IRLinker::linkModuleFlagsMetadata()`.  `none` stands for a run
that stops at a failed cast or a missing operand. -/
def linkModuleFlagsMetadata (L : IRLinker) (M : ModuleFlags) :
    Option (Bool × IRLinker × ModuleFlags) :=
  -- If the source module has no module flags, we are done.
  match M.SrcModFlags with
  | none => some (false, L, M)
  | some SrcModFlags =>
    let DstModFlags := M.DstModFlags.getD []
    -- If the destination module doesn't have module flags yet, then just copy
    -- over the source module's flags.
    if DstModFlags.length = 0 then
      some (false, L,
        { M with DstModFlags := some (SrcModFlags.foldl (fun D Op => D ++ [Op]) DstModFlags) })
    else
      -- First build a map of the existing module flags and requirements.
      match collectDstFlags M.MD DstModFlags 0 [] [] with
      | none => none
      | some (Flags, Requirements) =>
        -- Merge in the flags from the source module, and also collect its set
        -- of requirements.
        match mergeSrcFlags SrcModFlags ⟨L, M.MD, DstModFlags, Flags, Requirements⟩ with
        | none => none
        | some S =>
          match checkRequirements S.MD S.Flags S.Requirements S.L with
          | none => none
          | some L1 =>
            some (L1.HasError, L1,
              { MD := S.MD, DstModFlags := some S.DstModFlags, SrcModFlags := M.SrcModFlags })

end IRLinker

/-! ## Example module flags -/

/-- Metadata for the flag `wchar_size`: the behaviour `Error` (0), the
identifier (1), the values 4 (2) and 2 (4), and the flags
`!{i32 1, !"wchar_size", i32 4}` (3) and `!{i32 1, !"wchar_size", i32 2}`
(5). -/
def exampleWcharMD : MDContext :=
  [Metadata.ConstantInt 1, Metadata.MDString "wchar_size", Metadata.ConstantInt 4,
   Metadata.MDNode [0, 1, 2], Metadata.ConstantInt 2, Metadata.MDNode [0, 1, 4]]

/-- Metadata for more flags.  The constants 1 to 6 (0 to 5) are the six
behaviours and also serve as values; the identifiers are `wchar_size` (6) and
`opts` (7); the flags are `Override wchar_size 4` (8), `Error wchar_size 2`
(9), `Warning wchar_size 4` (10), `Warning wchar_size 2` (11),
`Append opts !{!"a", !"b"}` (16), `Append opts !{!"b", !"a", !"b"}` (17),
`AppendUnique opts !{!"a", !"b"}` (18),
`AppendUnique opts !{!"b", !"a", !"b"}` (19),
`Require opts !{!"wchar_size", i32 2}` (21) and `Override wchar_size 2`
(22). -/
def exampleFlagsMD : MDContext :=
  [Metadata.ConstantInt 1, Metadata.ConstantInt 2, Metadata.ConstantInt 3,
   Metadata.ConstantInt 4, Metadata.ConstantInt 5, Metadata.ConstantInt 6,
   Metadata.MDString "wchar_size", Metadata.MDString "opts",
   Metadata.MDNode [3, 6, 3], Metadata.MDNode [0, 6, 1], Metadata.MDNode [1, 6, 3],
   Metadata.MDNode [1, 6, 1], Metadata.MDString "a", Metadata.MDString "b",
   Metadata.MDNode [12, 13], Metadata.MDNode [13, 12, 13], Metadata.MDNode [4, 7, 14],
   Metadata.MDNode [4, 7, 15], Metadata.MDNode [5, 7, 14], Metadata.MDNode [5, 7, 15],
   Metadata.MDNode [6, 1], Metadata.MDNode [2, 7, 20], Metadata.MDNode [3, 6, 1]]

end IRMover

namespace IRMover

/-- The metadata `md2` holds every node of `md1` at its index: nothing was
changed, nodes were only added. -/
def MDExtends (md1 md2 : MDContext) : Prop :=
  ∀ (N : Nat) (x : Metadata), md1.get? N = some x → md2.get? N = some x

namespace IRLinker

/-- The linker state `L2` has the diagnostics of `L1` followed by `Extra`, and
its failure flag is set when that of `L1` is or when `Extra` holds an error. -/
def DiagnosticsExtend (L1 L2 : IRLinker) (Extra : List (DiagnosticSeverity × String)) : Prop :=
  L2.Diagnostics = L1.Diagnostics ++ Extra ∧
  L2.HasError = (L1.HasError || Extra.any (fun d => decide (d.1 = DiagnosticSeverity.DS_Error)))

/-- What the loops of `linkModuleFlagsMetadata` keep true of their state: an
entry of `Flags` for the identifier `ID` is a flag of the destination list at
the recorded index, it has the identifier `ID` and a behaviour other than
`Require`; and every flag of the destination list can be read, and has an
entry in `Flags` for its identifier unless its behaviour is `Require`. -/
def FlagsInv (S : FlagsMerge) : Prop :=
  (∀ (ID Op I : Nat), S.Flags.lookup ID = (some Op, I) →
    S.DstModFlags.get? I = some Op ∧ flagID S.MD Op = some ID ∧
    ∃ B, flagBehavior S.MD Op = some B ∧ B ≠ Module.Require) ∧
  (∀ Op ∈ S.DstModFlags, ∃ (B ID : Nat),
    flagBehavior S.MD Op = some B ∧ flagID S.MD Op = some ID ∧
    (B ≠ Module.Require → (S.Flags.lookup ID).1 ≠ none))

/-- The run of `linkModuleFlagsMetadata` on the linker `L` and the module
flags `M` reaches the source flag `SrcOp`, between the source flags `pre` and
`post`, in the state `St` of its second loop: the destination list `D` is not
empty, the first loop has built the map and the requirements from it, and the
second loop has merged in the flags `pre`. -/
def ReachesFlag (L : IRLinker) (M : ModuleFlags) (pre : List Nat) (SrcOp : Nat)
    (post : List Nat) (St : FlagsMerge) : Prop :=
  M.SrcModFlags = some (pre ++ SrcOp :: post) ∧
  ∃ (D : List Nat) (Flags : FlagMap) (Requirements : SmallSetVector),
    M.DstModFlags = some D ∧ D ≠ [] ∧
    collectDstFlags M.MD D 0 [] [] = some (Flags, Requirements) ∧
    mergeSrcFlags pre ⟨L, M.MD, D, Flags, Requirements⟩ = some St

end IRLinker

end IRMover

namespace IRMover

namespace IRLinker

/-- The node `Req` can be read as a requirement: a tuple whose first operand
is a string and which has a second operand. -/
def WellFormedRequirement (md : MDContext) (Req : Nat) : Prop :=
  ∃ (F Val : Nat), md.getOperand Req 0 = some F ∧ md.castMDString F = some F ∧
    md.getOperand Req 1 = some Val

/-- The node `Op` can be read as a module flag: a tuple of an integer
behaviour, a string identifier and a payload, where the payload of an `Append`
or `AppendUnique` flag is a tuple and the payload of a `Require` flag is a
requirement. -/
def WellFormedFlag (md : MDContext) (Op : Nat) : Prop :=
  ∃ (B ID V : Nat), flagBehavior md Op = some B ∧ flagID md Op = some ID ∧
    md.getOperand Op 2 = some V ∧
    ((B = Module.Append ∨ B = Module.AppendUnique) → ∃ ops, md.operands V = some ops) ∧
    (B = Module.Require → WellFormedRequirement md V)

end IRLinker

end IRMover

namespace IRMover

namespace IRLinker

/-- In the flag list `l` every identifier occurs at most once among the flags
whose behaviour is not `Require`. -/
def UniqueFlagIDs (md : MDContext) (l : List Nat) : Prop :=
  ∀ (i j Op1 Op2 B1 B2 ID : Nat), l.get? i = some Op1 → l.get? j = some Op2 →
    flagBehavior md Op1 = some B1 → B1 ≠ Module.Require →
    flagBehavior md Op2 = some B2 → B2 ≠ Module.Require →
    flagID md Op1 = some ID → flagID md Op2 = some ID → i = j

/-- Every flag of the list `l1` keeps its position in the list `l2`: at the
index of a flag of `l1` the list `l2` has a flag of the same identifier, which
is the same node when the flag is a requirement and is no requirement
otherwise. -/
def KeepsPositions (md1 : MDContext) (l1 : List Nat) (md2 : MDContext) (l2 : List Nat) : Prop :=
  ∀ (i Op B ID : Nat), l1.get? i = some Op → flagBehavior md1 Op = some B →
    flagID md1 Op = some ID →
    ∃ (Op' B' : Nat), l2.get? i = some Op' ∧ flagBehavior md2 Op' = some B' ∧
      flagID md2 Op' = some ID ∧ (B = Module.Require → Op' = Op ∧ B' = Module.Require) ∧
      (B ≠ Module.Require → B' ≠ Module.Require)

/-- The map `Flags` records every flag of the destination list that is no
requirement, under its identifier and with its index. -/
def FlagsRecorded (S : FlagsMerge) : Prop :=
  ∀ (i Op B ID : Nat), S.DstModFlags.get? i = some Op → flagBehavior S.MD Op = some B →
    B ≠ Module.Require → flagID S.MD Op = some ID → S.Flags.lookup ID = (some Op, i)

end IRLinker

end IRMover

namespace IRMover

/-! ## The modules beside their globals: header, named metadata, debug info -/

/-- Modelled from the spec: a parsed target triple.  `Data` is the string it
was parsed from (the result of `str()`), the next six fields are the parsed
components, and `OSVersion` is the major, minor and micro number given by
`getOSVersion`. -/
structure Triple where
  Data : String
  Arch : Nat
  SubArch : Nat
  Vendor : Nat
  OS : Nat
  Environment : Nat
  ObjectFormat : Nat
  OSVersion : Nat × Nat × Nat
  deriving DecidableEq, Repr

namespace Triple

/-- Modelled from the spec: the vendor `Triple::Apple`. -/
def Apple : Nat := 1

/-- Modelled from the spec: the comparison `T0 == T1` of two triples, which
looks at the parsed components and not at the version. -/
def eq (T0 T1 : Triple) : Bool :=
  decide (T0.Arch = T1.Arch ∧ T0.SubArch = T1.SubArch ∧ T0.Vendor = T1.Vendor ∧
    T0.OS = T1.OS ∧ T0.Environment = T1.Environment ∧ T0.ObjectFormat = T1.ObjectFormat)

/-- Modelled from the spec: the test `T.isOSVersionLT(Other)`, whether the OS
version of `T` is strictly lower than the one of `Other`, major number first,
then minor, then micro. -/
def isOSVersionLT (T Other : Triple) : Bool :=
  decide (T.OSVersion.1 < Other.OSVersion.1 ∨
    (T.OSVersion.1 = Other.OSVersion.1 ∧
      (T.OSVersion.2.1 < Other.OSVersion.2.1 ∨
        (T.OSVersion.2.1 = Other.OSVersion.2.1 ∧ T.OSVersion.2.2 < Other.OSVersion.2.2))))

end Triple

/-- Modelled from the spec: a data layout, the string it was made from and its
parsed content. -/
structure DataLayout where
  StringRepresentation : String
  Parsed : List Nat
  deriving DecidableEq, Repr

namespace DataLayout

/-- Modelled from the spec: the test `isDefault()`. -/
def isDefault (D : DataLayout) : Bool := decide (D.StringRepresentation = "")

/-- Modelled from the spec: the comparison `D0 == D1`, on the parsed content. -/
def eq (D0 D1 : DataLayout) : Bool := decide (D0.Parsed = D1.Parsed)

end DataLayout

/-- The scalar properties of a module that `run` merges. -/
structure ModuleHeader where
  ModuleIdentifier : String
  DataLayout : DataLayout
  TargetTriple : String
  ModuleInlineAsm : String
  deriving DecidableEq, Repr

/-- Modelled from the spec: a compile unit, with the array of its subprograms
(an entry may be null) and the array of its imported entities. -/
structure DICompileUnit where
  Subprograms : List (Option Nat)
  ImportedEntities : List Nat
  deriving DecidableEq, Repr

/-- Modelled from the spec: an imported entity, with its scope and its entity,
neither of which is null. -/
structure DIImportedEntity where
  Scope : Nat
  Entity : Nat
  deriving DecidableEq, Repr

/-- Modelled from the spec: the debug info nodes the linker looks into.  A
node is a pointer into the metadata of the context; the tables say which
nodes are compile units, imported entities and subprograms, and `LocalScopes`
gives for every local scope the subprogram it lies in. -/
structure DebugInfo where
  CompileUnits : List (Nat × DICompileUnit)
  ImportedEntities : List (Nat × DIImportedEntity)
  Subprograms : List Nat
  LocalScopes : List (Nat × Nat)
  deriving DecidableEq, Repr

namespace DebugInfo

/-- The cast `cast<DICompileUnit>(N)`; `none` if `N` is no compile unit. -/
def castCompileUnit (DI : DebugInfo) (N : Nat) : Option DICompileUnit :=
  (DI.CompileUnits.find? (fun e => decide (e.1 = N))).map Prod.snd

/-- The imported entity at `N`; `none` if there is none. -/
def castImportedEntity (DI : DebugInfo) (N : Nat) : Option DIImportedEntity :=
  (DI.ImportedEntities.find? (fun e => decide (e.1 = N))).map Prod.snd

/-- The cast `dyn_cast<DISubprogram>(N)`. -/
def dynCastSubprogram (DI : DebugInfo) (N : Nat) : Option Nat :=
  if N ∈ DI.Subprograms then some N else none

/-- Modelled from the spec: the function `getDISubprogram(Node)`, the
subprogram of a local scope (a subprogram is its own) and null otherwise. -/
def getDISubprogram (DI : DebugInfo) (Node : Nat) : Option Nat :=
  if Node ∈ DI.Subprograms then some Node
  else (DI.LocalScopes.find? (fun e => decide (e.1 = Node))).map Prod.snd

/-- The call `CU->replaceSubprograms(SPs)` on the compile unit `N`. -/
def replaceSubprograms (DI : DebugInfo) (N : Nat) (SPs : List (Option Nat)) : DebugInfo :=
  { DI with
    CompileUnits :=
      DI.CompileUnits.map (fun e => if e.1 = N then (e.1, { e.2 with Subprograms := SPs }) else e) }

end DebugInfo

/-- The named metadata lists of a module, in order, each with its name and its
operands; a null operand is `none`. -/
abbrev NamedMDList := List (String × List (Option Nat))

namespace NamedMDList

/-- The call `M.getNamedMetadata(Name)`: the operands of the list. -/
def getNamedMetadata (N : NamedMDList) (Name : String) : Option (List (Option Nat)) :=
  (N.find? (fun e => decide (e.1 = Name))).map Prod.snd

/-- The call `M.getOrInsertNamedMetadata(Name)`: a missing list is made, empty
and last. -/
def getOrInsertNamedMetadata (N : NamedMDList) (Name : String) : NamedMDList :=
  if N.any (fun e => decide (e.1 = Name)) then N else N ++ [(Name, [])]

/-- The call `addOperand(Op)` on the list called `Name`. -/
def addOperand (N : NamedMDList) (Name : String) (Op : Option Nat) : NamedMDList :=
  N.map (fun e => if e.1 = Name then (e.1, e.2 ++ [Op]) else e)

/-- Replace the operands of the list called `Name`. -/
def setOperands (N : NamedMDList) (Name : String) (Ops : List (Option Nat)) : NamedMDList :=
  N.map (fun e => if e.1 = Name then (e.1, Ops) else e)

end NamedMDList

/-- The operands of a list if none of them is null. -/
def nonNullOperands : List (Option Nat) → Option (List Nat)
  | [] => some []
  | none :: _ => none
  | some x :: rest =>
    match nonNullOperands rest with
    | none => none
    | some xs => some (x :: xs)

/-- The metadata side `ValueMap.MD()` of the value map: a map from metadata
pointers to tracking references, a null reference being `none`. -/
abbrev MDMapTy := List (Option Nat × Option Nat)

namespace MDMapTy

/-- The value read by `ValueMap.MD()[Op]`: null also for a missing key. -/
def lookup (m : MDMapTy) (Op : Option Nat) : Option Nat :=
  match m.find? (fun e => decide (e.1 = Op)) with
  | some e => e.2
  | none => none

/-- The effect of `operator[]` on the map: a missing key gets a null entry. -/
def subscript (m : MDMapTy) (Op : Option Nat) : MDMapTy :=
  if m.any (fun e => decide (e.1 = Op)) then m else m ++ [(Op, none)]

end MDMapTy

/-- Everything `run` works on: the linker, the headers of the two modules,
the metadata of the context, the named metadata lists of the two modules, the
metadata side of the value map, the set of unneeded subprograms, the debug
info, the identified struct types of the source module as found by
`getIdentifiedStructTypes`, and the two tables of the metadata postpass. -/
structure RunState where
  L : IRLinker
  DstH : ModuleHeader
  SrcH : ModuleHeader
  MD : MDContext
  DstNamedMD : NamedMDList
  SrcNamedMD : NamedMDList
  MDMap : MDMapTy
  UnneededSubprograms : List (Option Nat)
  DI : DebugInfo
  SrcStructTypes : List Nat
  MetadataToIDs : List (Nat × Nat)
  ValIDToTempMDMap : Option (List (Nat × Nat))
  deriving Repr

/-- The code outside the linker that `run` calls: the parser of triples, the
value mapper (`MapValue` on a global of the worklist, `MapMetadata` on a
metadata pointer, with the pointer it returns), and the materializer of the
source module.  Each may call back into the linker, so each works on the whole
state. -/
structure Externals where
  parseTriple : String → Triple
  MapValue : RunState → Nat → RunState
  MapMetadata : RunState → Option Nat → Option Nat × RunState
  materializeMetadata : RunState → Bool × RunState
  saveMetadataList : RunState → RunState

end IRMover

namespace IRMover

/-! ## The scalar properties: data layout, target triple, inline assembly -/

/-- The function `triplesMatch(T0, T1)`. -/
def triplesMatch (T0 T1 : Triple) : Bool :=
  -- If vendor is apple, ignore the version number.
  if T0.Vendor = Triple.Apple then
    decide (T0.Arch = T1.Arch) && decide (T0.SubArch = T1.SubArch) &&
      decide (T0.Vendor = T1.Vendor) && decide (T0.OS = T1.OS)
  else T0.eq T1

/-- The function `mergeTriples(SrcTriple, DstTriple)`. -/
def mergeTriples (SrcTriple DstTriple : Triple) : String :=
  -- If vendor is apple, pick the triple with the larger version number.
  if SrcTriple.Vendor = Triple.Apple then
    if DstTriple.isOSVersionLT SrcTriple then SrcTriple.Data
    else DstTriple.Data
  else DstTriple.Data

namespace IRLinker

/-- The check `shouldLinkMetadata()`; `ValIDToTempMDMap` is the pointer the
linker was made with. -/
def shouldLinkMetadata (L : IRLinker) (ValIDToTempMDMap : Option (List (Nat × Nat))) : Bool :=
  ValIDToTempMDMap.isNone || L.IsMetadataLinkingPostpass

/-- The constructor of `IRLinker`: every requested global goes through
`maybeAdd`.  `Diagnostics` is what the context has been told so far and
`NextAddr` the next free address. -/
def create (Context : LLVMContext) (DstM : Module) (Set : IdentifiedStructTypeSet)
    (SrcM : Module) (ValuesToLink : List Nat) (IsMetadataLinkingPostpass : Bool)
    (Diagnostics : List (DiagnosticSeverity × String)) (NextAddr : Nat) : IRLinker :=
  ValuesToLink.foldl maybeAdd
    { Context := Context
      TypeMap := TypeMapTy.init Set
      DstM := DstM
      SrcM := SrcM
      ValueMap := []
      AliasValueMap := []
      ValuesToLink := []
      Worklist := []
      DoneLinkingBodies := false
      HasError := false
      IsMetadataLinkingPostpass := IsMetadataLinkingPostpass
      Diagnostics := Diagnostics
      Redirected := []
      NextAddr := NextAddr }

end IRLinker

namespace RunState

/-- The first step of `run`: the destination takes the data layout of the
source if its own is the default one, and a difference is a warning. -/
def linkDataLayout (R : RunState) : RunState :=
  let R1 : RunState :=
    if R.DstH.DataLayout.isDefault then { R with DstH := { R.DstH with DataLayout := R.SrcH.DataLayout } }
    else R
  if !(R1.SrcH.DataLayout.eq R1.DstH.DataLayout) then
    { R1 with
      L := R1.L.emitWarning
        ("Linking two modules of different data layouts: '" ++ R1.SrcH.ModuleIdentifier ++
          "' is '" ++ R1.SrcH.DataLayout.StringRepresentation ++ "' whereas '" ++
          R1.DstH.ModuleIdentifier ++ "' is '" ++ R1.DstH.DataLayout.StringRepresentation ++
          "'\n") }
  else R1

/-- The triple `Triple(Str)`: the parsed components of `Str`, and `Str` itself
as its string. -/
def makeTriple (E : Externals) (Str : String) : Triple :=
  { E.parseTriple Str with Data := Str }

/-- The second step of `run`: the target triple. -/
def linkTargetTriple (E : Externals) (R : RunState) : RunState :=
  -- Copy the target triple from the source to dest if the dest's is empty.
  let R1 : RunState :=
    if R.DstH.TargetTriple = "" ∧ R.SrcH.TargetTriple ≠ "" then
      { R with DstH := { R.DstH with TargetTriple := R.SrcH.TargetTriple } }
    else R
  let SrcTriple := makeTriple E R1.SrcH.TargetTriple
  let DstTriple := makeTriple E R1.DstH.TargetTriple
  let R2 : RunState :=
    if R1.SrcH.TargetTriple ≠ "" ∧ triplesMatch SrcTriple DstTriple = false then
      { R1 with
        L := R1.L.emitWarning
          ("Linking two modules of different target triples: " ++ R1.SrcH.ModuleIdentifier ++
            "' is '" ++ R1.SrcH.TargetTriple ++ "' whereas '" ++ R1.DstH.ModuleIdentifier ++
            "' is '" ++ R1.DstH.TargetTriple ++ "'\n") }
    else R1
  { R2 with DstH := { R2.DstH with TargetTriple := mergeTriples SrcTriple DstTriple } }

/-- The third step of `run`: append the module inline asm string. -/
def linkInlineAsm (R : RunState) : RunState :=
  if R.SrcH.ModuleInlineAsm ≠ "" then
    if R.DstH.ModuleInlineAsm = "" then
      { R with DstH := { R.DstH with ModuleInlineAsm := R.SrcH.ModuleInlineAsm } }
    else
      { R with
        DstH := { R.DstH with
          ModuleInlineAsm := R.DstH.ModuleInlineAsm ++ "\n" ++ R.SrcH.ModuleInlineAsm } }
  else R

end RunState

end IRMover

namespace IRMover

/-! ## `computeTypeMapping` -/

namespace LLVMContext

/-- The call `DstM.getTypeByName(Name)`: the named struct type of the context
with that name, if there is one. -/
def getTypeByName (ctx : LLVMContext) (Name : String) : Option Nat :=
  let I := ctx.findIdx (fun T => decide (T.id = TypeID.StructTyID ∧ T.name = Name))
  if I < ctx.length then some I else none

end LLVMContext

/-- The position `Name.rfind('.')` of the last dot of a name; `none` is
`StringRef::npos`. -/
def rfindDot (Name : String) : Option Nat :=
  let R := Name.toList.reverse.indexOf '.'
  if R < Name.toList.length then some (Name.toList.length - 1 - R) else none

/-- The test on the name of a source struct in `computeTypeMapping`: a dot that
is not the first character, is not the last one and is followed by a digit.
The result is the name up to the last dot, `substr(0, DotPos)`. -/
def dottedPrefix (Name : String) : Option String :=
  match rfindDot Name with
  | none => none
  | some DotPos =>
    if DotPos == 0 || Name.toList.getLast? == some '.' ||
        !((Name.toList.getD (DotPos + 1) ' ').isDigit) then none
    else some (String.mk (Name.toList.take DotPos))

namespace IRLinker

/-- One of the first three loops of `computeTypeMapping`, over the source
globals `SGVs` of one kind.  For the variables (`unifyElements`), two
appending arrays have their element types unified instead of their types. -/
def mapGlobalTypes (fuel : Nat) (L : IRLinker) (unifyElements : Bool) :
    List GlobalValue → LLVMContext → TypeMapTy → Option (LLVMContext × TypeMapTy)
  | [], ctx, tm => some (ctx, tm)
  | SGV :: rest, ctx, tm =>
    match L.getLinkedToGlobal SGV with
    | none => mapGlobalTypes fuel L unifyElements rest ctx tm
    | some DGV =>
      let P : Nat × Nat :=
        if unifyElements && DGV.hasAppendingLinkage && SGV.hasAppendingLinkage then
          -- Unify the element type of appending arrays.
          (ctx.getContainedType DGV.valueType 0, ctx.getContainedType SGV.valueType 0)
        else (DGV.type, SGV.type)
      match TypeMapTy.addTypeMapping ctx fuel tm P.1 P.2 with
      | none => none
      | some (ctx1, tm1) => mapGlobalTypes fuel L unifyElements rest ctx1 tm1

/-- The fourth loop of `computeTypeMapping`: incorporate types by name,
scanning the identified struct types `Types` of the source module. -/
def mapNamedStructTypes (fuel : Nat) :
    List Nat → LLVMContext → TypeMapTy → Option (LLVMContext × TypeMapTy)
  | [], ctx, tm => some (ctx, tm)
  | ST :: rest, ctx, tm =>
    if !ctx.hasName ST then mapNamedStructTypes fuel rest ctx tm
    else
      -- Check to see if there is a dot in the name followed by a digit.
      match dottedPrefix (ctx.getType ST).name with
      | none => mapNamedStructTypes fuel rest ctx tm
      | some Name =>
        -- Check to see if the destination module has a struct with the prefix name.
        match ctx.getTypeByName Name with
        | none => mapNamedStructTypes fuel rest ctx tm
        | some DST =>
          if tm.DstStructTypesSet.hasType ctx DST then
            match TypeMapTy.addTypeMapping ctx fuel tm DST ST with
            | none => none
            | some (ctx1, tm1) => mapNamedStructTypes fuel rest ctx1 tm1
          else mapNamedStructTypes fuel rest ctx tm

/-- The method `IRLinker::computeTypeMapping()`; `Types` is the result of
`SrcM.getIdentifiedStructTypes()`. -/
def computeTypeMapping (fuel : Nat) (L : IRLinker) (Types : List Nat) : Option IRLinker :=
  match mapGlobalTypes fuel L true
      (L.SrcM.globals.filter (fun g => decide (g.kind = GlobalKind.GlobalVariable)))
      L.Context L.TypeMap with
  | none => none
  | some (ctx1, tm1) =>
    match mapGlobalTypes fuel L false
        (L.SrcM.globals.filter (fun g => decide (g.kind = GlobalKind.Function))) ctx1 tm1 with
    | none => none
    | some (ctx2, tm2) =>
      match mapGlobalTypes fuel L false
          (L.SrcM.globals.filter (fun g => decide (g.kind = GlobalKind.GlobalAlias))) ctx2 tm2 with
      | none => none
      | some (ctx3, tm3) =>
        match mapNamedStructTypes fuel Types ctx3 tm3 with
        | none => none
        | some (ctx4, tm4) =>
          -- Now that we have discovered all of the type equivalences, get a body
          -- for any 'opaque' types in the dest module that are now resolved.
          match TypeMapTy.linkDefinedTypeBodies fuel ctx4 tm4 with
          | none => none
          | some (ctx5, tm5) => some { L with Context := ctx5, TypeMap := tm5 }

end IRLinker

end IRMover

namespace IRMover

/-! ## Named metadata and subprograms -/

namespace RunState

/-- The test `dyn_cast<MDNode>(MD)` on a pointer into the metadata. -/
def isMDNode (md : MDContext) (N : Nat) : Bool :=
  match md.get? N with
  | some (Metadata.MDNode _) => true
  | _ => false

/-- The loop of `findNeededSubprograms` over the imported entities of one
compile unit: the set `ImportedEntitySPs`.  `none` stands for an entry that is
no imported entity. -/
def importedEntitySPs (DI : DebugInfo) : List Nat → SmallPtrSet → Option SmallPtrSet
  | [], S => some S
  | IE :: rest, S =>
    match DI.castImportedEntity IE with
    | none => none
    | some ie =>
      let S1 :=
        match DI.dynCastSubprogram ie.Entity with
        | some SP => (SmallPtrSet.insert S SP).1
        | none => S
      let S2 :=
        match DI.dynCastSubprogram ie.Scope with
        | some SP => (SmallPtrSet.insert S1 SP).1
        | none => S1
      importedEntitySPs DI rest S2

/-- The call `ImportedEntitySPs.count(Op)`. -/
def countSP (ImportedEntitySPs : SmallPtrSet) (Op : Option Nat) : Bool :=
  match Op with
  | some SP => decide (SP ∈ ImportedEntitySPs)
  | none => false

/-- The call `UnneededSubprograms.insert(Op)`. -/
def insertUnneeded (U : List (Option Nat)) (Op : Option Nat) : List (Option Nat) :=
  if Op ∈ U then U else U ++ [Op]

/-- The loop of `findNeededSubprograms` over the subprograms of one compile
unit, on the metadata side of the value map and the set of unneeded
subprograms. -/
def markUnneeded (ImportedEntitySPs : SmallPtrSet) :
    List (Option Nat) → MDMapTy → List (Option Nat) → MDMapTy × List (Option Nat)
  | [], m, U => (m, U)
  | Op :: rest, m, U =>
    if (m.lookup Op).isNone && !(countSP ImportedEntitySPs Op) then
      markUnneeded ImportedEntitySPs rest (m.subscript Op) (insertUnneeded U Op)
    else markUnneeded ImportedEntitySPs rest (m.subscript Op) U

/-- The loop of `findNeededSubprograms` over the operands of `llvm.dbg.cu`.
`none` stands for an operand that is no compile unit. -/
def findUnneededIn (DI : DebugInfo) :
    List (Option Nat) → MDMapTy → List (Option Nat) → Option (MDMapTy × List (Option Nat))
  | [], m, U => some (m, U)
  | none :: _, _, _ => none
  | some N :: rest, m, U =>
    match DI.castCompileUnit N with
    | none => none
    | some CU =>
      -- Ensure that we don't remove subprograms referenced by DIImportedEntity.
      match importedEntitySPs DI CU.ImportedEntities [] with
      | none => none
      | some ImportedEntitySPs =>
        let r := markUnneeded ImportedEntitySPs CU.Subprograms m U
        findUnneededIn DI rest r.1 r.2

/-- The last loop of `findNeededSubprograms`, run in the postpass only, over
`MetadataToIDs`.  `none` stands for a null `ValIDToTempMDMap` that is read. -/
def eraseNeeded (md : MDContext) (DI : DebugInfo) (ValIDToTempMDMap : Option (List (Nat × Nat))) :
    List (Nat × Nat) → List (Option Nat) → Option (List (Option Nat))
  | [], U => some U
  | MDI :: rest, U =>
    if !isMDNode md MDI.1 then eraseNeeded md DI ValIDToTempMDMap rest U
    else
      match DI.getDISubprogram MDI.1 with
      | none => eraseNeeded md DI ValIDToTempMDMap rest U
      | some SP =>
        match ValIDToTempMDMap with
        | none => none
        | some Temp =>
          if !(Temp.any (fun e => decide (e.1 = MDI.2))) then
            eraseNeeded md DI ValIDToTempMDMap rest U
          else
            eraseNeeded md DI ValIDToTempMDMap rest (U.filter (fun x => decide (x ≠ some SP)))

/-- The method `IRLinker::findNeededSubprograms()`. -/
def findNeededSubprograms (R : RunState) : Option RunState :=
  match R.SrcNamedMD.getNamedMetadata "llvm.dbg.cu" with
  | none => some R
  | some CompileUnits =>
    match findUnneededIn R.DI CompileUnits R.MDMap R.UnneededSubprograms with
    | none => none
    | some (m, U) =>
      if !R.L.IsMetadataLinkingPostpass then some { R with MDMap := m, UnneededSubprograms := U }
      else
        match eraseNeeded R.MD R.DI R.ValIDToTempMDMap R.MetadataToIDs U with
        | none => none
        | some U1 => some { R with MDMap := m, UnneededSubprograms := U1 }

/-- The method `IRLinker::isMetadataNeeded(MD)`. -/
def isMetadataNeeded (R : RunState) (MD : Nat) : Bool :=
  -- Currently only DISubprogram metadata is marked as being unneeded.
  if R.UnneededSubprograms.isEmpty then true
  else if !isMDNode R.MD MD then true
  else
    match R.DI.getDISubprogram MD with
    | none => true
    | some SP => !(decide (some SP ∈ R.UnneededSubprograms))

/-- The loop of `stripNullSubprograms` over the operands of `llvm.dbg.cu`. -/
def stripNullIn : List (Option Nat) → DebugInfo → Option DebugInfo
  | [], DI => some DI
  | none :: _, _ => none
  | some N :: rest, DI =>
    match DI.castCompileUnit N with
    | none => none
    | some CU =>
      let NewSPs := CU.Subprograms.filter (fun SP => SP.isSome)
      let FoundNull := CU.Subprograms.any (fun SP => SP.isNone)
      stripNullIn rest (if FoundNull then DI.replaceSubprograms N NewSPs else DI)

/-- The method `IRLinker::stripNullSubprograms()`. -/
def stripNullSubprograms (R : RunState) : Option RunState :=
  match R.DstNamedMD.getNamedMetadata "llvm.dbg.cu" with
  | none => some R
  | some CompileUnits =>
    match stripNullIn CompileUnits R.DI with
    | none => none
    | some DI => some { R with DI := DI }

/-- The inner loop of `linkNamedMDNodes`: add the mapped operands of a source
list to the destination list called `Name`. -/
def addMappedOperands (E : Externals) (Name : String) : List (Option Nat) → RunState → RunState
  | [], R => R
  | op :: rest, R =>
    let r := E.MapMetadata R op
    addMappedOperands E Name rest { r.2 with DstNamedMD := r.2.DstNamedMD.addOperand Name r.1 }

/-- The outer loop of `linkNamedMDNodes` over the named metadata lists of the
source module, from the list number `I` on.  `SrcModFlags` is the number of
the module flags list, which is skipped. -/
def linkNamedLists (E : Externals) (SrcModFlags : Nat) :
    Nat → NamedMDList → RunState → RunState
  | _, [], R => R
  | I, NMD :: rest, R =>
    -- Don't link module flags here. Do them separately.
    if I = SrcModFlags then linkNamedLists E SrcModFlags (I + 1) rest R
    else
      let R1 := { R with DstNamedMD := R.DstNamedMD.getOrInsertNamedMetadata NMD.1 }
      -- Add Src elements into Dest node.
      linkNamedLists E SrcModFlags (I + 1) rest (addMappedOperands E NMD.1 NMD.2 R1)

/-- The list number of `SrcM.getModuleFlagsMetadata()`; the length of the list
if the source module has no module flags. -/
def getModuleFlagsIndex (N : NamedMDList) : Nat :=
  N.findIdx (fun e => decide (e.1 = "llvm.module.flags"))

/-- The method `IRLinker::linkNamedMDNodes()`. -/
def linkNamedMDNodes (E : Externals) (R : RunState) : Option RunState :=
  match findNeededSubprograms R with
  | none => none
  | some R1 =>
    stripNullSubprograms
      (linkNamedLists E (getModuleFlagsIndex R1.SrcNamedMD) 0 R1.SrcNamedMD R1)

end RunState

end IRMover

namespace IRMover

/-! ## `run` -/

namespace RunState

/-- The operands of the module flags list of a module: `none` inside if the
module has no such list; `none` outside if an operand is null. -/
def flagOperands (N : NamedMDList) : Option (Option (List Nat)) :=
  match N.getNamedMetadata "llvm.module.flags" with
  | none => some none
  | some Ops => (nonNullOperands Ops).map some

/-- The call `linkModuleFlagsMetadata()` from `run`: the flag lists are read
from the named metadata of the two modules (`getModuleFlagsMetadata`) and the
merged list is written to the destination (`getOrInsertModuleFlagsMetadata`).
`none` stands for a run that does not complete; flag lists with a null
operand are not covered. -/
def linkModuleFlags (R : RunState) : Option (Bool × RunState) :=
  match R.SrcNamedMD.getNamedMetadata "llvm.module.flags" with
  -- If the source module has no module flags, we are done.
  | none => some (false, R)
  | some SrcOps =>
    match nonNullOperands SrcOps, flagOperands R.DstNamedMD with
    | some Src, some Dst =>
      match IRLinker.linkModuleFlagsMetadata R.L ⟨R.MD, Dst, some Src⟩ with
      | none => none
      | some (b, L1, M1) =>
        some (b, { R with
          L := L1
          MD := M1.MD
          DstNamedMD :=
            (R.DstNamedMD.getOrInsertNamedMetadata "llvm.module.flags").setOperands
              "llvm.module.flags" ((M1.DstModFlags.getD []).map some) })
    | _, _ => none

/-- The state with the last global of the worklist taken off (`pop_back`). -/
def popWorklist (R : RunState) : RunState :=
  { R with L := { R.L with Worklist := R.L.Worklist.dropLast } }

/-- The test `ValueMap.find(GV) != ValueMap.end() ||
AliasValueMap.find(GV) != AliasValueMap.end()`. -/
def alreadyMapped (R : RunState) (GV : Nat) : Bool :=
  (IRLinker.findValue R.L.ValueMap GV).isSome || (IRLinker.findValue R.L.AliasValueMap GV).isSome

/-- The loop `while (!Worklist.empty())` of `run`.  The result is whether the
loop left `run` with `return true`, the state, and the globals that were given
to `MapValue`, in order.  `none` stands for a loop that has not ended after
`fuel` rounds. -/
def drainWorklist (E : Externals) : Nat → RunState → Option (Bool × RunState × List Nat)
  | 0, _ => none
  | fuel + 1, R =>
    match R.L.Worklist.getLast? with
    | none => some (false, R, [])
    | some GV =>
      let R1 := R.popWorklist
      -- Already mapped.
      if R1.alreadyMapped GV then drainWorklist E fuel R1
      else
        let R2 := E.MapValue R1 GV
        if R2.L.HasError then some (true, R2, [GV])
        else
          match drainWorklist E fuel R2 with
          | none => none
          | some (b, R3, Trace) => some (b, R3, GV :: Trace)

/-- The loop over `MetadataToIDs` in the postpass of `run`. -/
def mapPostpassMetadata (E : Externals) : List (Nat × Nat) → RunState → Option RunState
  | [], R => some R
  | MDI :: rest, R =>
    match R.ValIDToTempMDMap with
    | none => none
    | some Temp =>
      if !(Temp.any (fun e => decide (e.1 = MDI.2))) then mapPostpassMetadata E rest R
      else mapPostpassMetadata E rest (E.MapMetadata R (some MDI.1)).2

/-- The start of the metadata part of `run`: in the postpass the metadata of
the source is materialized and the metadata list is saved.  The flag says that
materializing failed, upon which `run` returns true. -/
def materializePostpass (E : Externals) (R : RunState) : Bool × RunState :=
  if R.L.IsMetadataLinkingPostpass then
    -- Ensure metadata materialized
    let r := E.materializeMetadata R
    if r.1 then (true, r.2) else (false, E.saveMetadataList r.2)
  else (false, R)

/-- The mapping of the saved metadata after `linkNamedMDNodes`, done in the
postpass only. -/
def mapPostpass (E : Externals) (R : RunState) : Option RunState :=
  if R.L.IsMetadataLinkingPostpass then mapPostpassMetadata E R.MetadataToIDs R else some R

/-- The part of `run` after the worklist: named metadata and module flags.
The result is the value `run` returns. -/
def runMetadata (E : Externals) (R : RunState) : Option (Bool × RunState) :=
  if R.L.shouldLinkMetadata R.ValIDToTempMDMap then
    match materializePostpass E R with
    | (true, R1) => some (true, R1)
    | (false, R1) =>
      match linkNamedMDNodes E R1 with
      | none => none
      | some R2 =>
        match mapPostpass E R2 with
        | none => none
        | some R3 =>
          -- Merge the module flags into the DstM module.
          linkModuleFlags R3
  else some (false, R)

/-- The state of `run` when it reaches the worklist: the scalar properties are
merged, the type mapping is computed and the worklist is reversed. -/
def prepare (E : Externals) (TypeFuel : Nat) (R : RunState) : Option RunState :=
  let R1 := linkInlineAsm (linkTargetTriple E (linkDataLayout R))
  -- Loop over all of the linked values to compute type mappings.
  match R1.L.computeTypeMapping TypeFuel R1.SrcStructTypes with
  | none => none
  | some L2 => some { R1 with L := { L2 with Worklist := L2.Worklist.reverse } }

/-- The method `IRLinker::run()`.  The result is the returned value, the
state, and the globals given to `MapValue`, in order. -/
def run (E : Externals) (TypeFuel Fuel : Nat) (R : RunState) :
    Option (Bool × RunState × List Nat) :=
  match prepare E TypeFuel R with
  | none => none
  | some R2 =>
    match drainWorklist E Fuel R2 with
    | none => none
    | some (true, R3, Trace) => some (true, R3, Trace)
    | some (false, R3, Trace) =>
      -- Note that we are done linking global value bodies.
      match runMetadata E { R3 with L := { R3.L with DoneLinkingBodies := true } } with
      | none => none
      | some (b, R5) => some (b, R5, Trace)

/-- The method `IRMover::move(Src, ValuesToLink, ...)`: make the linker and
run it.  `R` gives the composite module, the struct index, the source module
and the context through its linker, whose other fields are not read; dropping
the dead constant arrays afterwards changes nothing that is modelled. -/
def move (E : Externals) (TypeFuel Fuel : Nat) (R : RunState) (ValuesToLink : List Nat) :
    Option (Bool × RunState × List Nat) :=
  run E TypeFuel Fuel
    { R with
      L := IRLinker.create R.L.Context R.L.DstM R.L.TypeMap.DstStructTypesSet R.L.SrcM
        ValuesToLink R.L.IsMetadataLinkingPostpass R.L.Diagnostics R.L.NextAddr }

/-- The first `n` rounds of the worklist loop, none of which leaves `run`:
the state at the head of the loop after them and the globals given to
`MapValue`.  `none` if the loop ends earlier. -/
def drainSteps (E : Externals) : Nat → RunState → Option (RunState × List Nat)
  | 0, R => some (R, [])
  | n + 1, R =>
    match R.L.Worklist.getLast? with
    | none => none
    | some GV =>
      let R1 := R.popWorklist
      if R1.alreadyMapped GV then drainSteps E n R1
      else
        let R2 := E.MapValue R1 GV
        if R2.L.HasError then none
        else
          match drainSteps E n R2 with
          | none => none
          | some (R3, Trace) => some (R3, GV :: Trace)

end RunState

end IRMover

namespace IRMover

/-! ## Example states of `run` -/

/-- A parser of triples that knows two Apple triples, which differ in the OS
version only; every other string is parsed to unknown components. -/
def exampleParseTriple (Str : String) : Triple :=
  if Str = "x86_64-apple-macosx10.11.0" then ⟨Str, 1, 0, Triple.Apple, 1, 0, 0, (10, 11, 0)⟩
  else if Str = "x86_64-apple-macosx10.9.0" then ⟨Str, 1, 0, Triple.Apple, 1, 0, 0, (10, 9, 0)⟩
  else ⟨Str, 0, 0, 0, 0, 0, 0, (0, 0, 0)⟩

/-- Externals that do nothing: `MapValue` leaves the state as it is,
`MapMetadata` maps every pointer to itself, and the materializer succeeds. -/
def exampleExternals : Externals :=
  { parseTriple := exampleParseTriple
    MapValue := fun R _ => R
    MapMetadata := fun R Op => (Op, R)
    materializeMetadata := fun R => (false, R)
    saveMetadataList := fun R => R }

/-- A header with the given identifier, triple and inline assembly, and the
default data layout. -/
def exampleHeader (Identifier TargetTriple InlineAsm : String) : ModuleHeader :=
  ⟨Identifier, ⟨"", []⟩, TargetTriple, InlineAsm⟩

/-- A state of `run` with the given linker and headers and no metadata. -/
def exampleRunState (L : IRLinker) (DstH SrcH : ModuleHeader) : RunState :=
  { L := L
    DstH := DstH
    SrcH := SrcH
    MD := []
    DstNamedMD := []
    SrcNamedMD := []
    MDMap := []
    UnneededSubprograms := []
    DI := ⟨[], [], [], []⟩
    SrcStructTypes := []
    MetadataToIDs := []
    ValIDToTempMDMap := none }

end IRMover

namespace IRMover

/-! ## Invariants of the worklist loop -/

namespace IRLinker

/-- The worklist holds no global twice, and only requested globals. -/
def WorklistInv (L : IRLinker) : Prop :=
  L.Worklist.Nodup ∧ ∀ x ∈ L.Worklist, x ∈ L.ValuesToLink

/-- The linker `L2` arises from `L1` by pushing the globals `New`, which are
new and pairwise different, on the requested set and on the worklist. -/
def Pushes (L1 L2 : IRLinker) (New : List Nat) : Prop :=
  L2.ValuesToLink = L1.ValuesToLink ++ New ∧ L2.Worklist = L1.Worklist ++ New ∧
  New.Nodup ∧ ∀ x ∈ New, x ∉ L1.ValuesToLink

end IRLinker

namespace Externals

/-- The value mapper reaches the requested set and the worklist through
`maybeAdd` only (the callback given to the lazy-link policy). -/
def AddsThroughMaybeAdd (E : Externals) : Prop :=
  ∀ (R : RunState) (GV : Nat), ∃ Added : List Nat,
    (E.MapValue R GV).L.ValuesToLink = (Added.foldl IRLinker.maybeAdd R.L).ValuesToLink ∧
    (E.MapValue R GV).L.Worklist = (Added.foldl IRLinker.maybeAdd R.L).Worklist

/-- As `AddsThroughMaybeAdd`, with every added global taken from `U`. -/
def AddsWithin (E : Externals) (U : List Nat) : Prop :=
  ∀ (R : RunState) (GV : Nat), ∃ Added : List Nat, (∀ x ∈ Added, x ∈ U) ∧
    (E.MapValue R GV).L.ValuesToLink = (Added.foldl IRLinker.maybeAdd R.L).ValuesToLink ∧
    (E.MapValue R GV).L.Worklist = (Added.foldl IRLinker.maybeAdd R.L).Worklist

/-- The lazy-link policy adds nothing: `MapValue` leaves the requested set and
the worklist as they are. -/
def AddsNothing (E : Externals) : Prop :=
  ∀ (R : RunState) (GV : Nat),
    (E.MapValue R GV).L.ValuesToLink = R.L.ValuesToLink ∧
    (E.MapValue R GV).L.Worklist = R.L.Worklist

/-- The externals never reset the failure flag. -/
def KeepsError (E : Externals) : Prop :=
  (∀ (R : RunState) (GV : Nat), R.L.HasError = true → (E.MapValue R GV).L.HasError = true) ∧
  (∀ (R : RunState) (Op : Option Nat), R.L.HasError = true →
    (E.MapMetadata R Op).2.L.HasError = true) ∧
  (∀ R : RunState, R.L.HasError = true → (E.materializeMetadata R).2.L.HasError = true) ∧
  (∀ R : RunState, R.L.HasError = true → (E.saveMetadataList R).L.HasError = true)

end Externals

/-- Externals whose value mapper discovers the global 201 while it maps the
global 200, and maps every global it is given to itself. -/
def exampleLazyExternals : Externals :=
  { exampleExternals with
    MapValue := fun R GV =>
      { R with
        L := { (if GV = 200 then R.L.maybeAdd 201 else R.L) with
          ValueMap := IRLinker.setValue R.L.ValueMap GV (Constant.GlobalRef GV) } } }

end IRMover

namespace IRMover

/-- Externals whose value mapper cannot map the global 200 and reports it, as
`linkFunctionBody` does when the body cannot be materialized, and maps every
other global to itself. -/
def exampleFailingExternals : Externals :=
  { exampleExternals with
    MapValue := fun R GV =>
      if GV = 200 then { R with L := R.L.emitError "cannot materialize" }
      else
        { R with
          L := { R.L with
            ValueMap := IRLinker.setValue R.L.ValueMap GV (Constant.GlobalRef GV) } } }

/-- Externals whose metadata mapper, on the node 0, which refers to the source
global `@llvm.global_ctors`, asks the linker for the declaration of that
global (`materializeDeclFor`, which is `linkGlobalValueProto`) and maps the
node to null; every other node is mapped to itself. -/
def exampleMetadataExternals : Externals :=
  { exampleExternals with
    MapMetadata := fun R Op =>
      match Op with
      | some 0 =>
        match IRLinker.linkGlobalValueProto MapValueId AddLazyForNone 2 R.L
            exampleSrcLegacyCtors false with
        | some (_, L1) => (none, { R with L := L1 })
        | none => (none, R)
      | _ => (Op, R) }

/-- A state of `run` in which the destination and the source both have a
legacy `@llvm.global_ctors`, nothing is requested, and the source has the
named metadata list `md` with the node 0 as its only operand and no module
flags. -/
def exampleMetadataRunState : RunState :=
  { exampleRunState (exampleLegacyLinker exampleDstLegacyCtors) (exampleHeader "dst" "" "")
      (exampleHeader "src" "" "") with
    MD := [Metadata.MDNode []]
    SrcNamedMD := [("md", [some 0])] }

end IRMover

namespace IRMover

/-! ## Well-formed debug info -/

namespace DebugInfo

/-- Every operand of a list of compile units is a compile unit. -/
def CompileUnitsOK (DI : DebugInfo) (ops : List (Option Nat)) : Prop :=
  ∀ op ∈ ops, ∃ N, op = some N ∧ (DI.castCompileUnit N).isSome = true

/-- Every operand of a list of compile units is a compile unit whose imported
entities are imported entities. -/
def ImportsOK (DI : DebugInfo) (ops : List (Option Nat)) : Prop :=
  ∀ op ∈ ops, ∃ N CU, op = some N ∧ DI.castCompileUnit N = some CU ∧
    ∀ IE ∈ CU.ImportedEntities, (DI.castImportedEntity IE).isSome = true

/-- The compile unit with its null subprograms taken out. -/
def stripCompileUnit (CU : DICompileUnit) : DICompileUnit :=
  { CU with Subprograms := CU.Subprograms.filter (fun SP => SP.isSome) }

/-- The subprogram `SP` is the entity or the scope of one of the imported
entities `IEs`. -/
def ImportedBy (DI : DebugInfo) (IEs : List Nat) (SP : Nat) : Prop :=
  ∃ IE ∈ IEs, ∃ ie, DI.castImportedEntity IE = some ie ∧ (ie.Entity = SP ∨ ie.Scope = SP)

end DebugInfo

namespace Externals

/-- The metadata mapper leaves the named metadata lists of the destination
alone. -/
def KeepsNamedMD (E : Externals) : Prop :=
  ∀ (R : RunState) (Op : Option Nat), (E.MapMetadata R Op).2.DstNamedMD = R.DstNamedMD

end Externals

/-- Debug info with three compile units: the unit 10 lists the subprograms 20
and 21 and imports nothing; the unit 11 lists the subprogram 22 and has the
imported entity 30, whose entity is the subprogram 20 and whose scope is the
subprogram 22; the unit 12 lists the subprogram 23, a null entry and the
subprogram 24.  The node 40 is a local scope of the subprogram 21. -/
def exampleDebugInfo : DebugInfo :=
  { CompileUnits :=
      [(10, ⟨[some 20, some 21], []⟩), (11, ⟨[some 22], [30]⟩),
       (12, ⟨[some 23, none, some 24], []⟩)]
    ImportedEntities := [(30, ⟨22, 20⟩)]
    Subprograms := [20, 21, 22, 23, 24]
    LocalScopes := [(40, 21)] }

/-- A state of `run` whose source module has the compile units 10 and 11 of
`exampleDebugInfo` and whose destination module has the compile units 11 and
12; the nodes 0 to 40 are tuples, the node 41 is a string. -/
def exampleDebugRunState : RunState :=
  { exampleRunState (exampleLinker []) (exampleHeader "dst" "" "")
      (exampleHeader "src" "" "") with
    MD := (List.replicate 41 (Metadata.MDNode [])) ++ [Metadata.MDString "s"]
    DI := exampleDebugInfo
    SrcNamedMD := [("llvm.dbg.cu", [some 10, some 11])]
    DstNamedMD := [("llvm.dbg.cu", [some 11, some 12])] }

end IRMover

namespace IRMover

/-- A state of `run` whose source has the module flags list with the operand
3 and the list `llvm.ident` with the operands 1 and 2, and whose destination
has the list `llvm.ident` with the operand 0. -/
def exampleNamedRunState : RunState :=
  { exampleRunState (exampleLinker []) (exampleHeader "dst" "" "")
      (exampleHeader "src" "" "") with
    MD := List.replicate 4 (Metadata.MDNode [])
    SrcNamedMD := [("llvm.module.flags", [some 3]), ("llvm.ident", [some 1, some 2])]
    DstNamedMD := [("llvm.ident", [some 0])] }

end IRMover

/-! # InstrProfWriter: the on-disk hash table trait

A shallow embedding of `InstrProfRecordTrait` in
`lib/ProfileData/InstrProfWriter.cpp`.  A `raw_ostream` is the list of the
bytes written to it so far; `uint64_t` arithmetic is taken modulo `2 ^ 64`. -/

namespace InstrProfWriter

/-- Modelled from the spec: a profile record, as far as the trait looks into
it: its counters, and a handle on its value data. -/
structure InstrProfRecord where
  Counts : List Nat
  ValueData : Nat
  deriving DecidableEq, Repr

/-- Modelled from the spec: the serialized value data of a record, a block of
memory (`Byte I` is the byte at offset `I`) that starts with its total size
(`getSize()`). -/
structure ValueProfData where
  TotalSize : Nat
  Byte : Nat → Nat

/-- The value data code the trait calls: the static `ValueProfData::getSize`
on a record, `serializeFrom`, and `swapBytesFromHost` for the endianness of
the file. -/
structure ValueProfCodec where
  getSize : InstrProfRecord → Nat
  serializeFrom : InstrProfRecord → ValueProfData
  swapBytesFromHost : ValueProfData → ValueProfData

/-- The eight bytes of `LE.write<uint64_t>(V)`: the value modulo `2 ^ 64`,
least significant byte first. -/
def writeLE64 (V : Nat) : List Nat :=
  (List.range 8).map (fun I => V % 2 ^ 64 / 2 ^ (8 * I) % 256)

/-- The value of a little-endian sequence of bytes. -/
def readLE : List Nat → Nat
  | [] => 0
  | b :: rest => b + 256 * readLE rest

/-- The bytes of `Out.write(Ptr, N)`: the `N` bytes from the address on. -/
def writeBytes (Byte : Nat → Nat) (N : Nat) : List Nat :=
  (List.range N).map Byte

/-- The loop of `EmitKeyDataLength` that adds up `M`. -/
def dataLength (C : ValueProfCodec) : List (Nat × InstrProfRecord) → Nat → Nat
  | [], M => M
  | ProfileData :: rest, M =>
    -- The function hash
    let M1 := (M + 8) % 2 ^ 64
    -- The size of the Counts vector
    let M2 := (M1 + 8) % 2 ^ 64
    let M3 := (M2 + (ProfileData.2.Counts.length * 8) % 2 ^ 64) % 2 ^ 64
    -- Value data
    let M4 := (M3 + C.getSize ProfileData.2 % 2 ^ 32) % 2 ^ 64
    dataLength C rest M4

/-- The method `InstrProfRecordTrait::EmitKeyDataLength(Out, K, V)`: the pair
it returns and the stream afterwards. -/
def EmitKeyDataLength (C : ValueProfCodec) (Out : List Nat) (K : List Nat)
    (V : List (Nat × InstrProfRecord)) : (Nat × Nat) × List Nat :=
  let N := K.length % 2 ^ 64
  let Out1 := Out ++ writeLE64 N
  let M := dataLength C V 0
  let Out2 := Out1 ++ writeLE64 M
  ((N, M), Out2)

/-- The method `InstrProfRecordTrait::EmitKey(Out, K, N)`: the stream
afterwards.  A byte behind the end of the key is read as zero. -/
def EmitKey (Out : List Nat) (K : List Nat) (N : Nat) : List Nat :=
  Out ++ writeBytes (fun I => K.getD I 0) N

/-- The body of the loop of `EmitData` for one record. -/
def emitRecord (C : ValueProfCodec) (Out : List Nat) (ProfileData : Nat × InstrProfRecord) :
    List Nat :=
  -- Function hash
  let Out1 := Out ++ writeLE64 ProfileData.1
  let Out2 := Out1 ++ writeLE64 ProfileData.2.Counts.length
  let Out3 := ProfileData.2.Counts.foldl (fun O I => O ++ writeLE64 I) Out2
  -- Write value data
  let VDataPtr := C.serializeFrom ProfileData.2
  let S := VDataPtr.TotalSize % 2 ^ 32
  Out3 ++ writeBytes (C.swapBytesFromHost VDataPtr).Byte S

/-- The method `InstrProfRecordTrait::EmitData(Out, K, V, M)`: the stream
afterwards. -/
def EmitData (C : ValueProfCodec) (Out : List Nat) (_K : List Nat)
    (V : List (Nat × InstrProfRecord)) (_M : Nat) : List Nat :=
  V.foldl (emitRecord C) Out

/-- The number of bytes the data of the records take: 16 bytes, 8 bytes per
counter and the value data size, for each record. -/
def dataSize (C : ValueProfCodec) (V : List (Nat × InstrProfRecord)) : Nat :=
  (V.map (fun p => 16 + 8 * p.2.Counts.length + C.getSize p.2 % 2 ^ 32)).sum

/-- A codec for which every record has the value data given by its handle:
the size is the handle and the bytes are zero. -/
def exampleCodec : ValueProfCodec :=
  { getSize := fun r => r.ValueData
    serializeFrom := fun r => ⟨r.ValueData, fun _ => 0⟩
    swapBytesFromHost := fun d => d }

end InstrProfWriter

namespace IRMover

/-- Types with an opaque struct: `%S = type opaque` (0), `float` (1), `double`
(2), `{ %S, float }` (3), `{ %S, double }` (4), `i32` (5), `{ i32 }` (6)
and `{ { i32 }, float }` (7). -/
def exampleOpaqueSourceCtx : LLVMContext :=
  [⟨TypeID.StructTyID, [], 0, false, false, false, true, 0, 0, "S"⟩,
   ⟨TypeID.FloatTyID, [], 0, false, false, false, false, 0, 0, ""⟩,
   ⟨TypeID.DoubleTyID, [], 0, false, false, false, false, 0, 0, ""⟩,
   ⟨TypeID.StructTyID, [0, 1], 0, false, true, false, false, 0, 0, ""⟩,
   ⟨TypeID.StructTyID, [0, 2], 0, false, true, false, false, 0, 0, ""⟩,
   ⟨TypeID.IntegerTyID, [], 0, false, false, false, false, 0, 32, ""⟩,
   ⟨TypeID.StructTyID, [5], 0, false, true, false, false, 0, 0, ""⟩,
   ⟨TypeID.StructTyID, [6, 1], 0, false, true, false, false, 0, 0, ""⟩]

end IRMover

namespace IRMover

/-- The arena `c'` extends `c`: every type of `c` is still there and differs
at most in its name. -/
def LLVMContext.Grows (c c' : LLVMContext) : Prop :=
  c.length ≤ c'.length ∧
  ∀ u, u < c.length → ∃ nm : String, c'.getType u = { c.getType u with name := nm }

namespace TypeMapTy

/-- A literal struct of the arena is never opaque. -/
def LiteralOK (c : LLVMContext) : Prop :=
  ∀ t, (c.getType t).id = TypeID.StructTyID →
    (c.getType t).isLiteral = true → (c.getType t).isOpaque = false

/-- The structs of the non-opaque set are types of the arena that are not
opaque. -/
def IndexOK (c : LLVMContext) (S : IdentifiedStructTypeSet) : Prop :=
  ∀ t ∈ S.NonOpaqueStructTypes, t < c.length ∧ (c.getType t).isOpaque = false

/-- What the arena and the struct index satisfy in every state the linker
reaches. -/
structure GetState.OK (st : GetState) : Prop where
  literal : LiteralOK st.ctx
  index : IndexOK st.ctx st.tm.DstStructTypesSet

/-- The decidable form of `GetState.OK`. -/
def GetState.check (st : GetState) : Bool :=
  st.ctx.all (fun n =>
    !decide (n.id = TypeID.StructTyID) || !n.isLiteral || !n.isOpaque) &&
  st.tm.DstStructTypesSet.NonOpaqueStructTypes.all (fun t =>
    decide (t < st.ctx.length) && !(st.ctx.getType t).isOpaque)

/-- The value `v` may be stored for the key `k` by a call of `get` that starts
in `st`: `v` is a type made by the call, or a type that is not an opaque
struct, or the identified struct `k` itself, which the call has not visited
before. -/
def FreshVal (st : GetState) (k v : Nat) : Prop :=
  v < st.ctx.length →
    ¬ ((st.ctx.getType v).id = TypeID.StructTyID ∧ (st.ctx.getType v).isOpaque = true) ∨
    (v = k ∧ k ∉ st.Visited ∧ (st.ctx.getType k).isLiteral = false)

/-- What a run of `get` may do to the state `st`, giving `st'`: the arena only
grows, entries are only added and each added value is `FreshVal`, the visited
set and the non-opaque set only grow, a struct added to the opaque set is new
or opaque, and the queue and the resolved set are untouched. -/
structure GetInv (st st' : GetState) : Prop where
  grows : st.ctx.Grows st'.ctx
  mono : ∀ k v, st.tm.MappedTypes.lookup k = some v → st'.tm.MappedTypes.lookup k = some v
  visited : ∀ x ∈ st.Visited, x ∈ st'.Visited
  fresh : ∀ k v, st.tm.MappedTypes.lookup k = none → st'.tm.MappedTypes.lookup k = some v →
    FreshVal st k v
  nonOpaque : ∀ t ∈ st.tm.DstStructTypesSet.NonOpaqueStructTypes,
    t ∈ st'.tm.DstStructTypesSet.NonOpaqueStructTypes
  addedOpaque : ∀ t ∈ st'.tm.DstStructTypesSet.OpaqueStructTypes,
    t ∈ st.tm.DstStructTypesSet.OpaqueStructTypes ∨ st.ctx.length ≤ t ∨
      (st.ctx.getType t).isOpaque = true
  queue : st'.tm.SrcDefinitionsToResolve = st.tm.SrcDefinitionsToResolve
  resolved : st'.tm.DstResolvedOpaqueTypes = st.tm.DstResolvedOpaqueTypes

end TypeMapTy
end IRMover

namespace IRMover
namespace TypeMapTy

/-- What a run of `areTypesIsomorphic` adds to the queue of source structs
awaiting a body and to the resolved set: the two grow in step, each queued
struct `S` is not opaque and is mapped to the struct added for it, which is
opaque and was not in the resolved set before. -/
def ClaimsOK (ctx : LLVMContext) (s s' : TypeMapTy) : Prop :=
  (∀ k v, s.MappedTypes.lookup k = some v → s'.MappedTypes.lookup k = some v) ∧
  ∃ o q : List Nat,
    s'.SrcDefinitionsToResolve = s.SrcDefinitionsToResolve ++ q ∧
    s'.DstResolvedOpaqueTypes = s.DstResolvedOpaqueTypes ++ o ∧
    q.map s'.MappedTypes.lookup = o.map some ∧ o.Nodup ∧
    (∀ x ∈ o, x ∉ s.DstResolvedOpaqueTypes) ∧
    (∀ S ∈ q, (ctx.getType S).id = TypeID.StructTyID ∧ (ctx.getType S).isOpaque = false) ∧
    (∀ D ∈ o, (ctx.getType D).id = TypeID.StructTyID ∧ (ctx.getType D).isOpaque = true)

/-- The state of the queue between two `addTypeMapping` calls: the speculative
lists are empty; the queued source structs are not opaque; they are mapped,
in order, to the structs of the resolved set, which are pairwise distinct and
opaque. -/
structure QueueInv (ctx : LLVMContext) (tm : TypeMapTy) : Prop where
  speculative : tm.SpeculativeTypes = [] ∧ tm.SpeculativeDstOpaqueTypes = []
  mapped : tm.SrcDefinitionsToResolve.map tm.MappedTypes.lookup =
    tm.DstResolvedOpaqueTypes.map some
  distinct : tm.DstResolvedOpaqueTypes.Nodup
  source : ∀ S ∈ tm.SrcDefinitionsToResolve,
    (ctx.getType S).id = TypeID.StructTyID ∧ (ctx.getType S).isOpaque = false
  destination : ∀ D ∈ tm.DstResolvedOpaqueTypes,
    (ctx.getType D).id = TypeID.StructTyID ∧ (ctx.getType D).isOpaque = true

/-- The loop of `linkDefinedTypeBodies` with a record of what it does: for
every queued struct, in order, the destination struct that is given a body
and whether it was opaque when `setBody` was called on it. -/
def linkBodiesTrace (fuel : Nat) :
    List Nat → LLVMContext → TypeMapTy → Option (List (Nat × Bool) × LLVMContext × TypeMapTy)
  | [], ctx, tm => some ([], ctx, tm)
  | SrcSTy :: rest, ctx, tm =>
    let tm0 := { tm with MappedTypes := tm.MappedTypes.subscript SrcSTy }
    match tm0.MappedTypes.lookup SrcSTy with
    | none => none
    | some DstSTy =>
      match mapElements fuel SrcSTy (List.range (ctx.getNumContainedTypes SrcSTy)) [] ctx tm0 with
      | none => none
      | some (Elements, ctx1, tm1) =>
        let ctx2 := ctx1.setBody DstSTy Elements (ctx1.getType SrcSTy).isPacked
        match linkBodiesTrace fuel rest ctx2
            { tm1 with DstStructTypesSet :=
                IdentifiedStructTypeSet.switchToNonOpaque ctx2 tm1.DstStructTypesSet DstSTy } with
        | none => none
        | some (tr, ctx3, tm3) => some ((DstSTy, (ctx1.getType DstSTy).isOpaque) :: tr, ctx3, tm3)

end TypeMapTy
end IRMover

namespace IRMover
namespace TypeMapTy

/-- What `linkDefinedTypeBodies` has done for the queued source struct `S`
that is mapped to `D`, with `ctx` the arena before the call and `ctx'`, `tm'`
the arena and the mapper after it: `D` is not opaque, its elements are the
mapped elements of `S`, its packed flag is the one of `S`, and `D` is in the
non-opaque set unless that set holds another struct of the same shape. -/
def BodyLinked (ctx ctx' : LLVMContext) (tm' : TypeMapTy) (S D : Nat) : Prop :=
  (ctx'.getType D).isOpaque = false ∧
  (ctx'.getType D).contained.map some = (ctx.getType S).contained.map tm'.MappedTypes.lookup ∧
  (ctx'.getType D).isPacked = (ctx.getType S).isPacked ∧
  (D ∈ tm'.DstStructTypesSet.NonOpaqueStructTypes ∨
    ∃ X ∈ tm'.DstStructTypesSet.NonOpaqueStructTypes, X ≠ D ∧
      (ctx'.getType X).contained = (ctx'.getType D).contained ∧
      (ctx'.getType X).isPacked = (ctx'.getType D).isPacked)

/-- What the loop of `linkDefinedTypeBodies` over the queue `Q`, whose structs
are mapped to the structs `Ds`, makes of the arena `ctx` and the mapper `tm`. -/
structure LinkedBodies (Q Ds : List Nat) (ctx : LLVMContext) (tm : TypeMapTy)
    (ctx' : LLVMContext) (tm' : TypeMapTy) : Prop where
  length : ctx.length ≤ ctx'.length
  frame : ∀ u, u < ctx.length → u ∉ Ds →
    ∃ nm : String, ctx'.getType u = { ctx.getType u with name := nm }
  mono : ∀ k v, tm.MappedTypes.lookup k = some v → tm'.MappedTypes.lookup k = some v
  ok : GetState.OK ⟨ctx', tm', []⟩
  opaqueSet : ∀ t ∈ tm'.DstStructTypesSet.OpaqueStructTypes,
    t ∉ Ds ∧ (t ∈ tm.DstStructTypesSet.OpaqueStructTypes ∨ ctx.length ≤ t ∨
      (ctx.getType t).isOpaque = true)
  nonOpaqueSet : ∀ t ∈ tm.DstStructTypesSet.NonOpaqueStructTypes,
    t ∈ tm'.DstStructTypesSet.NonOpaqueStructTypes
  bodies : ∀ p ∈ Q.zip Ds, BodyLinked ctx ctx' tm' p.1 p.2

end TypeMapTy
end IRMover

namespace IRMover

/-- The types `i32` (0), `%X = type { i32 }` (1), `%D = type opaque` (2) and
`%S = type { i32 }` (3). -/
def exampleReuseCtx : LLVMContext :=
  [⟨TypeID.IntegerTyID, [], 0, false, false, false, false, 0, 32, ""⟩,
   ⟨TypeID.StructTyID, [0], 0, false, false, false, false, 0, 0, "X"⟩,
   ⟨TypeID.StructTyID, [], 0, false, false, false, true, 0, 0, "D"⟩,
   ⟨TypeID.StructTyID, [0], 0, false, false, false, false, 0, 0, "S"⟩]

/-- The types `%S = type { %U* }` (0), `%U*` (1), `%U = type { %S*, %T }` (2),
`%S*` (3) and `%T = type { %U* }` (4). -/
def exampleRecursiveCtx : LLVMContext :=
  [⟨TypeID.StructTyID, [1], 0, false, false, false, false, 0, 0, "S"⟩,
   ⟨TypeID.PointerTyID, [2], 0, false, false, false, false, 0, 0, ""⟩,
   ⟨TypeID.StructTyID, [3, 4], 0, false, false, false, false, 0, 0, "U"⟩,
   ⟨TypeID.PointerTyID, [0], 0, false, false, false, false, 0, 0, ""⟩,
   ⟨TypeID.StructTyID, [1], 0, false, false, false, false, 0, 0, "T"⟩]

end IRMover

namespace IRMover
namespace IRLinker

/-- What the merge of appending variables needs of the value mapper, whose code
is not part of the linker: mapping a constant does not take the global at the
address `a` out of the destination module. -/
def KeepsGlobal (MapValue : IRLinker → Constant → Constant × IRLinker) (a : Nat) : Prop :=
  ∀ (L : IRLinker) (C : Constant), (∃ g ∈ L.DstM.globals, g.addr = a) →
    ∃ g ∈ (MapValue L C).2.DstM.globals, g.addr = a

end IRLinker
end IRMover

namespace IRMover

namespace TypeMapTy

end TypeMapTy
end IRMover

/-! # Lemmas and theorems -/

namespace IRMover

namespace DenseMap

theorem lookup_nil (k : Nat) : lookup [] k = none := rfl

theorem lookup_cons (a : Nat) (w : Option Nat) (rest : DenseMap) (k : Nat) :
    lookup ((a, w) :: rest) k = if a = k then w else lookup rest k := rfl

theorem hasKey_cons (a : Nat) (w : Option Nat) (rest : DenseMap) (k : Nat) :
    hasKey ((a, w) :: rest) k = if a = k then true else hasKey rest k := rfl

theorem assign_cons (a : Nat) (w : Option Nat) (rest : DenseMap) (k v : Nat) :
    assign ((a, w) :: rest) k v =
      (if a = k then (k, some v) else (a, w)) :: assign rest k v := rfl

theorem erase_cons (a : Nat) (w : Option Nat) (rest : DenseMap) (k : Nat) :
    erase ((a, w) :: rest) k = if a = k then erase rest k else (a, w) :: erase rest k := by
  unfold erase
  by_cases h : a = k <;> simp [List.filter_cons, h]

theorem lookup_append_none (m : DenseMap) (k k' : Nat) :
    lookup (m ++ [(k, none)]) k' = lookup m k' := by
  induction m with
  | nil =>
    show lookup [(k, none)] k' = none
    rw [lookup_cons, lookup_nil]; split <;> rfl
  | cons e rest ih =>
    obtain ⟨a, v⟩ := e
    show lookup ((a, v) :: (rest ++ [(k, none)])) k' = lookup ((a, v) :: rest) k'
    rw [lookup_cons, lookup_cons, ih]

theorem lookup_subscript (m : DenseMap) (k k' : Nat) :
    lookup (subscript m k) k' = lookup m k' := by
  unfold subscript
  split
  · rfl
  · exact lookup_append_none m k k'

theorem hasKey_append_self (m : DenseMap) (k : Nat) (v : Option Nat) :
    hasKey (m ++ [(k, v)]) k = true := by
  induction m with
  | nil =>
    show hasKey [(k, v)] k = true
    rw [hasKey_cons]; simp
  | cons e rest ih =>
    obtain ⟨a, w⟩ := e
    show hasKey ((a, w) :: (rest ++ [(k, v)])) k = true
    rw [hasKey_cons, ih]; simp

theorem hasKey_subscript (m : DenseMap) (k : Nat) : hasKey (subscript m k) k = true := by
  unfold subscript
  split
  · assumption
  · exact hasKey_append_self m k none

theorem lookup_assign (m : DenseMap) (k v k' : Nat) :
    lookup (assign m k v) k' =
      if k' = k then (if hasKey m k then some v else none) else lookup m k' := by
  induction m with
  | nil => simp [assign, lookup, hasKey]
  | cons e rest ih =>
    obtain ⟨a, w⟩ := e
    rw [assign_cons, hasKey_cons, lookup_cons]
    by_cases ha : a = k
    · subst ha
      by_cases hk : k' = a
      · subst hk; simp [lookup_cons]
      · have : ¬ a = k' := fun h => hk h.symm
        simp [lookup_cons, this, hk, ih]
    · by_cases hk : k' = k
      · subst hk
        simp [lookup_cons, ha, ih]
      · simp [lookup_cons, ha, hk, ih]

theorem lookup_set (m : DenseMap) (k v k' : Nat) :
    lookup (assign (subscript m k) k v) k' = if k' = k then some v else lookup m k' := by
  rw [lookup_assign, hasKey_subscript, lookup_subscript]
  simp

theorem lookup_erase (m : DenseMap) (k k' : Nat) :
    lookup (erase m k) k' = if k' = k then none else lookup m k' := by
  induction m with
  | nil => simp [erase, lookup]
  | cons e rest ih =>
    obtain ⟨a, w⟩ := e
    rw [erase_cons, lookup_cons]
    by_cases ha : a = k
    · subst ha
      by_cases hk : k' = a
      · subst hk; simp [ih]
      · have : ¬ a = k' := fun h => hk h.symm
        simp [ih, hk, this]
    · by_cases hk : k' = k
      · subst hk
        simp [lookup_cons, ih, ha]
      · simp [lookup_cons, ih, ha, hk]

theorem lookup_foldl_erase (l : List Nat) (m : DenseMap) (k' : Nat) :
    lookup (l.foldl erase m) k' = if k' ∈ l then none else lookup m k' := by
  induction l generalizing m with
  | nil => simp
  | cons a rest ih =>
    simp only [List.foldl_cons, ih, lookup_erase, List.mem_cons]
    by_cases h1 : k' ∈ rest
    · simp [h1]
    · by_cases h2 : k' = a <;> simp [h1, h2]

end DenseMap

namespace SmallPtrSet

theorem foldl_erase_eq (l : List Nat) (s : SmallPtrSet) :
    l.foldl erase s = s.filter (fun y => decide (y ∉ l)) := by
  induction l generalizing s with
  | nil => simp
  | cons a rest ih =>
    simp only [List.foldl_cons, ih, erase, List.filter_filter, List.mem_cons]
    congr 1
    funext y
    by_cases h1 : y = a <;> by_cases h2 : y ∈ rest <;> simp [h1, h2]

theorem foldl_erase_append (base o : List Nat) (h : ∀ x ∈ o, x ∉ base) :
    o.foldl erase (base ++ o) = base := by
  rw [foldl_erase_eq, List.filter_append]
  have h1 : List.filter (fun y => decide (y ∉ o)) base = base := by
    apply List.filter_eq_self.mpr
    intro a ha
    simp only [decide_eq_true_eq]
    intro hao
    exact h a hao ha
  have h2 : List.filter (fun y => decide (y ∉ o)) o = [] := by
    apply List.filter_eq_nil_iff.mpr
    intro a ha
    simp [ha]
  rw [h1, h2, List.append_nil]

end SmallPtrSet
end IRMover

namespace IRMover
namespace TypeMapTy
open DenseMap

theorem areTypesIsomorphic_cases {ctx : LLVMContext} {fuel : Nat} {s : TypeMapTy}
    {DstTy SrcTy : Nat} {r : Bool} {s' : TypeMapTy}
    (h : areTypesIsomorphic ctx (fuel + 1) s DstTy SrcTy = some (r, s')) :
    ((ctx.getType DstTy).id ≠ (ctx.getType SrcTy).id ∧ r = false ∧ s' = s) ∨
    ((ctx.getType DstTy).id = (ctx.getType SrcTy).id ∧
      ∃ E, s.MappedTypes.lookup SrcTy = some E ∧ r = decide (E = DstTy) ∧
        s' = { s with MappedTypes := s.MappedTypes.subscript SrcTy }) ∨
    ((ctx.getType DstTy).id = (ctx.getType SrcTy).id ∧ s.MappedTypes.lookup SrcTy = none ∧
      DstTy = SrcTy ∧ r = true ∧
      s' = { s with MappedTypes := (s.MappedTypes.subscript SrcTy).assign SrcTy DstTy }) ∨
    ((ctx.getType DstTy).id = (ctx.getType SrcTy).id ∧ s.MappedTypes.lookup SrcTy = none ∧
      DstTy ≠ SrcTy ∧ (ctx.getType SrcTy).id = TypeID.StructTyID ∧
      (ctx.getType SrcTy).isOpaque = true ∧ r = true ∧
      s' = { s with
        MappedTypes := (s.MappedTypes.subscript SrcTy).assign SrcTy DstTy
        SpeculativeTypes := s.SpeculativeTypes ++ [SrcTy] }) ∨
    ((ctx.getType DstTy).id = (ctx.getType SrcTy).id ∧ s.MappedTypes.lookup SrcTy = none ∧
      DstTy ≠ SrcTy ∧ (ctx.getType SrcTy).id = TypeID.StructTyID ∧
      (ctx.getType SrcTy).isOpaque = false ∧ (ctx.getType DstTy).isOpaque = true ∧
      DstTy ∈ s.DstResolvedOpaqueTypes ∧ r = false ∧
      s' = { s with MappedTypes := s.MappedTypes.subscript SrcTy }) ∨
    ((ctx.getType DstTy).id = (ctx.getType SrcTy).id ∧ s.MappedTypes.lookup SrcTy = none ∧
      DstTy ≠ SrcTy ∧ (ctx.getType SrcTy).id = TypeID.StructTyID ∧
      (ctx.getType SrcTy).isOpaque = false ∧ (ctx.getType DstTy).isOpaque = true ∧
      DstTy ∉ s.DstResolvedOpaqueTypes ∧ r = true ∧
      s' = { s with
        DstResolvedOpaqueTypes := s.DstResolvedOpaqueTypes ++ [DstTy]
        SrcDefinitionsToResolve := s.SrcDefinitionsToResolve ++ [SrcTy]
        SpeculativeTypes := s.SpeculativeTypes ++ [SrcTy]
        SpeculativeDstOpaqueTypes := s.SpeculativeDstOpaqueTypes ++ [DstTy]
        MappedTypes := (s.MappedTypes.subscript SrcTy).assign SrcTy DstTy }) ∨
    ((ctx.getType DstTy).id = (ctx.getType SrcTy).id ∧ s.MappedTypes.lookup SrcTy = none ∧
      DstTy ≠ SrcTy ∧
      ¬ ((ctx.getType SrcTy).id = TypeID.StructTyID ∧ (ctx.getType SrcTy).isOpaque = true) ∧
      ¬ ((ctx.getType SrcTy).id = TypeID.StructTyID ∧ (ctx.getType DstTy).isOpaque = true) ∧
      ((ctx.getType SrcTy).contained.length ≠ (ctx.getType DstTy).contained.length ∨
        (ctx.getType DstTy).id = TypeID.IntegerTyID ∨
        extraPropertiesDisagree (ctx.getType DstTy) (ctx.getType SrcTy) = true) ∧
      r = false ∧ s' = { s with MappedTypes := s.MappedTypes.subscript SrcTy }) ∨
    ((ctx.getType DstTy).id = (ctx.getType SrcTy).id ∧ s.MappedTypes.lookup SrcTy = none ∧
      DstTy ≠ SrcTy ∧
      ¬ ((ctx.getType SrcTy).id = TypeID.StructTyID ∧ (ctx.getType SrcTy).isOpaque = true) ∧
      ¬ ((ctx.getType SrcTy).id = TypeID.StructTyID ∧ (ctx.getType DstTy).isOpaque = true) ∧
      (ctx.getType SrcTy).contained.length = (ctx.getType DstTy).contained.length ∧
      (ctx.getType DstTy).id ≠ TypeID.IntegerTyID ∧
      extraPropertiesDisagree (ctx.getType DstTy) (ctx.getType SrcTy) = false ∧
      isoLoop (areTypesIsomorphic ctx fuel) (containedPairs ctx DstTy SrcTy)
        { s with
          MappedTypes := (s.MappedTypes.subscript SrcTy).assign SrcTy DstTy
          SpeculativeTypes := s.SpeculativeTypes ++ [SrcTy] } = some (r, s')) := by
  rw [areTypesIsomorphic] at h
  simp only [] at h
  by_cases hid : (ctx.getType DstTy).id = (ctx.getType SrcTy).id
  swap
  · left
    rw [if_pos hid] at h
    simp only [Option.some.injEq, Prod.mk.injEq] at h
    exact ⟨hid, h.1.symm, h.2.symm⟩
  right
  rw [if_neg (not_not.mpr hid)] at h
  rw [lookup_subscript] at h
  cases hl : s.MappedTypes.lookup SrcTy with
  | some E =>
    left
    rw [hl] at h
    simp only [Option.some.injEq, Prod.mk.injEq] at h
    exact ⟨hid, E, rfl, h.1.symm, h.2.symm⟩
  | none =>
    right
    rw [hl] at h
    simp only [] at h
    by_cases hds : DstTy = SrcTy
    · left
      rw [if_pos hds] at h
      simp only [Option.some.injEq, Prod.mk.injEq] at h
      exact ⟨hid, rfl, hds, h.1.symm, h.2.symm⟩
    right
    rw [if_neg hds] at h
    by_cases hso : (ctx.getType SrcTy).id = TypeID.StructTyID ∧ (ctx.getType SrcTy).isOpaque = true
    · left
      rw [if_pos hso] at h
      simp only [Option.some.injEq, Prod.mk.injEq] at h
      exact ⟨hid, rfl, hds, hso.1, hso.2, h.1.symm, h.2.symm⟩
    right
    rw [if_neg hso] at h
    by_cases hdo : (ctx.getType SrcTy).id = TypeID.StructTyID ∧ (ctx.getType DstTy).isOpaque = true
    · rw [if_pos hdo] at h
      have hsno : (ctx.getType SrcTy).isOpaque = false := by
        cases hq : (ctx.getType SrcTy).isOpaque
        · rfl
        · exact absurd ⟨hdo.1, hq⟩ hso
      by_cases hmem : DstTy ∈ s.DstResolvedOpaqueTypes
      · left
        simp only [SmallPtrSet.insert, if_pos hmem, Option.some.injEq, Prod.mk.injEq] at h
        exact ⟨hid, rfl, hds, hdo.1, hsno, hdo.2, hmem, h.1.symm, h.2.symm⟩
      · right; left
        simp only [SmallPtrSet.insert, if_neg hmem, Option.some.injEq, Prod.mk.injEq] at h
        exact ⟨hid, rfl, hds, hdo.1, hsno, hdo.2, hmem, h.1.symm, h.2.symm⟩
    right; right
    rw [if_neg hdo] at h
    by_cases hlen : (ctx.getType SrcTy).contained.length = (ctx.getType DstTy).contained.length
    swap
    · left
      rw [if_pos hlen] at h
      simp only [Option.some.injEq, Prod.mk.injEq] at h
      exact ⟨hid, rfl, hds, hso, hdo, Or.inl hlen, h.1.symm, h.2.symm⟩
    rw [if_neg (not_not.mpr hlen)] at h
    by_cases hint : (ctx.getType DstTy).id = TypeID.IntegerTyID
    · left
      rw [if_pos hint] at h
      simp only [Option.some.injEq, Prod.mk.injEq] at h
      exact ⟨hid, rfl, hds, hso, hdo, Or.inr (Or.inl hint), h.1.symm, h.2.symm⟩
    rw [if_neg hint] at h
    by_cases hex : extraPropertiesDisagree (ctx.getType DstTy) (ctx.getType SrcTy) = true
    · left
      rw [if_pos hex] at h
      simp only [Option.some.injEq, Prod.mk.injEq] at h
      exact ⟨hid, rfl, hds, hso, hdo, Or.inr (Or.inr hex), h.1.symm, h.2.symm⟩
    right
    rw [if_neg hex] at h
    have hexf : extraPropertiesDisagree (ctx.getType DstTy) (ctx.getType SrcTy) = false := by
      cases hq : extraPropertiesDisagree (ctx.getType DstTy) (ctx.getType SrcTy)
      · rfl
      · exact absurd hq hex
    exact ⟨hid, rfl, hds, hso, hdo, hlen, hint, hexf, h⟩

end TypeMapTy
end IRMover

namespace IRMover
namespace TypeMapTy
open DenseMap

theorem extends_refl (ctx : LLVMContext) (s : TypeMapTy) : Extends ctx s s where
  mono := fun _ _ h => h
  spec := ⟨[], by simp, List.nodup_nil, by simp, fun k d h1 h2 => by rw [h1] at h2; cases h2⟩
  claims := ⟨[], [], by simp, by simp, rfl, by simp, by simp⟩
  claimed := fun k d h1 h2 => by rw [h1] at h2; cases h2
  index := rfl

theorem extends_trans {ctx : LLVMContext} {s s1 s2 : TypeMapTy}
    (h1 : Extends ctx s s1) (h2 : Extends ctx s1 s2) : Extends ctx s s2 := by
  obtain ⟨n1, e1, nd1, a1, b1⟩ := h1.spec
  obtain ⟨n2, e2, nd2, a2, b2⟩ := h2.spec
  obtain ⟨o1, q1, c1, d1, l1, r1, f1⟩ := h1.claims
  obtain ⟨o2, q2, c2, d2, l2, r2, f2⟩ := h2.claims
  have key : ∀ k, s.MappedTypes.lookup k = none → ∀ d, s2.MappedTypes.lookup k = some d →
      (s1.MappedTypes.lookup k = none) ∨ (s1.MappedTypes.lookup k = some d) := by
    intro k _ d hd
    cases hk : s1.MappedTypes.lookup k with
    | none => exact Or.inl rfl
    | some v =>
      right
      have := h2.mono k v hk
      rw [hd] at this
      rw [this]
  refine ⟨fun k v h => h2.mono k v (h1.mono k v h), ⟨n1 ++ n2, ?_, ?_, ?_, ?_⟩,
    ⟨o1 ++ o2, q1 ++ q2, ?_, ?_, ?_, ?_, ?_⟩, ?_, ?_⟩
  · rw [e2, e1, List.append_assoc]
  · rw [List.nodup_append]
    refine ⟨nd1, nd2, ?_⟩
    intro k hk1 hk2
    exact (a1 k hk1).2 (a2 k hk2).1
  · intro k hk
    rcases List.mem_append.mp hk with hk | hk
    · refine ⟨(a1 k hk).1, ?_⟩
      cases hv : s1.MappedTypes.lookup k with
      | none => exact absurd hv (a1 k hk).2
      | some v => rw [h2.mono k v hv]; simp
    · refine ⟨?_, (a2 k hk).2⟩
      cases hv : s.MappedTypes.lookup k with
      | none => rfl
      | some v =>
        have := h1.mono k v hv
        rw [(a2 k hk).1] at this
        cases this
  · intro k d hk hd
    rcases key k hk d hd with h | h
    · rcases b2 k d h hd with h' | h'
      · exact Or.inl (List.mem_append.mpr (Or.inr h'))
      · exact Or.inr h'
    · rcases b1 k d hk h with h' | h'
      · exact Or.inl (List.mem_append.mpr (Or.inl h'))
      · exact Or.inr h'
  · rw [c2, c1, List.append_assoc]
  · rw [d2, d1, List.append_assoc]
  · simp [l1, l2]
  · rw [r2, r1, List.append_assoc]
  · intro x hx
    rcases List.mem_append.mp hx with hx | hx
    · exact f1 x hx
    · intro hxs
      apply f2 x hx
      rw [r1]
      exact List.mem_append.mpr (Or.inl hxs)
  · intro k d hk hd hne hst hno hdo
    rcases key k hk d hd with h | h
    · exact h2.claimed k d h hd hne hst hno hdo
    · have := h1.claimed k d hk h hne hst hno hdo
      rw [r2]
      exact List.mem_append.mpr (Or.inl this)
  · rw [h2.index, h1.index]

theorem extends_subscript (ctx : LLVMContext) (s : TypeMapTy) (k : Nat) :
    Extends ctx s { s with MappedTypes := s.MappedTypes.subscript k } where
  mono := fun a v h => by simpa [lookup_subscript] using h
  spec := ⟨[], by simp, List.nodup_nil, by simp, fun a d h1 h2 => by
    simp only [lookup_subscript] at h2; rw [h1] at h2; cases h2⟩
  claims := ⟨[], [], by simp, by simp, rfl, by simp, by simp⟩
  claimed := fun a d h1 h2 => by
    simp only [lookup_subscript] at h2; rw [h1] at h2; cases h2
  index := rfl

theorem extends_step (ctx : LLVMContext) (s : TypeMapTy) (S D : Nat) (n o q : List Nat)
    (hl : s.MappedTypes.lookup S = none)
    (hn : n = [S] ∨ (n = [] ∧ D = S)) (hq : q.length = o.length)
    (ho : ∀ x ∈ o, x ∉ s.DstResolvedOpaqueTypes)
    (hc : S ≠ D → (ctx.getType S).id = TypeID.StructTyID → (ctx.getType S).isOpaque = false →
      (ctx.getType D).isOpaque = true → D ∈ s.DstResolvedOpaqueTypes ++ o) :
    Extends ctx s
      { MappedTypes := (s.MappedTypes.subscript S).assign S D
        SpeculativeTypes := s.SpeculativeTypes ++ n
        SpeculativeDstOpaqueTypes := s.SpeculativeDstOpaqueTypes ++ o
        SrcDefinitionsToResolve := s.SrcDefinitionsToResolve ++ q
        DstResolvedOpaqueTypes := s.DstResolvedOpaqueTypes ++ o
        DstStructTypesSet := s.DstStructTypesSet } where
  mono := fun a v h => by
    simp only [lookup_set]
    by_cases ha : a = S
    · subst ha; rw [hl] at h; cases h
    · simpa [ha] using h
  spec := by
    refine ⟨n, rfl, ?_, ?_, ?_⟩
    · rcases hn with h | h
      · rw [h]; simp
      · rw [h.1]; simp
    · intro k hk
      rcases hn with h | h
      · rw [h] at hk
        simp only [List.mem_singleton] at hk
        subst hk
        exact ⟨hl, by simp [lookup_set]⟩
      · rw [h.1] at hk; simp at hk
    · intro k d hk hd
      simp only [lookup_set] at hd
      by_cases ha : k = S
      · subst ha
        simp only [if_true, Option.some.injEq] at hd
        rcases hn with h | h
        · left; rw [h]; simp
        · right; rw [← hd, h.2]
      · simp only [if_neg ha] at hd
        rw [hk] at hd; cases hd
  claims := ⟨o, q, rfl, rfl, hq, rfl, ho⟩
  claimed := by
    intro k d hk hd hne hst hno hdo
    simp only [lookup_set] at hd
    by_cases ha : k = S
    · subst ha
      simp only [if_true, Option.some.injEq] at hd
      subst hd
      exact hc hne hst hno hdo
    · simp only [if_neg ha] at hd
      rw [hk] at hd; cases hd
  index := rfl

theorem isoLoop_extends {ctx : LLVMContext}
    {rec : TypeMapTy → Nat → Nat → Option (Bool × TypeMapTy)}
    (hrec : ∀ s d t r s', rec s d t = some (r, s') → Extends ctx s s') :
    ∀ (pairs : List (Nat × Nat)) (s : TypeMapTy) (r : Bool) (s' : TypeMapTy),
      isoLoop rec pairs s = some (r, s') → Extends ctx s s' := by
  intro pairs
  induction pairs with
  | nil =>
    intro s r s' h
    simp only [isoLoop, Option.some.injEq, Prod.mk.injEq] at h
    rw [← h.2]
    exact extends_refl ctx s
  | cons p rest ih =>
    intro s r s' h
    obtain ⟨d, t⟩ := p
    rw [isoLoop] at h
    cases hr : rec s d t with
    | none => rw [hr] at h; cases h
    | some res =>
      obtain ⟨b, s1⟩ := res
      rw [hr] at h
      cases b with
      | false =>
        simp only [Option.some.injEq, Prod.mk.injEq] at h
        rw [← h.2]
        exact hrec s d t false s1 hr
      | true =>
        simp only at h
        exact extends_trans (hrec s d t true s1 hr) (ih s1 r s' h)

theorem areTypesIsomorphic_extends (ctx : LLVMContext) :
    ∀ (fuel : Nat) (s : TypeMapTy) (DstTy SrcTy : Nat) (r : Bool) (s' : TypeMapTy),
      areTypesIsomorphic ctx fuel s DstTy SrcTy = some (r, s') → Extends ctx s s' := by
  intro fuel
  induction fuel with
  | zero => intro s D S r s' h; simp [areTypesIsomorphic] at h
  | succ fuel ih =>
    intro s D S r s' h
    rcases areTypesIsomorphic_cases h with
      ⟨_, _, e⟩ | ⟨_, _, _, _, e⟩ | ⟨_, hl, hds, _, e⟩ | ⟨_, hl, hds, hst, hop, _, e⟩ |
      ⟨_, _, _, _, _, _, _, _, e⟩ | ⟨_, hl, hds, hst, hno, hdo, hmem, _, e⟩ |
      ⟨_, _, _, _, _, _, _, e⟩ | ⟨_, hl, hds, hso, hdo, _, _, _, e⟩
    · rw [e]; exact extends_refl ctx s
    · rw [e]; exact extends_subscript ctx s S
    · rw [e]
      have := extends_step ctx s S D [] [] [] hl (Or.inr ⟨rfl, hds⟩) rfl (by simp)
        (fun hne => absurd hds.symm hne)
      simpa using this
    · rw [e]
      have := extends_step ctx s S D [S] [] [] hl (Or.inl rfl) rfl (by simp)
        (fun _ _ hno => by rw [hop] at hno; cases hno)
      simpa using this
    · rw [e]; exact extends_subscript ctx s S
    · rw [e]
      have := extends_step ctx s S D [S] [D] [S] hl (Or.inl rfl) rfl
        (by intro x hx; simp only [List.mem_singleton] at hx; subst hx; exact hmem)
        (fun _ _ _ _ => by simp)
      simpa using this
    · rw [e]; exact extends_subscript ctx s S
    · have h1 := extends_step ctx s S D [S] [] [] hl (Or.inl rfl) rfl (by simp)
        (fun _ hst _ hopq => absurd ⟨hst, hopq⟩ hdo)
      simp only [List.append_nil] at h1
      exact extends_trans h1 (isoLoop_extends ih _ _ r s' e)

end TypeMapTy
end IRMover

namespace IRMover
namespace TypeMapTy
open DenseMap

theorem countP_lt_of_witness {p q : Nat → Bool} (hpq : ∀ x, p x = true → q x = true) (a : Nat) :
    ∀ l : List Nat, a ∈ l → q a = true → p a = false → l.countP p < l.countP q := by
  intro l
  induction l with
  | nil => intro h; simp at h
  | cons x xs ih =>
    intro ha hq hp
    have hle : xs.countP p ≤ xs.countP q := List.countP_mono_left (fun y _ => hpq y)
    rw [List.countP_cons, List.countP_cons]
    by_cases hax : a = x
    · subst hax
      simp only [hp, hq, if_true]
      simp only [Bool.false_eq_true, if_false]
      omega
    · have hmem : a ∈ xs := by
        rcases List.mem_cons.mp ha with h | h
        · exact absurd h hax
        · exact h
      have := ih hmem hq hp
      have himp := hpq x
      cases hpx : p x <;> cases hqx : q x <;> simp_all
      omega

theorem unmappedCount_le {ctx : LLVMContext} {s s' : TypeMapTy} (h : Extends ctx s s') :
    unmappedCount ctx s'.MappedTypes ≤ unmappedCount ctx s.MappedTypes := by
  unfold unmappedCount
  apply List.countP_mono_left
  intro k _ hk
  cases hv : s.MappedTypes.lookup k with
  | none => rfl
  | some v => rw [h.mono k v hv] at hk; cases hk

theorem unmappedCount_lt {ctx : LLVMContext} {s s' : TypeMapTy} (h : Extends ctx s s')
    (S D : Nat) (hS : S < ctx.length) (h0 : s.MappedTypes.lookup S = none)
    (h1 : s'.MappedTypes.lookup S = some D) :
    unmappedCount ctx s'.MappedTypes < unmappedCount ctx s.MappedTypes := by
  unfold unmappedCount
  apply countP_lt_of_witness _ S _ (List.mem_range.mpr hS)
  · rw [h0]; rfl
  · rw [h1]; rfl
  · intro k hk
    cases hv : s.MappedTypes.lookup k with
    | none => rfl
    | some v => rw [h.mono k v hv] at hk; cases hk

theorem containedPairs_nil_of_ge (ctx : LLVMContext) (D S : Nat) (h : ctx.length ≤ S) :
    containedPairs ctx D S = [] := by
  unfold containedPairs LLVMContext.getNumContainedTypes LLVMContext.getType
  rw [List.getD_eq_default _ _ h]
  rfl

theorem isoLoop_total {ctx : LLVMContext} {fuel : Nat}
    (ih : ∀ (s : TypeMapTy) (D S : Nat), unmappedCount ctx s.MappedTypes < fuel →
      ∃ r s', areTypesIsomorphic ctx fuel s D S = some (r, s')) :
    ∀ (pairs : List (Nat × Nat)) (s : TypeMapTy), unmappedCount ctx s.MappedTypes < fuel →
      ∃ r s', isoLoop (areTypesIsomorphic ctx fuel) pairs s = some (r, s') := by
  intro pairs
  induction pairs with
  | nil => intro s _; exact ⟨true, s, rfl⟩
  | cons p rest ihl =>
    intro s hs
    obtain ⟨d, t⟩ := p
    obtain ⟨r, s1, h1⟩ := ih s d t hs
    rw [isoLoop, h1]
    cases r with
    | false => exact ⟨false, s1, rfl⟩
    | true =>
      have hle := unmappedCount_le (areTypesIsomorphic_extends ctx fuel s d t true s1 h1)
      exact ihl s1 (by omega)

theorem areTypesIsomorphic_total (ctx : LLVMContext) :
    ∀ (fuel : Nat) (s : TypeMapTy) (D S : Nat), unmappedCount ctx s.MappedTypes < fuel →
      ∃ r s', areTypesIsomorphic ctx fuel s D S = some (r, s') := by
  intro fuel
  induction fuel with
  | zero => intro s D S h; omega
  | succ fuel ih =>
    intro s D S hfuel
    rw [areTypesIsomorphic]
    simp only []
    split
    · exact ⟨_, _, rfl⟩
    rw [lookup_subscript]
    cases hl : s.MappedTypes.lookup S with
    | some E => exact ⟨_, _, rfl⟩
    | none =>
      simp only []
      split
      · exact ⟨_, _, rfl⟩
      split
      · exact ⟨_, _, rfl⟩
      split
      · unfold SmallPtrSet.insert
        split <;> exact ⟨_, _, rfl⟩
      split
      · exact ⟨_, _, rfl⟩
      split
      · exact ⟨_, _, rfl⟩
      split
      · exact ⟨_, _, rfl⟩
      by_cases hS : S < ctx.length
      · apply isoLoop_total ih
        have hstep := extends_step ctx s S D [S] [] [] hl (Or.inl rfl) rfl (by simp)
          (fun _ hst _ hopq => by simp_all)
        have := unmappedCount_lt hstep S D hS hl (by simp [lookup_set])
        simp only [List.append_nil] at this ⊢
        omega
      · rw [containedPairs_nil_of_ge ctx D S (by omega)]
        exact ⟨_, _, rfl⟩

theorem unmappedCount_le_length (ctx : LLVMContext) (m : DenseMap) :
    unmappedCount ctx m ≤ ctx.length := by
  unfold unmappedCount
  calc (List.range ctx.length).countP _ ≤ (List.range ctx.length).length := List.countP_le_length _
    _ = ctx.length := List.length_range _

end TypeMapTy
end IRMover

namespace IRMover
namespace TypeMapTy
open DenseMap

/-! ### Failure of `addTypeMapping` -/

theorem addTypeMapping_of_false {ctx : LLVMContext} {fuel : Nat} {s s1 : TypeMapTy}
    {DstTy SrcTy : Nat} (h : areTypesIsomorphic ctx fuel s DstTy SrcTy = some (false, s1)) :
    addTypeMapping ctx fuel s DstTy SrcTy =
      some (ctx, { s1 with
        MappedTypes := s1.SpeculativeTypes.foldl DenseMap.erase s1.MappedTypes
        SrcDefinitionsToResolve :=
          s1.SrcDefinitionsToResolve.take
            (s1.SrcDefinitionsToResolve.length - s1.SpeculativeDstOpaqueTypes.length)
        DstResolvedOpaqueTypes :=
          s1.SpeculativeDstOpaqueTypes.foldl SmallPtrSet.erase s1.DstResolvedOpaqueTypes
        SpeculativeTypes := []
        SpeculativeDstOpaqueTypes := [] }) := by
  rw [addTypeMapping, h]

theorem addTypeMapping_of_true {ctx : LLVMContext} {fuel : Nat} {s s1 : TypeMapTy}
    {DstTy SrcTy : Nat} (h : areTypesIsomorphic ctx fuel s DstTy SrcTy = some (true, s1)) :
    addTypeMapping ctx fuel s DstTy SrcTy =
      some (clearSpeculativeNames ctx s1.SpeculativeTypes,
        { s1 with SpeculativeTypes := [], SpeculativeDstOpaqueTypes := [] }) := by
  rw [addTypeMapping, h]

/-- C1 (as stated, refuted): unifying `{i32, float}*` with `{i32, double}*` in
a fresh mapper fails, yet afterwards `i32` is mapped to itself while it had no
entry before: the mapping is not what it was before the call. -/
theorem addTypeMapping_failure_keeps_identity_entry :
    (areTypesIsomorphic exampleLiteralCtx 4 (init ⟨[], []⟩) 5 6).map Prod.fst = some false ∧
    (addTypeMapping exampleLiteralCtx 4 (init ⟨[], []⟩) 5 6).map
      (fun r => r.2.MappedTypes.lookup 0) = some (some 0) ∧
    (init ⟨[], []⟩).MappedTypes.lookup 0 = none := by
  decide

/-- The rollback of a failed `addTypeMapping`: the queue and the claimed set
are restored, the mapping keeps only identity entries of the failed call. -/
theorem addTypeMapping_rollback (ctx : LLVMContext) (fuel : Nat) (s s1 : TypeMapTy)
    (DstTy SrcTy : Nat) (hs : s.SpeculativeTypes = [])
    (hd : s.SpeculativeDstOpaqueTypes = [])
    (h : areTypesIsomorphic ctx fuel s DstTy SrcTy = some (false, s1)) :
    ∃ tm, addTypeMapping ctx fuel s DstTy SrcTy = some (ctx, tm) ∧
      tm.SrcDefinitionsToResolve = s.SrcDefinitionsToResolve ∧
      tm.DstResolvedOpaqueTypes = s.DstResolvedOpaqueTypes ∧
      tm.SpeculativeTypes = [] ∧ tm.SpeculativeDstOpaqueTypes = [] ∧
      tm.DstStructTypesSet = s.DstStructTypesSet ∧
      ∀ T, tm.MappedTypes.lookup T = s.MappedTypes.lookup T ∨
        (s.MappedTypes.lookup T = none ∧ tm.MappedTypes.lookup T = some T) := by
  have hext := areTypesIsomorphic_extends ctx fuel s DstTy SrcTy false s1 h
  obtain ⟨n, e1, _, a1, b1⟩ := hext.spec
  obtain ⟨o, q, c1, d1, l1, r1, f1⟩ := hext.claims
  rw [hs, List.nil_append] at e1
  rw [hd, List.nil_append] at c1
  refine ⟨_, addTypeMapping_of_false h, ?_, ?_, rfl, rfl, hext.index, ?_⟩
  · show List.take _ s1.SrcDefinitionsToResolve = _
    rw [d1, c1, List.length_append, l1, Nat.add_sub_cancel, List.take_left]
  · show List.foldl SmallPtrSet.erase s1.DstResolvedOpaqueTypes _ = _
    rw [c1, r1]
    exact SmallPtrSet.foldl_erase_append _ _ f1
  · intro T
    show lookup (List.foldl DenseMap.erase s1.MappedTypes s1.SpeculativeTypes) T = _ ∨ _ ∧
      lookup (List.foldl DenseMap.erase s1.MappedTypes s1.SpeculativeTypes) T = _
    rw [lookup_foldl_erase, e1]
    by_cases hT : T ∈ n
    · left; rw [if_pos hT, (a1 T hT).1]
    · rw [if_neg hT]
      cases hv : s.MappedTypes.lookup T with
      | some v => left; exact hext.mono T v hv
      | none =>
        cases hv1 : s1.MappedTypes.lookup T with
        | none => left; rfl
        | some d =>
          right
          rcases b1 T d hv hv1 with h' | h'
          · exact absurd h' hT
          · exact ⟨rfl, by rw [h']⟩

/-- C1 (amended): when `areTypesIsomorphic` finds the pair not isomorphic,
`addTypeMapping` returns with the queue of structs awaiting a body and the set
of claimed opaque destination structs exactly as before the call, and with a
mapping that agrees with the old one at every type, except that a type which
had no entry may now be mapped to itself. -/
theorem addTypeMapping_failure_rollback (ctx : LLVMContext) (fuel : Nat) (s s1 : TypeMapTy)
    (DstTy SrcTy : Nat) (hs : s.SpeculativeTypes = [])
    (hd : s.SpeculativeDstOpaqueTypes = [])
    (h : areTypesIsomorphic ctx fuel s DstTy SrcTy = some (false, s1)) :
    ∃ tm, addTypeMapping ctx fuel s DstTy SrcTy = some (ctx, tm) ∧
      tm.SrcDefinitionsToResolve = s.SrcDefinitionsToResolve ∧
      tm.DstResolvedOpaqueTypes = s.DstResolvedOpaqueTypes ∧
      tm.SpeculativeTypes = [] ∧ tm.SpeculativeDstOpaqueTypes = [] ∧
      tm.DstStructTypesSet = s.DstStructTypesSet ∧
      ∀ T, tm.MappedTypes.lookup T = s.MappedTypes.lookup T ∨
        (s.MappedTypes.lookup T = none ∧ tm.MappedTypes.lookup T = some T) :=
  addTypeMapping_rollback ctx fuel s s1 DstTy SrcTy hs hd h

/-- C1 (amended), at `{i32, float}*` against `{i32, double}*`. -/
theorem addTypeMapping_failure_rollback_witness :
    areTypesIsomorphic exampleLiteralCtx 4 (init ⟨[], []⟩) 5 6 =
        some (false, ⟨[(6, some 5), (4, some 3), (0, some 0)], [6, 4], [], [], [], ⟨[], []⟩⟩) ∧
    ∃ tm, addTypeMapping exampleLiteralCtx 4 (init ⟨[], []⟩) 5 6 = some (exampleLiteralCtx, tm) ∧
      tm.SrcDefinitionsToResolve = (init ⟨[], []⟩).SrcDefinitionsToResolve ∧
      tm.DstResolvedOpaqueTypes = (init ⟨[], []⟩).DstResolvedOpaqueTypes ∧
      tm.SpeculativeTypes = [] ∧ tm.SpeculativeDstOpaqueTypes = [] ∧
      tm.DstStructTypesSet = (init ⟨[], []⟩).DstStructTypesSet ∧
      ∀ T, tm.MappedTypes.lookup T = (init ⟨[], []⟩).MappedTypes.lookup T ∨
        ((init ⟨[], []⟩).MappedTypes.lookup T = none ∧ tm.MappedTypes.lookup T = some T) :=
  ⟨by decide, addTypeMapping_failure_rollback exampleLiteralCtx 4 (init ⟨[], []⟩)
    ⟨[(6, some 5), (4, some 3), (0, some 0)], [6, 4], [], [], [], ⟨[], []⟩⟩ 5 6 rfl rfl
    (by decide)⟩

end TypeMapTy
end IRMover

namespace IRMover
namespace TypeMapTy
open DenseMap

/-! ### Soundness and termination of `areTypesIsomorphic` -/

theorem areTypesIsomorphic_maps {ctx : LLVMContext} {fuel : Nat} {s s' : TypeMapTy}
    {DstTy SrcTy : Nat} (h : areTypesIsomorphic ctx fuel s DstTy SrcTy = some (true, s')) :
    s'.MappedTypes.lookup SrcTy = some DstTy := by
  cases fuel with
  | zero => simp [areTypesIsomorphic] at h
  | succ fuel =>
    rcases areTypesIsomorphic_cases h with
      ⟨_, r, _⟩ | ⟨_, E, hE, r, e⟩ | ⟨_, _, _, _, e⟩ | ⟨_, _, _, _, _, _, e⟩ |
      ⟨_, _, _, _, _, _, _, r, _⟩ | ⟨_, _, _, _, _, _, _, _, e⟩ |
      ⟨_, _, _, _, _, _, r, _⟩ | ⟨_, hl, _, _, hdo, _, _, _, e⟩
    · cases r
    · have : E = DstTy := by simpa using r.symm
      rw [e, ← this]
      simpa [lookup_subscript] using hE
    · rw [e]; simp [lookup_set]
    · rw [e]; simp [lookup_set]
    · cases r
    · rw [e]; simp [lookup_set]
    · cases r
    · have hext := isoLoop_extends (areTypesIsomorphic_extends ctx fuel) _ _ _ _ e
      exact hext.mono SrcTy DstTy (by simp [lookup_set])

theorem isoLoop_maps {ctx : LLVMContext}
    {rec : TypeMapTy → Nat → Nat → Option (Bool × TypeMapTy)}
    (hext : ∀ s d t r s', rec s d t = some (r, s') → Extends ctx s s')
    (hmap : ∀ s d t s', rec s d t = some (true, s') → s'.MappedTypes.lookup t = some d) :
    ∀ (pairs : List (Nat × Nat)) (s s' : TypeMapTy),
      isoLoop rec pairs s = some (true, s') →
      ∀ p ∈ pairs, s'.MappedTypes.lookup p.2 = some p.1 := by
  intro pairs
  induction pairs with
  | nil => intro s s' _ p hp; simp at hp
  | cons p0 rest ih =>
    intro s s' h p hp
    obtain ⟨d, t⟩ := p0
    rw [isoLoop] at h
    cases hr : rec s d t with
    | none => rw [hr] at h; cases h
    | some res =>
      obtain ⟨b, s1⟩ := res
      rw [hr] at h
      cases b with
      | false => simp at h
      | true =>
        simp only at h
        rcases List.mem_cons.mp hp with hp | hp
        · subst hp
          exact (isoLoop_extends hext rest s1 true s' h).mono t d (hmap s d t s1 hr)
        · exact ih s1 s' h p hp

/-- C2: when `areTypesIsomorphic(DstTy, SrcTy)` returns true the mapping sends
`SrcTy` to `DstTy`; and when the pair went through the structural path (no
prior entry for `SrcTy`, the two are different nodes, `SrcTy` is not an opaque
struct and the pair is not a struct onto an opaque destination) the two types
have the same kind and the same number of contained types, and the mapping
sends each contained type of `SrcTy` to the contained type of `DstTy` at the
same index. -/
theorem areTypesIsomorphic_sound (ctx : LLVMContext) (fuel : Nat) (s s' : TypeMapTy)
    (DstTy SrcTy : Nat) (h : areTypesIsomorphic ctx fuel s DstTy SrcTy = some (true, s')) :
    s'.MappedTypes.lookup SrcTy = some DstTy ∧
    (s.MappedTypes.lookup SrcTy = none → SrcTy ≠ DstTy →
      ¬ ((ctx.getType SrcTy).id = TypeID.StructTyID ∧ (ctx.getType SrcTy).isOpaque = true) →
      ¬ ((ctx.getType SrcTy).id = TypeID.StructTyID ∧ (ctx.getType DstTy).isOpaque = true) →
      (ctx.getType SrcTy).id = (ctx.getType DstTy).id ∧
      ctx.getNumContainedTypes SrcTy = ctx.getNumContainedTypes DstTy ∧
      ∀ I, I < ctx.getNumContainedTypes SrcTy →
        s'.MappedTypes.lookup (ctx.getContainedType SrcTy I) =
          some (ctx.getContainedType DstTy I)) := by
  refine ⟨areTypesIsomorphic_maps h, ?_⟩
  intro hl hne hso hdo
  cases fuel with
  | zero => simp [areTypesIsomorphic] at h
  | succ fuel =>
    rcases areTypesIsomorphic_cases h with
      ⟨_, r, _⟩ | ⟨_, E, hE, _, _⟩ | ⟨_, _, hds, _, _⟩ | ⟨_, _, _, hst, hop, _, _⟩ |
      ⟨_, _, _, _, _, _, _, r, _⟩ | ⟨_, _, _, hst, _, hop, _, _, _⟩ |
      ⟨_, _, _, _, _, _, r, _⟩ | ⟨hid, _, _, _, _, hlen, _, _, e⟩
    · cases r
    · rw [hl] at hE; cases hE
    · exact absurd hds.symm hne
    · exact absurd ⟨hst, hop⟩ hso
    · cases r
    · exact absurd ⟨hst, hop⟩ hdo
    · cases r
    · refine ⟨hid.symm, hlen, ?_⟩
      intro I hI
      have := isoLoop_maps (areTypesIsomorphic_extends ctx fuel)
        (fun _ _ _ _ hh => areTypesIsomorphic_maps hh) _ _ _ e
        (ctx.getContainedType DstTy I, ctx.getContainedType SrcTy I)
        (by
          unfold containedPairs
          exact List.mem_map.mpr ⟨I, List.mem_range.mpr hI, rfl⟩)
      exact this

/-- C2, at `%Node.1` against `%Node` in a fresh mapper. -/
theorem areTypesIsomorphic_sound_witness :
    areTypesIsomorphic exampleNodeCtx 3 (init ⟨[], []⟩) 0 2 =
      some (true, ⟨[(2, some 0), (3, some 1)], [2, 3], [], [], [], ⟨[], []⟩⟩) ∧
    (⟨[(2, some 0), (3, some 1)], [2, 3], [], [], [], ⟨[], []⟩⟩ : TypeMapTy).MappedTypes.lookup 2
        = some 0 ∧
    ((exampleNodeCtx.getType 2).id = (exampleNodeCtx.getType 0).id ∧
      exampleNodeCtx.getNumContainedTypes 2 = exampleNodeCtx.getNumContainedTypes 0 ∧
      ∀ I, I < exampleNodeCtx.getNumContainedTypes 2 →
        (⟨[(2, some 0), (3, some 1)], [2, 3], [], [], [], ⟨[], []⟩⟩ :
            TypeMapTy).MappedTypes.lookup (exampleNodeCtx.getContainedType 2 I) =
          some (exampleNodeCtx.getContainedType 0 I)) :=
  ⟨by decide,
    (areTypesIsomorphic_sound exampleNodeCtx 3 (init ⟨[], []⟩)
      ⟨[(2, some 0), (3, some 1)], [2, 3], [], [], [], ⟨[], []⟩⟩ 0 2 (by decide)).1,
    (areTypesIsomorphic_sound exampleNodeCtx 3 (init ⟨[], []⟩)
      ⟨[(2, some 0), (3, some 1)], [2, 3], [], [], [], ⟨[], []⟩⟩ 0 2 (by decide)).2
      (by decide) (by decide) (by decide) (by decide)⟩

theorem areTypesIsomorphic_of_entry {ctx : LLVMContext} (fuel : Nat) {s : TypeMapTy}
    {DstTy SrcTy E : Nat} (hid : (ctx.getType DstTy).id = (ctx.getType SrcTy).id)
    (hl : s.MappedTypes.lookup SrcTy = some E) :
    areTypesIsomorphic ctx (fuel + 1) s DstTy SrcTy =
      some (decide (E = DstTy), { s with MappedTypes := s.MappedTypes.subscript SrcTy }) := by
  rw [areTypesIsomorphic]
  simp only []
  rw [if_neg (not_not.mpr hid), lookup_subscript, hl]

/-- C3: `areTypesIsomorphic` returns on every pair of types of a finite type
graph, whatever the mapper state, within a recursion depth of the number of
types plus one; a source type that already has an entry is answered without
any descent (depth one suffices, so it is never expanded again); and the types
the call adds to `SpeculativeTypes`, among them every type it expands, are
pairwise distinct and had no entry before. -/
theorem areTypesIsomorphic_terminates (ctx : LLVMContext) (s : TypeMapTy) (DstTy SrcTy : Nat) :
    (∃ r s', areTypesIsomorphic ctx (ctx.length + 1) s DstTy SrcTy = some (r, s') ∧
      ∃ n : List Nat, s'.SpeculativeTypes = s.SpeculativeTypes ++ n ∧ n.Nodup ∧
        ∀ k ∈ n, s.MappedTypes.lookup k = none) ∧
    (∀ E, s.MappedTypes.lookup SrcTy = some E →
      ∃ r s', areTypesIsomorphic ctx 1 s DstTy SrcTy = some (r, s')) := by
  constructor
  · obtain ⟨r, s', h⟩ := areTypesIsomorphic_total ctx (ctx.length + 1) s DstTy SrcTy
      (Nat.lt_succ_of_le (unmappedCount_le_length ctx s.MappedTypes))
    obtain ⟨n, e, nd, a, _⟩ := (areTypesIsomorphic_extends ctx _ s DstTy SrcTy r s' h).spec
    exact ⟨r, s', h, n, e, nd, fun k hk => (a k hk).1⟩
  · intro E hE
    by_cases hid : (ctx.getType DstTy).id = (ctx.getType SrcTy).id
    · exact ⟨_, _, areTypesIsomorphic_of_entry 0 hid hE⟩
    · refine ⟨false, s, ?_⟩
      rw [areTypesIsomorphic]
      simp only []
      rw [if_pos hid]

/-- C3, at the self-referential `%Node.1` against `%Node` once `%Node.1` has
its entry. -/
theorem areTypesIsomorphic_terminates_witness :
    (⟨[(2, some 0)], [2], [], [], [], ⟨[], []⟩⟩ : TypeMapTy).MappedTypes.lookup 2 = some 0 ∧
    ∃ r s', areTypesIsomorphic exampleNodeCtx 1
      ⟨[(2, some 0)], [2], [], [], [], ⟨[], []⟩⟩ 0 2 = some (r, s') :=
  ⟨by decide, (areTypesIsomorphic_terminates exampleNodeCtx
    ⟨[(2, some 0)], [2], [], [], [], ⟨[], []⟩⟩ 0 2).2 0 (by decide)⟩

end TypeMapTy
end IRMover

namespace IRMover
namespace TypeMapTy
open DenseMap

/-! ### Lookups through `get` -/

theorem hasKey_of_lookup {m : DenseMap} {k v : Nat} (h : m.lookup k = some v) :
    m.hasKey k = true := by
  induction m with
  | nil => simp [lookup] at h
  | cons e rest ih =>
    obtain ⟨a, w⟩ := e
    rw [lookup_cons] at h
    rw [hasKey_cons]
    by_cases ha : a = k
    · simp [ha]
    · rw [if_neg ha] at h
      simp [ha, ih h]

theorem subscript_of_lookup {m : DenseMap} {k v : Nat} (h : m.lookup k = some v) :
    m.subscript k = m := by
  unfold subscript
  rw [if_pos (hasKey_of_lookup h)]

theorem getVisited_of_entry (fuel : Nat) (st : GetState) (Ty E : Nat)
    (h : st.tm.MappedTypes.lookup Ty = some E) :
    getVisited (fuel + 1) st Ty = some (E, st) := by
  rw [getVisited]
  simp only [subscript_of_lookup h, h]

theorem get_of_entry (fuel : Nat) (ctx : LLVMContext) (tm : TypeMapTy) (Ty E : Nat)
    (h : tm.MappedTypes.lookup Ty = some E) :
    get (fuel + 1) ctx tm Ty = some (E, ctx, tm) := by
  rw [get, getVisited_of_entry fuel ⟨ctx, tm, []⟩ Ty E h]

/-! ### The type arena under renaming -/

theorem length_setName (ctx : LLVMContext) (t : Nat) (n : String) :
    (ctx.setName t n).length = ctx.length := by
  unfold LLVMContext.setName
  exact List.length_modify _ _ _

theorem getType_setName_of_ne (ctx : LLVMContext) (t u : Nat) (n : String) (h : u ≠ t) :
    (ctx.setName t n).getType u = ctx.getType u := by
  unfold LLVMContext.setName LLVMContext.getType
  simp only [List.getD_eq_getElem?_getD]
  rw [List.getElem?_modify]
  have hne : ¬ t = u := fun e => h e.symm
  simp only [hne, if_false]
  cases ctx[u]? <;> rfl

theorem length_clearSpeculativeNames (Tys : List Nat) (ctx : LLVMContext) :
    (clearSpeculativeNames ctx Tys).length = ctx.length := by
  unfold clearSpeculativeNames
  induction Tys generalizing ctx with
  | nil => rfl
  | cons t rest ih =>
    rw [List.foldl_cons, ih]
    split
    · exact length_setName ctx t ""
    · rfl

theorem getType_clearSpeculativeNames_of_not_mem (Tys : List Nat) (ctx : LLVMContext) (u : Nat)
    (h : u ∉ Tys) : (clearSpeculativeNames ctx Tys).getType u = ctx.getType u := by
  unfold clearSpeculativeNames
  induction Tys generalizing ctx with
  | nil => rfl
  | cons t rest ih =>
    rw [List.foldl_cons, ih _ (fun hm => h (List.mem_cons_of_mem _ hm))]
    split
    · exact getType_setName_of_ne ctx t u "" (fun e => h (by rw [e]; exact List.mem_cons_self _ _))
    · rfl

end TypeMapTy
end IRMover

namespace IRMover
namespace TypeMapTy
open DenseMap

/-! ### Forward evaluation of `areTypesIsomorphic` -/

theorem areTypesIsomorphic_structural {ctx : LLVMContext} (fuel : Nat) {s : TypeMapTy}
    {DstTy SrcTy : Nat} (hid : (ctx.getType DstTy).id = (ctx.getType SrcTy).id)
    (hl : s.MappedTypes.lookup SrcTy = none) (hne : DstTy ≠ SrcTy)
    (hso : ¬ ((ctx.getType SrcTy).id = TypeID.StructTyID ∧ (ctx.getType SrcTy).isOpaque = true))
    (hdo : ¬ ((ctx.getType SrcTy).id = TypeID.StructTyID ∧ (ctx.getType DstTy).isOpaque = true))
    (hlen : (ctx.getType SrcTy).contained.length = (ctx.getType DstTy).contained.length)
    (hint : (ctx.getType DstTy).id ≠ TypeID.IntegerTyID)
    (hex : extraPropertiesDisagree (ctx.getType DstTy) (ctx.getType SrcTy) = false) :
    areTypesIsomorphic ctx (fuel + 1) s DstTy SrcTy =
      isoLoop (areTypesIsomorphic ctx fuel) (containedPairs ctx DstTy SrcTy)
        { s with
          MappedTypes := (s.MappedTypes.subscript SrcTy).assign SrcTy DstTy
          SpeculativeTypes := s.SpeculativeTypes ++ [SrcTy] } := by
  rw [areTypesIsomorphic]
  simp only []
  rw [if_neg (not_not.mpr hid), lookup_subscript, hl]
  simp only []
  rw [if_neg hne, if_neg hso, if_neg hdo, if_neg (not_not.mpr hlen), if_neg hint, hex]
  simp

theorem areTypesIsomorphic_claimed {ctx : LLVMContext} (fuel : Nat) {s : TypeMapTy}
    {DstTy SrcTy : Nat} (hid : (ctx.getType DstTy).id = (ctx.getType SrcTy).id)
    (hl : s.MappedTypes.lookup SrcTy = none) (hne : DstTy ≠ SrcTy)
    (hst : (ctx.getType SrcTy).id = TypeID.StructTyID)
    (hso : (ctx.getType SrcTy).isOpaque = false) (hdo : (ctx.getType DstTy).isOpaque = true)
    (hmem : DstTy ∈ s.DstResolvedOpaqueTypes) :
    areTypesIsomorphic ctx (fuel + 1) s DstTy SrcTy =
      some (false, { s with MappedTypes := s.MappedTypes.subscript SrcTy }) := by
  rw [areTypesIsomorphic]
  simp only []
  rw [if_neg (not_not.mpr hid), lookup_subscript, hl]
  simp only []
  rw [if_neg hne, if_neg (by simp [hso]), if_pos ⟨hst, hdo⟩]
  simp [SmallPtrSet.insert, hmem]

theorem containedPairs_single {ctx : LLVMContext} {D S PD PS : Nat}
    (hD : (ctx.getType D).contained = [PD]) (hS : (ctx.getType S).contained = [PS]) :
    containedPairs ctx D S = [(PD, PS)] := by
  unfold containedPairs LLVMContext.getNumContainedTypes LLVMContext.getContainedType
  rw [hD, hS]
  rfl

/-! ### A recursive struct defined in both modules -/

/-- C4: two distinct identified non-opaque structs `NodeDst` and `NodeSrc`,
each with the single element `pointer to itself` (same address space, same
packed flag), unify when neither `NodeSrc` nor its pointer has an entry yet
(and no speculation is pending):
`areTypesIsomorphic` returns true, `addTypeMapping` maps `NodeSrc` to `NodeDst`
and the pointer to the pointer, creates no type and leaves `NodeDst` as it
was; afterwards `get(NodeSrc)` returns `NodeDst` and changes nothing. -/
theorem addTypeMapping_recursive_struct (ctx : LLVMContext) (s : TypeMapTy) (fuel : Nat)
    (NodeDst NodeSrc PtrDst PtrSrc : Nat)
    (hD : (ctx.getType NodeDst).id = TypeID.StructTyID)
    (hDl : (ctx.getType NodeDst).isLiteral = false)
    (hDo : (ctx.getType NodeDst).isOpaque = false)
    (hDc : (ctx.getType NodeDst).contained = [PtrDst])
    (hPD : (ctx.getType PtrDst).id = TypeID.PointerTyID)
    (hPDc : (ctx.getType PtrDst).contained = [NodeDst])
    (hS : (ctx.getType NodeSrc).id = TypeID.StructTyID)
    (hSl : (ctx.getType NodeSrc).isLiteral = false)
    (hSo : (ctx.getType NodeSrc).isOpaque = false)
    (hSc : (ctx.getType NodeSrc).contained = [PtrSrc])
    (hPS : (ctx.getType PtrSrc).id = TypeID.PointerTyID)
    (hPSc : (ctx.getType PtrSrc).contained = [NodeSrc])
    (hne : NodeDst ≠ NodeSrc)
    (has : (ctx.getType PtrDst).addressSpace = (ctx.getType PtrSrc).addressSpace)
    (hpk : (ctx.getType NodeDst).isPacked = (ctx.getType NodeSrc).isPacked)
    (hs : s.SpeculativeTypes = [])
    (hl1 : s.MappedTypes.lookup NodeSrc = none) (hl2 : s.MappedTypes.lookup PtrSrc = none) :
    (areTypesIsomorphic ctx (fuel + 3) s NodeDst NodeSrc).map Prod.fst = some true ∧
    ∃ ctx' tm, addTypeMapping ctx (fuel + 3) s NodeDst NodeSrc = some (ctx', tm) ∧
      tm.MappedTypes.lookup NodeSrc = some NodeDst ∧
      tm.MappedTypes.lookup PtrSrc = some PtrDst ∧
      ctx'.length = ctx.length ∧ ctx'.getType NodeDst = ctx.getType NodeDst ∧
      ∀ f, get (f + 1) ctx' tm NodeSrc = some (NodeDst, ctx', tm) := by
  have hSP : NodeSrc ≠ PtrSrc := by
    intro e; rw [e, hPS] at hS; cases hS
  have hPne : PtrDst ≠ PtrSrc := by
    intro e; rw [e, hPSc] at hPDc
    exact hne (List.cons.inj hPDc).1.symm
  have hDP : NodeDst ≠ PtrSrc := by
    intro e; rw [e, hPS] at hD; cases hD
  -- the innermost call finds the entry of `NodeSrc`
  have h3 : ∀ (s2 : TypeMapTy), s2.MappedTypes.lookup NodeSrc = some NodeDst →
      areTypesIsomorphic ctx (fuel + 1) s2 NodeDst NodeSrc =
        some (true, { s2 with MappedTypes := s2.MappedTypes.subscript NodeSrc }) := by
    intro s2 h
    rw [areTypesIsomorphic_of_entry fuel (by rw [hD, hS]) h]
    simp
  -- the call on the two pointers
  have h2 : ∀ (s1 : TypeMapTy), s1.MappedTypes.lookup NodeSrc = some NodeDst →
      s1.MappedTypes.lookup PtrSrc = none →
      areTypesIsomorphic ctx (fuel + 2) s1 PtrDst PtrSrc =
        some (true, { s1 with
          MappedTypes := (((s1.MappedTypes.subscript PtrSrc).assign PtrSrc PtrDst).subscript NodeSrc)
          SpeculativeTypes := s1.SpeculativeTypes ++ [PtrSrc] }) := by
    intro s1 ha hb
    rw [areTypesIsomorphic_structural (fuel + 1) (by rw [hPD, hPS]) hb hPne
      (by rw [hPS]; simp) (by rw [hPS]; simp) (by rw [hPDc, hPSc]; rfl) (by rw [hPD]; simp)
      (by simp [extraPropertiesDisagree, hPD, has])]
    rw [containedPairs_single hPDc hPSc, isoLoop, h3 _ (by simp [lookup_set, hSP, ha])]
    rfl
  have h1 : areTypesIsomorphic ctx (fuel + 3) s NodeDst NodeSrc =
      some (true, { s with
        MappedTypes := (((((s.MappedTypes.subscript NodeSrc).assign NodeSrc NodeDst).subscript
          PtrSrc).assign PtrSrc PtrDst).subscript NodeSrc)
        SpeculativeTypes := s.SpeculativeTypes ++ [NodeSrc] ++ [PtrSrc] }) := by
    rw [areTypesIsomorphic_structural (fuel + 2) (by rw [hD, hS]) hl1 hne
      (by simp [hSo]) (by simp [hDo]) (by rw [hDc, hSc]; rfl) (by rw [hD]; simp)
      (by simp [extraPropertiesDisagree, hD, hDl, hSl, hpk])]
    rw [containedPairs_single hDc hSc, isoLoop,
      h2 _ (by simp [lookup_set]) (by simp [lookup_set, hSP.symm, hl2])]
    rfl
  refine ⟨by rw [h1]; rfl, _, _, addTypeMapping_of_true h1, ?_, ?_, ?_, ?_, ?_⟩
  · simp [lookup_subscript, lookup_set, hSP]
  · simp [lookup_subscript, lookup_set]
  · exact length_clearSpeculativeNames _ _
  · apply getType_clearSpeculativeNames_of_not_mem
    simp only [hs, List.nil_append, List.mem_append, List.mem_singleton, not_or]
    exact ⟨hne, hDP⟩
  · intro f
    apply get_of_entry
    simp [lookup_subscript, lookup_set, hSP]

/-- C4, at `%Node.1 = type { %Node.1* }` against `%Node = type { %Node* }`. -/
theorem addTypeMapping_recursive_struct_witness :
    (areTypesIsomorphic exampleNodeCtx 3 (init ⟨[0], []⟩) 0 2).map Prod.fst = some true ∧
    ∃ ctx' tm, addTypeMapping exampleNodeCtx 3 (init ⟨[0], []⟩) 0 2 = some (ctx', tm) ∧
      tm.MappedTypes.lookup 2 = some 0 ∧
      tm.MappedTypes.lookup 3 = some 1 ∧
      ctx'.length = exampleNodeCtx.length ∧
      ctx'.getType 0 = exampleNodeCtx.getType 0 ∧
      ∀ f, get (f + 1) ctx' tm 2 = some (0, ctx', tm) :=
  addTypeMapping_recursive_struct exampleNodeCtx (init ⟨[0], []⟩) 0 0 2 1 3
    (by decide) (by decide) (by decide) (by decide) (by decide) (by decide) (by decide)
    (by decide) (by decide) (by decide) (by decide) (by decide) (by decide) (by decide)
    (by decide) rfl (by decide) (by decide)

end TypeMapTy
end IRMover

namespace IRMover
namespace TypeMapTy
open DenseMap

/-! ### Claiming an opaque destination struct -/

theorem sameShape_refl (ctx : LLVMContext) : ctx.SameShape ctx :=
  ⟨rfl, fun u => ⟨(ctx.getType u).name, rfl⟩⟩

theorem sameShape_trans {c1 c2 c3 : LLVMContext} (h1 : c1.SameShape c2) (h2 : c2.SameShape c3) :
    c1.SameShape c3 := by
  refine ⟨h2.1.trans h1.1, fun u => ?_⟩
  obtain ⟨n1, e1⟩ := h1.2 u
  obtain ⟨n2, e2⟩ := h2.2 u
  exact ⟨n2, by rw [e2, e1]⟩

theorem sameShape_setName (ctx : LLVMContext) (t : Nat) (n : String) :
    ctx.SameShape (ctx.setName t n) := by
  refine ⟨length_setName ctx t n, fun u => ?_⟩
  by_cases h : u = t
  · subst h
    unfold LLVMContext.setName LLVMContext.getType
    simp only [List.getD_eq_getElem?_getD]
    rw [List.getElem?_modify]
    simp only [if_true]
    cases ctx[u]? with
    | none => exact ⟨"", rfl⟩
    | some a => exact ⟨n, rfl⟩
  · exact ⟨(ctx.getType u).name, by rw [getType_setName_of_ne ctx t u n h]⟩

theorem sameShape_clearSpeculativeNames (Tys : List Nat) (ctx : LLVMContext) :
    ctx.SameShape (clearSpeculativeNames ctx Tys) := by
  unfold TypeMapTy.clearSpeculativeNames
  induction Tys generalizing ctx with
  | nil => exact sameShape_refl ctx
  | cons t rest ih =>
    rw [List.foldl_cons]
    refine sameShape_trans ?_ (ih _)
    split
    · exact sameShape_setName ctx t ""
    · exact sameShape_refl ctx

theorem sameShape_id_eq {c1 c2 : LLVMContext} (h : c1.SameShape c2) (u : Nat) :
    (c2.getType u).id = (c1.getType u).id := by
  obtain ⟨n, e⟩ := h.2 u; rw [e]

theorem sameShape_isOpaque_eq {c1 c2 : LLVMContext} (h : c1.SameShape c2) (u : Nat) :
    (c2.getType u).isOpaque = (c1.getType u).isOpaque := by
  obtain ⟨n, e⟩ := h.2 u; rw [e]

/-- What any `addTypeMapping` call that starts with empty side-lists keeps:
the side-lists are empty again, claimed destination structs stay claimed,
entries stay, and the arena changes in names only. -/
theorem addTypeMapping_keeps {ctx ctx1 : LLVMContext} {fuel : Nat} {tm tm1 : TypeMapTy}
    {d t : Nat} (hs : tm.SpeculativeTypes = []) (hd : tm.SpeculativeDstOpaqueTypes = [])
    (h : addTypeMapping ctx fuel tm d t = some (ctx1, tm1)) :
    tm1.SpeculativeTypes = [] ∧ tm1.SpeculativeDstOpaqueTypes = [] ∧
    (∀ x ∈ tm.DstResolvedOpaqueTypes, x ∈ tm1.DstResolvedOpaqueTypes) ∧
    ctx.SameShape ctx1 ∧
    (∀ k v, tm.MappedTypes.lookup k = some v → tm1.MappedTypes.lookup k = some v) := by
  cases hr : areTypesIsomorphic ctx fuel tm d t with
  | none => rw [addTypeMapping, hr] at h; cases h
  | some res =>
    obtain ⟨b, s1⟩ := res
    cases b with
    | false =>
      obtain ⟨tm', e, _, hR, h1, h2, _, hM⟩ := addTypeMapping_rollback ctx fuel tm s1 d t hs hd hr
      rw [e] at h
      simp only [Option.some.injEq, Prod.mk.injEq] at h
      obtain ⟨hc, ht⟩ := h
      subst hc; subst ht
      refine ⟨h1, h2, fun x hx => by rw [hR]; exact hx, sameShape_refl ctx, ?_⟩
      intro k v hk
      rcases hM k with h' | h'
      · rw [h', hk]
      · rw [h'.1] at hk; cases hk
    | true =>
      rw [addTypeMapping_of_true hr] at h
      simp only [Option.some.injEq, Prod.mk.injEq] at h
      obtain ⟨hc, ht⟩ := h
      subst hc; subst ht
      have hext := areTypesIsomorphic_extends ctx fuel tm d t true s1 hr
      obtain ⟨o, q, _, _, _, r1, _⟩ := hext.claims
      refine ⟨rfl, rfl, ?_, sameShape_clearSpeculativeNames _ ctx, hext.mono⟩
      intro x hx
      show x ∈ s1.DstResolvedOpaqueTypes
      rw [r1]
      exact List.mem_append.mpr (Or.inl hx)

theorem addTypeMappings_keeps {fuel : Nat} :
    ∀ (pairs : List (Nat × Nat)) (ctx ctx1 : LLVMContext) (tm tm1 : TypeMapTy),
      tm.SpeculativeTypes = [] → tm.SpeculativeDstOpaqueTypes = [] →
      addTypeMappings fuel pairs ctx tm = some (ctx1, tm1) →
      tm1.SpeculativeTypes = [] ∧ tm1.SpeculativeDstOpaqueTypes = [] ∧
      (∀ x ∈ tm.DstResolvedOpaqueTypes, x ∈ tm1.DstResolvedOpaqueTypes) ∧
      ctx.SameShape ctx1 ∧
      (∀ k v, tm.MappedTypes.lookup k = some v → tm1.MappedTypes.lookup k = some v) := by
  intro pairs
  induction pairs with
  | nil =>
    intro ctx ctx1 tm tm1 hs hd h
    simp only [addTypeMappings, Option.some.injEq, Prod.mk.injEq] at h
    obtain ⟨hc, ht⟩ := h
    subst hc; subst ht
    exact ⟨hs, hd, fun _ hx => hx, sameShape_refl ctx, fun _ _ hk => hk⟩
  | cons p rest ih =>
    intro ctx ctx1 tm tm1 hs hd h
    obtain ⟨d, t⟩ := p
    rw [addTypeMappings] at h
    cases hr : addTypeMapping ctx fuel tm d t with
    | none => rw [hr] at h; cases h
    | some res =>
      obtain ⟨c', t'⟩ := res
      rw [hr] at h
      simp only at h
      obtain ⟨a1, a2, a3, a4, a5⟩ := addTypeMapping_keeps hs hd hr
      obtain ⟨b1, b2, b3, b4, b5⟩ := ih c' ctx1 t' tm1 a1 a2 h
      exact ⟨b1, b2, fun x hx => b3 x (a3 x hx), sameShape_trans a4 b4,
        fun k v hk => b5 k v (a5 k v hk)⟩

/-- C5: let `D` be an opaque destination struct and `S1` a non-opaque source
struct without an entry, and let an `addTypeMapping` call map `S1` onto `D`.
Then after any further `addTypeMapping` calls (and before
`linkDefinedTypeBodies`), unifying `D` with any non-opaque source struct `S2`
that has no entry fails: `areTypesIsomorphic` returns false, and after
`addTypeMapping` the struct `S2` still has no entry while `S1` keeps `D`. -/
theorem opaque_destination_claimed_once (ctx ctx1 ctx2 : LLVMContext) (fuel fuel' : Nat)
    (s s1 s2 : TypeMapTy) (D S1 S2 DstTy SrcTy : Nat) (pairs : List (Nat × Nat))
    (hs : s.SpeculativeTypes = []) (hd : s.SpeculativeDstOpaqueTypes = [])
    (hD : (ctx.getType D).id = TypeID.StructTyID) (hDo : (ctx.getType D).isOpaque = true)
    (hS1 : (ctx.getType S1).id = TypeID.StructTyID) (hS1o : (ctx.getType S1).isOpaque = false)
    (hS2 : (ctx.getType S2).id = TypeID.StructTyID) (hS2o : (ctx.getType S2).isOpaque = false)
    (h0 : s.MappedTypes.lookup S1 = none)
    (h1 : addTypeMapping ctx fuel s DstTy SrcTy = some (ctx1, s1))
    (hm : s1.MappedTypes.lookup S1 = some D)
    (h2 : addTypeMappings fuel pairs ctx1 s1 = some (ctx2, s2))
    (hl : s2.MappedTypes.lookup S2 = none) :
    (areTypesIsomorphic ctx2 (fuel' + 1) s2 D S2).map Prod.fst = some false ∧
    ∃ tm, addTypeMapping ctx2 (fuel' + 1) s2 D S2 = some (ctx2, tm) ∧
      tm.MappedTypes.lookup S2 = none ∧ tm.MappedTypes.lookup S1 = some D := by
  have hne1 : S1 ≠ D := by intro e; rw [e, hDo] at hS1o; cases hS1o
  -- the first call claimed `D`
  have hclaim : D ∈ s1.DstResolvedOpaqueTypes := by
    cases hr : areTypesIsomorphic ctx fuel s DstTy SrcTy with
    | none => rw [addTypeMapping, hr] at h1; cases h1
    | some res =>
      obtain ⟨b, s'⟩ := res
      cases b with
      | false =>
        obtain ⟨tm', e, _, _, _, _, _, hM⟩ :=
          addTypeMapping_rollback ctx fuel s s' DstTy SrcTy hs hd hr
        rw [e] at h1
        simp only [Option.some.injEq, Prod.mk.injEq] at h1
        obtain ⟨_, ht⟩ := h1
        subst ht
        rcases hM S1 with h' | h'
        · rw [h', h0] at hm; cases hm
        · rw [h'.2] at hm
          exact absurd (Option.some.inj hm) hne1
      | true =>
        rw [addTypeMapping_of_true hr] at h1
        simp only [Option.some.injEq, Prod.mk.injEq] at h1
        obtain ⟨_, ht⟩ := h1
        subst ht
        exact (areTypesIsomorphic_extends ctx fuel s DstTy SrcTy true s' hr).claimed S1 D h0 hm
          hne1 hS1 hS1o hDo
  obtain ⟨a1, a2, _, a4, _⟩ := addTypeMapping_keeps hs hd h1
  obtain ⟨b1, b2, b3, b4, b5⟩ := addTypeMappings_keeps pairs ctx1 ctx2 s1 s2 a1 a2 h2
  have hsh := sameShape_trans a4 b4
  have hne2 : D ≠ S2 := by intro e; rw [e, hS2o] at hDo; cases hDo
  have hfail := @areTypesIsomorphic_claimed ctx2 fuel' s2 D S2
    (by rw [sameShape_id_eq hsh, sameShape_id_eq hsh, hD, hS2]) hl hne2
    (by rw [sameShape_id_eq hsh, hS2])
    (by rw [sameShape_isOpaque_eq hsh, hS2o]) (by rw [sameShape_isOpaque_eq hsh, hDo])
    (b3 D hclaim)
  refine ⟨by rw [hfail]; rfl, _, addTypeMapping_of_false hfail, ?_, ?_⟩
  · show lookup (List.foldl DenseMap.erase _ s2.SpeculativeTypes) S2 = none
    rw [b1]
    simpa [lookup_subscript] using hl
  · show lookup (List.foldl DenseMap.erase _ s2.SpeculativeTypes) S1 = some D
    rw [b1]
    simpa [lookup_subscript] using b5 S1 D hm

/-- C5, at `%S1 = { i32 }` and `%S2 = { float }` against the opaque `%D`. -/
theorem opaque_destination_claimed_once_witness :
    (areTypesIsomorphic (exampleOpaqueCtx.setName 1 "") 1
      ⟨[(1, some 0)], [], [], [1], [0], ⟨[], []⟩⟩ 0 2).map Prod.fst = some false ∧
    ∃ tm, addTypeMapping (exampleOpaqueCtx.setName 1 "") 1
        ⟨[(1, some 0)], [], [], [1], [0], ⟨[], []⟩⟩ 0 2 =
        some (exampleOpaqueCtx.setName 1 "", tm) ∧
      tm.MappedTypes.lookup 2 = none ∧ tm.MappedTypes.lookup 1 = some 0 :=
  opaque_destination_claimed_once exampleOpaqueCtx (exampleOpaqueCtx.setName 1 "")
    (exampleOpaqueCtx.setName 1 "") 2 0
    (init ⟨[], []⟩) ⟨[(1, some 0)], [], [], [1], [0], ⟨[], []⟩⟩
    ⟨[(1, some 0)], [], [], [1], [0], ⟨[], []⟩⟩ 0 1 2 0 1 []
    rfl rfl (by decide) (by decide) (by decide) (by decide) (by decide) (by decide) (by decide)
    (by decide) (by decide) (by decide) (by decide)

end TypeMapTy
end IRMover

namespace IRMover
namespace TypeMapTy
open DenseMap

/-! ### `get` records its result and never overwrites an entry -/

theorem hasKey_assign (m : DenseMap) (k v k' : Nat) :
    hasKey (assign m k v) k' = hasKey m k' := by
  induction m with
  | nil => rfl
  | cons e rest ih =>
    obtain ⟨a, w⟩ := e
    rw [assign_cons, hasKey_cons]
    by_cases ha : a = k
    · subst ha
      simp only [if_true]
      rw [hasKey_cons, ih]
    · simp only [if_neg ha]
      rw [hasKey_cons, ih]

/-- The relation between the mapper before and after a piece of `get` working
on `Ty`: the entry of `Ty` is present (possibly null) afterwards and every
non-null entry is kept. -/
theorem lookup_setEntry_self (st : GetState) (Ty V : Nat)
    (hk : st.tm.MappedTypes.hasKey Ty = true) :
    (st.setEntry Ty V).tm.MappedTypes.lookup Ty = some V := by
  unfold GetState.setEntry
  simp [lookup_assign, hk]

theorem lookup_setEntry_mono (st : GetState) (Ty V : Nat)
    (hl : st.tm.MappedTypes.lookup Ty = none) (k v : Nat)
    (h : st.tm.MappedTypes.lookup k = some v) :
    (st.setEntry Ty V).tm.MappedTypes.lookup k = some v := by
  unfold GetState.setEntry
  simp only [lookup_assign]
  by_cases hk : k = Ty
  · subst hk; rw [hl] at h; cases h
  · rw [if_neg hk]; exact h

theorem finishType_mappedTypes (st : GetState) (DTy STy : Nat) (ETypes : List Nat) :
    (finishType st DTy STy ETypes).tm.MappedTypes = st.tm.MappedTypes := rfl

theorem rebuild_records {st st' : GetState} {Ty r : Nat} {ElementTypes : List Nat}
    {AnyChange IsUniqued : Bool} (hk : st.tm.MappedTypes.hasKey Ty = true)
    (hl : st.tm.MappedTypes.lookup Ty = none)
    (h : rebuild st Ty ElementTypes AnyChange IsUniqued = some (r, st')) :
    st'.tm.MappedTypes.lookup Ty = some r ∧
    ∀ k v, st.tm.MappedTypes.lookup k = some v → st'.tm.MappedTypes.lookup k = some v := by
  unfold rebuild at h
  simp only [] at h
  split at h
  · simp only [Option.some.injEq, Prod.mk.injEq] at h
    obtain ⟨hr, hs⟩ := h
    subst hr; subst hs
    exact ⟨lookup_setEntry_self _ _ _ hk, lookup_setEntry_mono _ _ _ hl⟩
  · simp only [Option.some.injEq, Prod.mk.injEq] at h
    obtain ⟨hr, hs⟩ := h
    subst hr; subst hs
    exact ⟨lookup_setEntry_self _ _ _ hk, lookup_setEntry_mono _ _ _ hl⟩
  · simp only [Option.some.injEq, Prod.mk.injEq] at h
    obtain ⟨hr, hs⟩ := h
    subst hr; subst hs
    exact ⟨lookup_setEntry_self _ _ _ hk, lookup_setEntry_mono _ _ _ hl⟩
  · simp only [Option.some.injEq, Prod.mk.injEq] at h
    obtain ⟨hr, hs⟩ := h
    subst hr; subst hs
    exact ⟨lookup_setEntry_self _ _ _ hk, lookup_setEntry_mono _ _ _ hl⟩
  · split at h
    · simp only [Option.some.injEq, Prod.mk.injEq] at h
      obtain ⟨hr, hs⟩ := h
      subst hr; subst hs
      exact ⟨lookup_setEntry_self _ _ _ hk, lookup_setEntry_mono _ _ _ hl⟩
    · split at h
      · simp only [Option.some.injEq, Prod.mk.injEq] at h
        obtain ⟨hr, hs⟩ := h
        subst hr; subst hs
        exact ⟨lookup_setEntry_self _ _ _ hk, lookup_setEntry_mono _ _ _ hl⟩
      · split at h
        · simp only [Option.some.injEq, Prod.mk.injEq] at h
          obtain ⟨hr, hs⟩ := h
          subst hr; subst hs
          exact ⟨lookup_setEntry_self _ _ _ hk, lookup_setEntry_mono _ _ _ hl⟩
        · split at h
          · simp only [Option.some.injEq, Prod.mk.injEq] at h
            obtain ⟨hr, hs⟩ := h
            subst hr; subst hs
            exact ⟨lookup_setEntry_self _ _ _ hk, lookup_setEntry_mono _ _ _ hl⟩
          · simp only [Option.some.injEq, Prod.mk.injEq] at h
            obtain ⟨hr, hs⟩ := h
            subst hr; subst hs
            exact ⟨lookup_setEntry_self _ _ _ hk, lookup_setEntry_mono _ _ _ hl⟩
  · cases h

theorem getLoop_mono {rec : GetState → Nat → Option (Nat × GetState)}
    (hrec : ∀ st Ty r st', rec st Ty = some (r, st') →
      ∀ k v, st.tm.MappedTypes.lookup k = some v → st'.tm.MappedTypes.lookup k = some v)
    (Ty : Nat) :
    ∀ (Is ETypes : List Nat) (b : Bool) (st : GetState) (E' : List Nat) (b' : Bool)
      (st' : GetState), getLoop rec Ty Is ETypes b st = some (E', b', st') →
      ∀ k v, st.tm.MappedTypes.lookup k = some v → st'.tm.MappedTypes.lookup k = some v := by
  intro Is
  induction Is with
  | nil =>
    intro ETypes b st E' b' st' h k v hk
    simp only [getLoop, Option.some.injEq, Prod.mk.injEq] at h
    rw [← h.2.2]; exact hk
  | cons I rest ih =>
    intro ETypes b st E' b' st' h k v hk
    rw [getLoop] at h
    cases hr : rec st (st.ctx.getContainedType Ty I) with
    | none => rw [hr] at h; cases h
    | some res =>
      obtain ⟨E, st1⟩ := res
      rw [hr] at h
      simp only at h
      exact ih _ _ st1 E' b' st' h k v (hrec _ _ _ _ hr k v hk)

theorem finishGet_records {st2 st' : GetState} {Ty r : Nat} {ElementTypes : List Nat}
    {AnyChange IsUniqued : Bool}
    (h : finishGet st2 Ty ElementTypes AnyChange IsUniqued = some (r, st')) :
    st'.tm.MappedTypes.lookup Ty = some r ∧
    ∀ k v, st2.tm.MappedTypes.lookup k = some v → st'.tm.MappedTypes.lookup k = some v := by
  unfold finishGet at h
  simp only [] at h
  rw [lookup_subscript] at h
  have hk0 : (st2.tm.MappedTypes.subscript Ty).hasKey Ty = true := hasKey_subscript _ _
  have hm0 : ∀ k v, st2.tm.MappedTypes.lookup k = some v →
      (st2.tm.MappedTypes.subscript Ty).lookup k = some v := by
    intro k v hk; rw [lookup_subscript]; exact hk
  cases hl : st2.tm.MappedTypes.lookup Ty with
  | some E =>
    rw [hl] at h
    simp only [] at h
    split at h
    · simp only [Option.some.injEq, Prod.mk.injEq] at h
      obtain ⟨hr, hs⟩ := h
      subst hr; subst hs
      rw [finishType_mappedTypes]
      exact ⟨hm0 Ty E hl, hm0⟩
    · simp only [Option.some.injEq, Prod.mk.injEq] at h
      obtain ⟨hr, hs⟩ := h
      subst hr; subst hs
      exact ⟨hm0 Ty E hl, hm0⟩
  | none =>
    rw [hl] at h
    simp only [] at h
    have hl0 : (st2.tm.MappedTypes.subscript Ty).lookup Ty = none := by
      rw [lookup_subscript]; exact hl
    split at h
    · simp only [Option.some.injEq, Prod.mk.injEq] at h
      obtain ⟨hr, hs⟩ := h
      subst hr; subst hs
      exact ⟨lookup_setEntry_self _ _ _ hk0,
        fun k v hk => lookup_setEntry_mono _ _ _ hl0 k v (hm0 k v hk)⟩
    · have := @rebuild_records _ st' Ty r ElementTypes AnyChange IsUniqued hk0 hl0 h
      exact ⟨this.1, fun k v hk => this.2 k v (hm0 k v hk)⟩

theorem getVisited_records :
    ∀ (fuel : Nat) (st : GetState) (Ty r : Nat) (st' : GetState),
      getVisited fuel st Ty = some (r, st') →
      st'.tm.MappedTypes.lookup Ty = some r ∧
      ∀ k v, st.tm.MappedTypes.lookup k = some v → st'.tm.MappedTypes.lookup k = some v := by
  intro fuel
  induction fuel with
  | zero => intro st Ty r st' h; simp [getVisited] at h
  | succ fuel ih =>
    intro st Ty r st' h
    rw [getVisited] at h
    simp only [] at h
    rw [lookup_subscript] at h
    cases hl : st.tm.MappedTypes.lookup Ty with
    | some E =>
      rw [hl] at h
      simp only [Option.some.injEq, Prod.mk.injEq] at h
      obtain ⟨hr, hs⟩ := h
      subst hr; subst hs
      exact ⟨by simpa [lookup_subscript] using hl, fun k v hk => by simpa [lookup_subscript] using hk⟩
    | none =>
      rw [hl] at h
      simp only [] at h
      have hk0 : (st.tm.MappedTypes.subscript Ty).hasKey Ty = true := hasKey_subscript _ _
      have hl0 : (st.tm.MappedTypes.subscript Ty).lookup Ty = none := by
        rw [lookup_subscript]; exact hl
      have hm0 : ∀ k v, st.tm.MappedTypes.lookup k = some v →
          (st.tm.MappedTypes.subscript Ty).lookup k = some v := by
        intro k v hk; rw [lookup_subscript]; exact hk
      generalize hU : (!st.ctx.isStruct Ty || (st.ctx.getType Ty).isLiteral) = U at h
      cases U
      · simp only [Bool.not_false, Bool.true_and, Bool.false_eq_true, if_false, and_false] at h
        split at h
        · simp only [Option.some.injEq, Prod.mk.injEq] at h
          obtain ⟨hr, hs⟩ := h
          subst hr; subst hs
          exact ⟨lookup_setEntry_self _ _ _ hk0,
            fun k v hk => lookup_setEntry_mono _ _ _ hl0 k v (hm0 k v hk)⟩
        · split at h
          · cases h
          · rename_i E' b' st2 hloop
            have hm2 := getLoop_mono (fun a b c d hh => (ih a b c d hh).2) Ty _ _ _ _ _ _ _ hloop
            have := finishGet_records h
            exact ⟨this.1, fun k v hk => this.2 k v (hm2 k v (hm0 k v hk))⟩
      · simp only [Bool.not_true, Bool.false_and, Bool.false_eq_true, if_false, if_true,
          and_true] at h
        split at h
        · simp only [Option.some.injEq, Prod.mk.injEq] at h
          obtain ⟨hr, hs⟩ := h
          subst hr; subst hs
          exact ⟨lookup_setEntry_self _ _ _ hk0,
            fun k v hk => lookup_setEntry_mono _ _ _ hl0 k v (hm0 k v hk)⟩
        · split at h
          · cases h
          · rename_i E' b' st2 hloop
            have hm2 := getLoop_mono (fun a b c d hh => (ih a b c d hh).2) Ty _ _ _ _ _ _ _ hloop
            have := finishGet_records h
            exact ⟨this.1, fun k v hk => this.2 k v (hm2 k v (hm0 k v hk))⟩

end TypeMapTy
end IRMover

namespace IRMover
namespace TypeMapTy
open DenseMap

/-- C6: a call `get(T)` that returns `r` has stored `T -> r` in the mapping,
so every later call `get(T)` returns the same `r` and changes neither the
mapping, nor the destination struct index, nor any type; `get` never
overwrites an entry, so results of earlier calls stay valid; and after a
successful `addTypeMapping(D, S)` every call `get(S)` returns `D`. -/
theorem get_stable (fuel : Nat) (ctx ctx' : LLVMContext) (tm tm' : TypeMapTy) (T r : Nat)
    (h : get fuel ctx tm T = some (r, ctx', tm')) :
    tm'.MappedTypes.lookup T = some r ∧
    (∀ f, get (f + 1) ctx' tm' T = some (r, ctx', tm')) ∧
    (∀ k v, tm.MappedTypes.lookup k = some v →
      tm'.MappedTypes.lookup k = some v ∧ ∀ f, get (f + 1) ctx' tm' k = some (v, ctx', tm')) ∧
    (∀ (fuel0 : Nat) (ctx0 ctx1 : LLVMContext) (s0 s1 tm1 : TypeMapTy) (D S : Nat),
      areTypesIsomorphic ctx0 fuel0 s0 D S = some (true, s1) →
      addTypeMapping ctx0 fuel0 s0 D S = some (ctx1, tm1) →
      ∀ f, get (f + 1) ctx1 tm1 S = some (D, ctx1, tm1)) := by
  have hrec : tm'.MappedTypes.lookup T = some r ∧
      ∀ k v, tm.MappedTypes.lookup k = some v → tm'.MappedTypes.lookup k = some v := by
    unfold get at h
    cases hg : getVisited fuel ⟨ctx, tm, []⟩ T with
    | none => rw [hg] at h; cases h
    | some res =>
      obtain ⟨r0, st⟩ := res
      rw [hg] at h
      simp only [Option.some.injEq, Prod.mk.injEq] at h
      obtain ⟨h1, h2, h3⟩ := h
      subst h1; subst h2; subst h3
      exact getVisited_records fuel _ T r0 st hg
  refine ⟨hrec.1, fun f => get_of_entry f ctx' tm' T r hrec.1, ?_, ?_⟩
  · intro k v hk
    exact ⟨hrec.2 k v hk, fun f => get_of_entry f ctx' tm' k v (hrec.2 k v hk)⟩
  · intro fuel0 ctx0 ctx1 s0 s1 tm1 D S hiso hadd f
    rw [addTypeMapping_of_true hiso] at hadd
    simp only [Option.some.injEq, Prod.mk.injEq] at hadd
    obtain ⟨hc, ht⟩ := hadd
    subst hc; subst ht
    exact get_of_entry f _ _ S D
      (show s1.MappedTypes.lookup S = some D from areTypesIsomorphic_maps hiso)

/-- C6, at `get(%Node.1)` in a fresh mapper, which rebuilds the struct. -/
theorem get_stable_witness :
    get 3 exampleNodeCtx (init ⟨[], []⟩) 2 =
      some (4, exampleNodeCtxRebuilt,
        ⟨[(2, some 4), (3, some 5)], [], [], [], [], ⟨[], [4]⟩⟩) ∧
    (⟨[(2, some 4), (3, some 5)], [], [], [], [], ⟨[], [4]⟩⟩ : TypeMapTy).MappedTypes.lookup 2 =
      some 4 ∧
    ∀ f, get (f + 1) exampleNodeCtxRebuilt
        ⟨[(2, some 4), (3, some 5)], [], [], [], [], ⟨[], [4]⟩⟩ 2 =
      some (4, exampleNodeCtxRebuilt, ⟨[(2, some 4), (3, some 5)], [], [], [], [], ⟨[], [4]⟩⟩) :=
  ⟨by decide,
    (get_stable 3 exampleNodeCtx exampleNodeCtxRebuilt (init ⟨[], []⟩)
      ⟨[(2, some 4), (3, some 5)], [], [], [], [], ⟨[], [4]⟩⟩ 2 4 (by decide)).1,
    (get_stable 3 exampleNodeCtx exampleNodeCtxRebuilt (init ⟨[], []⟩)
      ⟨[(2, some 4), (3, some 5)], [], [], [], [], ⟨[], [4]⟩⟩ 2 4 (by decide)).2.1⟩

end TypeMapTy
end IRMover

namespace IRMover
namespace IRLinker

/-! ### Symbol resolution -/

theorem getNamedValue_name {M : Module} {Name : String} {D : GlobalValue}
    (h : M.getNamedValue Name = some D) : D.name = Name ∧ D ∈ M.globals := by
  unfold Module.getNamedValue at h
  have h1 := List.find?_some h
  have h2 := List.mem_of_find?_eq_some h
  exact ⟨by simpa using h1, h2⟩

/-- C7: `getLinkedToGlobal(Src)` returns none exactly when `Src` is unnamed,
or has local linkage, or the destination has no global of that name, or the
destination's global of that name has local linkage; in every other case it
returns the destination global found under the name of `Src`, whose name is
that of `Src`. -/
theorem getLinkedToGlobal_spec (L : IRLinker) (SrcGV : GlobalValue) :
    (L.getLinkedToGlobal SrcGV = none ↔
      (SrcGV.hasName = false ∨ SrcGV.hasLocalLinkage = true ∨
        L.DstM.getNamedValue SrcGV.name = none ∨
        ∃ D, L.DstM.getNamedValue SrcGV.name = some D ∧ D.hasLocalLinkage = true)) ∧
    (∀ D, L.getLinkedToGlobal SrcGV = some D →
      L.DstM.getNamedValue SrcGV.name = some D ∧ D.name = SrcGV.name ∧ D ∈ L.DstM.globals ∧
        D.hasLocalLinkage = false) := by
  unfold getLinkedToGlobal
  cases hn : SrcGV.hasName <;> cases hl : SrcGV.hasLocalLinkage <;>
    simp only [Bool.not_true, Bool.not_false, Bool.or_true, Bool.or_false, Bool.true_or,
      Bool.false_or, if_true, if_false, Bool.false_eq_true, true_or, or_true, false_or,
      true_iff, reduceCtorEq, false_implies, implies_true, and_true, and_self]
  cases hg : L.DstM.getNamedValue SrcGV.name with
  | none => simp
  | some D =>
    cases hd : D.hasLocalLinkage
    · simp only [Bool.false_eq_true, if_false, reduceCtorEq, false_or, Option.some.injEq,
        exists_eq_left', false_iff, Bool.not_eq_true]
      refine ⟨by simp [hd], ?_⟩
      intro D' hD'
      rw [hd] at hD'
      simp only [Bool.false_eq_true, if_false, Option.some.injEq] at hD'
      subst hD'
      exact ⟨rfl, (getNamedValue_name hg).1, (getNamedValue_name hg).2, hd⟩
    · simp [hd]

/-! ### The linkage decision -/

theorem foldl_maybeAdd_eq (xs : List Nat) (L : IRLinker) :
    xs.foldl maybeAdd L =
      { L with
        ValuesToLink := (xs.foldl
          (fun (acc : List Nat × List Nat) x =>
            if x ∈ acc.1 then acc else (acc.1 ++ [x], acc.2 ++ [x]))
          (L.ValuesToLink, L.Worklist)).1
        Worklist := (xs.foldl
          (fun (acc : List Nat × List Nat) x =>
            if x ∈ acc.1 then acc else (acc.1 ++ [x], acc.2 ++ [x]))
          (L.ValuesToLink, L.Worklist)).2 } := by
  induction xs generalizing L with
  | nil => rfl
  | cons x rest ih =>
    rw [List.foldl_cons, ih, List.foldl_cons]
    unfold maybeAdd
    by_cases hx : x ∈ L.ValuesToLink
    · simp only [hx, if_true]
    · simp only [hx, if_false]

theorem foldl_maybeAdd_mem (xs : List Nat) (L : IRLinker) :
    (∀ x ∈ L.ValuesToLink, x ∈ (xs.foldl maybeAdd L).ValuesToLink) ∧
    (∀ x ∈ L.Worklist, x ∈ (xs.foldl maybeAdd L).Worklist) ∧
    (∀ x ∈ xs, x ∈ (xs.foldl maybeAdd L).ValuesToLink ∧
      (x ∉ L.ValuesToLink → x ∈ (xs.foldl maybeAdd L).Worklist)) := by
  induction xs generalizing L with
  | nil => simp
  | cons a rest ih =>
    rw [List.foldl_cons]
    obtain ⟨h1, h2, h3⟩ := ih (L.maybeAdd a)
    have hv : ∀ x ∈ L.ValuesToLink, x ∈ (L.maybeAdd a).ValuesToLink := by
      intro x hx
      unfold maybeAdd
      split
      · exact hx
      · exact List.mem_append.mpr (Or.inl hx)
    have hw : ∀ x ∈ L.Worklist, x ∈ (L.maybeAdd a).Worklist := by
      intro x hx
      unfold maybeAdd
      split
      · exact hx
      · exact List.mem_append.mpr (Or.inl hx)
    have ha : a ∈ (L.maybeAdd a).ValuesToLink ∧ (a ∉ L.ValuesToLink → a ∈ (L.maybeAdd a).Worklist) := by
      unfold maybeAdd
      by_cases hx : a ∈ L.ValuesToLink
      · simp [hx]
      · simp [hx]
    refine ⟨fun x hx => h1 x (hv x hx), fun x hx => h2 x (hw x hx), ?_⟩
    intro x hx
    rcases List.mem_cons.mp hx with hxa | hxr
    · subst hxa
      exact ⟨h1 x ha.1, fun hn => h2 x (ha.2 hn)⟩
    · refine ⟨(h3 x hxr).1, fun hn => ?_⟩
      by_cases hxa : x ∈ (L.maybeAdd a).ValuesToLink
      · -- then `x` was just added by `maybeAdd a`, so `x = a`
        have : x ∈ (L.maybeAdd a).Worklist := by
          unfold maybeAdd at hxa ⊢
          by_cases hx' : a ∈ L.ValuesToLink
          · simp only [hx', if_true] at hxa
            exact absurd hxa hn
          · simp only [hx', if_false] at hxa ⊢
            rcases List.mem_append.mp hxa with h | h
            · exact absurd h hn
            · exact List.mem_append.mpr (Or.inr h)
        exact h2 x this
      · exact (h3 x hxr).2 hxa

/-- C8: `shouldLink(Dst, Src)` is the first applicable rule of the ordered
cascade (1) postpass: false, (2) requested: true, (3) local source: true,
(4) destination exists and is no declaration for the linker: false,
(5) available-externally source: true, (6) bodies done: false, (7) the lazy
link policy; in case (7) every symbol the policy adds ends up requested, and
on the worklist when it had not been requested before. -/
theorem shouldLink_cascade (AddLazyFor : GlobalValue → List Nat) (L : IRLinker)
    (DGV : Option GlobalValue) (SGV : GlobalValue) :
    shouldLink AddLazyFor L DGV SGV = shouldLinkCascade AddLazyFor L DGV SGV ∧
    (∀ x ∈ AddLazyFor SGV,
      x ∈ ((AddLazyFor SGV).foldl maybeAdd L).ValuesToLink ∧
      (x ∉ L.ValuesToLink → x ∈ ((AddLazyFor SGV).foldl maybeAdd L).Worklist)) := by
  refine ⟨?_, (foldl_maybeAdd_mem (AddLazyFor SGV) L).2.2⟩
  unfold shouldLink shouldLinkCascade
  simp only []
  cases h1 : L.IsMetadataLinkingPostpass
  swap
  · simp [List.find?]
  by_cases h2 : SGV.addr ∈ L.ValuesToLink
  · simp [List.find?, h2]
  cases h3 : SGV.hasLocalLinkage
  swap
  · simp [List.find?, h2]
  have h4eq : (match DGV with
      | some D => !D.isDeclarationForLinker
      | none => false) = DGV.any (fun D => !D.isDeclarationForLinker) := by
    cases DGV <;> rfl
  rw [h4eq]
  cases h4 : DGV.any (fun D => !D.isDeclarationForLinker)
  swap
  · simp [List.find?, h2]
  cases h5 : SGV.hasAvailableExternallyLinkage
  swap
  · simp [List.find?, h2]
  cases h6 : L.DoneLinkingBodies
  swap
  · simp [List.find?, h2]
  simp only [Bool.false_eq_true, if_false, h2, decide_False, List.find?]
  rw [foldl_maybeAdd_eq]
  simp only [h1, h6]

end IRLinker
end IRMover

namespace IRMover
namespace IRLinker

/-! ### Two definitions of the same global -/

theorem typeMapGet_of_entry (fuel : Nat) (L : IRLinker) (Ty E : Nat)
    (h : L.TypeMap.MappedTypes.lookup Ty = some E) :
    typeMapGet (fuel + 1) L Ty = some (E, L) := by
  unfold typeMapGet
  rw [TypeMapTy.get_of_entry fuel L.Context L.TypeMap Ty E h]

theorem shouldLink_of_defined_destination (AddLazyFor : GlobalValue → List Nat) (L : IRLinker)
    (DGV SGV : GlobalValue) (hreq : SGV.addr ∉ L.ValuesToLink)
    (hloc : SGV.hasLocalLinkage = false) (hdef : DGV.isDeclarationForLinker = false) :
    shouldLink AddLazyFor L (some DGV) SGV = (false, L) := by
  unfold shouldLink
  cases hp : L.IsMetadataLinkingPostpass
  · simp [hreq, hloc, hdef]
  · simp

/-- C9 (as stated, refuted): the destination defines `@g = global i32 1` and
the source defines `@g = global i32 2`, both external and of the same type.
When the source's `@g` is among the explicitly requested globals, the
destination's global (address 100, with its body) is erased and replaced by a
new global made from the source's; and on the alias path (not requested) a new
internal global is created next to the destination's. -/
theorem linkGlobalValueProto_requested_replaces_destination :
    (exampleLinker [200]).DstM.globals.map (fun g => (g.addr, g.name, g.body.isSome)) =
      [(100, "g", true)] ∧
    (linkGlobalValueProto MapValueId AddLazyForNone 2 (exampleLinker [200]) exampleSrcG false).map
      (fun r => r.2.DstM.globals.map (fun g => (g.addr, g.name, g.body.isSome))) =
      some [(300, "g", false)] ∧
    (linkGlobalValueProto MapValueId AddLazyForNone 2 (exampleLinker []) exampleSrcG true).map
      (fun r => r.2.DstM.globals.map (fun g => (g.addr, g.hasLocalLinkage, g.body.isSome))) =
      some [(100, false, true), (300, true, false)] := by
  decide

/-- C9 (amended): the destination defines a global `g` with external linkage
and a body, the source has a global of the same name with external linkage
whose type the type mapping sends to the type of the destination's `g`, and
the source's `g` is not among the explicitly requested globals.  Then on the
ordinary (non-alias) path `linkGlobalValueProto` maps the source symbol to the
destination's `g` (cast to its own type) and changes nothing: the destination
module, with its single `g` and the body of that `g`, is as before, and no
global is created. -/
theorem linkGlobalValueProto_keeps_destination
    (MapValue : IRLinker → Constant → Constant × IRLinker)
    (AddLazyFor : GlobalValue → List Nat) (fuel : Nat) (L : IRLinker) (SGV DGV : GlobalValue)
    (hname : SGV.hasName = true) (hS : SGV.linkage = LinkageTypes.ExternalLinkage)
    (hfind : L.DstM.getNamedValue SGV.name = some DGV)
    (hD : DGV.linkage = LinkageTypes.ExternalLinkage) (hbody : DGV.body.isSome = true)
    (hreq : SGV.addr ∉ L.ValuesToLink)
    (hty : L.TypeMap.MappedTypes.lookup SGV.type = some DGV.type) :
    linkGlobalValueProto MapValue AddLazyFor (fuel + 1) L SGV false =
        some (some (Constant.BitCast (Constant.GlobalRef DGV.addr) DGV.type), L) ∧
      DGV ∈ L.DstM.globals ∧ DGV.name = SGV.name := by
  have hSloc : SGV.hasLocalLinkage = false := by
    simp [GlobalValue.hasLocalLinkage, hS]
  have hDloc : DGV.hasLocalLinkage = false := by
    simp [GlobalValue.hasLocalLinkage, hD]
  have hSapp : SGV.hasAppendingLinkage = false := by
    simp [GlobalValue.hasAppendingLinkage, hS]
  have hdef : DGV.isDeclarationForLinker = false := by
    unfold GlobalValue.isDeclarationForLinker GlobalValue.hasAvailableExternallyLinkage
      GlobalValue.isDeclaration
    cases hb : DGV.body with
    | none => rw [hb] at hbody; cases hbody
    | some b => simp [hD]
  have hlink : L.getLinkedToGlobal SGV = some DGV := by
    unfold getLinkedToGlobal
    simp [hname, hSloc, hfind, hDloc]
  refine ⟨?_, (getNamedValue_name hfind).2, (getNamedValue_name hfind).1⟩
  unfold linkGlobalValueProto
  simp only [hlink, shouldLink_of_defined_destination AddLazyFor L DGV SGV hreq hSloc hdef,
    Bool.false_eq_true, if_false, Bool.not_false, Bool.or_true, Bool.false_or, if_true, hSapp,
    Bool.or_false, Bool.and_false, Bool.false_and, typeMapGet_of_entry fuel L SGV.type DGV.type hty,
    ne_eq, not_true_eq_false]

/-- C9 (amended), at the two definitions of `@g` with nothing requested. -/
theorem linkGlobalValueProto_keeps_destination_witness :
    linkGlobalValueProto MapValueId AddLazyForNone 1 (exampleLinker []) exampleSrcG false =
        some (some (Constant.BitCast (Constant.GlobalRef 100) 1), exampleLinker []) ∧
      GlobalValue.variable 100 "g" LinkageTypes.ExternalLinkage 0 1 (some (Constant.Int 0 1)) ∈
        (exampleLinker []).DstM.globals ∧
      (GlobalValue.variable 100 "g" LinkageTypes.ExternalLinkage 0 1
        (some (Constant.Int 0 1))).name = exampleSrcG.name :=
  linkGlobalValueProto_keeps_destination MapValueId AddLazyForNone 0 (exampleLinker []) exampleSrcG
    (GlobalValue.variable 100 "g" LinkageTypes.ExternalLinkage 0 1 (some (Constant.Int 0 1)))
    (by decide) rfl rfl rfl rfl (by decide) (by decide)

end IRLinker
end IRMover

namespace IRMover
namespace IRLinker

/-! ### Appending variables -/

theorem collectElements_array (ty : Nat) (pre rest : List Constant) :
    collectElements (Constant.Array ty (pre ++ rest))
      ((List.range rest.length).map (fun i => pre.length + i)) = some rest := by
  induction rest generalizing pre with
  | nil => rfl
  | cons e es ih =>
    rw [List.length_cons, List.range_succ_eq_map, List.map_cons, List.map_map]
    unfold collectElements
    have h1 : (Constant.Array ty (pre ++ e :: es)).getAggregateElement (pre.length + 0) =
        some e := by
      simp only [Constant.getAggregateElement, Nat.add_zero, List.get?_eq_getElem?]
      rw [List.getElem?_append_right (Nat.le_refl _)]
      simp
    have h2 : collectElements (Constant.Array ty (pre ++ e :: es))
        (List.map ((fun i => pre.length + i) ∘ Nat.succ) (List.range es.length)) = some es := by
      have := ih (pre ++ [e])
      simp only [List.append_assoc, List.singleton_append, List.length_append,
        List.length_singleton] at this
      rw [← this]
      congr 1
      apply List.map_congr_left
      intro i _
      simp only [Function.comp]
      omega
    rw [h1, h2]

theorem getArrayElements_array (ty : Nat) (elems : List Constant) :
    getArrayElements (Constant.Array ty elems) = some elems := by
  have := collectElements_array ty [] elems
  simpa [getArrayElements, Constant.getNumElements] using this

theorem mapSrcElements_spec (MapValue : IRLinker → Constant → Constant × IRLinker)
    (IsOldStructor : Bool) (EltTy VoidPtrTy : Nat) :
    ∀ (Src Dst : List Constant) (L : IRLinker) (Elements : List Constant) (L' : IRLinker),
      mapSrcElements MapValue IsOldStructor EltTy VoidPtrTy Src Dst L = some (Elements, L') →
      ∃ Mapped, Elements = Dst ++ Mapped ∧
        List.Forall₂ (IsMappedElement MapValue IsOldStructor EltTy VoidPtrTy) Src Mapped := by
  intro Src
  induction Src with
  | nil =>
    intro Dst L Elements L' h
    simp only [mapSrcElements, Option.some.injEq, Prod.mk.injEq] at h
    exact ⟨[], by simp [h.1], List.Forall₂.nil⟩
  | cons V rest ih =>
    intro Dst L Elements L' h
    rw [mapSrcElements] at h
    cases hO : IsOldStructor with
    | false =>
      rw [hO] at h ih
      simp only [Bool.false_eq_true, if_false] at h
      obtain ⟨Mapped, e, hall⟩ := ih _ _ _ _ h
      refine ⟨(MapValue L V).1 :: Mapped, by simp [e], List.Forall₂.cons ?_ hall⟩
      unfold IsMappedElement
      simp only [Bool.false_eq_true, if_false]
      exact ⟨L, rfl⟩
    | true =>
      rw [hO] at h ih
      simp only [if_true] at h
      cases h0 : V.getOperand 0 with
      | none => rw [h0] at h; simp at h
      | some O0 =>
        cases h1 : V.getOperand 1 with
        | none => rw [h0, h1] at h; simp at h
        | some O1 =>
          rw [h0, h1] at h
          simp only [] at h
          obtain ⟨Mapped, e, hall⟩ := ih _ _ _ _ h
          refine ⟨Constant.Struct EltTy [(MapValue L O0).1, (MapValue (MapValue L O0).2 O1).1,
            Constant.Null VoidPtrTy] :: Mapped, by simp [e], List.Forall₂.cons ?_ hall⟩
          unfold IsMappedElement
          simp only [if_true]
          exact ⟨L, (MapValue L O0).2, O0, O1, h0, h1, rfl⟩

theorem removeDeadStructors_sublist (AddLazyFor : GlobalValue → List Nat) :
    ∀ (Src : List Constant) (L : IRLinker) (Kept : List Constant) (L' : IRLinker),
      removeDeadStructors AddLazyFor Src L = some (Kept, L') → Kept.Sublist Src := by
  intro Src
  induction Src with
  | nil =>
    intro L Kept L' h
    simp only [removeDeadStructors, Option.some.injEq, Prod.mk.injEq] at h
    rw [← h.1]
  | cons E rest ih =>
    intro L Kept L' h
    rw [removeDeadStructors] at h
    cases hd : isDeadStructor AddLazyFor L E with
    | none => rw [hd] at h; cases h
    | some res =>
      obtain ⟨dead, L1⟩ := res
      rw [hd] at h
      simp only [] at h
      cases hr : removeDeadStructors AddLazyFor rest L1 with
      | none => rw [hr] at h; cases h
      | some res2 =>
        obtain ⟨kept, L2⟩ := res2
        rw [hr] at h
        simp only [Option.some.injEq, Prod.mk.injEq] at h
        have hsub := ih L1 kept L2 hr
        rw [← h.1]
        cases dead with
        | true => simpa using List.Sublist.cons E hsub
        | false => simpa using List.Sublist.cons₂ E hsub

theorem mem_update_body {M : Module} {a : Nat} {C : Constant} {g : GlobalValue}
    (hg : g ∈ (M.update a (fun x => { x with body := some C })).globals) (ha : g.addr = a) :
    g.body = some C := by
  unfold Module.update at hg
  simp only [List.mem_map] at hg
  obtain ⟨g0, _, e⟩ := hg
  by_cases h0 : g0.addr = a
  · rw [if_pos h0] at e
    rw [← e]
  · rw [if_neg h0] at e
    rw [← e] at ha
    exact absurd ha h0

theorem mem_of_mem_erase {M : Module} {a : Nat} {g : GlobalValue}
    (hg : g ∈ (M.erase a).globals) : g ∈ M.globals := by
  unfold Module.erase at hg
  exact (List.mem_filter.mp hg).1

theorem exists_update {M : Module} {a b : Nat} {f : GlobalValue → GlobalValue}
    (hf : ∀ x, (f x).addr = x.addr) (h : ∃ g ∈ M.globals, g.addr = a) :
    ∃ g ∈ (M.update b f).globals, g.addr = a := by
  obtain ⟨g, hg, ha⟩ := h
  refine ⟨if g.addr = b then f g else g, ?_, ?_⟩
  · unfold Module.update
    exact List.mem_map.2 ⟨g, hg, rfl⟩
  · split
    · rw [hf]; exact ha
    · exact ha

theorem exists_update_body {M : Module} {a : Nat} {C : Constant}
    (h : ∃ g ∈ M.globals, g.addr = a) :
    ∃ g ∈ (M.update a (fun x => { x with body := some C })).globals,
      g.addr = a ∧ g.body = some C := by
  obtain ⟨g, hg, ha⟩ := exists_update (b := a) (f := fun x => { x with body := some C })
    (fun _ => rfl) h
  exact ⟨g, hg, ha, mem_update_body hg ha⟩

theorem exists_setName {M : Module} {a b : Nat} {Name : String}
    (h : ∃ g ∈ M.globals, g.addr = a) : ∃ g ∈ (M.setName b Name).globals, g.addr = a := by
  unfold Module.setName
  exact exists_update (fun _ => rfl) (exists_update (fun _ => rfl) h)

theorem exists_takeName {M : Module} {a b c : Nat}
    (h : ∃ g ∈ M.globals, g.addr = a) : ∃ g ∈ (M.takeName b c).globals, g.addr = a := by
  unfold Module.takeName
  split
  · exact h
  · exact exists_update (fun _ => rfl) (exists_update (fun _ => rfl) h)

theorem exists_forceRenaming {M : Module} {a GV : Nat} {Name : String}
    (h : ∃ g ∈ M.globals, g.addr = a) : ∃ g ∈ (forceRenaming M GV Name).globals, g.addr = a := by
  unfold forceRenaming
  split
  · exact h
  · split
    · exact h
    · split
      · exact exists_setName (exists_takeName h)
      · exact exists_setName h

theorem exists_insertGlobal (M : Module) (g : GlobalValue) (before : Option Nat) :
    ∃ x ∈ (M.insertGlobal g before).globals, x.addr = g.addr := by
  unfold Module.insertGlobal
  cases before with
  | none => exact ⟨_, List.mem_append_right _ (List.mem_singleton.2 rfl), rfl⟩
  | some b => exact ⟨_, List.mem_append_right _ (List.mem_cons_self _ _), rfl⟩

theorem exists_erase {M : Module} {a b : Nat} {C : Constant} (hne : b ≠ a)
    (h : ∃ g ∈ M.globals, g.addr = a ∧ g.body = some C) :
    ∃ g ∈ (M.erase b).globals, g.addr = a ∧ g.body = some C := by
  obtain ⟨g, hg, ha, hb⟩ := h
  refine ⟨g, ?_, ha, hb⟩
  unfold Module.erase
  refine List.mem_filter.2 ⟨hg, ?_⟩
  rw [decide_eq_true_eq, ha]
  exact fun e => hne e.symm

theorem typeMapGet_dstM {fuel : Nat} {L L0 : IRLinker} {Ty T : Nat}
    (h : typeMapGet fuel L Ty = some (T, L0)) :
    L0.DstM = L.DstM ∧ L0.NextAddr = L.NextAddr := by
  unfold typeMapGet at h
  split at h
  · cases h
  · simp only [Option.some.injEq, Prod.mk.injEq] at h
    rw [← h.2]
    exact ⟨rfl, rfl⟩

theorem mapSrcElements_keeps (MapValue : IRLinker → Constant → Constant × IRLinker)
    (IsOldStructor : Bool) (EltTy VoidPtrTy a : Nat) (hkeep : KeepsGlobal MapValue a) :
    ∀ (Src Dst : List Constant) (L : IRLinker) (Elements : List Constant) (L' : IRLinker),
      mapSrcElements MapValue IsOldStructor EltTy VoidPtrTy Src Dst L = some (Elements, L') →
      (∃ g ∈ L.DstM.globals, g.addr = a) → ∃ g ∈ L'.DstM.globals, g.addr = a := by
  intro Src
  induction Src with
  | nil =>
    intro Dst L Elements L' h hg
    simp only [mapSrcElements, Option.some.injEq, Prod.mk.injEq] at h
    rw [← h.2]
    exact hg
  | cons V rest ih =>
    intro Dst L Elements L' h hg
    rw [mapSrcElements] at h
    split at h
    · split at h
      · exact ih _ _ _ _ h (hkeep _ _ (hkeep _ _ hg))
      · cases h
    · exact ih _ _ _ _ h (hkeep _ _ hg)

theorem buildAppendingVar_spec {MapValue : IRLinker → Constant → Constant × IRLinker}
    {fuel : Nat} {L2 L' : IRLinker} {DstGV : Option GlobalValue} {SrcGV : GlobalValue}
    {IsOldStructor : Bool} {EltTy VoidPtrTy : Nat} {Dst Kept : List Constant}
    {r : Option Constant}
    (h : buildAppendingVar MapValue fuel L2 DstGV SrcGV IsOldStructor EltTy VoidPtrTy Dst Kept =
      some (r, L')) :
    ∃ (Mapped : List Constant) (RetTy : Nat),
      r = some (Constant.BitCast (Constant.GlobalRef L2.NextAddr) RetTy) ∧
      List.Forall₂ (IsMappedElement MapValue IsOldStructor EltTy VoidPtrTy) Kept Mapped ∧
      (∀ g ∈ L'.DstM.globals, g.addr = L2.NextAddr →
        g.body = some (Constant.Array
          (TypeMapTy.getUniqued L2.Context
            ⟨TypeID.ArrayTyID, [EltTy], 0, false, false, false, false,
              Dst.length + Kept.length, 0, ""⟩).1 (Dst ++ Mapped))) ∧
      (KeepsGlobal MapValue L2.NextAddr → (∀ D, DstGV = some D → D.addr ≠ L2.NextAddr) →
        ∃ g ∈ L'.DstM.globals, g.addr = L2.NextAddr ∧
          g.body = some (Constant.Array
            (TypeMapTy.getUniqued L2.Context
              ⟨TypeID.ArrayTyID, [EltTy], 0, false, false, false, false,
                Dst.length + Kept.length, 0, ""⟩).1 (Dst ++ Mapped))) ∧
      (∀ D, DstGV = some D → ∀ g ∈ L'.DstM.globals, g.addr ≠ D.addr) := by
  unfold buildAppendingVar at h
  simp only [] at h
  split at h
  · cases h
  · rename_i RetTy L4 hget
    have h4 := (typeMapGet_dstM hget).1
    split at h
    · cases h
    · rename_i Elements L6 hmap
      obtain ⟨Mapped, e, hall⟩ := mapSrcElements_spec _ _ _ _ _ _ _ _ _ hmap
      subst e
      have h6 : KeepsGlobal MapValue L2.NextAddr → ∃ g ∈ L6.DstM.globals, g.addr = L2.NextAddr := by
        intro hkeep
        refine mapSrcElements_keeps MapValue _ _ _ _ hkeep _ _ _ _ _ hmap ?_
        show ∃ g ∈ L4.DstM.globals, g.addr = L2.NextAddr
        rw [h4]
        exact exists_forceRenaming (exists_update (fun _ => rfl) (exists_insertGlobal _ _ _))
      cases DstGV with
      | none =>
        simp only [Option.some.injEq, Prod.mk.injEq] at h
        obtain ⟨hr, hL⟩ := h
        refine ⟨Mapped, RetTy, hr.symm, hall, ?_, ?_, fun D hD => by cases hD⟩
        · intro g hg ha
          rw [← hL] at hg
          exact mem_update_body hg ha
        · intro hkeep _
          rw [← hL]
          exact exists_update_body (h6 hkeep)
      | some D =>
        simp only [Option.some.injEq, Prod.mk.injEq] at h
        obtain ⟨hr, hL⟩ := h
        refine ⟨Mapped, RetTy, hr.symm, hall, ?_, ?_, ?_⟩
        · intro g hg ha
          rw [← hL] at hg
          exact mem_update_body (mem_of_mem_erase hg) ha
        · intro hkeep hfresh
          rw [← hL]
          exact exists_erase (hfresh D rfl) (exists_update_body (h6 hkeep))
        · intro D0 hD0 g hg
          cases hD0
          rw [← hL] at hg
          unfold Module.erase at hg
          exact of_decide_eq_true (List.mem_filter.1 hg).2

end IRLinker
end IRMover

namespace IRMover
namespace IRLinker

theorem getUniqued_getType (ctx : LLVMContext) (node : TypeNode) :
    (TypeMapTy.getUniqued ctx node).2.getType (TypeMapTy.getUniqued ctx node).1 = node := by
  unfold TypeMapTy.getUniqued LLVMContext.getType
  by_cases h : List.indexOf node ctx < ctx.length
  · simp only [h, if_true]
    rw [List.getD_eq_getElem _ _ h]
    exact List.indexOf_get h
  · simp only [h, if_false]
    simp [List.getD_eq_getElem?_getD]

end IRLinker
end IRMover

namespace IRMover
namespace IRLinker

/-! ### Diagnostics are only added by `emitError` and `emitWarning` -/

theorem sameDiagnostics_refl (L : IRLinker) : SameDiagnostics L L := ⟨rfl, rfl⟩

theorem sameDiagnostics_trans {L1 L2 L3 : IRLinker} (h12 : SameDiagnostics L1 L2)
    (h23 : SameDiagnostics L2 L3) : SameDiagnostics L1 L3 :=
  ⟨h23.1.trans h12.1, h23.2.trans h12.2⟩

theorem typeMapGet_sameDiagnostics {fuel : Nat} {L L' : IRLinker} {Ty T : Nat}
    (h : typeMapGet fuel L Ty = some (T, L')) : SameDiagnostics L L' := by
  unfold typeMapGet at h
  split at h
  · cases h
  · simp only [Option.some.injEq, Prod.mk.injEq] at h
    rw [← h.2]
    exact ⟨rfl, rfl⟩

theorem maybeAdd_sameDiagnostics (L : IRLinker) (GV : Nat) : SameDiagnostics L (L.maybeAdd GV) := by
  unfold maybeAdd
  split
  · exact sameDiagnostics_refl L
  · exact ⟨rfl, rfl⟩

theorem foldl_maybeAdd_sameDiagnostics (xs : List Nat) :
    ∀ L : IRLinker, SameDiagnostics L (xs.foldl maybeAdd L) := by
  induction xs with
  | nil => intro L; exact sameDiagnostics_refl L
  | cons x rest ih =>
    intro L
    exact sameDiagnostics_trans (maybeAdd_sameDiagnostics L x) (ih _)

theorem shouldLink_sameDiagnostics (AddLazyFor : GlobalValue → List Nat) (L : IRLinker)
    (DGV : Option GlobalValue) (SGV : GlobalValue) :
    SameDiagnostics L (shouldLink AddLazyFor L DGV SGV).2 := by
  unfold shouldLink
  split
  · exact sameDiagnostics_refl L
  · split
    · exact sameDiagnostics_refl L
    · split
      · exact sameDiagnostics_refl L
      · split
        · exact sameDiagnostics_refl L
        · split
          · exact sameDiagnostics_refl L
          · split
            · exact sameDiagnostics_refl L
            · exact foldl_maybeAdd_sameDiagnostics _ L

theorem isDeadStructor_sameDiagnostics {AddLazyFor : GlobalValue → List Nat} {L L' : IRLinker}
    {E : Constant} {dead : Bool} (h : isDeadStructor AddLazyFor L E = some (dead, L')) :
    SameDiagnostics L L' := by
  unfold isDeadStructor at h
  split at h
  · cases h
  · split at h
    · simp only [Option.some.injEq, Prod.mk.injEq] at h
      rw [← h.2]
      exact sameDiagnostics_refl L
    · split at h
      · cases h
      · simp only [Option.some.injEq, Prod.mk.injEq] at h
        rw [← h.2]
        exact shouldLink_sameDiagnostics _ _ _ _

theorem removeDeadStructors_sameDiagnostics (AddLazyFor : GlobalValue → List Nat) :
    ∀ (Src : List Constant) (L : IRLinker) (Kept : List Constant) (L' : IRLinker),
      removeDeadStructors AddLazyFor Src L = some (Kept, L') → SameDiagnostics L L' := by
  intro Src
  induction Src with
  | nil =>
    intro L Kept L' h
    simp only [removeDeadStructors, Option.some.injEq, Prod.mk.injEq] at h
    rw [← h.2]
    exact sameDiagnostics_refl L
  | cons E rest ih =>
    intro L Kept L' h
    rw [removeDeadStructors] at h
    cases hd : isDeadStructor AddLazyFor L E with
    | none => rw [hd] at h; cases h
    | some res =>
      obtain ⟨dead, L1⟩ := res
      rw [hd] at h
      simp only [] at h
      cases hr : removeDeadStructors AddLazyFor rest L1 with
      | none => rw [hr] at h; cases h
      | some res2 =>
        obtain ⟨kept, L2⟩ := res2
        rw [hr] at h
        simp only [Option.some.injEq, Prod.mk.injEq] at h
        rw [← h.2]
        exact sameDiagnostics_trans (isDeadStructor_sameDiagnostics hd) (ih L1 kept L2 hr)

theorem mapSrcElements_sameDiagnostics (MapValue : IRLinker → Constant → Constant × IRLinker)
    (hquiet : ∀ (La : IRLinker) (C : Constant), SameDiagnostics La (MapValue La C).2)
    (IsOldStructor : Bool) (EltTy VoidPtrTy : Nat) :
    ∀ (Src Dst : List Constant) (L : IRLinker) (Elements : List Constant) (L' : IRLinker),
      mapSrcElements MapValue IsOldStructor EltTy VoidPtrTy Src Dst L = some (Elements, L') →
      SameDiagnostics L L' := by
  intro Src
  induction Src with
  | nil =>
    intro Dst L Elements L' h
    simp only [mapSrcElements, Option.some.injEq, Prod.mk.injEq] at h
    rw [← h.2]
    exact sameDiagnostics_refl L
  | cons V rest ih =>
    intro Dst L Elements L' h
    rw [mapSrcElements] at h
    cases hO : IsOldStructor with
    | false =>
      rw [hO] at h ih
      simp only [Bool.false_eq_true, if_false] at h
      exact sameDiagnostics_trans (hquiet L V) (ih _ _ _ _ h)
    | true =>
      rw [hO] at h ih
      simp only [if_true] at h
      cases h0 : V.getOperand 0 with
      | none => rw [h0] at h; simp at h
      | some O0 =>
        cases h1 : V.getOperand 1 with
        | none => rw [h0, h1] at h; simp at h
        | some O1 =>
          rw [h0, h1] at h
          simp only [] at h
          exact sameDiagnostics_trans
            (sameDiagnostics_trans (hquiet L O0) (hquiet _ O1)) (ih _ _ _ _ h)

theorem buildAppendingVar_sameDiagnostics {MapValue : IRLinker → Constant → Constant × IRLinker}
    (hquiet : ∀ (La : IRLinker) (C : Constant), SameDiagnostics La (MapValue La C).2)
    {fuel : Nat} {L2 L' : IRLinker} {DstGV : Option GlobalValue} {SrcGV : GlobalValue}
    {IsOldStructor : Bool} {EltTy VoidPtrTy : Nat} {Dst Kept : List Constant}
    {r : Option Constant}
    (h : buildAppendingVar MapValue fuel L2 DstGV SrcGV IsOldStructor EltTy VoidPtrTy Dst Kept =
      some (r, L')) : SameDiagnostics L2 L' := by
  unfold buildAppendingVar at h
  simp only [] at h
  split at h
  · cases h
  · rename_i RetTy L4 hget
    have h4 := typeMapGet_sameDiagnostics hget
    split at h
    · cases h
    · rename_i Elements L6 hmap
      have h6 := mapSrcElements_sameDiagnostics MapValue hquiet _ _ _ _ _ _ _ _ hmap
      have h26 : SameDiagnostics L2 L6 :=
        sameDiagnostics_trans (sameDiagnostics_trans ⟨rfl, rfl⟩ h4)
          (sameDiagnostics_trans ⟨rfl, rfl⟩ h6)
      cases DstGV with
      | none =>
        simp only [Option.some.injEq, Prod.mk.injEq] at h
        rw [← h.2]
        exact sameDiagnostics_trans h26 ⟨rfl, rfl⟩
      | some D =>
        simp only [Option.some.injEq, Prod.mk.injEq] at h
        rw [← h.2]
        exact sameDiagnostics_trans h26 ⟨rfl, rfl⟩

end IRLinker
end IRMover

namespace IRMover
namespace IRLinker

/-! ### The checks against an existing destination array -/

theorem appendingConflict_eq_none_iff (ctx : LLVMContext) (EltTy : Nat)
    (DstGV SrcGV : GlobalValue) :
    appendingConflict ctx EltTy DstGV SrcGV = none ↔ appendingAgree ctx EltTy DstGV SrcGV := by
  unfold appendingConflict appendingAgree
  cases hs : SrcGV.hasAppendingLinkage <;> cases hd : DstGV.hasAppendingLinkage <;>
    simp only [Bool.not_true, Bool.not_false, Bool.or_true, Bool.or_false, Bool.true_or,
      if_true, Bool.false_eq_true, if_false, false_and, and_false, true_and, and_true,
      reduceCtorEq]
  by_cases h1 : EltTy = ctx.getContainedType DstGV.valueType 0
  · by_cases h2 : DstGV.isConstant = SrcGV.isConstant
    · by_cases h3 : DstGV.alignment = SrcGV.alignment
      · by_cases h4 : DstGV.visibility = SrcGV.visibility
        · by_cases h5 : DstGV.unnamedAddr = SrcGV.unnamedAddr
          · by_cases h6 : DstGV.sectionName = SrcGV.sectionName
            · simp [h1, h2, h3, h4, h5, h6]
            · simp [h1, h2, h3, h4, h5, h6]
          · simp [h1, h2, h3, h4, h5]
        · simp [h1, h2, h3, h4]
      · simp [h1, h2, h3]
    · simp [h1, h2]
  · simp [h1]

theorem buildAppendingVar_nonnull {MapValue : IRLinker → Constant → Constant × IRLinker}
    {fuel : Nat} {L2 L' : IRLinker} {DstGV : Option GlobalValue} {SrcGV : GlobalValue}
    {IsOldStructor : Bool} {EltTy VoidPtrTy : Nat} {Dst Kept : List Constant}
    {r : Option Constant}
    (h : buildAppendingVar MapValue fuel L2 DstGV SrcGV IsOldStructor EltTy VoidPtrTy Dst Kept =
      some (r, L')) : r.isSome = true := by
  obtain ⟨_, _, hr, _⟩ := buildAppendingVar_spec h
  rw [hr]
  rfl

/-- What `linkAppendingVarProto` does with a destination global `D`, once the
value type of the source is mapped: on a conflict the null result with the
error emitted, otherwise the run of the rest of the method. -/
theorem linkAppendingVarProto_cases (MapValue : IRLinker → Constant → Constant × IRLinker)
    (AddLazyFor : GlobalValue → List Nat) (fuel : Nat) (L L0 : IRLinker)
    (D SrcGV : GlobalValue) (T : Nat)
    (hget : typeMapGet fuel L SrcGV.valueType = some (T, L0)) :
    (∃ Message,
      appendingConflict (appendingShape L0.Context T SrcGV.name).Context
        (appendingShape L0.Context T SrcGV.name).EltTy D SrcGV = some Message ∧
      linkAppendingVarProto MapValue AddLazyFor fuel L (some D) SrcGV =
        some (none,
          emitError { L0 with Context := (appendingShape L0.Context T SrcGV.name).Context }
            Message)) ∨
    (appendingConflict (appendingShape L0.Context T SrcGV.name).Context
        (appendingShape L0.Context T SrcGV.name).EltTy D SrcGV = none ∧
      ∀ (r : Option Constant) (L' : IRLinker),
        linkAppendingVarProto MapValue AddLazyFor fuel L (some D) SrcGV = some (r, L') →
        r.isSome = true ∧
        ((∀ (La : IRLinker) (C : Constant), SameDiagnostics La (MapValue La C).2) →
          SameDiagnostics L L')) := by
  have h0 := typeMapGet_sameDiagnostics hget
  unfold linkAppendingVarProto
  rw [hget]
  simp only [Option.some_bind]
  generalize appendingShape L0.Context T SrcGV.name = Sh
  cases hc : appendingConflict Sh.Context Sh.EltTy D SrcGV with
  | some Message => exact Or.inl ⟨Message, rfl, rfl⟩
  | none =>
    refine Or.inr ⟨rfl, ?_⟩
    intro r L' h
    simp only [] at h
    split at h
    · rename_i DstElements SrcElements0 hdst hsrc
      split at h
      · cases h
      · rename_i Kept L2 hkept
        refine ⟨buildAppendingVar_nonnull h, fun hquiet => ?_⟩
        have h12 : SameDiagnostics { L0 with Context := Sh.Context } L2 := by
          cases hN : Sh.IsNewStructor with
          | true =>
            rw [hN] at hkept
            simp only [if_true] at hkept
            exact removeDeadStructors_sameDiagnostics AddLazyFor _ _ _ _ hkept
          | false =>
            rw [hN] at hkept
            simp only [Bool.false_eq_true, if_false, Option.some.injEq, Prod.mk.injEq] at hkept
            rw [← hkept.2]
            exact sameDiagnostics_refl _
        exact sameDiagnostics_trans h0
          (sameDiagnostics_trans ⟨rfl, rfl⟩
            (sameDiagnostics_trans h12 (buildAppendingVar_sameDiagnostics hquiet h)))
    · cases h

end IRLinker
end IRMover

namespace IRMover
namespace IRLinker

/-! ### The merge of appending variables completes -/

theorem typeMapGet_zero (L : IRLinker) (Ty : Nat) : typeMapGet 0 L Ty = none := rfl

theorem foldl_maybeAdd_keeps (xs : List Nat) :
    ∀ L : IRLinker, (xs.foldl maybeAdd L).TypeMap = L.TypeMap ∧
      (xs.foldl maybeAdd L).SrcM = L.SrcM := by
  induction xs with
  | nil => intro L; exact ⟨rfl, rfl⟩
  | cons x rest ih =>
    intro L
    rw [List.foldl_cons]
    obtain ⟨h1, h2⟩ := ih (L.maybeAdd x)
    rw [h1, h2]
    unfold maybeAdd
    split
    · exact ⟨rfl, rfl⟩
    · exact ⟨rfl, rfl⟩

theorem shouldLink_keeps (AddLazyFor : GlobalValue → List Nat) (L : IRLinker)
    (DGV : Option GlobalValue) (SGV : GlobalValue) :
    (shouldLink AddLazyFor L DGV SGV).2.TypeMap = L.TypeMap ∧
    (shouldLink AddLazyFor L DGV SGV).2.SrcM = L.SrcM := by
  unfold shouldLink
  split
  · exact ⟨rfl, rfl⟩
  · split
    · exact ⟨rfl, rfl⟩
    · split
      · exact ⟨rfl, rfl⟩
      · split
        · exact ⟨rfl, rfl⟩
        · split
          · exact ⟨rfl, rfl⟩
          · split
            · exact ⟨rfl, rfl⟩
            · exact foldl_maybeAdd_keeps _ L

theorem removeDeadStructors_total (AddLazyFor : GlobalValue → List Nat) :
    ∀ (Src : List Constant) (L : IRLinker),
      (∀ E ∈ Src, ∃ op, E.getAggregateElement 2 = some op ∧
        ∀ a, op.stripPointerCasts.asGlobalValue = some a → ∃ K, L.SrcM.find a = some K) →
      ∃ (Kept : List Constant) (L2 : IRLinker),
        removeDeadStructors AddLazyFor Src L = some (Kept, L2) ∧
        L2.TypeMap = L.TypeMap ∧ L2.SrcM = L.SrcM := by
  intro Src
  induction Src with
  | nil =>
    intro L _
    exact ⟨[], L, rfl, rfl, rfl⟩
  | cons E rest ih =>
    intro L hwf
    obtain ⟨op, hop, hkey⟩ := hwf E (List.mem_cons_self _ _)
    have hstep : ∃ (dead : Bool) (L1 : IRLinker), isDeadStructor AddLazyFor L E = some (dead, L1) ∧
        L1.TypeMap = L.TypeMap ∧ L1.SrcM = L.SrcM := by
      unfold isDeadStructor
      rw [hop]
      simp only []
      cases ha : op.stripPointerCasts.asGlobalValue with
      | none => exact ⟨false, L, rfl, rfl, rfl⟩
      | some a =>
        obtain ⟨K, hK⟩ := hkey a ha
        simp only [hK]
        exact ⟨_, _, rfl, (shouldLink_keeps _ _ _ _).1, (shouldLink_keeps _ _ _ _).2⟩
    obtain ⟨dead, L1, hd, ht1, hs1⟩ := hstep
    obtain ⟨Kept, L2, hr, ht2, hs2⟩ := ih L1 (by
      intro E1 hE1
      obtain ⟨op1, hop1, hkey1⟩ := hwf E1 (List.mem_cons_of_mem _ hE1)
      refine ⟨op1, hop1, ?_⟩
      rw [hs1]
      exact hkey1)
    refine ⟨if dead then Kept else E :: Kept, L2, ?_, ht2.trans ht1, hs2.trans hs1⟩
    rw [removeDeadStructors, hd]
    simp only []
    rw [hr]

theorem mapSrcElements_total (MapValue : IRLinker → Constant → Constant × IRLinker)
    (IsOldStructor : Bool) (EltTy VoidPtrTy : Nat) :
    ∀ (Src Dst : List Constant) (L : IRLinker),
      (IsOldStructor = true → ∀ V ∈ Src,
        ∃ p f, V.getOperand 0 = some p ∧ V.getOperand 1 = some f) →
      ∃ (Elements : List Constant) (L' : IRLinker),
        mapSrcElements MapValue IsOldStructor EltTy VoidPtrTy Src Dst L = some (Elements, L') := by
  intro Src
  induction Src with
  | nil =>
    intro Dst L _
    exact ⟨Dst, L, rfl⟩
  | cons V rest ih =>
    intro Dst L hwf
    have hrest : IsOldStructor = true → ∀ V1 ∈ rest,
        ∃ p f, V1.getOperand 0 = some p ∧ V1.getOperand 1 = some f :=
      fun ho V1 h1 => hwf ho V1 (List.mem_cons_of_mem _ h1)
    rw [mapSrcElements]
    cases hO : IsOldStructor with
    | false =>
      simp only [Bool.false_eq_true, if_false]
      rw [hO] at ih
      exact ih _ _ (fun hc => by cases hc)
    | true =>
      simp only [if_true]
      obtain ⟨p, f, hp, hf⟩ := hwf hO V (List.mem_cons_self _ _)
      rw [hp, hf]
      simp only []
      rw [hO] at ih
      exact ih _ _ (fun _ => hrest hO)

theorem buildAppendingVar_total {MapValue : IRLinker → Constant → Constant × IRLinker}
    {fuel : Nat} {L2 : IRLinker} {DstGV : Option GlobalValue} {SrcGV : GlobalValue}
    {IsOldStructor : Bool} {EltTy VoidPtrTy RetTy : Nat} {Dst Kept : List Constant}
    (hR : L2.TypeMap.MappedTypes.lookup SrcGV.type = some RetTy)
    (hold : IsOldStructor = true → ∀ V ∈ Kept,
      ∃ p f, V.getOperand 0 = some p ∧ V.getOperand 1 = some f) :
    ∃ (Ret : Constant) (L' : IRLinker),
      buildAppendingVar MapValue (fuel + 1) L2 DstGV SrcGV IsOldStructor EltTy VoidPtrTy Dst
        Kept = some (some Ret, L') := by
  unfold buildAppendingVar
  simp only []
  rw [typeMapGet_of_entry fuel _ SrcGV.type RetTy (by exact hR)]
  simp only []
  obtain ⟨Elements, L6, hm⟩ := mapSrcElements_total MapValue IsOldStructor EltTy VoidPtrTy Kept
    Dst _ hold
  rw [hm]
  cases DstGV with
  | none => exact ⟨_, _, rfl⟩
  | some D => exact ⟨_, _, rfl⟩

/-- The method `linkAppendingVarProto` returns a constant when the type of the
source global is mapped already, the destination global (if any) passes the
checks and has an array initializer, the source has an array initializer, and
the elements of a structor list have the fields the method reads. -/
theorem linkAppendingVarProto_completes (MapValue : IRLinker → Constant → Constant × IRLinker)
    (AddLazyFor : GlobalValue → List Nat) (fuel : Nat) (L L0 : IRLinker)
    (DstGV : Option GlobalValue) (SrcGV : GlobalValue) (T RetTy tyS : Nat)
    (Src : List Constant)
    (hget : typeMapGet fuel L SrcGV.valueType = some (T, L0))
    (hR : L0.TypeMap.MappedTypes.lookup SrcGV.type = some RetTy)
    (hS : SrcGV.body = some (Constant.Array tyS Src))
    (hD : ∀ D, DstGV = some D →
      appendingConflict (appendingShape L0.Context T SrcGV.name).Context
        (appendingShape L0.Context T SrcGV.name).EltTy D SrcGV = none ∧
      ∃ (tyD : Nat) (Dst : List Constant), D.body = some (Constant.Array tyD Dst))
    (hnew : (appendingShape L0.Context T SrcGV.name).IsNewStructor = true → ∀ E ∈ Src,
      ∃ op, E.getAggregateElement 2 = some op ∧
        ∀ a, op.stripPointerCasts.asGlobalValue = some a → ∃ K, L0.SrcM.find a = some K)
    (hold : (appendingShape L0.Context T SrcGV.name).IsOldStructor = true → ∀ V ∈ Src,
      ∃ p f, V.getOperand 0 = some p ∧ V.getOperand 1 = some f) :
    ∃ (Ret : Constant) (L' : IRLinker),
      linkAppendingVarProto MapValue AddLazyFor fuel L DstGV SrcGV = some (some Ret, L') := by
  cases fuel with
  | zero => rw [typeMapGet_zero] at hget; cases hget
  | succ f =>
    unfold linkAppendingVarProto
    rw [hget]
    simp only []
    generalize appendingShape L0.Context T SrcGV.name = Sh at hD hnew hold ⊢
    have hconf : (DstGV.bind fun D => appendingConflict Sh.Context Sh.EltTy D SrcGV) = none := by
      cases DstGV with
      | none => rfl
      | some D => exact (hD D rfl).1
    have hdst : ∃ Dst, (match DstGV with
        | none => some []
        | some D => D.body.bind getArrayElements) = some Dst := by
      cases DstGV with
      | none => exact ⟨[], rfl⟩
      | some D =>
        obtain ⟨_, tyD, Dst, hb⟩ := hD D rfl
        refine ⟨Dst, ?_⟩
        simp only [hb, Option.some_bind, getArrayElements_array]
    obtain ⟨Dst, hdst⟩ := hdst
    rw [hconf]
    simp only [hdst, hS, Option.some_bind, getArrayElements_array]
    cases hN : Sh.IsNewStructor with
    | false =>
      simp only [Bool.false_eq_true, if_false]
      exact buildAppendingVar_total hR hold
    | true =>
      simp only [if_true]
      obtain ⟨Kept, L2, hk, ht, _⟩ := removeDeadStructors_total AddLazyFor Src
        { L0 with Context := Sh.Context } (hnew hN)
      rw [hk]
      simp only []
      have hsub := removeDeadStructors_sublist AddLazyFor _ _ _ _ hk
      refine buildAppendingVar_total (by rw [ht]; exact hR) ?_
      intro ho V hV
      exact hold ho V (hsub.subset hV)

theorem linkAppendingVarProto_of_readable
    (MapValue : IRLinker → Constant → Constant × IRLinker)
    (AddLazyFor : GlobalValue → List Nat) (fuel : Nat) (L L0 : IRLinker)
    (DstGV : Option GlobalValue) (SrcGV : GlobalValue) (T tyS : Nat) (Src : List Constant)
    (hget : typeMapGet fuel L SrcGV.valueType = some (T, L0))
    (hS : SrcGV.body = some (Constant.Array tyS Src))
    (hread : AppendingReadable L0 T DstGV SrcGV Src) :
    ∃ (Ret : Constant) (L' : IRLinker),
      linkAppendingVarProto MapValue AddLazyFor fuel L DstGV SrcGV = some (some Ret, L') := by
  obtain ⟨⟨RetTy, hR⟩, hD, hnew, hold⟩ := hread
  exact linkAppendingVarProto_completes MapValue AddLazyFor fuel L L0 DstGV SrcGV T RetTy tyS
    Src hget hR hS hD hnew hold

end IRLinker
end IRMover

namespace IRMover
namespace IRLinker

/-- C11 (as stated, refuted): the source `llvm.global_ctors` has the legacy
2-field elements, so its mapped element type `{ i32, void ()* }` (type 11)
differs from the element type `{ i32, void ()*, i8* }` (type 6) of the
destination array; all other attributes agree.  The merge succeeds all the
same and emits nothing, because the source element type is upgraded to the
3-field form before the comparison. -/
theorem linkAppendingVarProto_accepts_legacy_source :
    (typeMapGet 2 (exampleLegacyLinker exampleDstCtors) exampleSrcLegacyCtors.valueType).map
        (fun r => r.2.Context.getContainedType r.1 0) = some 11 ∧
    exampleLegacyCtx.getContainedType exampleDstCtors.valueType 0 = 6 ∧
    (exampleDstCtors.hasAppendingLinkage, exampleDstCtors.isConstant, exampleDstCtors.alignment,
      exampleDstCtors.visibility, exampleDstCtors.unnamedAddr, exampleDstCtors.sectionName) =
      (exampleSrcLegacyCtors.hasAppendingLinkage, exampleSrcLegacyCtors.isConstant,
        exampleSrcLegacyCtors.alignment, exampleSrcLegacyCtors.visibility,
        exampleSrcLegacyCtors.unnamedAddr, exampleSrcLegacyCtors.sectionName) ∧
    (linkAppendingVarProto MapValueId AddLazyForNone 2 (exampleLegacyLinker exampleDstCtors)
        (some exampleDstCtors) exampleSrcLegacyCtors).map
      (fun r => (r.1.isSome, r.2.HasError, r.2.Diagnostics)) = some (true, false, []) := by
  decide

/-- C11 (amended): let `Sh` be the shape worked out at the head of
`linkAppendingVarProto`, whose element type `Sh.EltTy` is the mapped element
type of the source array, replaced by the 3-field struct when the source is a
legacy 2-field `llvm.global_ctors` or `llvm.global_dtors`.  With a destination
global `D` the method returns null if and only if one of the seven conditions
fails: both globals have appending linkage, `Sh.EltTy` is the element type of
`D`, and const-ness, alignment, visibility, unnamed-address attribute and
section name are equal.  A null result comes with the failure flag set and
exactly one error appended to the diagnostics.  When the seven conditions hold,
every completed run returns a non-null constant, and it leaves the diagnostics
and the failure flag as they were provided the value mapper emits nothing; and
the run completes when the initializers and the elements can be read. -/
theorem linkAppendingVarProto_fails_iff (MapValue : IRLinker → Constant → Constant × IRLinker)
    (AddLazyFor : GlobalValue → List Nat) (fuel : Nat) (L L0 : IRLinker)
    (D SrcGV : GlobalValue) (T : Nat)
    (hget : typeMapGet fuel L SrcGV.valueType = some (T, L0)) :
    ((∃ L', linkAppendingVarProto MapValue AddLazyFor fuel L (some D) SrcGV = some (none, L')) ↔
      ¬ appendingAgree (appendingShape L0.Context T SrcGV.name).Context
        (appendingShape L0.Context T SrcGV.name).EltTy D SrcGV) ∧
    (∀ L', linkAppendingVarProto MapValue AddLazyFor fuel L (some D) SrcGV = some (none, L') →
      L'.HasError = true ∧
      ∃ Message, L'.Diagnostics = L.Diagnostics ++ [(DiagnosticSeverity.DS_Error, Message)]) ∧
    (appendingAgree (appendingShape L0.Context T SrcGV.name).Context
        (appendingShape L0.Context T SrcGV.name).EltTy D SrcGV →
      ∀ (r : Option Constant) (L' : IRLinker),
        linkAppendingVarProto MapValue AddLazyFor fuel L (some D) SrcGV = some (r, L') →
        r.isSome = true ∧
        ((∀ (La : IRLinker) (C : Constant), SameDiagnostics La (MapValue La C).2) →
          SameDiagnostics L L')) ∧
    (∀ (tyS : Nat) (Src : List Constant), SrcGV.body = some (Constant.Array tyS Src) →
      AppendingReadable L0 T (some D) SrcGV Src →
      ∃ (Ret : Constant) (L' : IRLinker),
        linkAppendingVarProto MapValue AddLazyFor fuel L (some D) SrcGV =
          some (some Ret, L')) := by
  have hcomp : ∀ (tyS : Nat) (Src : List Constant),
      SrcGV.body = some (Constant.Array tyS Src) →
      AppendingReadable L0 T (some D) SrcGV Src →
      ∃ (Ret : Constant) (L' : IRLinker),
        linkAppendingVarProto MapValue AddLazyFor fuel L (some D) SrcGV =
          some (some Ret, L') :=
    fun tyS Src hS hread =>
      linkAppendingVarProto_of_readable MapValue AddLazyFor fuel L L0 (some D) SrcGV T tyS Src
        hget hS hread
  have h0 := typeMapGet_sameDiagnostics hget
  rcases linkAppendingVarProto_cases MapValue AddLazyFor fuel L L0 D SrcGV T hget with
    ⟨Message, hc, hres⟩ | ⟨hc, hres⟩
  · have hna : ¬ appendingAgree (appendingShape L0.Context T SrcGV.name).Context
        (appendingShape L0.Context T SrcGV.name).EltTy D SrcGV := by
      intro ha
      rw [(appendingConflict_eq_none_iff _ _ _ _).mpr ha] at hc
      cases hc
    refine ⟨⟨fun _ => hna, fun _ => ⟨_, hres⟩⟩, ?_, fun ha => absurd ha hna, hcomp⟩
    intro L' h
    rw [hres] at h
    simp only [Option.some.injEq, Prod.mk.injEq, true_and] at h
    rw [← h]
    refine ⟨rfl, Message, ?_⟩
    show L0.Diagnostics ++ _ = _
    rw [h0.1]
  · have ha := (appendingConflict_eq_none_iff _ _ _ _).mp hc
    refine ⟨⟨?_, fun hna => absurd ha hna⟩, ?_, fun _ => hres, hcomp⟩
    · rintro ⟨L', h⟩
      have := (hres none L' h).1
      cases this
    · intro L' h
      have := (hres none L' h).1
      cases this

/-- C11 (amended), at a legacy source list and a legacy destination list: the
upgraded element type of the source is not the element type of the
destination, and the merge fails. -/
theorem linkAppendingVarProto_fails_iff_witness :
    typeMapGet 2 (exampleLegacyLinker exampleDstLegacyCtors) exampleSrcLegacyCtors.valueType =
      some (12, exampleLegacyLinker exampleDstLegacyCtors) ∧
    ((∃ L', linkAppendingVarProto MapValueId AddLazyForNone 2
        (exampleLegacyLinker exampleDstLegacyCtors) (some exampleDstLegacyCtors)
        exampleSrcLegacyCtors = some (none, L')) ↔
      ¬ appendingAgree
        (appendingShape (exampleLegacyLinker exampleDstLegacyCtors).Context 12
          exampleSrcLegacyCtors.name).Context
        (appendingShape (exampleLegacyLinker exampleDstLegacyCtors).Context 12
          exampleSrcLegacyCtors.name).EltTy exampleDstLegacyCtors exampleSrcLegacyCtors) :=
  ⟨rfl,
    (linkAppendingVarProto_fails_iff MapValueId AddLazyForNone 2
      (exampleLegacyLinker exampleDstLegacyCtors) (exampleLegacyLinker exampleDstLegacyCtors)
      exampleDstLegacyCtors exampleSrcLegacyCtors 12 rfl).1⟩

end IRLinker
end IRMover

namespace IRMover
namespace IRLinker

/-! ### Dead registrations -/

end IRLinker
end IRMover

namespace IRMover
namespace IRLinker

end IRLinker
end IRMover

namespace IRMover
namespace IRLinker

/-! ### The upgrade of a legacy structor list -/

theorem getUniqued_lt (ctx : LLVMContext) (node : TypeNode) :
    (TypeMapTy.getUniqued ctx node).1 < (TypeMapTy.getUniqued ctx node).2.length := by
  unfold TypeMapTy.getUniqued
  by_cases h : List.indexOf node ctx < ctx.length
  · simp only [h, if_true]
  · simp only [h, if_false, List.length_append, List.length_singleton]
    omega

theorem getUniqued_getType_of_lt (ctx : LLVMContext) (node : TypeNode) (t : Nat)
    (ht : t < ctx.length) : (TypeMapTy.getUniqued ctx node).2.getType t = ctx.getType t := by
  unfold TypeMapTy.getUniqued LLVMContext.getType
  by_cases h : List.indexOf node ctx < ctx.length
  · simp only [h, if_true]
  · simp only [h, if_false]
    rw [List.getD_eq_getElem?_getD, List.getD_eq_getElem?_getD, List.getElem?_append_left ht]

theorem getUniqued_length_le (ctx : LLVMContext) (node : TypeNode) :
    ctx.length ≤ (TypeMapTy.getUniqued ctx node).2.length := by
  unfold TypeMapTy.getUniqued
  by_cases h : List.indexOf node ctx < ctx.length
  · simp only [h, if_true, le_refl]
  · simp only [h, if_false, List.length_append, List.length_singleton]
    omega

theorem appendingShape_legacy (ctx : LLVMContext) (T : Nat) (Name : String)
    (hname : Name = "llvm.global_ctors" ∨ Name = "llvm.global_dtors")
    (hn : ctx.getNumContainedTypes (ctx.getContainedType T 0) ≠ 3)
    (hin : ctx.getContainedType T 0 < ctx.length) :
    ∃ Int8Ty : Nat,
      (appendingShape ctx T Name).IsOldStructor = true ∧
      (appendingShape ctx T Name).IsNewStructor = false ∧
      (appendingShape ctx T Name).EltTy < (appendingShape ctx T Name).Context.length ∧
      (appendingShape ctx T Name).VoidPtrTy < (appendingShape ctx T Name).Context.length ∧
      Int8Ty < (appendingShape ctx T Name).Context.length ∧
      (appendingShape ctx T Name).Context.getType (appendingShape ctx T Name).EltTy =
        ⟨TypeID.StructTyID,
          [ctx.getContainedType (ctx.getContainedType T 0) 0,
           ctx.getContainedType (ctx.getContainedType T 0) 1,
           (appendingShape ctx T Name).VoidPtrTy],
          0, false, true, false, false, 0, 0, ""⟩ ∧
      (appendingShape ctx T Name).Context.getType (appendingShape ctx T Name).VoidPtrTy =
        ⟨TypeID.PointerTyID, [Int8Ty], 0, false, false, false, false, 0, 0, ""⟩ ∧
      (appendingShape ctx T Name).Context.getType Int8Ty =
        ⟨TypeID.IntegerTyID, [], 0, false, false, false, false, 0, 8, ""⟩ := by
  have hs : (decide (Name = "llvm.global_ctors") || decide (Name = "llvm.global_dtors")) =
      true := by
    rcases hname with e | e <;> simp [e]
  unfold appendingShape
  simp only [hs, Bool.true_and, decide_eq_false hn, Bool.not_false, if_true]
  generalize hi8 : TypeMapTy.getUniqued ctx
    ⟨TypeID.IntegerTyID, [], 0, false, false, false, false, 0, 8, ""⟩ = i8
  have h8lt : i8.1 < i8.2.length := by rw [← hi8]; exact getUniqued_lt _ _
  have h8ty : i8.2.getType i8.1 =
      ⟨TypeID.IntegerTyID, [], 0, false, false, false, false, 0, 8, ""⟩ := by
    rw [← hi8]; exact getUniqued_getType _ _
  have h8le : ctx.length ≤ i8.2.length := by rw [← hi8]; exact getUniqued_length_le _ _
  have h8keep : i8.2.getType (ctx.getContainedType T 0) = ctx.getType (ctx.getContainedType T 0) := by
    rw [← hi8]; exact getUniqued_getType_of_lt _ _ _ hin
  generalize hvp : TypeMapTy.getUniqued i8.2
    ⟨TypeID.PointerTyID, [i8.1], 0, false, false, false, false, 0, 0, ""⟩ = VoidPtr
  have hvlt : VoidPtr.1 < VoidPtr.2.length := by rw [← hvp]; exact getUniqued_lt _ _
  have hvty : VoidPtr.2.getType VoidPtr.1 =
      ⟨TypeID.PointerTyID, [i8.1], 0, false, false, false, false, 0, 0, ""⟩ := by
    rw [← hvp]; exact getUniqued_getType _ _
  have hvle : i8.2.length ≤ VoidPtr.2.length := by rw [← hvp]; exact getUniqued_length_le _ _
  have hv8 : VoidPtr.2.getType i8.1 = i8.2.getType i8.1 := by
    rw [← hvp]; exact getUniqued_getType_of_lt _ _ _ h8lt
  have hvkeep : VoidPtr.2.getType (ctx.getContainedType T 0) =
      ctx.getType (ctx.getContainedType T 0) := by
    rw [← hvp, getUniqued_getType_of_lt _ _ _ (Nat.lt_of_lt_of_le hin h8le), h8keep]
  have hfield : ∀ i, VoidPtr.2.getContainedType (ctx.getContainedType T 0) i =
      ctx.getContainedType (ctx.getContainedType T 0) i := by
    intro i
    show (VoidPtr.2.getType (ctx.getContainedType T 0)).contained.getD i 0 =
      (ctx.getType (ctx.getContainedType T 0)).contained.getD i 0
    rw [hvkeep]
  rw [hfield 0, hfield 1]
  generalize hel : TypeMapTy.getUniqued VoidPtr.2
    ⟨TypeID.StructTyID,
      [ctx.getContainedType (ctx.getContainedType T 0) 0,
       ctx.getContainedType (ctx.getContainedType T 0) 1, VoidPtr.1],
      0, false, true, false, false, 0, 0, ""⟩ = Elt
  have helt : Elt.1 < Elt.2.length := by rw [← hel]; exact getUniqued_lt _ _
  have hety : Elt.2.getType Elt.1 =
      ⟨TypeID.StructTyID,
        [ctx.getContainedType (ctx.getContainedType T 0) 0,
         ctx.getContainedType (ctx.getContainedType T 0) 1, VoidPtr.1],
        0, false, true, false, false, 0, 0, ""⟩ := by
    rw [← hel]; exact getUniqued_getType _ _
  have hele : VoidPtr.2.length ≤ Elt.2.length := by rw [← hel]; exact getUniqued_length_le _ _
  have hev : Elt.2.getType VoidPtr.1 = VoidPtr.2.getType VoidPtr.1 := by
    rw [← hel]; exact getUniqued_getType_of_lt _ _ _ hvlt
  have he8 : Elt.2.getType i8.1 = VoidPtr.2.getType i8.1 := by
    rw [← hel]; exact getUniqued_getType_of_lt _ _ _ (Nat.lt_of_lt_of_le h8lt hvle)
  refine ⟨i8.1, trivial, ?_, helt, Nat.lt_of_lt_of_le hvlt hele,
    Nat.lt_of_lt_of_le h8lt (Nat.le_trans hvle hele), hety, ?_, ?_⟩
  · simp
  · rw [hev, hvty]
  · rw [he8, hv8, h8ty]

end IRLinker
end IRMover

namespace IRMover
namespace IRLinker

end IRLinker
end IRMover

namespace IRMover

/-! ### Metadata -/

theorem mdExtends_refl (md : MDContext) : MDExtends md md := fun _ _ h => h

theorem mdExtends_trans {a b c : MDContext} (h1 : MDExtends a b) (h2 : MDExtends b c) :
    MDExtends a c := fun N x h => h2 N x (h1 N x h)

theorem mdExtends_get (md : MDContext) (Ops : List Nat) : MDExtends md (md.get Ops).2 := by
  intro N x h
  unfold MDContext.get
  by_cases hu : List.indexOf (Metadata.MDNode Ops) md < md.length
  · simp only [hu, if_true]
    exact h
  · simp only [hu, if_false]
    rw [List.get?_eq_getElem?] at h ⊢
    have hN : N < md.length := by
      rcases Nat.lt_or_ge N md.length with hlt | hge
      · exact hlt
      · rw [List.getElem?_eq_none hge] at h
        cases h
    rw [List.getElem?_append_left hN]
    exact h

theorem get_node (md : MDContext) (Ops : List Nat) :
    (md.get Ops).2.get? (md.get Ops).1 = some (Metadata.MDNode Ops) := by
  unfold MDContext.get
  by_cases hu : List.indexOf (Metadata.MDNode Ops) md < md.length
  · simp only [hu, if_true]
    rw [List.get?_eq_getElem?, List.getElem?_eq_getElem hu]
    exact congrArg some (List.indexOf_get hu)
  · simp only [hu, if_false]
    rw [List.get?_eq_getElem?]
    simp

theorem getOperand_mono {md md2 : MDContext} (h : MDExtends md md2) {N I v : Nat}
    (hv : md.getOperand N I = some v) : md2.getOperand N I = some v := by
  unfold MDContext.getOperand at hv ⊢
  cases hn : md.get? N with
  | none => rw [hn] at hv; cases hv
  | some x =>
    rw [hn] at hv
    rw [h N x hn]
    exact hv

theorem operands_mono {md md2 : MDContext} (h : MDExtends md md2) {N : Nat} {ops : List Nat}
    (hv : md.operands N = some ops) : md2.operands N = some ops := by
  unfold MDContext.operands at hv ⊢
  cases hn : md.get? N with
  | none => rw [hn] at hv; cases hv
  | some x =>
    rw [hn] at hv
    rw [h N x hn]
    exact hv

theorem castMDString_mono {md md2 : MDContext} (h : MDExtends md md2) {N v : Nat}
    (hv : md.castMDString N = some v) : md2.castMDString N = some v := by
  unfold MDContext.castMDString at hv ⊢
  cases hn : md.get? N with
  | none => rw [hn] at hv; cases hv
  | some x =>
    rw [hn] at hv
    rw [h N x hn]
    exact hv

theorem castMDString_eq {md : MDContext} {N v : Nat} (hv : md.castMDString N = some v) :
    v = N := by
  unfold MDContext.castMDString at hv
  split at hv
  · exact (Option.some.inj hv).symm
  · cases hv

theorem getZExtValue_mono {md md2 : MDContext} (h : MDExtends md md2) {N v : Nat}
    (hv : md.getZExtValue N = some v) : md2.getZExtValue N = some v := by
  unfold MDContext.getZExtValue at hv ⊢
  cases hn : md.get? N with
  | none => rw [hn] at hv; cases hv
  | some x =>
    rw [hn] at hv
    rw [h N x hn]
    exact hv

theorem getString_mono {md md2 : MDContext} (h : MDExtends md md2) {N v : Nat}
    (hv : md.castMDString N = some v) : md2.getString N = md.getString N := by
  unfold MDContext.castMDString at hv
  unfold MDContext.getString
  cases hn : md.get? N with
  | none => rw [hn] at hv; cases hv
  | some x => rw [h N x hn]

theorem get_operands (md : MDContext) (Ops : List Nat) :
    (md.get Ops).2.operands (md.get Ops).1 = some Ops := by
  unfold MDContext.operands
  rw [get_node]

theorem get_getOperand (md : MDContext) (Ops : List Nat) (I : Nat) :
    (md.get Ops).2.getOperand (md.get Ops).1 I = Ops.get? I := by
  unfold MDContext.getOperand
  rw [get_node]

/-! ### The map of the flags -/

theorem flagMap_lookup_cons (m : FlagMap) (k : Nat) (v : Option Nat × Nat) (ID : Nat) :
    FlagMap.lookup ((k, v) :: m) ID = if k = ID then v else FlagMap.lookup m ID := by
  unfold FlagMap.lookup
  by_cases h : k = ID
  · simp [List.find?, h]
  · simp [List.find?, h]

theorem flagMap_lookup_assign (m : FlagMap) (k Op I ID : Nat) :
    FlagMap.lookup (m.assign k Op I) ID =
      if k = ID then (some Op, I) else FlagMap.lookup m ID :=
  flagMap_lookup_cons m k _ ID

theorem flagMap_lookup_setFirst (m : FlagMap) (k Op ID : Nat) :
    FlagMap.lookup (m.setFirst k Op) ID =
      if k = ID then (some Op, (FlagMap.lookup m k).2) else FlagMap.lookup m ID :=
  flagMap_lookup_cons m k _ ID

theorem flagMap_lookup_nil (ID : Nat) : FlagMap.lookup [] ID = (none, 0) := rfl

end IRMover

namespace IRMover
namespace IRLinker

/-! ### Diagnostics of the module flag merge -/

theorem diagnosticsExtend_refl (L : IRLinker) : DiagnosticsExtend L L [] := by
  unfold DiagnosticsExtend
  simp

theorem diagnosticsExtend_trans {L1 L2 L3 : IRLinker}
    {e1 e2 : List (DiagnosticSeverity × String)} (h12 : DiagnosticsExtend L1 L2 e1)
    (h23 : DiagnosticsExtend L2 L3 e2) : DiagnosticsExtend L1 L3 (e1 ++ e2) := by
  unfold DiagnosticsExtend at *
  rw [h23.1, h12.1, h23.2, h12.2]
  simp [Bool.or_assoc]

theorem diagnosticsExtend_emitError (L : IRLinker) (Message : String) :
    DiagnosticsExtend L (L.emitError Message) [(DiagnosticSeverity.DS_Error, Message)] := by
  unfold DiagnosticsExtend emitError
  simp

theorem diagnosticsExtend_emitWarning (L : IRLinker) (Message : String) :
    DiagnosticsExtend L (L.emitWarning Message) [(DiagnosticSeverity.DS_Warning, Message)] := by
  unfold DiagnosticsExtend emitWarning
  simp

theorem diagnosticsExtend_hasError {L1 L2 : IRLinker} {e : List (DiagnosticSeverity × String)}
    (h : DiagnosticsExtend L1 L2 e) (h1 : L1.HasError = true) : L2.HasError = true := by
  rw [h.2, h1]
  rfl

theorem diagnosticsExtend_mem {L1 L2 : IRLinker} {e : List (DiagnosticSeverity × String)}
    (h : DiagnosticsExtend L1 L2 e) {d : DiagnosticSeverity × String}
    (hd : d ∈ L1.Diagnostics) : d ∈ L2.Diagnostics := by
  rw [h.1]
  exact List.mem_append_left _ hd

/-- The outcomes of one round of the second loop of `linkModuleFlagsMetadata`
on the source flag `SrcOp`. -/
theorem mergeFlag_cases {S S' : FlagsMerge} {SrcOp : Nat} (h : mergeFlag S SrcOp = some S') :
    ∃ (SB ID : Nat), flagBehavior S.MD SrcOp = some SB ∧ flagID S.MD SrcOp = some ID ∧
      ((SB = Module.Require ∧ ∃ Req, S.MD.getOperand SrcOp 2 = some Req ∧
          ((Req ∉ S.Requirements ∧
              S' = { S with
                Requirements := S.Requirements ++ [Req]
                DstModFlags := S.DstModFlags ++ [SrcOp] }) ∨
            (Req ∈ S.Requirements ∧ S' = S))) ∨
        (SB ≠ Module.Require ∧ (S.Flags.lookup ID).1 = none ∧
          S' = { S with
            Flags := S.Flags.assign ID SrcOp S.DstModFlags.length
            DstModFlags := S.DstModFlags ++ [SrcOp] }) ∨
        (SB ≠ Module.Require ∧ ∃ (DstOp : Nat) (L' : IRLinker)
            (e : List (DiagnosticSeverity × String)),
          (S.Flags.lookup ID).1 = some DstOp ∧ DiagnosticsExtend S.L L' e ∧
          S' = { S with L := L' }) ∨
        (SB = Module.Override ∧ ∃ DstOp : Nat, (S.Flags.lookup ID).1 = some DstOp ∧
          S' = { S with
            DstModFlags := S.DstModFlags.set (S.Flags.lookup ID).2 SrcOp
            Flags := S.Flags.setFirst ID SrcOp }) ∨
        (SB ≠ Module.Require ∧ ∃ (DstOp : Nat) (Elts : List Nat) (B : Nat),
          (S.Flags.lookup ID).1 = some DstOp ∧ S.MD.getOperand DstOp 0 = some B ∧
          S' = { S with
            MD := ((S.MD.get Elts).2.get [B, ID, (S.MD.get Elts).1]).2
            DstModFlags := S.DstModFlags.set (S.Flags.lookup ID).2
              ((S.MD.get Elts).2.get [B, ID, (S.MD.get Elts).1]).1
            Flags := S.Flags.setFirst ID
              ((S.MD.get Elts).2.get [B, ID, (S.MD.get Elts).1]).1 })) := by
  unfold mergeFlag at h
  cases hSB : flagBehavior S.MD SrcOp with
  | none => rw [hSB] at h; simp at h
  | some SB =>
    cases hID : flagID S.MD SrcOp with
    | none => rw [hSB, hID] at h; simp at h
    | some ID =>
      rw [hSB, hID] at h
      simp only [] at h
      refine ⟨SB, ID, rfl, rfl, ?_⟩
      by_cases hreq : SB = Module.Require
      · rw [if_pos hreq] at h
        left
        refine ⟨hreq, ?_⟩
        cases hop : S.MD.getOperand SrcOp 2 with
        | none => rw [hop] at h; simp at h
        | some p =>
          rw [hop, Option.some_bind] at h
          cases hc : S.MD.castMDNode p with
          | none => rw [hc] at h; simp at h
          | some Req =>
            rw [hc] at h
            simp only [] at h
            have hp : Req = p := by
              unfold MDContext.castMDNode at hc
              split at hc
              · exact (Option.some.inj hc).symm
              · cases hc
            subst hp
            refine ⟨Req, rfl, ?_⟩
            unfold SmallSetVector.insert at h
            by_cases hm : Req ∈ S.Requirements
            · right
              simp only [hm, if_true, Bool.false_eq_true, if_false, Option.some.injEq] at h
              exact ⟨hm, h.symm⟩
            · left
              simp only [hm, if_false, if_true, Option.some.injEq] at h
              exact ⟨hm, h.symm⟩
      · rw [if_neg hreq] at h
        right
        cases hD : (S.Flags.lookup ID).1 with
        | none =>
          rw [hD] at h
          simp only [Option.some.injEq] at h
          left
          exact ⟨hreq, rfl, h.symm⟩
        | some DstOp =>
          rw [hD] at h
          simp only [] at h
          right
          cases hDB : flagBehavior S.MD DstOp with
          | none => rw [hDB] at h; simp at h
          | some DB =>
            rw [hDB] at h
            simp only [] at h
            have diag : ∀ (o : Option Bool) (L1 : IRLinker)
                (e1 : List (DiagnosticSeverity × String)), DiagnosticsExtend S.L L1 e1 →
                (match o with
                  | none => none
                  | some true => some { S with L := L1 }
                  | some false => some S) = some S' →
                ∃ (L' : IRLinker) (e : List (DiagnosticSeverity × String)),
                  DiagnosticsExtend S.L L' e ∧ S' = { S with L := L' } := by
              intro o L1 e1 he ho
              cases o with
              | none => cases ho
              | some b =>
                cases b with
                | true => exact ⟨L1, e1, he, (Option.some.inj ho).symm⟩
                | false => exact ⟨S.L, [], diagnosticsExtend_refl _, (Option.some.inj ho).symm⟩
            have repl : ∀ (Elts : List Nat),
                replaceDstValue { S with MD := (S.MD.get Elts).2 } DstOp (S.Flags.lookup ID).2 ID
                  (S.MD.get Elts).1 = some S' →
                ∃ (Elts : List Nat) (B : Nat), S.MD.getOperand DstOp 0 = some B ∧
                  S' = { S with
                    MD := ((S.MD.get Elts).2.get [B, ID, (S.MD.get Elts).1]).2
                    DstModFlags := S.DstModFlags.set (S.Flags.lookup ID).2
                      ((S.MD.get Elts).2.get [B, ID, (S.MD.get Elts).1]).1
                    Flags := S.Flags.setFirst ID
                      ((S.MD.get Elts).2.get [B, ID, (S.MD.get Elts).1]).1 } := by
              intro Elts hr
              unfold replaceDstValue at hr
              simp only [] at hr
              obtain ⟨B0, hB0⟩ : ∃ B0, S.MD.getOperand DstOp 0 = some B0 := by
                unfold flagBehavior at hDB
                cases hb : S.MD.getOperand DstOp 0 with
                | none => rw [hb] at hDB; cases hDB
                | some B0 => exact ⟨B0, rfl⟩
              rw [getOperand_mono (mdExtends_get S.MD Elts) hB0] at hr
              exact ⟨Elts, B0, hB0, (Option.some.inj hr).symm⟩
            by_cases hDO : DB = Module.Override
            · rw [if_pos hDO] at h
              left
              by_cases hSO : SB = Module.Override
              · rw [if_pos hSO] at h
                obtain ⟨L', e, he, hS'⟩ := diag _ _ _ (diagnosticsExtend_emitError S.L _) h
                exact ⟨hreq, DstOp, L', e, rfl, he, hS'⟩
              · rw [if_neg hSO] at h
                exact ⟨hreq, DstOp, S.L, [], rfl, diagnosticsExtend_refl _,
                  (Option.some.inj h).symm⟩
            · rw [if_neg hDO] at h
              by_cases hSO : SB = Module.Override
              · rw [if_pos hSO] at h
                right; left
                exact ⟨hSO, DstOp, rfl, (Option.some.inj h).symm⟩
              · rw [if_neg hSO] at h
                by_cases hne : SB ≠ DB
                · rw [if_pos hne] at h
                  left
                  exact ⟨hreq, DstOp, _, _, rfl, diagnosticsExtend_emitError S.L _,
                    (Option.some.inj h).symm⟩
                · rw [if_neg hne] at h
                  by_cases hE : SB = Module.Error
                  · rw [if_pos hE] at h
                    left
                    obtain ⟨L', e, he, hS'⟩ := diag _ _ _ (diagnosticsExtend_emitError S.L _) h
                    exact ⟨hreq, DstOp, L', e, rfl, he, hS'⟩
                  · rw [if_neg hE] at h
                    by_cases hW : SB = Module.Warning
                    · rw [if_pos hW] at h
                      left
                      obtain ⟨L', e, he, hS'⟩ :=
                        diag _ _ _ (diagnosticsExtend_emitWarning S.L _) h
                      exact ⟨hreq, DstOp, L', e, rfl, he, hS'⟩
                    · rw [if_neg hW] at h
                      by_cases hA : SB = Module.Append
                      · rw [if_pos hA] at h
                        right; right
                        split at h
                        · obtain ⟨Elts, B, hB, hS'⟩ := repl _ h
                          exact ⟨hreq, DstOp, Elts, B, rfl, hB, hS'⟩
                        · cases h
                      · rw [if_neg hA] at h
                        by_cases hU : SB = Module.AppendUnique
                        · rw [if_pos hU] at h
                          right; right
                          split at h
                          · obtain ⟨Elts, B, hB, hS'⟩ := repl _ h
                            exact ⟨hreq, DstOp, Elts, B, rfl, hB, hS'⟩
                          · cases h
                        · rw [if_neg hU] at h
                          left
                          exact ⟨hreq, DstOp, S.L, [], rfl, diagnosticsExtend_refl _,
                            (Option.some.inj h).symm⟩

end IRLinker
end IRMover

namespace IRMover
namespace IRLinker

/-! ### What the loops of the module flag merge keep true -/

theorem flagBehavior_mono {md md2 : MDContext} (h : MDExtends md md2) {Op B : Nat}
    (hv : flagBehavior md Op = some B) : flagBehavior md2 Op = some B := by
  unfold flagBehavior at hv ⊢
  cases ho : md.getOperand Op 0 with
  | none => rw [ho] at hv; cases hv
  | some c =>
    rw [ho, Option.some_bind] at hv
    rw [getOperand_mono h ho, Option.some_bind]
    exact getZExtValue_mono h hv

theorem flagID_mono {md md2 : MDContext} (h : MDExtends md md2) {Op ID : Nat}
    (hv : flagID md Op = some ID) : flagID md2 Op = some ID := by
  unfold flagID at hv ⊢
  cases ho : md.getOperand Op 1 with
  | none => rw [ho] at hv; cases hv
  | some c =>
    rw [ho, Option.some_bind] at hv
    rw [getOperand_mono h ho, Option.some_bind]
    exact castMDString_mono h hv

theorem flagID_cast {md : MDContext} {Op ID : Nat} (hv : flagID md Op = some ID) :
    md.getOperand Op 1 = some ID ∧ md.castMDString ID = some ID := by
  unfold flagID at hv
  cases ho : md.getOperand Op 1 with
  | none => rw [ho] at hv; cases hv
  | some c =>
    rw [ho, Option.some_bind] at hv
    have := castMDString_eq hv
    subst this
    exact ⟨rfl, hv⟩

theorem flagBehavior_operand {md : MDContext} {Op B : Nat}
    (hv : flagBehavior md Op = some B) :
    ∃ c, md.getOperand Op 0 = some c ∧ md.getZExtValue c = some B := by
  unfold flagBehavior at hv
  cases ho : md.getOperand Op 0 with
  | none => rw [ho] at hv; cases hv
  | some c =>
    rw [ho, Option.some_bind] at hv
    exact ⟨c, rfl, hv⟩

theorem get?_set_self {l : List Nat} {i x y : Nat} (h : l.get? i = some x) :
    (l.set i y).get? i = some y := by
  rw [List.get?_eq_getElem?] at h ⊢
  have hi : i < l.length := by
    rcases Nat.lt_or_ge i l.length with hlt | hge
    · exact hlt
    · rw [List.getElem?_eq_none hge] at h
      cases h
  rw [List.getElem?_set_self hi]

theorem get?_set_other {l : List Nat} {i j y : Nat} (h : i ≠ j) :
    (l.set i y).get? j = l.get? j := by
  rw [List.get?_eq_getElem?, List.get?_eq_getElem?, List.getElem?_set_ne h]

theorem get?_append_some {l : List Nat} {i x : Nat} (y : List Nat) (h : l.get? i = some x) :
    (l ++ y).get? i = some x := by
  rw [List.get?_eq_getElem?] at h ⊢
  have hi : i < l.length := by
    rcases Nat.lt_or_ge i l.length with hlt | hge
    · exact hlt
    · rw [List.getElem?_eq_none hge] at h
      cases h
  rw [List.getElem?_append_left hi]
  exact h

/-- Replacing the flag that `Flags` records for `ID` by a flag `New` of the
same identifier, in the list and in the map, keeps the invariant. -/
theorem flagsInv_replace {S : FlagsMerge} (hinv : FlagsInv S) {md2 : MDContext}
    (hext : MDExtends S.MD md2) {ID DstOp New B : Nat}
    (hlook : (S.Flags.lookup ID).1 = some DstOp)
    (hID : flagID md2 New = some ID) (hB : flagBehavior md2 New = some B)
    (hBne : B ≠ Module.Require) :
    FlagsInv { S with
      MD := md2
      DstModFlags := S.DstModFlags.set (S.Flags.lookup ID).2 New
      Flags := S.Flags.setFirst ID New } := by
  have hlook2 : S.Flags.lookup ID = (some DstOp, (S.Flags.lookup ID).2) := by
    rw [← hlook]
  obtain ⟨hpos, hid0, _⟩ := hinv.1 ID DstOp _ hlook2
  constructor
  · intro k Op I hk
    simp only [flagMap_lookup_setFirst] at hk
    by_cases hkI : ID = k
    · rw [if_pos hkI] at hk
      simp only [Prod.mk.injEq, Option.some.injEq] at hk
      obtain ⟨e1, e2⟩ := hk
      subst e1 e2 hkI
      exact ⟨get?_set_self hpos, hID, B, hB, hBne⟩
    · rw [if_neg hkI] at hk
      obtain ⟨hp, hi, Bk, hbk, hbne⟩ := hinv.1 k Op I hk
      have hne : (S.Flags.lookup ID).2 ≠ I := by
        intro e
        rw [e, hp] at hpos
        have eo := Option.some.inj hpos
        subst eo
        rw [hid0] at hi
        exact hkI (Option.some.inj hi)
      refine ⟨?_, flagID_mono hext hi, Bk, flagBehavior_mono hext hbk, hbne⟩
      show (S.DstModFlags.set _ New).get? I = some Op
      rw [get?_set_other hne]
      exact hp
  · intro Op hOp
    show ∃ (B0 ID0 : Nat), flagBehavior md2 Op = some B0 ∧ flagID md2 Op = some ID0 ∧
      (B0 ≠ Module.Require → ((S.Flags.setFirst ID New).lookup ID0).1 ≠ none)
    rcases List.mem_or_eq_of_mem_set hOp with hold | hnew
    · obtain ⟨B0, ID0, hb, hi, himp⟩ := hinv.2 Op hold
      refine ⟨B0, ID0, flagBehavior_mono hext hb, flagID_mono hext hi, ?_⟩
      intro hne0
      rw [flagMap_lookup_setFirst]
      by_cases hkI : ID = ID0
      · rw [if_pos hkI]
        simp
      · rw [if_neg hkI]
        exact himp hne0
    · subst hnew
      refine ⟨B, ID, hB, hID, fun _ => ?_⟩
      rw [flagMap_lookup_setFirst, if_pos rfl]
      simp

theorem mergeFlag_inv {S S' : FlagsMerge} {SrcOp : Nat} (hinv : FlagsInv S)
    (h : mergeFlag S SrcOp = some S') : FlagsInv S' := by
  obtain ⟨SB, ID, hSB, hID, hcases⟩ := mergeFlag_cases h
  rcases hcases with ⟨hreq, Req, _, ⟨_, hS'⟩ | ⟨_, hS'⟩⟩ | ⟨hreq, hnone, hS'⟩ |
    ⟨hreq, DstOp, L', e, hlook, _, hS'⟩ | ⟨hov, DstOp, hlook, hS'⟩ |
    ⟨hreq, DstOp, Elts, B, hlook, hB, hS'⟩
  · -- a new requirement
    subst hS'
    constructor
    · intro k Op I hk
      obtain ⟨hp, hi, hb⟩ := hinv.1 k Op I hk
      exact ⟨get?_append_some _ hp, hi, hb⟩
    · intro Op hOp
      rcases List.mem_append.mp hOp with hold | hnew
      · exact hinv.2 Op hold
      · rw [List.mem_singleton] at hnew
        subst hnew
        exact ⟨SB, ID, hSB, hID, fun hne => absurd hreq hne⟩
  · subst hS'
    exact hinv
  · -- a flag without an entry
    subst hS'
    constructor
    · intro k Op I hk
      simp only [flagMap_lookup_assign] at hk
      by_cases hkI : ID = k
      · rw [if_pos hkI] at hk
        simp only [Prod.mk.injEq, Option.some.injEq] at hk
        obtain ⟨e1, e2⟩ := hk
        subst e1 e2 hkI
        refine ⟨?_, hID, SB, hSB, hreq⟩
        show (S.DstModFlags ++ [SrcOp]).get? S.DstModFlags.length = some SrcOp
        rw [List.get?_eq_getElem?]
        simp
      · rw [if_neg hkI] at hk
        obtain ⟨hp, hi, hb⟩ := hinv.1 k Op I hk
        exact ⟨get?_append_some _ hp, hi, hb⟩
    · intro Op hOp
      show ∃ (B0 ID0 : Nat), flagBehavior S.MD Op = some B0 ∧ flagID S.MD Op = some ID0 ∧
        (B0 ≠ Module.Require →
          ((S.Flags.assign ID SrcOp S.DstModFlags.length).lookup ID0).1 ≠ none)
      have key : ∀ (B0 ID0 : Nat), (B0 ≠ Module.Require → (S.Flags.lookup ID0).1 ≠ none) →
          B0 ≠ Module.Require →
          ((S.Flags.assign ID SrcOp S.DstModFlags.length).lookup ID0).1 ≠ none := by
        intro B0 ID0 himp hne0
        rw [flagMap_lookup_assign]
        by_cases hkI : ID = ID0
        · rw [if_pos hkI]
          simp
        · rw [if_neg hkI]
          exact himp hne0
      rcases List.mem_append.mp hOp with hold | hnew
      · obtain ⟨B0, ID0, hb, hi, himp⟩ := hinv.2 Op hold
        exact ⟨B0, ID0, hb, hi, key B0 ID0 himp⟩
      · rw [List.mem_singleton] at hnew
        subst hnew
        refine ⟨SB, ID, hSB, hID, fun _ => ?_⟩
        rw [flagMap_lookup_assign, if_pos rfl]
        simp
  · subst hS'
    exact hinv
  · subst hS'
    have := flagsInv_replace hinv (mdExtends_refl S.MD) hlook hID hSB (by rw [hov]; decide)
    exact this
  · subst hS'
    have hlook2 : S.Flags.lookup ID = (some DstOp, (S.Flags.lookup ID).2) := by
      rw [← hlook]
    obtain ⟨_, _, Bv, hbv, hbne⟩ := hinv.1 ID DstOp _ hlook2
    obtain ⟨c, hc, hz⟩ := flagBehavior_operand hbv
    rw [hB] at hc
    have ec := Option.some.inj hc
    subst ec
    have hext : MDExtends S.MD ((S.MD.get Elts).2.get [B, ID, (S.MD.get Elts).1]).2 :=
      mdExtends_trans (mdExtends_get _ _) (mdExtends_get _ _)
    refine flagsInv_replace hinv hext hlook ?_ ?_ hbne
    · unfold flagID
      rw [get_getOperand]
      show (some ID).bind _ = some ID
      rw [Option.some_bind]
      exact castMDString_mono hext (flagID_cast hID).2
    · unfold flagBehavior
      rw [get_getOperand]
      show (some B).bind _ = some Bv
      rw [Option.some_bind]
      exact getZExtValue_mono hext hz

end IRLinker
end IRMover

namespace IRMover
namespace IRLinker

theorem mergeFlag_diagnostics {S S' : FlagsMerge} {SrcOp : Nat}
    (h : mergeFlag S SrcOp = some S') :
    ∃ e : List (DiagnosticSeverity × String), DiagnosticsExtend S.L S'.L e := by
  obtain ⟨SB, ID, hSB, hID, hcases⟩ := mergeFlag_cases h
  rcases hcases with ⟨hreq, Req, _, ⟨_, hS'⟩ | ⟨_, hS'⟩⟩ | ⟨hreq, hnone, hS'⟩ |
    ⟨hreq, DstOp, L', e, hlook, he, hS'⟩ | ⟨hov, DstOp, hlook, hS'⟩ |
    ⟨hreq, DstOp, Elts, B, hlook, hB, hS'⟩
  all_goals subst hS'
  · exact ⟨[], diagnosticsExtend_refl _⟩
  · exact ⟨[], diagnosticsExtend_refl _⟩
  · exact ⟨[], diagnosticsExtend_refl _⟩
  · exact ⟨e, he⟩
  · exact ⟨[], diagnosticsExtend_refl _⟩
  · exact ⟨[], diagnosticsExtend_refl _⟩

theorem mergeFlag_mdExtends {S S' : FlagsMerge} {SrcOp : Nat}
    (h : mergeFlag S SrcOp = some S') : MDExtends S.MD S'.MD := by
  obtain ⟨SB, ID, hSB, hID, hcases⟩ := mergeFlag_cases h
  rcases hcases with ⟨hreq, Req, _, ⟨_, hS'⟩ | ⟨_, hS'⟩⟩ | ⟨hreq, hnone, hS'⟩ |
    ⟨hreq, DstOp, L', e, hlook, he, hS'⟩ | ⟨hov, DstOp, hlook, hS'⟩ |
    ⟨hreq, DstOp, Elts, B, hlook, hB, hS'⟩
  all_goals subst hS'
  · exact mdExtends_refl _
  · exact mdExtends_refl _
  · exact mdExtends_refl _
  · exact mdExtends_refl _
  · exact mdExtends_refl _
  · exact mdExtends_trans (mdExtends_get _ _) (mdExtends_get _ _)

theorem mergeSrcFlags_append (a b : List Nat) :
    ∀ S : FlagsMerge, mergeSrcFlags (a ++ b) S = (mergeSrcFlags a S).bind (mergeSrcFlags b) := by
  induction a with
  | nil => intro S; rfl
  | cons x rest ih =>
    intro S
    rw [List.cons_append, mergeSrcFlags, mergeSrcFlags]
    cases hm : mergeFlag S x with
    | none => rfl
    | some S1 => exact ih S1

theorem mergeSrcFlags_inv (l : List Nat) :
    ∀ (S S' : FlagsMerge), FlagsInv S → mergeSrcFlags l S = some S' → FlagsInv S' := by
  induction l with
  | nil =>
    intro S S' hinv h
    rw [mergeSrcFlags] at h
    rw [← Option.some.inj h]
    exact hinv
  | cons x rest ih =>
    intro S S' hinv h
    rw [mergeSrcFlags] at h
    cases hm : mergeFlag S x with
    | none => rw [hm] at h; cases h
    | some S1 =>
      rw [hm] at h
      exact ih S1 S' (mergeFlag_inv hinv hm) h

theorem mergeSrcFlags_diagnostics (l : List Nat) :
    ∀ (S S' : FlagsMerge), mergeSrcFlags l S = some S' →
      ∃ e : List (DiagnosticSeverity × String), DiagnosticsExtend S.L S'.L e := by
  induction l with
  | nil =>
    intro S S' h
    rw [mergeSrcFlags] at h
    rw [← Option.some.inj h]
    exact ⟨[], diagnosticsExtend_refl _⟩
  | cons x rest ih =>
    intro S S' h
    rw [mergeSrcFlags] at h
    cases hm : mergeFlag S x with
    | none => rw [hm] at h; cases h
    | some S1 =>
      rw [hm] at h
      obtain ⟨e1, he1⟩ := mergeFlag_diagnostics hm
      obtain ⟨e2, he2⟩ := ih S1 S' h
      exact ⟨e1 ++ e2, diagnosticsExtend_trans he1 he2⟩

theorem checkRequirements_diagnostics (md : MDContext) (Flags : FlagMap) (Reqs : List Nat) :
    ∀ (L L' : IRLinker), checkRequirements md Flags Reqs L = some L' →
      ∃ e : List (DiagnosticSeverity × String), DiagnosticsExtend L L' e := by
  induction Reqs with
  | nil =>
    intro L L' h
    rw [checkRequirements] at h
    rw [← Option.some.inj h]
    exact ⟨[], diagnosticsExtend_refl _⟩
  | cons R rest ih =>
    intro L L' h
    rw [checkRequirements] at h
    cases hc : checkRequirement md Flags R with
    | none => rw [hc] at h; cases h
    | some o =>
      cases o with
      | none =>
        rw [hc] at h
        exact ih _ _ h
      | some Message =>
        rw [hc] at h
        obtain ⟨e2, he2⟩ := ih _ _ h
        exact ⟨_, diagnosticsExtend_trans (diagnosticsExtend_emitError L _) he2⟩

/-- The first loop of `linkModuleFlagsMetadata` establishes the invariant of
the second. -/
theorem collectDstFlags_inv (L : IRLinker) (md : MDContext) :
    ∀ (rest done : List Nat) (F : FlagMap) (R : SmallSetVector) (F' : FlagMap)
      (R' : SmallSetVector), FlagsInv ⟨L, md, done, F, R⟩ →
      collectDstFlags md rest done.length F R = some (F', R') →
      FlagsInv ⟨L, md, done ++ rest, F', R'⟩ := by
  intro rest
  induction rest with
  | nil =>
    intro done F R F' R' hinv h
    rw [collectDstFlags] at h
    simp only [Option.some.injEq, Prod.mk.injEq] at h
    rw [List.append_nil, ← h.1, ← h.2]
    exact hinv
  | cons Op rest ih =>
    intro done F R F' R' hinv h
    rw [collectDstFlags] at h
    cases hB : flagBehavior md Op with
    | none => rw [hB] at h; simp at h
    | some B =>
      cases hI : flagID md Op with
      | none => rw [hB, hI] at h; simp at h
      | some ID =>
        rw [hB, hI] at h
        simp only [] at h
        have hlen : (done ++ [Op]).length = done.length + 1 := by simp
        have happ : done ++ Op :: rest = (done ++ [Op]) ++ rest := by simp
        rw [happ]
        by_cases hreq : B = Module.Require
        · rw [if_pos hreq] at h
          split at h
          · cases h
          · rw [← hlen] at h
            refine ih (done ++ [Op]) F _ F' R' ?_ h
            constructor
            · intro k Op1 I hk
              obtain ⟨hp, hi, hb⟩ := hinv.1 k Op1 I hk
              exact ⟨get?_append_some _ hp, hi, hb⟩
            · intro Op1 hOp
              rcases List.mem_append.mp hOp with hold | hnew
              · exact hinv.2 Op1 hold
              · rw [List.mem_singleton] at hnew
                subst hnew
                exact ⟨B, ID, hB, hI, fun hne => absurd hreq hne⟩
        · rw [if_neg hreq, ← hlen] at h
          refine ih (done ++ [Op]) _ R F' R' ?_ h
          constructor
          · intro k Op1 I hk
            simp only [flagMap_lookup_assign] at hk
            by_cases hkI : ID = k
            · rw [if_pos hkI] at hk
              simp only [Prod.mk.injEq, Option.some.injEq] at hk
              obtain ⟨e1, e2⟩ := hk
              subst e1 e2 hkI
              refine ⟨?_, hI, B, hB, hreq⟩
              show (done ++ [Op]).get? done.length = some Op
              rw [List.get?_eq_getElem?]
              simp
            · rw [if_neg hkI] at hk
              obtain ⟨hp, hi, hb⟩ := hinv.1 k Op1 I hk
              exact ⟨get?_append_some _ hp, hi, hb⟩
          · intro Op1 hOp
            show ∃ (B0 ID0 : Nat), flagBehavior md Op1 = some B0 ∧ flagID md Op1 = some ID0 ∧
              (B0 ≠ Module.Require → ((F.assign ID Op done.length).lookup ID0).1 ≠ none)
            rcases List.mem_append.mp hOp with hold | hnew
            · obtain ⟨B0, ID0, hb, hi, himp⟩ := hinv.2 Op1 hold
              refine ⟨B0, ID0, hb, hi, fun hne0 => ?_⟩
              rw [flagMap_lookup_assign]
              by_cases hkI : ID = ID0
              · rw [if_pos hkI]
                simp
              · rw [if_neg hkI]
                exact himp hne0
            · rw [List.mem_singleton] at hnew
              subst hnew
              refine ⟨B, ID, hB, hI, fun _ => ?_⟩
              rw [flagMap_lookup_assign, if_pos rfl]
              simp

theorem flagsInv_nil (L : IRLinker) (md : MDContext) : FlagsInv ⟨L, md, [], [], []⟩ := by
  constructor
  · intro k Op I hk
    rw [flagMap_lookup_nil] at hk
    cases hk
  · intro Op hOp
    cases hOp

theorem reachesFlag_inv {L : IRLinker} {M : ModuleFlags} {pre post : List Nat} {SrcOp : Nat}
    {St : FlagsMerge} (h : ReachesFlag L M pre SrcOp post St) : FlagsInv St := by
  obtain ⟨_, D, F, R, _, _, hc, hm⟩ := h
  have h0 := collectDstFlags_inv L M.MD D [] [] [] F R (flagsInv_nil L M.MD) hc
  exact mergeSrcFlags_inv pre _ _ h0 hm

/-- From the state in which a source flag is reached, the run of
`linkModuleFlagsMetadata` is the rest of the second loop followed by the check
of the requirements. -/
theorem reachesFlag_run {L : IRLinker} {M : ModuleFlags} {pre post : List Nat} {SrcOp : Nat}
    {St St' : FlagsMerge} (h : ReachesFlag L M pre SrcOp post St)
    (hstep : mergeFlag St SrcOp = some St') :
    linkModuleFlagsMetadata L M =
      (mergeSrcFlags post St').bind (fun S =>
        (checkRequirements S.MD S.Flags S.Requirements S.L).map (fun L1 =>
          (L1.HasError, L1,
            { MD := S.MD, DstModFlags := some S.DstModFlags, SrcModFlags := M.SrcModFlags }))) := by
  obtain ⟨hsrc, D, F, R, hD, hne, hc, hm⟩ := h
  unfold linkModuleFlagsMetadata
  rw [hsrc, hD]
  have hlen : ¬ (D.length = 0) := fun e => hne (List.length_eq_zero.mp e)
  simp only [Option.getD_some, hlen, if_false, hc]
  rw [mergeSrcFlags_append, hm, Option.some_bind, mergeSrcFlags, hstep]
  simp only []
  cases hp : mergeSrcFlags post St' with
  | none => rfl
  | some S =>
    simp only [Option.some_bind]
    cases hq : checkRequirements S.MD S.Flags S.Requirements S.L with
    | none => rfl
    | some L1 => rfl

/-- Once a round of the second loop has set the failure flag, the run returns
true with the flag set and keeps the diagnostics emitted so far. -/
theorem reachesFlag_fails {L : IRLinker} {M : ModuleFlags} {pre post : List Nat} {SrcOp : Nat}
    {St St' : FlagsMerge} (h : ReachesFlag L M pre SrcOp post St)
    (hstep : mergeFlag St SrcOp = some St') (herr : St'.L.HasError = true)
    {r : Bool × IRLinker × ModuleFlags} (hr : linkModuleFlagsMetadata L M = some r) :
    r.1 = true ∧ r.2.1.HasError = true ∧ ∀ d ∈ St'.L.Diagnostics, d ∈ r.2.1.Diagnostics := by
  rw [reachesFlag_run h hstep] at hr
  cases hp : mergeSrcFlags post St' with
  | none => rw [hp] at hr; cases hr
  | some S =>
    rw [hp, Option.some_bind] at hr
    cases hq : checkRequirements S.MD S.Flags S.Requirements S.L with
    | none => rw [hq] at hr; cases hr
    | some L1 =>
      rw [hq] at hr
      simp only [Option.map_some', Option.some.injEq] at hr
      obtain ⟨e1, he1⟩ := mergeSrcFlags_diagnostics post _ _ hp
      obtain ⟨e2, he2⟩ := checkRequirements_diagnostics _ _ _ _ _ hq
      have h12 := diagnosticsExtend_trans he1 he2
      rw [← hr]
      exact ⟨diagnosticsExtend_hasError h12 herr, diagnosticsExtend_hasError h12 herr,
        fun d hd => diagnosticsExtend_mem h12 hd⟩

end IRLinker
end IRMover

namespace IRMover
namespace IRLinker

/-! ### The module flag merge completes on well-formed flags -/

theorem wellFormedRequirement_mono {md md2 : MDContext} (h : MDExtends md md2) {Req : Nat}
    (hw : WellFormedRequirement md Req) : WellFormedRequirement md2 Req := by
  obtain ⟨F, Val, h0, hF, h1⟩ := hw
  exact ⟨F, Val, getOperand_mono h h0, castMDString_mono h hF, getOperand_mono h h1⟩

theorem wellFormedFlag_mono {md md2 : MDContext} (h : MDExtends md md2) {Op : Nat}
    (hw : WellFormedFlag md Op) : WellFormedFlag md2 Op := by
  obtain ⟨B, ID, V, hb, hi, hv, ha, hr⟩ := hw
  refine ⟨B, ID, V, flagBehavior_mono h hb, flagID_mono h hi, getOperand_mono h hv, ?_, ?_⟩
  · intro hB
    obtain ⟨ops, ho⟩ := ha hB
    exact ⟨ops, operands_mono h ho⟩
  · intro hB
    exact wellFormedRequirement_mono h (hr hB)

theorem castMDNode_of_getOperand {md : MDContext} {N I v : Nat}
    (h : md.getOperand N I = some v) : md.castMDNode N = some N := by
  unfold MDContext.getOperand at h
  unfold MDContext.castMDNode
  cases hn : md.get? N with
  | none => rw [hn] at h; cases h
  | some x =>
    rw [hn] at h
    cases x with
    | MDString s => cases h
    | ConstantInt c => cases h
    | MDNode ops => rfl

theorem mergeFlag_total {S : FlagsMerge} {SrcOp : Nat} (hinv : FlagsInv S)
    (hdst : ∀ Op ∈ S.DstModFlags, WellFormedFlag S.MD Op)
    (hsrc : WellFormedFlag S.MD SrcOp) : ∃ S', mergeFlag S SrcOp = some S' := by
  obtain ⟨SB, ID, vS, hSB, hID, hvS, haS, hrS⟩ := hsrc
  unfold mergeFlag
  rw [hSB, hID]
  simp only []
  by_cases hreq : SB = Module.Require
  · rw [if_pos hreq]
    obtain ⟨F, Val, h0, _, _⟩ := hrS hreq
    rw [hvS, Option.some_bind, castMDNode_of_getOperand h0]
    simp only []
    split
    · exact ⟨_, rfl⟩
    · exact ⟨_, rfl⟩
  · rw [if_neg hreq]
    cases hl : (S.Flags.lookup ID).1 with
    | none => exact ⟨_, rfl⟩
    | some DstOp =>
      simp only []
      have hl2 : S.Flags.lookup ID = (some DstOp, (S.Flags.lookup ID).2) := by rw [← hl]
      obtain ⟨hpos, hid, _⟩ := hinv.1 ID DstOp _ hl2
      obtain ⟨DB, ID2, vD, hDB, _, hvD, haD, _⟩ := hdst DstOp (List.get?_mem hpos)
      rw [hDB]
      simp only [valuesDiffer, hvS, hvD]
      obtain ⟨B0, hB0, _⟩ := flagBehavior_operand hDB
      have hrepl : ∀ Elts : List Nat, ∃ S',
          replaceDstValue { S with MD := (S.MD.get Elts).2 } DstOp (S.Flags.lookup ID).2 ID
            (S.MD.get Elts).1 = some S' := by
        intro Elts
        unfold replaceDstValue
        simp only []
        rw [getOperand_mono (mdExtends_get S.MD Elts) hB0]
        exact ⟨_, rfl⟩
      by_cases hDO : DB = Module.Override
      · rw [if_pos hDO]
        by_cases hSO : SB = Module.Override
        · rw [if_pos hSO]
          cases decide (vS ≠ vD) with
          | true => exact ⟨_, rfl⟩
          | false => exact ⟨_, rfl⟩
        · rw [if_neg hSO]
          exact ⟨_, rfl⟩
      · rw [if_neg hDO]
        by_cases hSO : SB = Module.Override
        · rw [if_pos hSO]
          exact ⟨_, rfl⟩
        · rw [if_neg hSO]
          by_cases hne : SB ≠ DB
          · rw [if_pos hne]
            exact ⟨_, rfl⟩
          · rw [if_neg hne]
            have heq : SB = DB := not_not.mp hne
            by_cases hE : SB = Module.Error
            · rw [if_pos hE]
              cases decide (vS ≠ vD) with
              | true => exact ⟨_, rfl⟩
              | false => exact ⟨_, rfl⟩
            · rw [if_neg hE]
              by_cases hW : SB = Module.Warning
              · rw [if_pos hW]
                cases decide (vS ≠ vD) with
                | true => exact ⟨_, rfl⟩
                | false => exact ⟨_, rfl⟩
              · rw [if_neg hW]
                by_cases hA : SB = Module.Append
                · rw [if_pos hA]
                  obtain ⟨sOps, hs⟩ := haS (Or.inl hA)
                  obtain ⟨dOps, hd⟩ := haD (Or.inl (heq ▸ hA))
                  simp only [Option.some_bind, hs, hd]
                  exact hrepl _
                · rw [if_neg hA]
                  by_cases hU : SB = Module.AppendUnique
                  · rw [if_pos hU]
                    obtain ⟨sOps, hs⟩ := haS (Or.inr hU)
                    obtain ⟨dOps, hd⟩ := haD (Or.inr (heq ▸ hU))
                    simp only [Option.some_bind, hs, hd]
                    exact hrepl _
                  · rw [if_neg hU]
                    exact ⟨_, rfl⟩

theorem mergeFlag_wellFormed {S S' : FlagsMerge} {SrcOp : Nat} (hinv : FlagsInv S)
    (hdst : ∀ Op ∈ S.DstModFlags, WellFormedFlag S.MD Op)
    (hreqs : ∀ Req ∈ S.Requirements, WellFormedRequirement S.MD Req)
    (hsrc : WellFormedFlag S.MD SrcOp) (h : mergeFlag S SrcOp = some S') :
    (∀ Op ∈ S'.DstModFlags, WellFormedFlag S'.MD Op) ∧
    (∀ Req ∈ S'.Requirements, WellFormedRequirement S'.MD Req) := by
  obtain ⟨SB, ID, hSB, hID, hcases⟩ := mergeFlag_cases h
  rcases hcases with ⟨hreq, Req, hop, ⟨_, hS'⟩ | ⟨hm, hS'⟩⟩ | ⟨hreq, hnone, hS'⟩ |
    ⟨hreq, DstOp, L', e, hlook, he, hS'⟩ | ⟨hov, DstOp, hlook, hS'⟩ |
    ⟨hreq, DstOp, Elts, B, hlook, hB, hS'⟩
  · subst hS'
    constructor
    · intro Op hOp
      rcases List.mem_append.mp hOp with hold | hnew
      · exact hdst Op hold
      · rw [List.mem_singleton] at hnew
        subst hnew
        exact hsrc
    · intro R hR
      rcases List.mem_append.mp hR with hold | hnew
      · exact hreqs R hold
      · rw [List.mem_singleton] at hnew
        subst hnew
        obtain ⟨B1, ID1, V1, hb1, _, hv1, _, hr1⟩ := hsrc
        rw [hSB] at hb1
        rw [hop] at hv1
        have e1 := Option.some.inj hb1
        have e2 := Option.some.inj hv1
        subst e1 e2
        exact hr1 hreq
  · subst hS'
    exact ⟨hdst, hreqs⟩
  · subst hS'
    refine ⟨?_, hreqs⟩
    intro Op hOp
    rcases List.mem_append.mp hOp with hold | hnew
    · exact hdst Op hold
    · rw [List.mem_singleton] at hnew
      subst hnew
      exact hsrc
  · subst hS'
    exact ⟨hdst, hreqs⟩
  · subst hS'
    refine ⟨?_, hreqs⟩
    intro Op hOp
    rcases List.mem_or_eq_of_mem_set hOp with hold | hnew
    · exact hdst Op hold
    · subst hnew
      exact hsrc
  · subst hS'
    have hlook2 : S.Flags.lookup ID = (some DstOp, (S.Flags.lookup ID).2) := by
      rw [← hlook]
    obtain ⟨_, _, Bv, hbv, hbne⟩ := hinv.1 ID DstOp _ hlook2
    obtain ⟨c, hc, hz⟩ := flagBehavior_operand hbv
    rw [hB] at hc
    have ec := Option.some.inj hc
    subst ec
    have hext2 : MDExtends (S.MD.get Elts).2 ((S.MD.get Elts).2.get [B, ID, (S.MD.get Elts).1]).2 :=
      mdExtends_get _ _
    have hext : MDExtends S.MD ((S.MD.get Elts).2.get [B, ID, (S.MD.get Elts).1]).2 :=
      mdExtends_trans (mdExtends_get _ _) hext2
    refine ⟨?_, fun R hR => wellFormedRequirement_mono hext (hreqs R hR)⟩
    intro Op hOp
    rcases List.mem_or_eq_of_mem_set hOp with hold | hnew
    · exact wellFormedFlag_mono hext (hdst Op hold)
    · subst hnew
      refine ⟨Bv, ID, (S.MD.get Elts).1, ?_, ?_, ?_, fun _ => ⟨Elts, ?_⟩,
        fun hb => absurd hb hbne⟩
      · show flagBehavior ((S.MD.get Elts).2.get [B, ID, (S.MD.get Elts).1]).2 _ = some Bv
        unfold flagBehavior
        rw [get_getOperand]
        show (some B).bind _ = some Bv
        rw [Option.some_bind]
        exact getZExtValue_mono hext hz
      · show flagID ((S.MD.get Elts).2.get [B, ID, (S.MD.get Elts).1]).2 _ = some ID
        unfold flagID
        rw [get_getOperand]
        show (some ID).bind _ = some ID
        rw [Option.some_bind]
        exact castMDString_mono hext (flagID_cast hID).2
      · show MDContext.getOperand ((S.MD.get Elts).2.get [B, ID, (S.MD.get Elts).1]).2 _ 2 = _
        rw [get_getOperand]
        rfl
      · exact operands_mono hext2 (get_operands _ _)

theorem mergeSrcFlags_total (l : List Nat) :
    ∀ (S : FlagsMerge), FlagsInv S → (∀ Op ∈ S.DstModFlags, WellFormedFlag S.MD Op) →
      (∀ Req ∈ S.Requirements, WellFormedRequirement S.MD Req) →
      (∀ Op ∈ l, WellFormedFlag S.MD Op) →
      ∃ S', mergeSrcFlags l S = some S' ∧ FlagsInv S' ∧
        (∀ Op ∈ S'.DstModFlags, WellFormedFlag S'.MD Op) ∧
        (∀ Req ∈ S'.Requirements, WellFormedRequirement S'.MD Req) := by
  induction l with
  | nil =>
    intro S hinv hdst hreqs _
    exact ⟨S, rfl, hinv, hdst, hreqs⟩
  | cons x rest ih =>
    intro S hinv hdst hreqs hl
    obtain ⟨S1, h1⟩ := mergeFlag_total hinv hdst (hl x (List.mem_cons_self _ _))
    obtain ⟨hd1, hr1⟩ := mergeFlag_wellFormed hinv hdst hreqs (hl x (List.mem_cons_self _ _)) h1
    have hext := mergeFlag_mdExtends h1
    obtain ⟨S', h2, hi2, hd2, hr2⟩ := ih S1 (mergeFlag_inv hinv h1) hd1 hr1
      (fun Op hOp => wellFormedFlag_mono hext (hl Op (List.mem_cons_of_mem _ hOp)))
    refine ⟨S', ?_, hi2, hd2, hr2⟩
    rw [mergeSrcFlags, h1]
    exact h2

theorem collectDstFlags_total (md : MDContext) :
    ∀ (rest : List Nat) (I : Nat) (F : FlagMap) (R : SmallSetVector),
      (∀ Op ∈ rest, WellFormedFlag md Op) → (∀ Req ∈ R, WellFormedRequirement md Req) →
      ∃ (F' : FlagMap) (R' : SmallSetVector), collectDstFlags md rest I F R = some (F', R') ∧
        ∀ Req ∈ R', WellFormedRequirement md Req := by
  intro rest
  induction rest with
  | nil =>
    intro I F R _ hR
    exact ⟨F, R, rfl, hR⟩
  | cons Op rest ih =>
    intro I F R hwf hR
    obtain ⟨B, ID, V, hb, hi, hv, _, hr⟩ := hwf Op (List.mem_cons_self _ _)
    have hrest : ∀ Op1 ∈ rest, WellFormedFlag md Op1 :=
      fun Op1 h1 => hwf Op1 (List.mem_cons_of_mem _ h1)
    rw [collectDstFlags, hb, hi]
    simp only []
    by_cases hreq : B = Module.Require
    · rw [if_pos hreq]
      obtain ⟨F1, Val, h0, hF, h1⟩ := hr hreq
      rw [hv, Option.some_bind, castMDNode_of_getOperand h0]
      simp only []
      apply ih
      · exact hrest
      · intro Req hReq
        unfold SmallSetVector.insert at hReq
        by_cases hm : V ∈ R
        · simp only [hm, if_true] at hReq
          exact hR Req hReq
        · simp only [hm, if_false] at hReq
          rcases List.mem_append.mp hReq with hold | hnew
          · exact hR Req hold
          · rw [List.mem_singleton] at hnew
            subst hnew
            exact ⟨F1, Val, h0, hF, h1⟩
    · rw [if_neg hreq]
      exact ih _ _ _ hrest hR

theorem checkRequirements_total {S : FlagsMerge} (hinv : FlagsInv S)
    (hdst : ∀ Op ∈ S.DstModFlags, WellFormedFlag S.MD Op) (Reqs : List Nat) :
    (∀ Req ∈ Reqs, WellFormedRequirement S.MD Req) →
    ∀ L : IRLinker, ∃ L', checkRequirements S.MD S.Flags Reqs L = some L' := by
  induction Reqs with
  | nil =>
    intro _ L
    exact ⟨L, rfl⟩
  | cons R rest ih =>
    intro hwf L
    obtain ⟨F, Val, h0, hF, h1⟩ := hwf R (List.mem_cons_self _ _)
    have hrest := ih (fun Req h => hwf Req (List.mem_cons_of_mem _ h))
    have hone : ∃ o, checkRequirement S.MD S.Flags R = some o := by
      unfold checkRequirement
      rw [h0, Option.some_bind, hF, h1]
      simp only []
      cases hl : (S.Flags.lookup F).1 with
      | none => exact ⟨_, rfl⟩
      | some Op =>
        simp only []
        have hl2 : S.Flags.lookup F = (some Op, (S.Flags.lookup F).2) := by rw [← hl]
        obtain ⟨hpos, _, _⟩ := hinv.1 F Op _ hl2
        obtain ⟨_, _, V, _, _, hv, _, _⟩ := hdst Op (List.get?_mem hpos)
        rw [hv]
        simp only []
        split
        · exact ⟨_, rfl⟩
        · exact ⟨_, rfl⟩
    obtain ⟨o, ho⟩ := hone
    rw [checkRequirements, ho]
    cases o with
    | none => exact hrest L
    | some m => exact hrest _

/-- The method `linkModuleFlagsMetadata` completes when the flags of the two
modules are well formed. -/
theorem linkModuleFlagsMetadata_total (L : IRLinker) (M : ModuleFlags)
    (hwf : ∀ Op ∈ M.DstModFlags.getD [] ++ M.SrcModFlags.getD [], WellFormedFlag M.MD Op) :
    ∃ r, linkModuleFlagsMetadata L M = some r := by
  unfold linkModuleFlagsMetadata
  cases hS : M.SrcModFlags with
  | none => exact ⟨_, rfl⟩
  | some Src =>
    simp only []
    by_cases hlen : (M.DstModFlags.getD []).length = 0
    · rw [if_pos hlen]
      exact ⟨_, rfl⟩
    · rw [if_neg hlen]
      rw [hS] at hwf
      have hwfD : ∀ Op ∈ M.DstModFlags.getD [], WellFormedFlag M.MD Op :=
        fun Op h => hwf Op (List.mem_append_left _ h)
      have hwfS : ∀ Op ∈ Src, WellFormedFlag M.MD Op :=
        fun Op h => hwf Op (List.mem_append_right _ h)
      obtain ⟨F0, R0, hc, hR0⟩ := collectDstFlags_total M.MD (M.DstModFlags.getD []) 0 [] []
        hwfD (fun Req h => absurd h (List.not_mem_nil Req))
      rw [hc]
      simp only []
      have hinv0 := collectDstFlags_inv L M.MD (M.DstModFlags.getD []) [] [] [] F0 R0
        (flagsInv_nil L M.MD) hc
      obtain ⟨S, hm, hinv, hd, hr⟩ :=
        mergeSrcFlags_total Src ⟨L, M.MD, M.DstModFlags.getD [], F0, R0⟩ hinv0 hwfD hR0 hwfS
      rw [hm]
      simp only []
      obtain ⟨L1, hq⟩ := checkRequirements_total hinv hd S.Requirements hr S.L
      rw [hq]
      exact ⟨_, rfl⟩

end IRLinker
end IRMover

namespace IRMover
namespace IRLinker

/-- C14: when the run of `linkModuleFlagsMetadata` reaches a source flag of
behaviour `Error` whose identifier `ID` has the destination flag `DstOp` of
behaviour `Error`, then `DstOp` is the flag at its recorded index of the
destination list and has the identifier `ID`; with equal payloads the round
changes nothing (no diagnostic, the destination flag is kept); with different
payloads the round only emits the error
`linking module flags '<ID>': IDs have conflicting values`, a completed run
returns true with the failure flag set and that error among its diagnostics,
and the run completes when the flags of the two modules are well formed. -/
theorem linkModuleFlagsMetadata_error_flag (L : IRLinker) (M : ModuleFlags)
    (pre post : List Nat) (SrcOp : Nat) (St : FlagsMerge) (ID DstOp DstIndex vS vD : Nat)
    (hreach : ReachesFlag L M pre SrcOp post St)
    (hSB : flagBehavior St.MD SrcOp = some Module.Error)
    (hID : flagID St.MD SrcOp = some ID)
    (hlook : St.Flags.lookup ID = (some DstOp, DstIndex))
    (hDB : flagBehavior St.MD DstOp = some Module.Error)
    (hvS : St.MD.getOperand SrcOp 2 = some vS)
    (hvD : St.MD.getOperand DstOp 2 = some vD) :
    St.DstModFlags.get? DstIndex = some DstOp ∧ flagID St.MD DstOp = some ID ∧
    (vS = vD → mergeFlag St SrcOp = some St) ∧
    (vS ≠ vD →
      mergeFlag St SrcOp =
        some { St with
          L := St.L.emitError ("linking module flags '" ++ St.MD.getString ID ++
            "': IDs have conflicting values") } ∧
      (∀ r, linkModuleFlagsMetadata L M = some r →
        r.1 = true ∧ r.2.1.HasError = true ∧
        (DiagnosticSeverity.DS_Error, "linking module flags '" ++ St.MD.getString ID ++
          "': IDs have conflicting values") ∈ r.2.1.Diagnostics) ∧
      ((∀ Op ∈ M.DstModFlags.getD [] ++ M.SrcModFlags.getD [], WellFormedFlag M.MD Op) →
        ∃ r, linkModuleFlagsMetadata L M = some r)) := by
  obtain ⟨hpos, hid, _⟩ := (reachesFlag_inv hreach).1 ID DstOp DstIndex hlook
  have hstep : mergeFlag St SrcOp =
      if vS ≠ vD then
        some { St with
          L := St.L.emitError ("linking module flags '" ++ St.MD.getString ID ++
            "': IDs have conflicting values") }
      else some St := by
    unfold mergeFlag
    rw [hSB, hID]
    simp only [hlook, hDB, valuesDiffer, hvS, hvD]
    rw [if_neg (by decide), if_neg (by decide), if_neg (by decide), if_neg (by simp),
      if_pos True.intro]
    by_cases hv : vS = vD
    · simp [hv]
    · simp [hv]
  refine ⟨hpos, hid, ?_, ?_⟩
  · intro hv
    rw [hstep, if_neg (not_not.mpr hv)]
  · intro hv
    rw [if_pos hv] at hstep
    refine ⟨hstep, fun r hr => ?_, linkModuleFlagsMetadata_total L M⟩
    obtain ⟨h1, h2, h3⟩ := reachesFlag_fails hreach hstep rfl hr
    refine ⟨h1, h2, h3 _ ?_⟩
    show _ ∈ St.L.Diagnostics ++ _
    simp

/-- C14, at the flag `wchar_size` with the value 4 in the destination and the
value 2 in the source. -/
theorem linkModuleFlagsMetadata_error_flag_witness :
    ReachesFlag (exampleLinker []) ⟨exampleWcharMD, some [3], some [5]⟩ [] 5 []
      ⟨exampleLinker [], exampleWcharMD, [3], [(1, (some 3, 0))], []⟩ ∧
    mergeFlag ⟨exampleLinker [], exampleWcharMD, [3], [(1, (some 3, 0))], []⟩ 5 =
      some ⟨(exampleLinker []).emitError ("linking module flags '" ++
          exampleWcharMD.getString 1 ++ "': IDs have conflicting values"),
        exampleWcharMD, [3], [(1, (some 3, 0))], []⟩ ∧
    (∀ r, linkModuleFlagsMetadata (exampleLinker []) ⟨exampleWcharMD, some [3], some [5]⟩ =
        some r →
      r.1 = true ∧ r.2.1.HasError = true ∧
      (DiagnosticSeverity.DS_Error, "linking module flags '" ++
        exampleWcharMD.getString 1 ++ "': IDs have conflicting values") ∈
          r.2.1.Diagnostics) ∧
    ((∀ Op ∈ (some [3]).getD [] ++ (some [5]).getD [], WellFormedFlag exampleWcharMD Op) →
      ∃ r, linkModuleFlagsMetadata (exampleLinker []) ⟨exampleWcharMD, some [3], some [5]⟩ =
        some r) :=
  ⟨⟨rfl, [3], _, _, rfl, List.cons_ne_nil _ _, rfl, rfl⟩,
    (linkModuleFlagsMetadata_error_flag (exampleLinker [])
      ⟨exampleWcharMD, some [3], some [5]⟩ [] [] 5
      ⟨exampleLinker [], exampleWcharMD, [3], [(1, (some 3, 0))], []⟩ 1 3 0 4 2
      ⟨rfl, [3], _, _, rfl, List.cons_ne_nil _ _, rfl, rfl⟩ rfl rfl rfl rfl rfl rfl).2.2.2
      (by decide)⟩

end IRLinker
end IRMover

namespace IRMover
namespace IRLinker

/-- C19: when the run of `linkModuleFlagsMetadata` reaches a source flag of
behaviour `Warning` whose identifier `ID` has the destination flag `DstOp` of
behaviour `Warning`, then with different payloads the round only emits the
warning `linking module flags '<ID>': IDs have conflicting values`: the
diagnostics gain this one warning, the failure flag is as before, and the
destination list, the map of the flags and the metadata are unchanged; with
equal payloads the round changes nothing. -/
theorem linkModuleFlagsMetadata_warning_flag (L : IRLinker) (M : ModuleFlags)
    (pre post : List Nat) (SrcOp : Nat) (St : FlagsMerge) (ID DstOp DstIndex vS vD : Nat)
    (hreach : ReachesFlag L M pre SrcOp post St)
    (hSB : flagBehavior St.MD SrcOp = some Module.Warning)
    (hID : flagID St.MD SrcOp = some ID)
    (hlook : St.Flags.lookup ID = (some DstOp, DstIndex))
    (hDB : flagBehavior St.MD DstOp = some Module.Warning)
    (hvS : St.MD.getOperand SrcOp 2 = some vS)
    (hvD : St.MD.getOperand DstOp 2 = some vD) :
    St.DstModFlags.get? DstIndex = some DstOp ∧ flagID St.MD DstOp = some ID ∧
    (vS = vD → mergeFlag St SrcOp = some St) ∧
    (vS ≠ vD →
      mergeFlag St SrcOp =
        some { St with
          L := St.L.emitWarning ("linking module flags '" ++ St.MD.getString ID ++
            "': IDs have conflicting values") } ∧
      (St.L.emitWarning ("linking module flags '" ++ St.MD.getString ID ++
        "': IDs have conflicting values")).Diagnostics =
        St.L.Diagnostics ++ [(DiagnosticSeverity.DS_Warning,
          "linking module flags '" ++ St.MD.getString ID ++
            "': IDs have conflicting values")] ∧
      (St.L.emitWarning ("linking module flags '" ++ St.MD.getString ID ++
        "': IDs have conflicting values")).HasError = St.L.HasError) := by
  obtain ⟨hpos, hid, _⟩ := (reachesFlag_inv hreach).1 ID DstOp DstIndex hlook
  have hstep : mergeFlag St SrcOp =
      if vS ≠ vD then
        some { St with
          L := St.L.emitWarning ("linking module flags '" ++ St.MD.getString ID ++
            "': IDs have conflicting values") }
      else some St := by
    unfold mergeFlag
    rw [hSB, hID]
    simp only [hlook, hDB, valuesDiffer, hvS, hvD]
    rw [if_neg (by decide), if_neg (by decide), if_neg (by decide), if_neg (by simp),
      if_neg (by decide), if_pos True.intro]
    by_cases hv : vS = vD
    · simp [hv]
    · simp [hv]
  refine ⟨hpos, hid, ?_, ?_⟩
  · intro hv
    rw [hstep, if_neg (not_not.mpr hv)]
  · intro hv
    rw [if_pos hv] at hstep
    exact ⟨hstep, rfl, rfl⟩

/-- C19, at the flag `wchar_size` of behaviour `Warning` with the value 4 in
the destination and the value 2 in the source. -/
theorem linkModuleFlagsMetadata_warning_flag_witness :
    ReachesFlag (exampleLinker []) ⟨exampleFlagsMD, some [10], some [11]⟩ [] 11 []
      ⟨exampleLinker [], exampleFlagsMD, [10], [(6, (some 10, 0))], []⟩ ∧
    mergeFlag ⟨exampleLinker [], exampleFlagsMD, [10], [(6, (some 10, 0))], []⟩ 11 =
      some ⟨(exampleLinker []).emitWarning ("linking module flags '" ++
          exampleFlagsMD.getString 6 ++ "': IDs have conflicting values"),
        exampleFlagsMD, [10], [(6, (some 10, 0))], []⟩ ∧
    ((exampleLinker []).emitWarning ("linking module flags '" ++
      exampleFlagsMD.getString 6 ++ "': IDs have conflicting values")).Diagnostics =
      (exampleLinker []).Diagnostics ++ [(DiagnosticSeverity.DS_Warning,
        "linking module flags '" ++ exampleFlagsMD.getString 6 ++
          "': IDs have conflicting values")] ∧
    ((exampleLinker []).emitWarning ("linking module flags '" ++
      exampleFlagsMD.getString 6 ++ "': IDs have conflicting values")).HasError =
      (exampleLinker []).HasError :=
  ⟨⟨rfl, [10], _, _, rfl, List.cons_ne_nil _ _, rfl, rfl⟩,
    (linkModuleFlagsMetadata_warning_flag (exampleLinker [])
      ⟨exampleFlagsMD, some [10], some [11]⟩ [] [] 11
      ⟨exampleLinker [], exampleFlagsMD, [10], [(6, (some 10, 0))], []⟩ 6 10 0 1 3
      ⟨rfl, [10], _, _, rfl, List.cons_ne_nil _ _, rfl, rfl⟩ rfl rfl rfl rfl rfl rfl).2.2.2
      (by decide)⟩

/-- C16: when the run of `linkModuleFlagsMetadata` reaches a source flag
(not a requirement) whose identifier `ID` has the destination flag `DstOp`,
which is the flag at its recorded index `DstIndex` of the destination list:
if `DstOp` has the behaviour `Override`, the round keeps the destination list,
the map and the metadata, and it emits the error
`linking module flags '<ID>': IDs have conflicting override values` exactly
when the source flag has the behaviour `Override` too and another payload;
if only the source flag has the behaviour `Override`, the round puts the
source flag at the index `DstIndex` of the destination list, records it for
`ID`, and emits nothing. -/
theorem linkModuleFlagsMetadata_override_flag (L : IRLinker) (M : ModuleFlags)
    (pre post : List Nat) (SrcOp : Nat) (St : FlagsMerge)
    (SB DB ID DstOp DstIndex vS vD : Nat)
    (hreach : ReachesFlag L M pre SrcOp post St)
    (hSB : flagBehavior St.MD SrcOp = some SB) (hreq : SB ≠ Module.Require)
    (hID : flagID St.MD SrcOp = some ID)
    (hlook : St.Flags.lookup ID = (some DstOp, DstIndex))
    (hDB : flagBehavior St.MD DstOp = some DB)
    (hvS : St.MD.getOperand SrcOp 2 = some vS)
    (hvD : St.MD.getOperand DstOp 2 = some vD) :
    St.DstModFlags.get? DstIndex = some DstOp ∧
    (DB = Module.Override →
      ((SB = Module.Override ∧ vS ≠ vD) →
        mergeFlag St SrcOp =
          some { St with
            L := St.L.emitError ("linking module flags '" ++ St.MD.getString ID ++
              "': IDs have conflicting override values") }) ∧
      (¬ (SB = Module.Override ∧ vS ≠ vD) → mergeFlag St SrcOp = some St)) ∧
    (DB ≠ Module.Override → SB = Module.Override →
      mergeFlag St SrcOp =
        some { St with
          DstModFlags := St.DstModFlags.set DstIndex SrcOp
          Flags := St.Flags.setFirst ID SrcOp } ∧
      (St.DstModFlags.set DstIndex SrcOp).get? DstIndex = some SrcOp ∧
      (St.DstModFlags.set DstIndex SrcOp).length = St.DstModFlags.length ∧
      ∀ j, j ≠ DstIndex → (St.DstModFlags.set DstIndex SrcOp).get? j = St.DstModFlags.get? j) := by
  obtain ⟨hpos, hid, _⟩ := (reachesFlag_inv hreach).1 ID DstOp DstIndex hlook
  refine ⟨hpos, ?_, ?_⟩
  · intro hDO
    have hstep : mergeFlag St SrcOp =
        if SB = Module.Override then
          (if vS ≠ vD then
            some { St with
              L := St.L.emitError ("linking module flags '" ++ St.MD.getString ID ++
                "': IDs have conflicting override values") }
          else some St)
        else some St := by
      unfold mergeFlag
      rw [hSB, hID]
      simp only [hlook, hDB, valuesDiffer, hvS, hvD]
      rw [if_neg hreq, if_pos hDO]
      by_cases hSO : SB = Module.Override
      · rw [if_pos hSO, if_pos hSO]
        by_cases hv : vS = vD
        · simp [hv]
        · simp [hv]
      · rw [if_neg hSO, if_neg hSO]
    constructor
    · rintro ⟨hSO, hv⟩
      rw [hstep, if_pos hSO, if_pos hv]
    · intro hn
      rw [hstep]
      by_cases hSO : SB = Module.Override
      · rw [if_pos hSO, if_neg]
        intro hv
        exact hn ⟨hSO, hv⟩
      · rw [if_neg hSO]
  · intro hDO hSO
    refine ⟨?_, get?_set_self hpos, List.length_set _ _ _, fun j hj => get?_set_other (Ne.symm hj)⟩
    unfold mergeFlag
    rw [hSB, hID]
    simp only [hlook, hDB]
    rw [if_neg hreq, if_neg hDO, if_pos hSO]

/-- C16, at the flag `wchar_size`: the destination has `Error wchar_size 2`,
the source has `Override wchar_size 4`. -/
theorem linkModuleFlagsMetadata_override_flag_witness :
    ReachesFlag (exampleLinker []) ⟨exampleFlagsMD, some [9], some [8]⟩ [] 8 []
      ⟨exampleLinker [], exampleFlagsMD, [9], [(6, (some 9, 0))], []⟩ ∧
    mergeFlag ⟨exampleLinker [], exampleFlagsMD, [9], [(6, (some 9, 0))], []⟩ 8 =
      some ⟨exampleLinker [], exampleFlagsMD, [8],
        FlagMap.setFirst [(6, (some 9, 0))] 6 8, []⟩ :=
  ⟨⟨rfl, [9], _, _, rfl, List.cons_ne_nil _ _, rfl, rfl⟩,
    ((linkModuleFlagsMetadata_override_flag (exampleLinker [])
      ⟨exampleFlagsMD, some [9], some [8]⟩ [] [] 8
      ⟨exampleLinker [], exampleFlagsMD, [9], [(6, (some 9, 0))], []⟩ 4 1 6 9 0 3 1
      ⟨rfl, [9], _, _, rfl, List.cons_ne_nil _ _, rfl, rfl⟩ rfl (by decide) rfl rfl rfl rfl
      rfl).2.2 (by decide) rfl).1⟩

end IRLinker
end IRMover

namespace IRMover
namespace IRLinker

/-! ### Replacing the value of a destination flag -/

theorem replaceDstValue_spec {St : FlagsMerge} {ID DstOp DstIndex B Bv : Nat} (Elts : List Nat)
    (hpos : St.DstModFlags.get? DstIndex = some DstOp)
    (hlook : St.Flags.lookup ID = (some DstOp, DstIndex))
    (hcast : St.MD.castMDString ID = some ID)
    (hB : St.MD.getOperand DstOp 0 = some B) (hBv : St.MD.getZExtValue B = some Bv) :
    ∃ (St' : FlagsMerge) (Flag New : Nat),
      replaceDstValue { St with MD := (St.MD.get Elts).2 } DstOp DstIndex ID (St.MD.get Elts).1 =
        some St' ∧
      St'.L = St.L ∧ MDExtends St.MD St'.MD ∧
      St'.DstModFlags = St.DstModFlags.set DstIndex Flag ∧
      St'.DstModFlags.get? DstIndex = some Flag ∧
      St'.Flags.lookup ID = (some Flag, DstIndex) ∧
      flagID St'.MD Flag = some ID ∧ flagBehavior St'.MD Flag = some Bv ∧
      St'.MD.getOperand Flag 2 = some New ∧ St'.MD.operands New = some Elts := by
  have hext1 : MDExtends St.MD (St.MD.get Elts).2 := mdExtends_get _ _
  have hext2 : MDExtends (St.MD.get Elts).2
      ((St.MD.get Elts).2.get [B, ID, (St.MD.get Elts).1]).2 := mdExtends_get _ _
  have hext := mdExtends_trans hext1 hext2
  refine ⟨{ St with
      MD := ((St.MD.get Elts).2.get [B, ID, (St.MD.get Elts).1]).2
      DstModFlags := St.DstModFlags.set DstIndex
        ((St.MD.get Elts).2.get [B, ID, (St.MD.get Elts).1]).1
      Flags := St.Flags.setFirst ID ((St.MD.get Elts).2.get [B, ID, (St.MD.get Elts).1]).1 },
    ((St.MD.get Elts).2.get [B, ID, (St.MD.get Elts).1]).1, (St.MD.get Elts).1,
    ?_, rfl, hext, rfl, get?_set_self hpos, ?_, ?_, ?_, ?_, ?_⟩
  · unfold replaceDstValue
    simp only []
    rw [getOperand_mono hext1 hB]
  · show FlagMap.lookup (St.Flags.setFirst ID _) ID = _
    rw [flagMap_lookup_setFirst, if_pos rfl, hlook]
  · show flagID ((St.MD.get Elts).2.get [B, ID, (St.MD.get Elts).1]).2 _ = some ID
    unfold flagID
    rw [get_getOperand]
    show (some ID).bind _ = some ID
    rw [Option.some_bind]
    exact castMDString_mono hext hcast
  · show flagBehavior ((St.MD.get Elts).2.get [B, ID, (St.MD.get Elts).1]).2 _ = some Bv
    unfold flagBehavior
    rw [get_getOperand]
    show (some B).bind _ = some Bv
    rw [Option.some_bind]
    exact getZExtValue_mono hext hBv
  · show MDContext.getOperand ((St.MD.get Elts).2.get [B, ID, (St.MD.get Elts).1]).2 _ 2 = _
    rw [get_getOperand]
    rfl
  · exact operands_mono hext2 (get_operands _ _)

/-- C17: when the run of `linkModuleFlagsMetadata` reaches a source flag of
behaviour `Append` whose identifier `ID` has the destination flag `DstOp` of
behaviour `Append`, with the payload elements `dOps` in the destination and
`sOps` in the source, then `DstOp` is the flag at its recorded index
`DstIndex` of the destination list, and the round replaces it at that index by
a flag of the identifier `ID` and the behaviour `Append` whose payload has the
elements `dOps ++ sOps`; the flag is recorded for `ID` and nothing is
emitted. -/
theorem linkModuleFlagsMetadata_append_flag (L : IRLinker) (M : ModuleFlags)
    (pre post : List Nat) (SrcOp : Nat) (St : FlagsMerge) (ID DstOp DstIndex pS pD : Nat)
    (sOps dOps : List Nat)
    (hreach : ReachesFlag L M pre SrcOp post St)
    (hSB : flagBehavior St.MD SrcOp = some Module.Append)
    (hID : flagID St.MD SrcOp = some ID)
    (hlook : St.Flags.lookup ID = (some DstOp, DstIndex))
    (hDB : flagBehavior St.MD DstOp = some Module.Append)
    (hvS : St.MD.getOperand SrcOp 2 = some pS) (hoS : St.MD.operands pS = some sOps)
    (hvD : St.MD.getOperand DstOp 2 = some pD) (hoD : St.MD.operands pD = some dOps) :
    St.DstModFlags.get? DstIndex = some DstOp ∧
    ∃ (St' : FlagsMerge) (Flag New : Nat),
      mergeFlag St SrcOp = some St' ∧
      St'.L = St.L ∧
      St'.DstModFlags = St.DstModFlags.set DstIndex Flag ∧
      St'.DstModFlags.get? DstIndex = some Flag ∧
      St'.Flags.lookup ID = (some Flag, DstIndex) ∧
      flagID St'.MD Flag = some ID ∧ flagBehavior St'.MD Flag = some Module.Append ∧
      St'.MD.getOperand Flag 2 = some New ∧ St'.MD.operands New = some (dOps ++ sOps) := by
  obtain ⟨hpos, hid, _⟩ := (reachesFlag_inv hreach).1 ID DstOp DstIndex hlook
  obtain ⟨B, hB, hBv⟩ := flagBehavior_operand hDB
  obtain ⟨St', Flag, New, hrep, hL, _, hD, hget, hF, hfid, hfb, hop, hops⟩ :=
    replaceDstValue_spec (dOps ++ sOps) hpos hlook (flagID_cast hID).2 hB hBv
  refine ⟨hpos, St', Flag, New, ?_, hL, hD, hget, hF, hfid, hfb, hop, hops⟩
  rw [← hrep]
  unfold mergeFlag
  rw [hSB, hID]
  simp only [hlook, hDB, hvS, hvD, Option.some_bind, hoS, hoD]
  rw [if_neg (by decide), if_neg (by decide), if_neg (by decide), if_neg (by simp),
    if_neg (by decide), if_neg (by decide), if_pos True.intro]

/-- C17, at the flag `opts`: the destination has the payload `{a, b}`, the
source has the payload `{b, a, b}`. -/
theorem linkModuleFlagsMetadata_append_flag_witness :
    ReachesFlag (exampleLinker []) ⟨exampleFlagsMD, some [16], some [17]⟩ [] 17 []
      ⟨exampleLinker [], exampleFlagsMD, [16], [(7, (some 16, 0))], []⟩ ∧
    ∃ (St' : FlagsMerge) (Flag New : Nat),
      mergeFlag ⟨exampleLinker [], exampleFlagsMD, [16], [(7, (some 16, 0))], []⟩ 17 =
        some St' ∧
      St'.L = exampleLinker [] ∧
      St'.DstModFlags = [16].set 0 Flag ∧
      St'.DstModFlags.get? 0 = some Flag ∧
      St'.Flags.lookup 7 = (some Flag, 0) ∧
      flagID St'.MD Flag = some 7 ∧ flagBehavior St'.MD Flag = some Module.Append ∧
      St'.MD.getOperand Flag 2 = some New ∧
      St'.MD.operands New = some ([12, 13] ++ [13, 12, 13]) :=
  ⟨⟨rfl, [16], _, _, rfl, List.cons_ne_nil _ _, rfl, rfl⟩,
    (linkModuleFlagsMetadata_append_flag (exampleLinker [])
      ⟨exampleFlagsMD, some [16], some [17]⟩ [] [] 17
      ⟨exampleLinker [], exampleFlagsMD, [16], [(7, (some 16, 0))], []⟩ 7 16 0 15 14
      [13, 12, 13] [12, 13]
      ⟨rfl, [16], _, _, rfl, List.cons_ne_nil _ _, rfl, rfl⟩ rfl rfl rfl rfl rfl rfl rfl
      rfl).2⟩

end IRLinker
end IRMover

namespace IRMover

/-! ### `SmallSetVector` -/

theorem insertRange_append (S : SmallSetVector) (a b : List Nat) :
    SmallSetVector.insertRange S (a ++ b) =
      SmallSetVector.insertRange (SmallSetVector.insertRange S a) b := by
  unfold SmallSetVector.insertRange
  rw [List.foldl_append]

/-- Inserting the elements of `l` into a set vector that holds the first
occurrences of `p` gives the first occurrences of `p ++ l`. -/
theorem insertRange_first_occurrences (l : List Nat) :
    ∀ (acc p : List Nat), acc.Nodup → (∀ x, x ∈ acc ↔ x ∈ p) →
      (∀ x y, x ∈ acc → y ∈ acc →
        (List.indexOf x acc < List.indexOf y acc ↔ List.indexOf x p < List.indexOf y p)) →
      (SmallSetVector.insertRange acc l).Nodup ∧
      (∀ x, x ∈ SmallSetVector.insertRange acc l ↔ x ∈ p ++ l) ∧
      (∀ x y, x ∈ SmallSetVector.insertRange acc l → y ∈ SmallSetVector.insertRange acc l →
        (List.indexOf x (SmallSetVector.insertRange acc l) <
            List.indexOf y (SmallSetVector.insertRange acc l) ↔
          List.indexOf x (p ++ l) < List.indexOf y (p ++ l))) := by
  induction l with
  | nil =>
    intro acc p hnd hmem hord
    simp only [SmallSetVector.insertRange, List.foldl_nil, List.append_nil]
    exact ⟨hnd, hmem, hord⟩
  | cons z rest ih =>
    intro acc p hnd hmem hord
    have hstep : SmallSetVector.insertRange acc (z :: rest) =
        SmallSetVector.insertRange (SmallSetVector.insert acc z).1 rest := rfl
    have happ : p ++ z :: rest = (p ++ [z]) ++ rest := by simp
    rw [hstep, happ]
    apply ih
    · unfold SmallSetVector.insert
      by_cases hz : z ∈ acc
      · simp only [hz, if_true]
        exact hnd
      · simp only [hz, if_false]
        refine List.Nodup.append hnd (List.nodup_singleton z) ?_
        intro a ha hs
        rw [List.mem_singleton] at hs
        rw [hs] at ha
        exact hz ha
    · intro x
      unfold SmallSetVector.insert
      by_cases hz : z ∈ acc
      · simp only [hz, if_true, List.mem_append, List.mem_singleton]
        constructor
        · intro hx
          exact Or.inl ((hmem x).mp hx)
        · rintro (hx | hx)
          · exact (hmem x).mpr hx
          · rw [hx]
            exact hz
      · simp only [hz, if_false, List.mem_append, List.mem_singleton, hmem x]
    · intro x y
      unfold SmallSetVector.insert
      by_cases hz : z ∈ acc
      · simp only [hz, if_true]
        intro hx hy
        rw [List.indexOf_append_of_mem ((hmem x).mp hx),
          List.indexOf_append_of_mem ((hmem y).mp hy)]
        exact hord x y hx hy
      · simp only [hz, if_false, List.mem_append, List.mem_singleton]
        have hzp : z ∉ p := fun h => hz ((hmem z).mpr h)
        have iz_acc : List.indexOf z (acc ++ [z]) = acc.length := by
          rw [List.indexOf_append_of_not_mem hz, List.indexOf_cons_self]
          rfl
        have iz_p : List.indexOf z (p ++ [z]) = p.length := by
          rw [List.indexOf_append_of_not_mem hzp, List.indexOf_cons_self]
          rfl
        rintro (hx | hx) (hy | hy)
        · rw [List.indexOf_append_of_mem hx, List.indexOf_append_of_mem hy,
            List.indexOf_append_of_mem ((hmem x).mp hx),
            List.indexOf_append_of_mem ((hmem y).mp hy)]
          exact hord x y hx hy
        · subst hy
          rw [List.indexOf_append_of_mem hx, List.indexOf_append_of_mem ((hmem x).mp hx),
            iz_acc, iz_p]
          exact ⟨fun _ => List.indexOf_lt_length.mpr ((hmem x).mp hx),
            fun _ => List.indexOf_lt_length.mpr hx⟩
        · subst hx
          rw [List.indexOf_append_of_mem hy, List.indexOf_append_of_mem ((hmem y).mp hy),
            iz_acc, iz_p]
          constructor
          · intro h
            exact absurd (List.indexOf_lt_length.mpr hy) (Nat.not_lt.mpr (Nat.le_of_lt h))
          · intro h
            exact absurd (List.indexOf_lt_length.mpr ((hmem y).mp hy))
              (Nat.not_lt.mpr (Nat.le_of_lt h))
        · subst hx
          subst hy
          simp

namespace IRLinker

/-- C18: when the run of `linkModuleFlagsMetadata` reaches a source flag of
behaviour `AppendUnique` whose identifier `ID` has the destination flag
`DstOp` of behaviour `AppendUnique`, with the payload elements `dOps` in the
destination and `sOps` in the source, then the round replaces `DstOp`, at its
index `DstIndex` of the destination list, by a flag of the identifier `ID` and
the behaviour `AppendUnique` whose payload has the elements `Elts`: `Elts` has
no element twice, it has exactly the elements of `dOps ++ sOps`, and two of
its elements are in the order of their first occurrences in `dOps ++ sOps`.
Nothing is emitted. -/
theorem linkModuleFlagsMetadata_append_unique_flag (L : IRLinker) (M : ModuleFlags)
    (pre post : List Nat) (SrcOp : Nat) (St : FlagsMerge) (ID DstOp DstIndex pS pD : Nat)
    (sOps dOps : List Nat)
    (hreach : ReachesFlag L M pre SrcOp post St)
    (hSB : flagBehavior St.MD SrcOp = some Module.AppendUnique)
    (hID : flagID St.MD SrcOp = some ID)
    (hlook : St.Flags.lookup ID = (some DstOp, DstIndex))
    (hDB : flagBehavior St.MD DstOp = some Module.AppendUnique)
    (hvS : St.MD.getOperand SrcOp 2 = some pS) (hoS : St.MD.operands pS = some sOps)
    (hvD : St.MD.getOperand DstOp 2 = some pD) (hoD : St.MD.operands pD = some dOps) :
    St.DstModFlags.get? DstIndex = some DstOp ∧
    ∃ (St' : FlagsMerge) (Flag New : Nat) (Elts : List Nat),
      mergeFlag St SrcOp = some St' ∧
      St'.L = St.L ∧
      St'.DstModFlags = St.DstModFlags.set DstIndex Flag ∧
      St'.DstModFlags.get? DstIndex = some Flag ∧
      St'.Flags.lookup ID = (some Flag, DstIndex) ∧
      flagID St'.MD Flag = some ID ∧ flagBehavior St'.MD Flag = some Module.AppendUnique ∧
      St'.MD.getOperand Flag 2 = some New ∧ St'.MD.operands New = some Elts ∧
      Elts.Nodup ∧ (∀ x, x ∈ Elts ↔ x ∈ dOps ++ sOps) ∧
      (∀ x y, x ∈ Elts → y ∈ Elts →
        (List.indexOf x Elts < List.indexOf y Elts ↔
          List.indexOf x (dOps ++ sOps) < List.indexOf y (dOps ++ sOps))) := by
  obtain ⟨hpos, hid, _⟩ := (reachesFlag_inv hreach).1 ID DstOp DstIndex hlook
  obtain ⟨B, hB, hBv⟩ := flagBehavior_operand hDB
  obtain ⟨St', Flag, New, hrep, hL, _, hD, hget, hF, hfid, hfb, hop, hops⟩ :=
    replaceDstValue_spec ((SmallSetVector.insertRange [] dOps).insertRange sOps) hpos hlook
      (flagID_cast hID).2 hB hBv
  have hspec := insertRange_first_occurrences (dOps ++ sOps) [] [] List.nodup_nil
    (fun x => Iff.rfl) (fun x y hx _ => absurd hx (List.not_mem_nil x))
  rw [insertRange_append, List.nil_append] at hspec
  refine ⟨hpos, St', Flag, New, _, ?_, hL, hD, hget, hF, hfid, hfb, hop, hops, hspec⟩
  rw [← hrep]
  unfold mergeFlag
  rw [hSB, hID]
  simp only [hlook, hDB, hvS, hvD, Option.some_bind, hoS, hoD]
  rw [if_neg (by decide), if_neg (by decide), if_neg (by decide), if_neg (by simp),
    if_neg (by decide), if_neg (by decide), if_neg (by decide), if_pos True.intro]

/-- C18, at the flag `opts`: the destination has the payload `{b, a, b}`, the
source has the payload `{a, b}`. -/
theorem linkModuleFlagsMetadata_append_unique_flag_witness :
    ReachesFlag (exampleLinker []) ⟨exampleFlagsMD, some [19], some [18]⟩ [] 18 []
      ⟨exampleLinker [], exampleFlagsMD, [19], [(7, (some 19, 0))], []⟩ ∧
    ∃ (St' : FlagsMerge) (Flag New : Nat) (Elts : List Nat),
      mergeFlag ⟨exampleLinker [], exampleFlagsMD, [19], [(7, (some 19, 0))], []⟩ 18 =
        some St' ∧
      St'.L = exampleLinker [] ∧
      St'.DstModFlags = [19].set 0 Flag ∧
      St'.DstModFlags.get? 0 = some Flag ∧
      St'.Flags.lookup 7 = (some Flag, 0) ∧
      flagID St'.MD Flag = some 7 ∧ flagBehavior St'.MD Flag = some Module.AppendUnique ∧
      St'.MD.getOperand Flag 2 = some New ∧ St'.MD.operands New = some Elts ∧
      Elts.Nodup ∧ (∀ x, x ∈ Elts ↔ x ∈ [13, 12, 13] ++ [12, 13]) ∧
      (∀ x y, x ∈ Elts → y ∈ Elts →
        (List.indexOf x Elts < List.indexOf y Elts ↔
          List.indexOf x ([13, 12, 13] ++ [12, 13]) <
            List.indexOf y ([13, 12, 13] ++ [12, 13]))) :=
  ⟨⟨rfl, [19], _, _, rfl, List.cons_ne_nil _ _, rfl, rfl⟩,
    (linkModuleFlagsMetadata_append_unique_flag (exampleLinker [])
      ⟨exampleFlagsMD, some [19], some [18]⟩ [] [] 18
      ⟨exampleLinker [], exampleFlagsMD, [19], [(7, (some 19, 0))], []⟩ 7 19 0 14 15
      [12, 13] [13, 12, 13]
      ⟨rfl, [19], _, _, rfl, List.cons_ne_nil _ _, rfl, rfl⟩ rfl rfl rfl rfl rfl rfl rfl
      rfl).2⟩

end IRLinker
end IRMover

namespace IRMover
namespace IRLinker

/-- C20: when the run of `linkModuleFlagsMetadata` reaches a source flag
`SrcOp` that is no requirement and whose identifier `ID` is the identifier of
no flag of the destination list other than requirements, then `Flags` has no
entry for `ID` and the round appends `SrcOp` itself to the destination list,
records it for `ID` and leaves the linker, so also its diagnostics, and the
metadata as they are.  And when the destination has no flags (no list or an
empty one) and the source has the list `Src`, the method makes `Src` the
destination list, emits nothing and returns false. -/
theorem linkModuleFlagsMetadata_adopts (L : IRLinker) (M : ModuleFlags)
    (pre post : List Nat) (SrcOp : Nat) (St : FlagsMerge) (SB ID : Nat)
    (hreach : ReachesFlag L M pre SrcOp post St)
    (hSB : flagBehavior St.MD SrcOp = some SB) (hreq : SB ≠ Module.Require)
    (hID : flagID St.MD SrcOp = some ID)
    (hno : ∀ Op ∈ St.DstModFlags, flagID St.MD Op = some ID →
      flagBehavior St.MD Op = some Module.Require) :
    (St.Flags.lookup ID).1 = none ∧
    mergeFlag St SrcOp =
      some { St with
        Flags := St.Flags.assign ID SrcOp St.DstModFlags.length
        DstModFlags := St.DstModFlags ++ [SrcOp] } ∧
    (∀ (L0 : IRLinker) (M0 : ModuleFlags) (Src : List Nat),
      M0.SrcModFlags = some Src → M0.DstModFlags.getD [] = [] →
      linkModuleFlagsMetadata L0 M0 = some (false, L0, { M0 with DstModFlags := some Src })) := by
  have hnone : (St.Flags.lookup ID).1 = none := by
    cases hl : (St.Flags.lookup ID).1 with
    | none => rfl
    | some Op =>
      have hl2 : St.Flags.lookup ID = (some Op, (St.Flags.lookup ID).2) := by rw [← hl]
      obtain ⟨hpos, hid, B, hb, hbne⟩ := (reachesFlag_inv hreach).1 ID Op _ hl2
      have hmem : Op ∈ St.DstModFlags := List.get?_mem hpos
      have := hno Op hmem hid
      rw [hb] at this
      exact absurd (Option.some.inj this) hbne
  refine ⟨hnone, ?_, ?_⟩
  · unfold mergeFlag
    rw [hSB, hID]
    simp only [hnone]
    rw [if_neg hreq]
  · intro L0 M0 Src hsrc hdst
    unfold linkModuleFlagsMetadata
    rw [hsrc, hdst]
    simp only [List.length_nil, if_true]
    have hfold : ∀ (xs acc : List Nat), List.foldl (fun D Op => D ++ [Op]) acc xs = acc ++ xs := by
      intro xs
      induction xs with
      | nil => intro acc; simp
      | cons x rest ih => intro acc; rw [List.foldl_cons, ih]; simp
    rw [hfold, List.nil_append]

/-- C20, at a destination with the flag `wchar_size` only and a source flag
`opts`. -/
theorem linkModuleFlagsMetadata_adopts_witness :
    ReachesFlag (exampleLinker []) ⟨exampleFlagsMD, some [9], some [16]⟩ [] 16 []
      ⟨exampleLinker [], exampleFlagsMD, [9], [(6, (some 9, 0))], []⟩ ∧
    mergeFlag ⟨exampleLinker [], exampleFlagsMD, [9], [(6, (some 9, 0))], []⟩ 16 =
      some ⟨exampleLinker [], exampleFlagsMD, [9] ++ [16],
        FlagMap.assign [(6, (some 9, 0))] 7 16 1, []⟩ :=
  ⟨⟨rfl, [9], _, _, rfl, List.cons_ne_nil _ _, rfl, rfl⟩,
    (linkModuleFlagsMetadata_adopts (exampleLinker [])
      ⟨exampleFlagsMD, some [9], some [16]⟩ [] [] 16
      ⟨exampleLinker [], exampleFlagsMD, [9], [(6, (some 9, 0))], []⟩ 5 7
      ⟨rfl, [9], _, _, rfl, List.cons_ne_nil _ _, rfl, rfl⟩ rfl (by decide) rfl
      (by decide)).2.1⟩

end IRLinker
end IRMover

namespace IRMover
namespace IRLinker

/-! ### The check of the requirements -/

theorem checkRequirements_outcomes (md : MDContext) (Flags : FlagMap) (Reqs : List Nat) :
    ∀ (L L' : IRLinker), checkRequirements md Flags Reqs L = some L' →
      ∃ outcomes : List (Option String),
        List.Forall₂ (fun R o => checkRequirement md Flags R = some o) Reqs outcomes ∧
        DiagnosticsExtend L L'
          (outcomes.filterMap (fun o => o.map (fun m => (DiagnosticSeverity.DS_Error, m)))) := by
  induction Reqs with
  | nil =>
    intro L L' h
    rw [checkRequirements] at h
    rw [← Option.some.inj h]
    exact ⟨[], List.Forall₂.nil, diagnosticsExtend_refl _⟩
  | cons R rest ih =>
    intro L L' h
    rw [checkRequirements] at h
    cases hc : checkRequirement md Flags R with
    | none => rw [hc] at h; cases h
    | some o =>
      cases o with
      | none =>
        rw [hc] at h
        obtain ⟨os, hall, hd⟩ := ih _ _ h
        exact ⟨none :: os, List.Forall₂.cons hc hall, by simpa using hd⟩
      | some Message =>
        rw [hc] at h
        obtain ⟨os, hall, hd⟩ := ih _ _ h
        refine ⟨some Message :: os, List.Forall₂.cons hc hall, ?_⟩
        have := diagnosticsExtend_trans (diagnosticsExtend_emitError L Message) hd
        simpa using this

theorem checkRequirement_spec {S : FlagsMerge} (hinv : FlagsInv S) {Req : Nat}
    {o : Option String} (h : checkRequirement S.MD S.Flags Req = some o) :
    ∃ (F V : Nat), S.MD.getOperand Req 0 = some F ∧ S.MD.getOperand Req 1 = some V ∧
      (o = none ∨ o = some ("linking module flags '" ++ S.MD.getString F ++
        "': does not have the required value")) ∧
      (o.isSome = true ↔
        ((∀ Op ∈ S.DstModFlags, flagID S.MD Op = some F →
            flagBehavior S.MD Op = some Module.Require) ∨
          ∃ (Op I : Nat), S.Flags.lookup F = (some Op, I) ∧ S.DstModFlags.get? I = some Op ∧
            flagID S.MD Op = some F ∧ S.MD.getOperand Op 2 ≠ some V)) := by
  unfold checkRequirement at h
  cases h0 : S.MD.getOperand Req 0 with
  | none => rw [h0] at h; simp at h
  | some F0 =>
    rw [h0, Option.some_bind] at h
    cases hF : S.MD.castMDString F0 with
    | none => rw [hF] at h; simp at h
    | some F =>
      have eF := castMDString_eq hF
      subst eF
      cases h1 : S.MD.getOperand Req 1 with
      | none => rw [hF, h1] at h; simp at h
      | some V =>
        rw [hF, h1] at h
        simp only [] at h
        refine ⟨F, V, rfl, rfl, ?_⟩
        cases hl : (S.Flags.lookup F).1 with
        | none =>
          rw [hl] at h
          simp only [Option.some.injEq] at h
          subst h
          refine ⟨Or.inr rfl, ?_⟩
          simp only [Option.isSome_some, true_iff]
          left
          intro Op hOp hid
          obtain ⟨B, ID, hb, hi, himp⟩ := hinv.2 Op hOp
          rw [hid] at hi
          have e := Option.some.inj hi
          subst e
          by_cases hreq : B = Module.Require
          · rw [hb, hreq]
          · exact absurd hl (himp hreq)
        | some Op =>
          rw [hl] at h
          simp only [] at h
          have hl2 : S.Flags.lookup F = (some Op, (S.Flags.lookup F).2) := by rw [← hl]
          obtain ⟨hpos, hid, B, hb, hbne⟩ := hinv.1 F Op _ hl2
          have hnot : ¬ (∀ Op ∈ S.DstModFlags, flagID S.MD Op = some F →
              flagBehavior S.MD Op = some Module.Require) := by
            intro hall
            have := hall Op (List.get?_mem hpos) hid
            rw [hb] at this
            exact hbne (Option.some.inj this)
          cases h2 : S.MD.getOperand Op 2 with
          | none => rw [h2] at h; cases h
          | some Value =>
            rw [h2] at h
            simp only [] at h
            by_cases hv : Value = V
            · rw [if_neg (not_not.mpr hv)] at h
              simp only [Option.some.injEq] at h
              subst h
              refine ⟨Or.inl rfl, ?_⟩
              simp only [Option.isSome_none, Bool.false_eq_true, false_iff]
              rintro (hall | ⟨Op1, I1, hl1, _, _, hne⟩)
              · exact hnot hall
              · rw [hl2] at hl1
                simp only [Prod.mk.injEq, Option.some.injEq] at hl1
                rw [← hl1.1, h2, hv] at hne
                exact hne rfl
            · rw [if_pos hv] at h
              simp only [Option.some.injEq] at h
              subst h
              refine ⟨Or.inr rfl, ?_⟩
              simp only [Option.isSome_some, true_iff]
              right
              refine ⟨Op, _, hl2, hpos, hid, ?_⟩
              rw [h2]
              intro e
              exact hv (Option.some.inj e)

/-! ### Every requirement of the two modules is collected -/

theorem setVector_insert_mem (S : SmallSetVector) (X : Nat) : X ∈ (S.insert X).1 := by
  unfold SmallSetVector.insert
  by_cases h : X ∈ S
  · simp only [h, if_true]
  · simp only [h, if_false, List.mem_append, List.mem_singleton, or_true]

theorem setVector_insert_subset (S : SmallSetVector) (X : Nat) {Y : Nat} (hY : Y ∈ S) :
    Y ∈ (S.insert X).1 := by
  unfold SmallSetVector.insert
  by_cases h : X ∈ S
  · simp only [h, if_true]
    exact hY
  · simp only [h, if_false]
    exact List.mem_append_left _ hY

theorem collectDstFlags_requirements (md : MDContext) :
    ∀ (rest : List Nat) (I : Nat) (F : FlagMap) (R : SmallSetVector) (F' : FlagMap)
      (R' : SmallSetVector), collectDstFlags md rest I F R = some (F', R') →
      (∀ Y ∈ R, Y ∈ R') ∧
      ∀ Op ∈ rest, flagBehavior md Op = some Module.Require →
        ∀ Req, md.getOperand Op 2 = some Req → Req ∈ R' := by
  intro rest
  induction rest with
  | nil =>
    intro I F R F' R' h
    rw [collectDstFlags] at h
    simp only [Option.some.injEq, Prod.mk.injEq] at h
    rw [← h.2]
    exact ⟨fun Y hY => hY, fun Op hOp => absurd hOp (List.not_mem_nil Op)⟩
  | cons Op rest ih =>
    intro I F R F' R' h
    rw [collectDstFlags] at h
    cases hB : flagBehavior md Op with
    | none => rw [hB] at h; simp at h
    | some B =>
      cases hI : flagID md Op with
      | none => rw [hB, hI] at h; simp at h
      | some ID =>
        rw [hB, hI] at h
        simp only [] at h
        by_cases hreq : B = Module.Require
        · rw [if_pos hreq] at h
          cases hop : md.getOperand Op 2 with
          | none => rw [hop] at h; simp at h
          | some p =>
            rw [hop, Option.some_bind] at h
            cases hc : md.castMDNode p with
            | none => rw [hc] at h; simp at h
            | some Req =>
              rw [hc] at h
              simp only [] at h
              have hp : Req = p := by
                unfold MDContext.castMDNode at hc
                split at hc
                · exact (Option.some.inj hc).symm
                · cases hc
              subst hp
              obtain ⟨hsub, hcov⟩ := ih _ _ _ _ _ h
              refine ⟨fun Y hY => hsub Y (setVector_insert_subset R Req hY), ?_⟩
              intro Op1 hOp1 hb1 Req1 hr1
              rcases List.mem_cons.mp hOp1 with e | hin
              · subst e
                rw [hop] at hr1
                rw [← Option.some.inj hr1]
                exact hsub Req (setVector_insert_mem R Req)
              · exact hcov Op1 hin hb1 Req1 hr1
        · rw [if_neg hreq] at h
          obtain ⟨hsub, hcov⟩ := ih _ _ _ _ _ h
          refine ⟨hsub, ?_⟩
          intro Op1 hOp1 hb1 Req1 hr1
          rcases List.mem_cons.mp hOp1 with e | hin
          · subst e
            rw [hB] at hb1
            exact absurd (Option.some.inj hb1) hreq
          · exact hcov Op1 hin hb1 Req1 hr1

theorem mergeFlag_requirements {S S' : FlagsMerge} {SrcOp : Nat}
    (h : mergeFlag S SrcOp = some S') :
    (∀ Y ∈ S.Requirements, Y ∈ S'.Requirements) ∧
    (flagBehavior S.MD SrcOp = some Module.Require →
      ∀ Req, S.MD.getOperand SrcOp 2 = some Req → Req ∈ S'.Requirements) := by
  obtain ⟨SB, ID, hSB, hID, hcases⟩ := mergeFlag_cases h
  rcases hcases with ⟨hreq, Req, hop, ⟨_, hS'⟩ | ⟨hm, hS'⟩⟩ | ⟨hreq, hnone, hS'⟩ |
    ⟨hreq, DstOp, L', e, hlook, he, hS'⟩ | ⟨hov, DstOp, hlook, hS'⟩ |
    ⟨hreq, DstOp, Elts, B, hlook, hB, hS'⟩
  · subst hS'
    refine ⟨fun Y hY => List.mem_append_left _ hY, fun _ Req1 hr1 => ?_⟩
    rw [hop] at hr1
    rw [← Option.some.inj hr1]
    exact List.mem_append_right _ (List.mem_singleton.mpr rfl)
  · subst hS'
    refine ⟨fun Y hY => hY, fun _ Req1 hr1 => ?_⟩
    rw [hop] at hr1
    rw [← Option.some.inj hr1]
    exact hm
  · subst hS'
    exact ⟨fun Y hY => hY, fun hb => absurd (Option.some.inj (hSB.symm.trans hb)) hreq⟩
  · subst hS'
    exact ⟨fun Y hY => hY, fun hb => absurd (Option.some.inj (hSB.symm.trans hb)) hreq⟩
  · subst hS'
    refine ⟨fun Y hY => hY, fun hb => ?_⟩
    have := Option.some.inj (hSB.symm.trans hb)
    rw [hov] at this
    exact absurd this (by decide)
  · subst hS'
    exact ⟨fun Y hY => hY, fun hb => absurd (Option.some.inj (hSB.symm.trans hb)) hreq⟩

theorem mergeSrcFlags_requirements (md0 : MDContext) (l : List Nat) :
    ∀ (S S' : FlagsMerge), MDExtends md0 S.MD → mergeSrcFlags l S = some S' →
      MDExtends md0 S'.MD ∧ (∀ Y ∈ S.Requirements, Y ∈ S'.Requirements) ∧
      ∀ Op ∈ l, flagBehavior md0 Op = some Module.Require →
        ∀ Req, md0.getOperand Op 2 = some Req → Req ∈ S'.Requirements := by
  induction l with
  | nil =>
    intro S S' hext h
    rw [mergeSrcFlags] at h
    rw [← Option.some.inj h]
    exact ⟨hext, fun Y hY => hY, fun Op hOp => absurd hOp (List.not_mem_nil Op)⟩
  | cons x rest ih =>
    intro S S' hext h
    rw [mergeSrcFlags] at h
    cases hm : mergeFlag S x with
    | none => rw [hm] at h; cases h
    | some S1 =>
      rw [hm] at h
      have hext1 := mdExtends_trans hext (mergeFlag_mdExtends hm)
      obtain ⟨hextF, hsub, hcov⟩ := ih S1 S' hext1 h
      obtain ⟨hsub1, hcov1⟩ := mergeFlag_requirements hm
      refine ⟨hextF, fun Y hY => hsub Y (hsub1 Y hY), ?_⟩
      intro Op hOp hb Req hr
      rcases List.mem_cons.mp hOp with e | hin
      · subst e
        exact hsub Req (hcov1 (flagBehavior_mono hext hb) Req (getOperand_mono hext hr))
      · exact hcov Op hin hb Req hr

end IRLinker
end IRMover

namespace IRMover
namespace IRLinker

theorem linkModuleFlagsMetadata_nonempty {L : IRLinker} {M : ModuleFlags} {D Src : List Nat}
    {r : Bool × IRLinker × ModuleFlags} (hD : M.DstModFlags = some D) (hne : D ≠ [])
    (hS : M.SrcModFlags = some Src) (hr : linkModuleFlagsMetadata L M = some r) :
    ∃ (F0 : FlagMap) (R0 : SmallSetVector) (S : FlagsMerge) (L1 : IRLinker),
      collectDstFlags M.MD D 0 [] [] = some (F0, R0) ∧
      mergeSrcFlags Src ⟨L, M.MD, D, F0, R0⟩ = some S ∧
      checkRequirements S.MD S.Flags S.Requirements S.L = some L1 ∧
      r = (L1.HasError, L1,
        { MD := S.MD, DstModFlags := some S.DstModFlags, SrcModFlags := M.SrcModFlags }) := by
  unfold linkModuleFlagsMetadata at hr
  rw [hS, hD] at hr
  have hlen : ¬ (D.length = 0) := fun e => hne (List.length_eq_zero.mp e)
  simp only [Option.getD_some, hlen, if_false] at hr
  cases hc : collectDstFlags M.MD D 0 [] [] with
  | none => rw [hc] at hr; cases hr
  | some FR =>
    obtain ⟨F0, R0⟩ := FR
    rw [hc] at hr
    simp only [] at hr
    cases hm : mergeSrcFlags Src ⟨L, M.MD, D, F0, R0⟩ with
    | none => rw [hm] at hr; cases hr
    | some S =>
      rw [hm] at hr
      simp only [] at hr
      cases hq : checkRequirements S.MD S.Flags S.Requirements S.L with
      | none => rw [hq] at hr; cases hr
      | some L1 =>
        rw [hq] at hr
        refine ⟨F0, R0, S, L1, rfl, hm, hq, ?_⟩
        rw [hS]
        exact (Option.some.inj hr).symm

/-- C15 (as stated, refuted): the destination has no module flags and the only
flag of the source is the requirement that `wchar_size` have the value 2.  The
method copies the source flags and returns false without a diagnostic, though
the destination list then holds the requirement and no flag `wchar_size`. -/
theorem linkModuleFlagsMetadata_skips_requirements :
    flagBehavior exampleFlagsMD 21 = some Module.Require ∧
    exampleFlagsMD.getOperand 21 2 = some 20 ∧
    exampleFlagsMD.get? 20 = some (Metadata.MDNode [6, 1]) ∧
    linkModuleFlagsMetadata (exampleLinker []) ⟨exampleFlagsMD, none, some [21]⟩ =
      some (false, exampleLinker [], ⟨exampleFlagsMD, some [21], some [21]⟩) ∧
    (exampleLinker []).Diagnostics = [] ∧ (exampleLinker []).HasError = false := by
  refine ⟨rfl, rfl, rfl, rfl, rfl, rfl⟩

/-- C15 (amended): when the destination has at least one module flag and the
source has a list of module flags, the run of `linkModuleFlagsMetadata`
completes if the flags of the two modules are well formed, and a completed
run ends its second loop in a state `S` whose
destination list is the final one, and: the payload of every `Require` flag of
either module is in `S.Requirements`; the last loop gives every requirement of
`S.Requirements`, with flag `F` and value `V`, one outcome, which is an error
`linking module flags '<F>': does not have the required value` exactly when
no flag of the final destination list other than a requirement has the
identifier `F`, or the flag recorded for `F`, which is in the final list and
has the identifier `F`, has a payload other than `V`; the diagnostics of the
result are those of the second loop followed by these errors in the order of
the requirements, the result is the failure flag, and it is true when one of
the requirements has an error. -/
theorem linkModuleFlagsMetadata_checks_requirements (L : IRLinker) (M : ModuleFlags)
    (D Src : List Nat)
    (hD : M.DstModFlags = some D) (hne : D ≠ []) (hS : M.SrcModFlags = some Src) :
    ((∀ Op ∈ D ++ Src, WellFormedFlag M.MD Op) → ∃ r, linkModuleFlagsMetadata L M = some r) ∧
    ∀ r, linkModuleFlagsMetadata L M = some r →
    ∃ (S : FlagsMerge) (outcomes : List (Option String)),
      r.2.2.DstModFlags = some S.DstModFlags ∧ r.2.2.MD = S.MD ∧
      (∀ Op ∈ D ++ Src, flagBehavior M.MD Op = some Module.Require →
        ∀ Req, M.MD.getOperand Op 2 = some Req → Req ∈ S.Requirements) ∧
      List.Forall₂
        (fun Req o => ∃ (F V : Nat),
          S.MD.getOperand Req 0 = some F ∧ S.MD.getOperand Req 1 = some V ∧
          (o = none ∨ o = some ("linking module flags '" ++ S.MD.getString F ++
            "': does not have the required value")) ∧
          (o.isSome = true ↔
            ((∀ Op ∈ S.DstModFlags, flagID S.MD Op = some F →
                flagBehavior S.MD Op = some Module.Require) ∨
              ∃ (Op I : Nat), S.Flags.lookup F = (some Op, I) ∧
                S.DstModFlags.get? I = some Op ∧ flagID S.MD Op = some F ∧
                S.MD.getOperand Op 2 ≠ some V)))
        S.Requirements outcomes ∧
      DiagnosticsExtend S.L r.2.1
        (outcomes.filterMap (fun o => o.map (fun m => (DiagnosticSeverity.DS_Error, m)))) ∧
      r.1 = r.2.1.HasError ∧
      ((∃ o ∈ outcomes, o.isSome = true) → r.1 = true) := by
  refine ⟨fun hwf => linkModuleFlagsMetadata_total L M (by rw [hD, hS]; exact hwf), ?_⟩
  intro r hr
  obtain ⟨F0, R0, S, L1, hc, hm, hq, hres⟩ := linkModuleFlagsMetadata_nonempty hD hne hS hr
  subst hres
  have hinv0 := collectDstFlags_inv L M.MD D [] [] [] F0 R0 (flagsInv_nil L M.MD) hc
  have hinv : FlagsInv S := mergeSrcFlags_inv Src _ _ hinv0 hm
  obtain ⟨hsub0, hcov0⟩ := collectDstFlags_requirements M.MD D 0 [] [] F0 R0 hc
  obtain ⟨hext, hsub, hcov⟩ :=
    mergeSrcFlags_requirements M.MD Src ⟨L, M.MD, D, F0, R0⟩ S (mdExtends_refl _) hm
  obtain ⟨outcomes, hall, hdiag⟩ := checkRequirements_outcomes _ _ _ _ _ hq
  refine ⟨S, outcomes, rfl, rfl, ?_, ?_, hdiag, rfl, ?_⟩
  · intro Op hOp hb Req hreq
    rcases List.mem_append.mp hOp with hin | hin
    · exact hsub Req (hcov0 Op hin hb Req hreq)
    · exact hcov Op hin hb Req hreq
  · exact List.Forall₂.imp (fun Req o h => checkRequirement_spec hinv h) hall
  · rintro ⟨o, ho, hsome⟩
    show L1.HasError = true
    rw [hdiag.2]
    have : (outcomes.filterMap
        (fun o => o.map (fun m => (DiagnosticSeverity.DS_Error, m)))).any
        (fun d => decide (d.1 = DiagnosticSeverity.DS_Error)) = true := by
      rw [List.any_eq_true]
      cases o with
      | none => cases hsome
      | some m =>
        refine ⟨(DiagnosticSeverity.DS_Error, m), ?_, by simp⟩
        rw [List.mem_filterMap]
        exact ⟨some m, ho, rfl⟩
    rw [this, Bool.or_true]

/-- C15 (amended), at a destination with the flag `Override wchar_size 4` and
a source whose only flag is the requirement that `wchar_size` have the value
2. -/
theorem linkModuleFlagsMetadata_checks_requirements_witness :
    ∃ r : Bool × IRLinker × ModuleFlags,
      linkModuleFlagsMetadata (exampleLinker []) ⟨exampleFlagsMD, some [8], some [21]⟩ =
        some r ∧ r.1 = true ∧
      ∃ (S : FlagsMerge) (outcomes : List (Option String)),
        r.2.2.DstModFlags = some S.DstModFlags ∧ r.2.2.MD = S.MD ∧
        (∀ Op ∈ [8] ++ [21], flagBehavior exampleFlagsMD Op = some Module.Require →
          ∀ Req, exampleFlagsMD.getOperand Op 2 = some Req → Req ∈ S.Requirements) ∧
        List.Forall₂
          (fun Req o => ∃ (F V : Nat),
            S.MD.getOperand Req 0 = some F ∧ S.MD.getOperand Req 1 = some V ∧
            (o = none ∨ o = some ("linking module flags '" ++ S.MD.getString F ++
              "': does not have the required value")) ∧
            (o.isSome = true ↔
              ((∀ Op ∈ S.DstModFlags, flagID S.MD Op = some F →
                  flagBehavior S.MD Op = some Module.Require) ∨
                ∃ (Op I : Nat), S.Flags.lookup F = (some Op, I) ∧
                  S.DstModFlags.get? I = some Op ∧ flagID S.MD Op = some F ∧
                  S.MD.getOperand Op 2 ≠ some V)))
          S.Requirements outcomes ∧
        DiagnosticsExtend S.L r.2.1
          (outcomes.filterMap (fun o => o.map (fun m => (DiagnosticSeverity.DS_Error, m)))) ∧
        r.1 = r.2.1.HasError ∧
        ((∃ o ∈ outcomes, o.isSome = true) → r.1 = true) :=
  ⟨_, rfl, rfl,
    (linkModuleFlagsMetadata_checks_requirements (exampleLinker [])
      ⟨exampleFlagsMD, some [8], some [21]⟩ [8] [21] rfl (List.cons_ne_nil _ _) rfl).2 _ rfl⟩

end IRLinker
end IRMover

namespace IRMover
namespace IRLinker

/-- C21, amended: when the run of `linkModuleFlagsMetadata` reaches a source flag (not
a requirement) whose identifier `ID` has the destination flag `DstOp`, neither
of the two behaviours is `Override` and the behaviours differ, then `DstOp` is
the flag at its recorded index of the destination list, and the round only
emits the error `linking module flags '<ID>': IDs have conflicting behaviors`:
the failure flag is set, and the destination list, the map of the flags and
the metadata are unchanged.  A completed run then returns true with the
failure flag set and that error among its diagnostics, and the run completes
when the flags of the two modules are well formed. -/
theorem linkModuleFlagsMetadata_behavior_mismatch (L : IRLinker) (M : ModuleFlags)
    (pre post : List Nat) (SrcOp : Nat) (St : FlagsMerge) (SB DB ID DstOp DstIndex : Nat)
    (hreach : ReachesFlag L M pre SrcOp post St)
    (hSB : flagBehavior St.MD SrcOp = some SB) (hreq : SB ≠ Module.Require)
    (hID : flagID St.MD SrcOp = some ID)
    (hlook : St.Flags.lookup ID = (some DstOp, DstIndex))
    (hDB : flagBehavior St.MD DstOp = some DB)
    (hSO : SB ≠ Module.Override) (hDO : DB ≠ Module.Override) (hne : SB ≠ DB) :
    St.DstModFlags.get? DstIndex = some DstOp ∧ flagID St.MD DstOp = some ID ∧
    mergeFlag St SrcOp =
      some { St with
        L := St.L.emitError ("linking module flags '" ++ St.MD.getString ID ++
          "': IDs have conflicting behaviors") } ∧
    (St.L.emitError ("linking module flags '" ++ St.MD.getString ID ++
      "': IDs have conflicting behaviors")).HasError = true ∧
    (St.L.emitError ("linking module flags '" ++ St.MD.getString ID ++
      "': IDs have conflicting behaviors")).Diagnostics =
      St.L.Diagnostics ++ [(DiagnosticSeverity.DS_Error,
        "linking module flags '" ++ St.MD.getString ID ++
          "': IDs have conflicting behaviors")] ∧
    (∀ r, linkModuleFlagsMetadata L M = some r →
      r.1 = true ∧ r.2.1.HasError = true ∧
      (DiagnosticSeverity.DS_Error, "linking module flags '" ++ St.MD.getString ID ++
        "': IDs have conflicting behaviors") ∈ r.2.1.Diagnostics) ∧
    ((∀ Op ∈ M.DstModFlags.getD [] ++ M.SrcModFlags.getD [], WellFormedFlag M.MD Op) →
      ∃ r, linkModuleFlagsMetadata L M = some r) := by
  obtain ⟨hpos, hid, _⟩ := (reachesFlag_inv hreach).1 ID DstOp DstIndex hlook
  have hstep : mergeFlag St SrcOp =
      some { St with
        L := St.L.emitError ("linking module flags '" ++ St.MD.getString ID ++
          "': IDs have conflicting behaviors") } := by
    unfold mergeFlag
    rw [hSB, hID]
    simp only [hlook, hDB]
    rw [if_neg hreq, if_neg hDO, if_neg hSO, if_pos hne]
  refine ⟨hpos, hid, hstep, rfl, rfl, fun r hr => ?_, linkModuleFlagsMetadata_total L M⟩
  obtain ⟨h1, h2, h3⟩ := reachesFlag_fails hreach hstep rfl hr
  refine ⟨h1, h2, h3 _ ?_⟩
  show _ ∈ St.L.Diagnostics ++ _
  simp

/-- C21, at the flag `wchar_size`: the destination has it with the behaviour
`Error`, the source with the behaviour `Warning`. -/
theorem linkModuleFlagsMetadata_behavior_mismatch_witness :
    ReachesFlag (exampleLinker []) ⟨exampleFlagsMD, some [9], some [10]⟩ [] 10 []
      ⟨exampleLinker [], exampleFlagsMD, [9], [(6, (some 9, 0))], []⟩ ∧
    mergeFlag ⟨exampleLinker [], exampleFlagsMD, [9], [(6, (some 9, 0))], []⟩ 10 =
      some ⟨(exampleLinker []).emitError ("linking module flags '" ++
          exampleFlagsMD.getString 6 ++ "': IDs have conflicting behaviors"),
        exampleFlagsMD, [9], [(6, (some 9, 0))], []⟩ :=
  ⟨⟨rfl, [9], _, _, rfl, List.cons_ne_nil _ _, rfl, rfl⟩,
    (linkModuleFlagsMetadata_behavior_mismatch (exampleLinker [])
      ⟨exampleFlagsMD, some [9], some [10]⟩ [] [] 10
      ⟨exampleLinker [], exampleFlagsMD, [9], [(6, (some 9, 0))], []⟩ 2 1 6 9 0
      ⟨rfl, [9], _, _, rfl, List.cons_ne_nil _ _, rfl, rfl⟩ rfl (by decide) rfl rfl rfl
      (by decide) (by decide) (by decide)).2.2.1⟩

/-- Against C21 as stated: the flags 16 (`Append`) and 21 (`Require`) carry the
same identifier `opts`, neither behaviour is `Override` and the behaviours
differ.  With 21 in the source and 16 in the destination the source flag is
added to the destination list as a requirement; with 21 in the destination and
16 in the source the destination flag is not recorded under its identifier and
the source flag is added.  The requirement of 21 is met by the flag 9 of the
destination.  Both merges return false, emit nothing and leave the failure
flag unset. -/
theorem linkModuleFlagsMetadata_require_no_mismatch :
    flagID exampleFlagsMD 16 = some 7 ∧ flagID exampleFlagsMD 21 = some 7 ∧
    flagBehavior exampleFlagsMD 16 = some Module.Append ∧
    flagBehavior exampleFlagsMD 21 = some Module.Require ∧
    linkModuleFlagsMetadata (exampleLinker []) ⟨exampleFlagsMD, some [16, 9], some [21]⟩ =
      some (false, exampleLinker [], ⟨exampleFlagsMD, some [16, 9, 21], some [21]⟩) ∧
    linkModuleFlagsMetadata (exampleLinker []) ⟨exampleFlagsMD, some [21, 9], some [16]⟩ =
      some (false, exampleLinker [], ⟨exampleFlagsMD, some [21, 9, 16], some [16]⟩) ∧
    (exampleLinker []).Diagnostics = [] ∧ (exampleLinker []).HasError = false := by
  refine ⟨rfl, rfl, rfl, rfl, rfl, rfl, rfl, rfl⟩

end IRLinker
end IRMover

namespace IRMover
namespace IRLinker

/-! ### Identifiers stay unique and flags keep their positions -/

theorem uniqueFlagIDs_of_recorded {S : FlagsMerge} (h : FlagsRecorded S) :
    UniqueFlagIDs S.MD S.DstModFlags := by
  intro i j Op1 Op2 B1 B2 ID h1 h2 hb1 hn1 hb2 hn2 hi1 hi2
  have e1 := h i Op1 B1 ID h1 hb1 hn1 hi1
  have e2 := h j Op2 B2 ID h2 hb2 hn2 hi2
  rw [e1] at e2
  simp only [Prod.mk.injEq, Option.some.injEq] at e2
  exact e2.2

theorem get?_append_cases {l : List Nat} {x i Op : Nat} (h : (l ++ [x]).get? i = some Op) :
    l.get? i = some Op ∨ (i = l.length ∧ Op = x) := by
  rw [List.get?_eq_getElem?] at h
  rcases Nat.lt_or_ge i l.length with hlt | hge
  · left
    rw [List.getElem?_append_left hlt] at h
    rw [List.get?_eq_getElem?]
    exact h
  · right
    rw [List.getElem?_append_right hge] at h
    have hi : i - l.length = 0 := by
      rcases Nat.eq_zero_or_pos (i - l.length) with h0 | hpos
      · exact h0
      · rw [List.getElem?_eq_none (by simp only [List.length_singleton]; omega)] at h
        cases h
    rw [hi] at h
    simp only [List.getElem?_cons_zero, Option.some.injEq] at h
    exact ⟨by omega, h.symm⟩

theorem get?_set_cases {l : List Nat} {k x i Op : Nat} (h : (l.set k x).get? i = some Op) :
    (i = k ∧ Op = x) ∨ (i ≠ k ∧ l.get? i = some Op) := by
  by_cases hik : i = k
  · left
    subst hik
    rw [List.get?_eq_getElem?] at h
    have hi : i < (l.set i x).length := by
      rcases Nat.lt_or_ge i (l.set i x).length with hlt | hge
      · exact hlt
      · rw [List.getElem?_eq_none hge] at h
        cases h
    rw [List.length_set] at hi
    rw [List.getElem?_set_self hi] at h
    exact ⟨rfl, (Option.some.inj h).symm⟩
  · right
    refine ⟨hik, ?_⟩
    rw [get?_set_other (Ne.symm hik)] at h
    exact h

/-- Replacing the recorded flag of `ID` by a flag of the same identifier keeps
the map a record of the list. -/
theorem flagsRecorded_replace {S : FlagsMerge} (hinv : FlagsInv S) (hrec : FlagsRecorded S)
    {md2 : MDContext} (hext : MDExtends S.MD md2) {ID New : Nat}
    (hID : flagID md2 New = some ID) :
    FlagsRecorded { S with
      MD := md2
      DstModFlags := S.DstModFlags.set (S.Flags.lookup ID).2 New
      Flags := S.Flags.setFirst ID New } := by
  intro i Op B ID' hget hb hbne hid
  show FlagMap.lookup (S.Flags.setFirst ID New) ID' = (some Op, i)
  rw [flagMap_lookup_setFirst]
  rcases get?_set_cases hget with ⟨hi, hOp⟩ | ⟨hi, hold⟩
  · subst hOp
    have e : ID' = ID := Option.some.inj (hid.symm.trans hID)
    rw [if_pos e.symm, hi]
  · obtain ⟨B0, ID0, hb0, hi0, _⟩ := hinv.2 Op (List.get?_mem hold)
    have eB : B = B0 := Option.some.inj (hb.symm.trans (flagBehavior_mono hext hb0))
    have eI : ID' = ID0 := Option.some.inj (hid.symm.trans (flagID_mono hext hi0))
    subst eB eI
    have hl := hrec i Op B ID' hold hb0 hbne hi0
    have hne : ID ≠ ID' := by
      intro e
      rw [e] at hi
      rw [hl] at hi
      exact hi rfl
    rw [if_neg hne]
    exact hl

theorem mergeFlag_recorded {S S' : FlagsMerge} {SrcOp : Nat} (hinv : FlagsInv S)
    (hrec : FlagsRecorded S) (h : mergeFlag S SrcOp = some S') : FlagsRecorded S' := by
  obtain ⟨SB, ID, hSB, hID, hcases⟩ := mergeFlag_cases h
  rcases hcases with ⟨hreq, Req, _, ⟨_, hS'⟩ | ⟨_, hS'⟩⟩ | ⟨hreq, hnone, hS'⟩ |
    ⟨hreq, DstOp, L', e, hlook, _, hS'⟩ | ⟨hov, DstOp, hlook, hS'⟩ |
    ⟨hreq, DstOp, Elts, B, hlook, hB, hS'⟩
  · subst hS'
    intro i Op B ID' hget hb hbne hid
    rcases get?_append_cases hget with hold | ⟨_, hOp⟩
    · exact hrec i Op B ID' hold hb hbne hid
    · subst hOp
      have : B = SB := Option.some.inj (hb.symm.trans hSB)
      exact absurd (this.trans hreq) hbne
  · subst hS'
    exact hrec
  · subst hS'
    intro i Op B ID' hget hb hbne hid
    show FlagMap.lookup (S.Flags.assign ID SrcOp S.DstModFlags.length) ID' = (some Op, i)
    rw [flagMap_lookup_assign]
    rcases get?_append_cases hget with hold | ⟨hi, hOp⟩
    · have hl := hrec i Op B ID' hold hb hbne hid
      have hne : ID ≠ ID' := by
        intro e
        rw [e, hl] at hnone
        cases hnone
      rw [if_neg hne]
      exact hl
    · subst hOp
      have e : ID' = ID := Option.some.inj (hid.symm.trans hID)
      rw [if_pos e.symm, hi]
  · subst hS'
    exact hrec
  · subst hS'
    exact flagsRecorded_replace hinv hrec (mdExtends_refl S.MD) hID
  · subst hS'
    have hext : MDExtends S.MD ((S.MD.get Elts).2.get [B, ID, (S.MD.get Elts).1]).2 :=
      mdExtends_trans (mdExtends_get _ _) (mdExtends_get _ _)
    refine flagsRecorded_replace hinv hrec hext ?_
    unfold flagID
    rw [get_getOperand]
    show (some ID).bind _ = some ID
    rw [Option.some_bind]
    exact castMDString_mono hext (flagID_cast hID).2

theorem mergeSrcFlags_recorded (l : List Nat) :
    ∀ (S S' : FlagsMerge), FlagsInv S → FlagsRecorded S → mergeSrcFlags l S = some S' →
      FlagsRecorded S' := by
  induction l with
  | nil =>
    intro S S' _ hrec h
    rw [mergeSrcFlags] at h
    rw [← Option.some.inj h]
    exact hrec
  | cons x rest ih =>
    intro S S' hinv hrec h
    rw [mergeSrcFlags] at h
    cases hm : mergeFlag S x with
    | none => rw [hm] at h; cases h
    | some S1 =>
      rw [hm] at h
      exact ih S1 S' (mergeFlag_inv hinv hm) (mergeFlag_recorded hinv hrec hm) h

theorem collectDstFlags_recorded (L : IRLinker) (md : MDContext) :
    ∀ (rest done : List Nat) (F : FlagMap) (R : SmallSetVector) (F' : FlagMap)
      (R' : SmallSetVector), UniqueFlagIDs md (done ++ rest) →
      FlagsRecorded ⟨L, md, done, F, R⟩ →
      collectDstFlags md rest done.length F R = some (F', R') →
      FlagsRecorded ⟨L, md, done ++ rest, F', R'⟩ := by
  intro rest
  induction rest with
  | nil =>
    intro done F R F' R' _ hrec h
    rw [collectDstFlags] at h
    simp only [Option.some.injEq, Prod.mk.injEq] at h
    rw [List.append_nil, ← h.1, ← h.2]
    exact hrec
  | cons Op rest ih =>
    intro done F R F' R' huniq hrec h
    rw [collectDstFlags] at h
    cases hB : flagBehavior md Op with
    | none => rw [hB] at h; simp at h
    | some B =>
      cases hI : flagID md Op with
      | none => rw [hB, hI] at h; simp at h
      | some ID =>
        rw [hB, hI] at h
        simp only [] at h
        have hlen : (done ++ [Op]).length = done.length + 1 := by simp
        have happ : done ++ Op :: rest = (done ++ [Op]) ++ rest := by simp
        rw [happ] at huniq ⊢
        by_cases hreq : B = Module.Require
        · rw [if_pos hreq] at h
          split at h
          · cases h
          · rw [← hlen] at h
            refine ih (done ++ [Op]) F _ F' R' huniq ?_ h
            intro i Op1 B1 ID1 hget hb hbne hid
            rcases get?_append_cases hget with hold | ⟨_, hOp⟩
            · exact hrec i Op1 B1 ID1 hold hb hbne hid
            · subst hOp
              have : B1 = B := Option.some.inj (hb.symm.trans hB)
              exact absurd (this.trans hreq) hbne
        · rw [if_neg hreq, ← hlen] at h
          refine ih (done ++ [Op]) _ R F' R' huniq ?_ h
          intro i Op1 B1 ID1 hget hb hbne hid
          show FlagMap.lookup (F.assign ID Op done.length) ID1 = (some Op1, i)
          rw [flagMap_lookup_assign]
          rcases get?_append_cases hget with hold | ⟨hi, hOp⟩
          · have hl := hrec i Op1 B1 ID1 hold hb hbne hid
            have hne : ID ≠ ID1 := by
              intro e
              subst e
              have h1 : ((done ++ [Op]) ++ rest).get? i = some Op1 :=
                get?_append_some _ (get?_append_some _ hold)
              have h2 : ((done ++ [Op]) ++ rest).get? done.length = some Op := by
                apply get?_append_some
                rw [List.get?_eq_getElem?]
                simp
              have := huniq i done.length Op1 Op B1 B ID h1 h2 hb hbne hB hreq hid hI
              rw [this, List.get?_eq_getElem?, List.getElem?_eq_none (Nat.le_refl _)] at hold
              cases hold
            rw [if_neg hne]
            exact hl
          · subst hOp
            have e : ID1 = ID := Option.some.inj (hid.symm.trans hI)
            rw [if_pos e.symm, hi]

theorem keepsPositions_refl (md : MDContext) (l : List Nat) : KeepsPositions md l md l := by
  intro i Op B ID hget hb hid
  exact ⟨Op, B, hget, hb, hid, fun h => ⟨rfl, h⟩, fun h => h⟩

theorem keepsPositions_trans {md1 md2 md3 : MDContext} {l1 l2 l3 : List Nat}
    (h12 : KeepsPositions md1 l1 md2 l2) (h23 : KeepsPositions md2 l2 md3 l3) :
    KeepsPositions md1 l1 md3 l3 := by
  intro i Op B ID hget hb hid
  obtain ⟨Op2, B2, hget2, hb2, hid2, hr2, hn2⟩ := h12 i Op B ID hget hb hid
  obtain ⟨Op3, B3, hget3, hb3, hid3, hr3, hn3⟩ := h23 i Op2 B2 ID hget2 hb2 hid2
  refine ⟨Op3, B3, hget3, hb3, hid3, ?_, fun hne => hn3 (hn2 hne)⟩
  intro hB
  obtain ⟨e2, eB2⟩ := hr2 hB
  obtain ⟨e3, eB3⟩ := hr3 eB2
  exact ⟨e3.trans e2, eB3⟩

end IRLinker
end IRMover

namespace IRMover
namespace IRLinker

theorem keepsPositions_append (md : MDContext) (l : List Nat) (x : Nat) :
    KeepsPositions md l md (l ++ [x]) := by
  intro i Op B ID hget hb hid
  exact ⟨Op, B, get?_append_some _ hget, hb, hid, fun h => ⟨rfl, h⟩, fun h => h⟩

theorem keepsPositions_replace {S : FlagsMerge} (hinv : FlagsInv S) {md2 : MDContext}
    (hext : MDExtends S.MD md2) {ID DstOp New Bn : Nat}
    (hlook : (S.Flags.lookup ID).1 = some DstOp)
    (hID : flagID md2 New = some ID) (hB : flagBehavior md2 New = some Bn)
    (hBne : Bn ≠ Module.Require) :
    KeepsPositions S.MD S.DstModFlags md2 (S.DstModFlags.set (S.Flags.lookup ID).2 New) := by
  have hlook2 : S.Flags.lookup ID = (some DstOp, (S.Flags.lookup ID).2) := by
    rw [← hlook]
  obtain ⟨hpos, hid0, B0, hb0, hb0ne⟩ := hinv.1 ID DstOp _ hlook2
  intro i Op B ID' hget hb hid
  by_cases hi : i = (S.Flags.lookup ID).2
  · subst hi
    rw [hpos] at hget
    have eOp := Option.some.inj hget
    subst eOp
    have eB : B = B0 := Option.some.inj (hb.symm.trans hb0)
    have eI : ID' = ID := Option.some.inj (hid.symm.trans hid0)
    subst eB eI
    exact ⟨New, Bn, get?_set_self hpos, hB, hID, fun h => absurd h hb0ne, fun _ => hBne⟩
  · refine ⟨Op, B, ?_, flagBehavior_mono hext hb, flagID_mono hext hid,
      fun h => ⟨rfl, h⟩, fun h => h⟩
    rw [get?_set_other (Ne.symm hi)]
    exact hget

theorem mergeFlag_keepsPositions {S S' : FlagsMerge} {SrcOp : Nat} (hinv : FlagsInv S)
    (h : mergeFlag S SrcOp = some S') :
    KeepsPositions S.MD S.DstModFlags S'.MD S'.DstModFlags := by
  obtain ⟨SB, ID, hSB, hID, hcases⟩ := mergeFlag_cases h
  rcases hcases with ⟨hreq, Req, _, ⟨_, hS'⟩ | ⟨_, hS'⟩⟩ | ⟨hreq, hnone, hS'⟩ |
    ⟨hreq, DstOp, L', e, hlook, _, hS'⟩ | ⟨hov, DstOp, hlook, hS'⟩ |
    ⟨hreq, DstOp, Elts, B, hlook, hB, hS'⟩
  · subst hS'
    exact keepsPositions_append _ _ _
  · subst hS'
    exact keepsPositions_refl _ _
  · subst hS'
    exact keepsPositions_append _ _ _
  · subst hS'
    exact keepsPositions_refl _ _
  · subst hS'
    exact keepsPositions_replace hinv (mdExtends_refl S.MD) hlook hID hSB
      (by rw [hov]; decide)
  · subst hS'
    have hlook2 : S.Flags.lookup ID = (some DstOp, (S.Flags.lookup ID).2) := by
      rw [← hlook]
    obtain ⟨_, _, Bv, hbv, hbne⟩ := hinv.1 ID DstOp _ hlook2
    obtain ⟨c, hc, hz⟩ := flagBehavior_operand hbv
    rw [hB] at hc
    have ec := Option.some.inj hc
    subst ec
    have hext : MDExtends S.MD ((S.MD.get Elts).2.get [B, ID, (S.MD.get Elts).1]).2 :=
      mdExtends_trans (mdExtends_get _ _) (mdExtends_get _ _)
    refine keepsPositions_replace hinv hext hlook ?_ ?_ hbne
    · unfold flagID
      rw [get_getOperand]
      show (some ID).bind _ = some ID
      rw [Option.some_bind]
      exact castMDString_mono hext (flagID_cast hID).2
    · unfold flagBehavior
      rw [get_getOperand]
      show (some B).bind _ = some Bv
      rw [Option.some_bind]
      exact getZExtValue_mono hext hz

theorem mergeSrcFlags_keepsPositions (l : List Nat) :
    ∀ (S S' : FlagsMerge), FlagsInv S → mergeSrcFlags l S = some S' →
      KeepsPositions S.MD S.DstModFlags S'.MD S'.DstModFlags := by
  induction l with
  | nil =>
    intro S S' _ h
    rw [mergeSrcFlags] at h
    rw [← Option.some.inj h]
    exact keepsPositions_refl _ _
  | cons x rest ih =>
    intro S S' hinv h
    rw [mergeSrcFlags] at h
    cases hm : mergeFlag S x with
    | none => rw [hm] at h; cases h
    | some S1 =>
      rw [hm] at h
      exact keepsPositions_trans (mergeFlag_keepsPositions hinv hm)
        (ih S1 S' (mergeFlag_inv hinv hm) h)

/-- C22: if in the destination flag list and in the source flag list every
identifier occurs at most once among the flags that are no requirements, then
a completed run of `linkModuleFlagsMetadata` leaves a destination flag list in
which every identifier occurs at most once among the flags that are no
requirements, and in which every flag of the old destination list has kept its
position: at its index the new list has a flag of the same identifier, the
same node for a requirement and a flag that is no requirement otherwise.  The
run completes when the flags of the two modules are well formed. -/
theorem linkModuleFlagsMetadata_unique_ids (L : IRLinker) (M : ModuleFlags)
    (huD : UniqueFlagIDs M.MD (M.DstModFlags.getD []))
    (huS : UniqueFlagIDs M.MD (M.SrcModFlags.getD [])) :
    ((∀ Op ∈ M.DstModFlags.getD [] ++ M.SrcModFlags.getD [], WellFormedFlag M.MD Op) →
      ∃ r, linkModuleFlagsMetadata L M = some r) ∧
    ∀ r, linkModuleFlagsMetadata L M = some r →
      UniqueFlagIDs r.2.2.MD (r.2.2.DstModFlags.getD []) ∧
      KeepsPositions M.MD (M.DstModFlags.getD []) r.2.2.MD (r.2.2.DstModFlags.getD []) := by
  refine ⟨linkModuleFlagsMetadata_total L M, ?_⟩
  intro r hr
  cases hS : M.SrcModFlags with
  | none =>
    unfold linkModuleFlagsMetadata at hr
    rw [hS] at hr
    simp only [Option.some.injEq] at hr
    rw [← hr]
    exact ⟨huD, keepsPositions_refl _ _⟩
  | some Src =>
    rw [hS] at huS
    by_cases hlen : (M.DstModFlags.getD []).length = 0
    · unfold linkModuleFlagsMetadata at hr
      rw [hS] at hr
      simp only [hlen, if_true, Option.some.injEq] at hr
      have hnil : M.DstModFlags.getD [] = [] := List.length_eq_zero.mp hlen
      have hfold : ∀ (xs acc : List Nat),
          List.foldl (fun D Op => D ++ [Op]) acc xs = acc ++ xs := by
        intro xs
        induction xs with
        | nil => intro acc; simp
        | cons x rest ih => intro acc; rw [List.foldl_cons, ih]; simp
      rw [← hr]
      simp only [Option.getD_some, hfold, hnil, List.nil_append]
      refine ⟨huS, ?_⟩
      intro i Op B ID hget
      rw [List.get?_eq_getElem?] at hget
      simp at hget
    · cases hD : M.DstModFlags with
      | none =>
        rw [hD] at hlen
        exact absurd rfl hlen
      | some D =>
        rw [hD] at huD hlen
        simp only [Option.getD_some] at huD hlen
        have hne : D ≠ [] := fun e => hlen (by rw [e]; rfl)
        obtain ⟨F0, R0, S, L1, hc, hm, hq, hres⟩ :=
          linkModuleFlagsMetadata_nonempty hD hne hS hr
        subst hres
        have hinv0 := collectDstFlags_inv L M.MD D [] [] [] F0 R0 (flagsInv_nil L M.MD) hc
        have hrec0 : FlagsRecorded ⟨L, M.MD, [] ++ D, F0, R0⟩ :=
          collectDstFlags_recorded L M.MD D [] [] [] F0 R0 (by simpa using huD)
            (by
              intro i Op B ID hget
              rw [List.get?_eq_getElem?] at hget
              simp at hget) hc
        have hrec := mergeSrcFlags_recorded Src _ S hinv0 hrec0 hm
        have hpos := mergeSrcFlags_keepsPositions Src _ S hinv0 hm
        exact ⟨uniqueFlagIDs_of_recorded hrec, by simpa using hpos⟩

/-- C22, at a destination with the flags `Error wchar_size 2` and the
requirement, and a source with the flags `Override wchar_size 4` and
`Append opts`. -/
theorem linkModuleFlagsMetadata_unique_ids_witness :
    UniqueFlagIDs exampleFlagsMD ((some [9, 21]).getD []) ∧
    UniqueFlagIDs exampleFlagsMD ((some [8, 16]).getD []) ∧
    ∃ r, linkModuleFlagsMetadata (exampleLinker []) ⟨exampleFlagsMD, some [9, 21], some [8, 16]⟩ =
        some r ∧
      r.2.2.DstModFlags = some [8, 21, 16] ∧
      UniqueFlagIDs r.2.2.MD (r.2.2.DstModFlags.getD []) ∧
      KeepsPositions exampleFlagsMD ((some [9, 21]).getD []) r.2.2.MD
        (r.2.2.DstModFlags.getD []) :=
  have huD : UniqueFlagIDs exampleFlagsMD ((some [9, 21]).getD []) := by
    intro i j Op1 Op2 B1 B2 ID h1 h2 hb1 hn1 hb2 hn2 _ _
    match i, j with
    | 0, 0 => rfl
    | 0, 1 =>
      simp only [Option.getD_some, List.get?_cons_succ, List.get?_cons_zero,
        Option.some.injEq] at h2
      subst h2
      exact absurd (Option.some.inj hb2).symm hn2
    | 1, 0 =>
      simp only [Option.getD_some, List.get?_cons_succ, List.get?_cons_zero,
        Option.some.injEq] at h1
      subst h1
      exact absurd (Option.some.inj hb1).symm hn1
    | 1, 1 => rfl
    | i + 2, _ => simp at h1
    | _, j + 2 => simp at h2
  have huS : UniqueFlagIDs exampleFlagsMD ((some [8, 16]).getD []) := by
    intro i j Op1 Op2 B1 B2 ID h1 h2 _ _ _ _ hi1 hi2
    match i, j with
    | 0, 0 => rfl
    | 0, 1 =>
      simp only [Option.getD_some, List.get?_cons_succ, List.get?_cons_zero,
        Option.some.injEq] at h1 h2
      subst h1 h2
      have a1 : flagID exampleFlagsMD 8 = some 6 := rfl
      have a2 : flagID exampleFlagsMD 16 = some 7 := rfl
      rw [a1] at hi1
      rw [a2] at hi2
      have := (Option.some.inj hi1).trans (Option.some.inj hi2).symm
      exact absurd this (by decide)
    | 1, 0 =>
      simp only [Option.getD_some, List.get?_cons_succ, List.get?_cons_zero,
        Option.some.injEq] at h1 h2
      subst h1 h2
      have a1 : flagID exampleFlagsMD 8 = some 6 := rfl
      have a2 : flagID exampleFlagsMD 16 = some 7 := rfl
      rw [a2] at hi1
      rw [a1] at hi2
      have := (Option.some.inj hi1).trans (Option.some.inj hi2).symm
      exact absurd this (by decide)
    | 1, 1 => rfl
    | i + 2, _ => simp at h1
    | _, j + 2 => simp at h2
  ⟨huD, huS, _, rfl, rfl,
    (linkModuleFlagsMetadata_unique_ids (exampleLinker [])
      ⟨exampleFlagsMD, some [9, 21], some [8, 16]⟩ huD huS).2 _ rfl⟩

end IRLinker
end IRMover

namespace IRMover

namespace RunState

/-! ## The scalar properties -/

/-- The data layout step changes the data layout of the destination and the
diagnostics of the linker only. -/
theorem linkDataLayout_frame (R : RunState) :
    ∃ D dl, R.linkDataLayout =
      { R with
        L := { R.L with Diagnostics := D }
        DstH := { R.DstH with DataLayout := dl } } := by
  unfold linkDataLayout
  dsimp only
  split_ifs <;> exact ⟨_, _, rfl⟩

/-- The triple step changes the triple of the destination and the diagnostics
of the linker only. -/
theorem linkTargetTriple_frame (E : Externals) (R : RunState) :
    ∃ D t, R.linkTargetTriple E =
      { R with
        L := { R.L with Diagnostics := D }
        DstH := { R.DstH with TargetTriple := t } } := by
  unfold linkTargetTriple
  dsimp only
  split_ifs <;> exact ⟨_, _, rfl⟩

/-- The inline assembly step changes the inline assembly of the destination
only. -/
theorem linkInlineAsm_frame (R : RunState) :
    ∃ a, R.linkInlineAsm = { R with DstH := { R.DstH with ModuleInlineAsm := a } } := by
  unfold linkInlineAsm
  split_ifs <;> exact ⟨_, rfl⟩

/-- The type mapping changes the context and the type map of the linker only. -/
theorem computeTypeMapping_frame (fuel : Nat) (L L2 : IRLinker) (Types : List Nat)
    (h : L.computeTypeMapping fuel Types = some L2) :
    L2 = { L with Context := L2.Context, TypeMap := L2.TypeMap } := by
  unfold IRLinker.computeTypeMapping at h
  split at h
  · exact absurd h (by simp)
  · split at h
    · exact absurd h (by simp)
    · split at h
      · exact absurd h (by simp)
      · split at h
        · exact absurd h (by simp)
        · split at h
          · exact absurd h (by simp)
          · injection h with h
            rw [← h]

/-- What `prepare` leaves of the state it starts from. -/
theorem prepare_spec (E : Externals) (TypeFuel : Nat) (R R2 : RunState)
    (h : prepare E TypeFuel R = some R2) :
    R2.DstH = (linkInlineAsm (linkTargetTriple E (linkDataLayout R))).DstH ∧
    R2.SrcH = R.SrcH ∧ R2.MD = R.MD ∧ R2.DstNamedMD = R.DstNamedMD ∧
    R2.SrcNamedMD = R.SrcNamedMD ∧ R2.MDMap = R.MDMap ∧
    R2.UnneededSubprograms = R.UnneededSubprograms ∧ R2.DI = R.DI ∧
    R2.MetadataToIDs = R.MetadataToIDs ∧ R2.ValIDToTempMDMap = R.ValIDToTempMDMap ∧
    R2.L.Worklist = R.L.Worklist.reverse ∧ R2.L.ValuesToLink = R.L.ValuesToLink ∧
    R2.L.HasError = R.L.HasError ∧ R2.L.DoneLinkingBodies = R.L.DoneLinkingBodies ∧
    R2.L.ValueMap = R.L.ValueMap ∧ R2.L.AliasValueMap = R.L.AliasValueMap ∧
    R2.L.IsMetadataLinkingPostpass = R.L.IsMetadataLinkingPostpass ∧
    R2.L.DstM = R.L.DstM ∧ R2.L.SrcM = R.L.SrcM ∧
    R2.L.Diagnostics = (linkTargetTriple E (linkDataLayout R)).L.Diagnostics := by
  unfold prepare at h
  simp only at h
  split at h
  · exact absurd h (by simp)
  · rename_i L2 hL2
    injection h with h
    have hf := computeTypeMapping_frame _ _ _ _ hL2
    obtain ⟨a, h1⟩ := linkInlineAsm_frame (linkTargetTriple E (linkDataLayout R))
    obtain ⟨D2, t, h2⟩ := linkTargetTriple_frame E (linkDataLayout R)
    obtain ⟨D3, dl, h3⟩ := linkDataLayout_frame R
    rw [← h]
    generalize linkInlineAsm (linkTargetTriple E (linkDataLayout R)) = A at h1 hf hL2 ⊢
    generalize linkTargetTriple E (linkDataLayout R) = B at h1 h2 ⊢
    generalize linkDataLayout R = C at h2 h3 ⊢
    rw [hf, h1, h2, h3]
    simp

end RunState

end IRMover

namespace IRMover

namespace RunState

/-- The triple of the destination as `run` parses it: the triple of the source
if the destination has none. -/
theorem linkTargetTriple_spec (E : Externals) (R : RunState) (DstStr : String)
    (hD : DstStr = if R.DstH.TargetTriple = "" ∧ R.SrcH.TargetTriple ≠ "" then
      R.SrcH.TargetTriple else R.DstH.TargetTriple) :
    (R.linkTargetTriple E).DstH.TargetTriple =
      mergeTriples (makeTriple E R.SrcH.TargetTriple) (makeTriple E DstStr) ∧
    (triplesMatch (makeTriple E R.SrcH.TargetTriple) (makeTriple E DstStr) = true →
      (R.linkTargetTriple E).L = R.L) := by
  subst hD
  unfold linkTargetTriple
  dsimp only
  split_ifs with h1 h2 h2
  · exact ⟨rfl, fun h => absurd h (by rw [h2.2]; simp)⟩
  · exact ⟨rfl, fun _ => rfl⟩
  · exact ⟨rfl, fun h => absurd h (by rw [h2.2]; simp)⟩
  · exact ⟨rfl, fun _ => rfl⟩

/-- The data layout step leaves the triples and the inline assembly alone. -/
theorem linkDataLayout_keeps (R : RunState) :
    R.linkDataLayout.SrcH = R.SrcH ∧
    R.linkDataLayout.DstH.TargetTriple = R.DstH.TargetTriple ∧
    R.linkDataLayout.DstH.ModuleInlineAsm = R.DstH.ModuleInlineAsm := by
  obtain ⟨D, dl, h⟩ := linkDataLayout_frame R
  rw [h]
  exact ⟨rfl, rfl, rfl⟩

/-- The triple step leaves the inline assembly alone. -/
theorem linkTargetTriple_keeps (E : Externals) (R : RunState) :
    (R.linkTargetTriple E).SrcH = R.SrcH ∧
    (R.linkTargetTriple E).DstH.ModuleInlineAsm = R.DstH.ModuleInlineAsm := by
  obtain ⟨D, t, h⟩ := linkTargetTriple_frame E R
  rw [h]
  exact ⟨rfl, rfl⟩

/-- The three cases of the inline assembly step. -/
theorem linkInlineAsm_spec (R : RunState) :
    R.linkInlineAsm.DstH.ModuleInlineAsm =
      if R.SrcH.ModuleInlineAsm = "" then R.DstH.ModuleInlineAsm
      else if R.DstH.ModuleInlineAsm = "" then R.SrcH.ModuleInlineAsm
      else R.DstH.ModuleInlineAsm ++ "\n" ++ R.SrcH.ModuleInlineAsm := by
  unfold linkInlineAsm
  split_ifs <;> first | rfl | contradiction

/-- C27: let `Src` and `Dst` be the triples `run` parses from the source
module and from the destination module (which has taken the triple of the
source if it had none).  If both have the vendor Apple and they agree on
architecture, sub-architecture and OS, then `triplesMatch` holds whatever the
OS versions are, the triple step emits nothing, and the triple of the
destination becomes the one of the source if the OS version of the
destination is strictly lower and stays the one of the destination otherwise;
the same holds for the state in which `run` reaches the worklist.  In general
`mergeTriples` returns the source triple exactly when the source vendor is
Apple and the OS version of the destination is strictly lower than the one of
the source, and the destination triple otherwise. -/
theorem mergeTriples_apple_versions (E : Externals) (R : RunState) (Src Dst : Triple)
    (hS : makeTriple E R.SrcH.TargetTriple = Src)
    (hD : makeTriple E (if R.DstH.TargetTriple = "" ∧ R.SrcH.TargetTriple ≠ "" then
      R.SrcH.TargetTriple else R.DstH.TargetTriple) = Dst)
    (hvS : Src.Vendor = Triple.Apple) (hvD : Dst.Vendor = Triple.Apple)
    (ha : Src.Arch = Dst.Arch) (hs : Src.SubArch = Dst.SubArch) (ho : Src.OS = Dst.OS) :
    triplesMatch Src Dst = true ∧
    (R.linkTargetTriple E).L = R.L ∧
    (R.linkTargetTriple E).DstH.TargetTriple =
      (if Dst.isOSVersionLT Src = true then R.SrcH.TargetTriple else Dst.Data) ∧
    (∀ TypeFuel R2, prepare E TypeFuel R = some R2 →
      R2.DstH.TargetTriple =
        (if Dst.isOSVersionLT Src = true then R.SrcH.TargetTriple else Dst.Data) ∧
      R2.L.Diagnostics = R.linkDataLayout.L.Diagnostics) ∧
    (∀ S D : Triple, mergeTriples S D =
      if S.Vendor = Triple.Apple ∧ D.isOSVersionLT S = true then S.Data else D.Data) := by
  have hm : triplesMatch Src Dst = true := by
    unfold triplesMatch
    rw [if_pos hvS]
    simp [ha, hs, ho, hvS, hvD]
  have hSd : Src.Data = R.SrcH.TargetTriple := by rw [← hS]; rfl
  have hmerge : mergeTriples Src Dst =
      (if Dst.isOSVersionLT Src = true then R.SrcH.TargetTriple else Dst.Data) := by
    unfold mergeTriples
    rw [if_pos hvS, hSd]
  have h1 := linkTargetTriple_spec E R _ rfl
  rw [hS, hD] at h1
  refine ⟨hm, h1.2 hm, h1.1.trans hmerge, ?_, ?_⟩
  · intro TypeFuel R2 hp
    have hps := prepare_spec E TypeFuel R R2 hp
    obtain ⟨k1, k2, k3⟩ := linkDataLayout_keeps R
    have h2 := linkTargetTriple_spec E R.linkDataLayout _ rfl
    rw [k1, k2, hS, hD] at h2
    obtain ⟨a, hfa⟩ := linkInlineAsm_frame (linkTargetTriple E (linkDataLayout R))
    constructor
    · rw [hps.1, hfa]
      exact h2.1.trans hmerge
    · rw [hps.2.2.2.2.2.2.2.2.2.2.2.2.2.2.2.2.2.2.2, h2.2 hm]
  · intro S D
    unfold mergeTriples
    by_cases hv : S.Vendor = Triple.Apple
    · by_cases hl : D.isOSVersionLT S = true
      · simp [hv, hl]
      · simp [hv, hl]
    · simp [hv]

/-- C27, at the triples of macOS 10.11 (source) and macOS 10.9 (destination):
they match, nothing is emitted, and the destination takes the triple of the
source. -/
theorem mergeTriples_apple_versions_witness :
    triplesMatch (exampleParseTriple "x86_64-apple-macosx10.11.0")
        (exampleParseTriple "x86_64-apple-macosx10.9.0") = true ∧
    ((exampleRunState (exampleLinker []) (exampleHeader "dst" "x86_64-apple-macosx10.9.0" "")
        (exampleHeader "src" "x86_64-apple-macosx10.11.0" "")).linkTargetTriple
          exampleExternals).L.Diagnostics = [] ∧
    ((exampleRunState (exampleLinker []) (exampleHeader "dst" "x86_64-apple-macosx10.9.0" "")
        (exampleHeader "src" "x86_64-apple-macosx10.11.0" "")).linkTargetTriple
          exampleExternals).DstH.TargetTriple = "x86_64-apple-macosx10.11.0" :=
  have h := mergeTriples_apple_versions exampleExternals
    (exampleRunState (exampleLinker []) (exampleHeader "dst" "x86_64-apple-macosx10.9.0" "")
      (exampleHeader "src" "x86_64-apple-macosx10.11.0" ""))
    (exampleParseTriple "x86_64-apple-macosx10.11.0")
    (exampleParseTriple "x86_64-apple-macosx10.9.0")
    (by decide) (by decide) (by decide) (by decide) (by decide) (by decide) (by decide)
  ⟨h.1, by rw [h.2.1]; rfl, h.2.2.1.trans (by decide)⟩

/-- C28: the inline assembly step of `run` leaves the text of the destination
as it is if the text of the source is empty, makes it the text of the source
if the text of the destination is empty, and otherwise makes it the text of
the destination, one newline, then the text of the source; nothing else in the
state changes, and this is the text the destination has when `run` reaches
the worklist. -/
theorem linkInlineAsm_text (E : Externals) (R : RunState) :
    (R.SrcH.ModuleInlineAsm = "" → R.linkInlineAsm = R) ∧
    (R.SrcH.ModuleInlineAsm ≠ "" → R.DstH.ModuleInlineAsm = "" →
      R.linkInlineAsm.DstH.ModuleInlineAsm = R.SrcH.ModuleInlineAsm) ∧
    (R.SrcH.ModuleInlineAsm ≠ "" → R.DstH.ModuleInlineAsm ≠ "" →
      R.linkInlineAsm.DstH.ModuleInlineAsm =
        R.DstH.ModuleInlineAsm ++ "\n" ++ R.SrcH.ModuleInlineAsm) ∧
    R.linkInlineAsm =
      { R with DstH := { R.DstH with ModuleInlineAsm := R.linkInlineAsm.DstH.ModuleInlineAsm } } ∧
    (∀ TypeFuel R2, prepare E TypeFuel R = some R2 →
      R2.DstH.ModuleInlineAsm =
        if R.SrcH.ModuleInlineAsm = "" then R.DstH.ModuleInlineAsm
        else if R.DstH.ModuleInlineAsm = "" then R.SrcH.ModuleInlineAsm
        else R.DstH.ModuleInlineAsm ++ "\n" ++ R.SrcH.ModuleInlineAsm) := by
  refine ⟨?_, ?_, ?_, ?_, ?_⟩
  · intro h
    unfold linkInlineAsm
    rw [if_neg (by simpa using h)]
  · intro h1 h2
    rw [linkInlineAsm_spec, if_neg h1, if_pos h2]
  · intro h1 h2
    rw [linkInlineAsm_spec, if_neg h1, if_neg h2]
  · obtain ⟨a, ha⟩ := linkInlineAsm_frame R
    have : R.linkInlineAsm.DstH.ModuleInlineAsm = a := by rw [ha]
    rw [this]
    exact ha
  · intro TypeFuel R2 hp
    have hps := prepare_spec E TypeFuel R R2 hp
    obtain ⟨k1, k2, k3⟩ := linkDataLayout_keeps R
    obtain ⟨j1, j2⟩ := linkTargetTriple_keeps E R.linkDataLayout
    rw [hps.1, linkInlineAsm_spec, j1, j2, k1, k3]

/-- C28, at a destination with the text `a` and a source with the text `b`:
the destination gets `a`, a newline, `b`. -/
theorem linkInlineAsm_text_witness :
    ((exampleRunState (exampleLinker []) (exampleHeader "dst" "" "a")
        (exampleHeader "src" "" "b")).linkInlineAsm).DstH.ModuleInlineAsm = "a\nb" :=
  ((linkInlineAsm_text exampleExternals
    (exampleRunState (exampleLinker []) (exampleHeader "dst" "" "a")
      (exampleHeader "src" "" "b"))).2.2.1 (by decide) (by decide)).trans (by decide)

end RunState

end IRMover

namespace IRMover

namespace IRLinker

/-! ## The worklist -/

theorem maybeAdd_spec (L : IRLinker) (GV : Nat) :
    (GV ∈ L.ValuesToLink → L.maybeAdd GV = L) ∧
    (GV ∉ L.ValuesToLink → L.maybeAdd GV =
      { L with ValuesToLink := L.ValuesToLink ++ [GV], Worklist := L.Worklist ++ [GV] }) := by
  unfold maybeAdd
  constructor
  · intro h
    rw [if_pos h]
  · intro h
    rw [if_neg h]

theorem pushes_worklistInv (L1 L2 : IRLinker) (New : List Nat) (hp : Pushes L1 L2 New)
    (h : WorklistInv L1) : WorklistInv L2 := by
  obtain ⟨hv, hw, hn, hnew⟩ := hp
  obtain ⟨h1, h2⟩ := h
  refine ⟨?_, ?_⟩
  · rw [hw]
    refine List.Nodup.append h1 hn ?_
    intro a ha hb
    exact hnew a hb (h2 a ha)
  · intro x hx
    rw [hw] at hx
    rw [hv]
    rcases List.mem_append.1 hx with h | h
    · exact List.mem_append.2 (Or.inl (h2 x h))
    · exact List.mem_append.2 (Or.inr h)

theorem foldl_maybeAdd_pushes (xs : List Nat) :
    ∀ L : IRLinker, ∃ New, Pushes L (xs.foldl maybeAdd L) New ∧ ∀ x ∈ New, x ∈ xs := by
  induction xs with
  | nil =>
    intro L
    exact ⟨[], ⟨by simp, by simp, List.nodup_nil, by simp⟩, by simp⟩
  | cons a rest ih =>
    intro L
    rw [List.foldl_cons]
    by_cases ha : a ∈ L.ValuesToLink
    · rw [(maybeAdd_spec L a).1 ha]
      obtain ⟨New, hp, hs⟩ := ih L
      exact ⟨New, hp, fun x hx => List.mem_cons_of_mem _ (hs x hx)⟩
    · obtain ⟨New, ⟨hv, hw, hn, hnew⟩, hs⟩ := ih (L.maybeAdd a)
      rw [(maybeAdd_spec L a).2 ha] at hv hw hnew ⊢
      refine ⟨a :: New, ⟨?_, ?_, ?_, ?_⟩, ?_⟩
      · rw [hv]; simp
      · rw [hw]; simp
      · refine List.nodup_cons.2 ⟨?_, hn⟩
        intro hmem
        exact hnew a hmem (List.mem_append.2 (Or.inr (List.mem_singleton.2 rfl)))
      · intro x hx
        rcases List.mem_cons.1 hx with h | h
        · rw [h]; exact ha
        · intro hxv
          exact hnew x h (List.mem_append.2 (Or.inl hxv))
      · intro x hx
        rcases List.mem_cons.1 hx with h | h
        · rw [h]; exact List.mem_cons_self _ _
        · exact List.mem_cons_of_mem _ (hs x h)

theorem maybeAdd_worklistInv (L : IRLinker) (GV : Nat) (h : WorklistInv L) :
    WorklistInv (L.maybeAdd GV) := by
  obtain ⟨New, hp, _⟩ := foldl_maybeAdd_pushes [GV] L
  exact pushes_worklistInv _ _ _ hp h

theorem foldl_maybeAdd_worklistInv (xs : List Nat) (L : IRLinker) (h : WorklistInv L) :
    WorklistInv (xs.foldl maybeAdd L) := by
  obtain ⟨New, hp, _⟩ := foldl_maybeAdd_pushes xs L
  exact pushes_worklistInv _ _ _ hp h

/-- Starting from equal lists, the requested set and the worklist stay equal
and hold the first occurrences of the added globals. -/
theorem foldl_maybeAdd_insertRange (xs : List Nat) :
    ∀ L : IRLinker, L.ValuesToLink = L.Worklist →
      (xs.foldl maybeAdd L).Worklist = SmallSetVector.insertRange L.Worklist xs ∧
      (xs.foldl maybeAdd L).ValuesToLink = SmallSetVector.insertRange L.Worklist xs := by
  induction xs with
  | nil =>
    intro L h
    exact ⟨rfl, h⟩
  | cons a rest ih =>
    intro L h
    rw [List.foldl_cons]
    have hstep : SmallSetVector.insertRange L.Worklist (a :: rest) =
        SmallSetVector.insertRange (SmallSetVector.insert L.Worklist a).1 rest := rfl
    rw [hstep]
    by_cases ha : a ∈ L.ValuesToLink
    · rw [(maybeAdd_spec L a).1 ha]
      have : (SmallSetVector.insert L.Worklist a).1 = L.Worklist := by
        unfold SmallSetVector.insert
        rw [if_pos (h ▸ ha)]
      rw [this]
      exact ih L h
    · have h1 : (L.maybeAdd a).ValuesToLink = (L.maybeAdd a).Worklist := by
        rw [(maybeAdd_spec L a).2 ha]
        show L.ValuesToLink ++ [a] = L.Worklist ++ [a]
        rw [h]
      have h2 : (SmallSetVector.insert L.Worklist a).1 = (L.maybeAdd a).Worklist := by
        unfold SmallSetVector.insert
        rw [if_neg (h ▸ ha), (maybeAdd_spec L a).2 ha]
      rw [h2]
      exact ih _ h1

theorem create_worklist (Context : LLVMContext) (DstM : Module) (Set : IdentifiedStructTypeSet)
    (SrcM : Module) (ValuesToLink : List Nat) (Postpass : Bool)
    (Diagnostics : List (DiagnosticSeverity × String)) (NextAddr : Nat) :
    (create Context DstM Set SrcM ValuesToLink Postpass Diagnostics NextAddr).Worklist =
      SmallSetVector.insertRange [] ValuesToLink ∧
    (create Context DstM Set SrcM ValuesToLink Postpass Diagnostics NextAddr).ValuesToLink =
      SmallSetVector.insertRange [] ValuesToLink ∧
    WorklistInv (create Context DstM Set SrcM ValuesToLink Postpass Diagnostics NextAddr) := by
  unfold create
  refine ⟨(foldl_maybeAdd_insertRange ValuesToLink _ rfl).1,
    (foldl_maybeAdd_insertRange ValuesToLink _ rfl).2, ?_⟩
  apply foldl_maybeAdd_worklistInv
  exact ⟨List.nodup_nil, by intro x hx; exact absurd hx (List.not_mem_nil x)⟩

theorem create_fresh (Context : LLVMContext) (DstM : Module) (Set : IdentifiedStructTypeSet)
    (SrcM : Module) (ValuesToLink : List Nat) (Postpass : Bool)
    (Diagnostics : List (DiagnosticSeverity × String)) (NextAddr : Nat) :
    (create Context DstM Set SrcM ValuesToLink Postpass Diagnostics NextAddr).HasError = false ∧
    (create Context DstM Set SrcM ValuesToLink Postpass Diagnostics NextAddr).DoneLinkingBodies =
      false ∧
    (create Context DstM Set SrcM ValuesToLink Postpass Diagnostics NextAddr).Diagnostics =
      Diagnostics ∧
    (create Context DstM Set SrcM ValuesToLink Postpass Diagnostics NextAddr).ValueMap = [] ∧
    (create Context DstM Set SrcM ValuesToLink Postpass Diagnostics NextAddr).AliasValueMap =
      [] := by
  unfold create
  rw [foldl_maybeAdd_eq]
  exact ⟨rfl, rfl, rfl, rfl, rfl⟩

end IRLinker

end IRMover

namespace IRMover

namespace RunState

/-! ## The worklist loop -/

theorem worklist_pop (R : RunState) (GV : Nat) (h : R.L.Worklist.getLast? = some GV) :
    R.L.Worklist = R.popWorklist.L.Worklist ++ [GV] :=
  (List.dropLast_append_getLast? GV h).symm

theorem popWorklist_keeps (R : RunState) :
    R.popWorklist.L.ValuesToLink = R.L.ValuesToLink ∧
    R.popWorklist.L.HasError = R.L.HasError := ⟨rfl, rfl⟩

theorem popWorklist_inv (R : RunState) (GV : Nat) (h : R.L.Worklist.getLast? = some GV)
    (hinv : IRLinker.WorklistInv R.L) :
    IRLinker.WorklistInv R.popWorklist.L ∧ GV ∉ R.popWorklist.L.Worklist ∧
    GV ∈ R.L.ValuesToLink := by
  have hw := worklist_pop R GV h
  obtain ⟨h1, h2⟩ := hinv
  rw [hw] at h1 h2
  have hnd := List.nodup_append.1 h1
  refine ⟨⟨hnd.1, ?_⟩, ?_, ?_⟩
  · intro x hx
    exact h2 x (List.mem_append.2 (Or.inl hx))
  · intro hmem
    exact hnd.2.2 hmem (List.mem_singleton.2 rfl)
  · exact h2 GV (List.mem_append.2 (Or.inr (List.mem_singleton.2 rfl)))

theorem drainWorklist_empty (E : Externals) (Fuel : Nat) (R : RunState)
    (h : R.L.Worklist.getLast? = none) :
    drainWorklist E (Fuel + 1) R = some (false, R, []) := by
  rw [drainWorklist, h]

theorem drainWorklist_skip (E : Externals) (Fuel : Nat) (R : RunState) (GV : Nat)
    (h : R.L.Worklist.getLast? = some GV) (hm : R.popWorklist.alreadyMapped GV = true) :
    drainWorklist E (Fuel + 1) R = drainWorklist E Fuel R.popWorklist := by
  rw [drainWorklist, h]
  simp only [hm, if_true]

theorem drainWorklist_fail (E : Externals) (Fuel : Nat) (R : RunState) (GV : Nat)
    (h : R.L.Worklist.getLast? = some GV) (hm : R.popWorklist.alreadyMapped GV = false)
    (he : (E.MapValue R.popWorklist GV).L.HasError = true) :
    drainWorklist E (Fuel + 1) R = some (true, E.MapValue R.popWorklist GV, [GV]) := by
  rw [drainWorklist, h]
  simp only [hm, he, if_true]
  rfl

theorem drainWorklist_next (E : Externals) (Fuel : Nat) (R : RunState) (GV : Nat)
    (h : R.L.Worklist.getLast? = some GV) (hm : R.popWorklist.alreadyMapped GV = false)
    (he : (E.MapValue R.popWorklist GV).L.HasError = false) :
    drainWorklist E (Fuel + 1) R =
      (drainWorklist E Fuel (E.MapValue R.popWorklist GV)).map
        (fun r => (r.1, r.2.1, GV :: r.2.2)) := by
  rw [drainWorklist, h]
  simp only [hm, he]
  cases drainWorklist E Fuel (E.MapValue R.popWorklist GV) with
  | none => rfl
  | some r => rfl

/-- The three ways a round of the loop can go. -/
theorem drainWorklist_cases (E : Externals) (Fuel : Nat) (R : RunState) (b : Bool)
    (R' : RunState) (Trace : List Nat) (h : drainWorklist E (Fuel + 1) R = some (b, R', Trace)) :
    (R.L.Worklist.getLast? = none ∧ b = false ∧ R' = R ∧ Trace = []) ∨
    (∃ GV, R.L.Worklist.getLast? = some GV ∧ R.popWorklist.alreadyMapped GV = true ∧
      drainWorklist E Fuel R.popWorklist = some (b, R', Trace)) ∨
    (∃ GV, R.L.Worklist.getLast? = some GV ∧ R.popWorklist.alreadyMapped GV = false ∧
      (E.MapValue R.popWorklist GV).L.HasError = true ∧ b = true ∧
      R' = E.MapValue R.popWorklist GV ∧ Trace = [GV]) ∨
    (∃ GV T, R.L.Worklist.getLast? = some GV ∧ R.popWorklist.alreadyMapped GV = false ∧
      (E.MapValue R.popWorklist GV).L.HasError = false ∧
      drainWorklist E Fuel (E.MapValue R.popWorklist GV) = some (b, R', T) ∧
      Trace = GV :: T) := by
  cases hl : R.L.Worklist.getLast? with
  | none =>
    rw [drainWorklist_empty E Fuel R hl] at h
    injection h with h
    injection h with h1 h2
    injection h2 with h2 h3
    exact Or.inl ⟨rfl, h1.symm, h2.symm, h3.symm⟩
  | some GV =>
    cases hm : R.popWorklist.alreadyMapped GV with
    | true =>
      rw [drainWorklist_skip E Fuel R GV hl hm] at h
      exact Or.inr (Or.inl ⟨GV, rfl, hm, h⟩)
    | false =>
      cases he : (E.MapValue R.popWorklist GV).L.HasError with
      | true =>
        rw [drainWorklist_fail E Fuel R GV hl hm he] at h
        injection h with h
        injection h with h1 h2
        injection h2 with h2 h3
        exact Or.inr (Or.inr (Or.inl ⟨GV, rfl, hm, he, h1.symm, h2.symm, h3.symm⟩))
      | false =>
        rw [drainWorklist_next E Fuel R GV hl hm he] at h
        cases hd : drainWorklist E Fuel (E.MapValue R.popWorklist GV) with
        | none => rw [hd] at h; exact absurd h (by simp)
        | some r =>
          rw [hd] at h
          obtain ⟨b1, R1, T1⟩ := r
          simp only [Option.map_some', Option.some.injEq, Prod.mk.injEq] at h
          obtain ⟨h1, h2, h3⟩ := h
          refine Or.inr (Or.inr (Or.inr ⟨GV, T1, rfl, hm, he, ?_, h3.symm⟩))
          rw [← h1, ← h2]
          exact hd

/-- What `MapValue` does to the worklist, under `AddsThroughMaybeAdd`. -/
theorem mapValue_pushes (E : Externals) (hE : E.AddsThroughMaybeAdd) (R : RunState) (GV : Nat) :
    ∃ New, IRLinker.Pushes R.L (E.MapValue R GV).L New := by
  obtain ⟨Added, h1, h2⟩ := hE R GV
  obtain ⟨New, ⟨hv, hw, hn, hnew⟩, _⟩ := IRLinker.foldl_maybeAdd_pushes Added R.L
  exact ⟨New, ⟨h1.trans hv, h2.trans hw, hn, hnew⟩⟩

/-- Every global is given to `MapValue` at most once, and only a global of the
worklist or one that was not requested before. -/
theorem drainWorklist_trace (E : Externals) (hE : E.AddsThroughMaybeAdd) :
    ∀ (Fuel : Nat) (R : RunState) (b : Bool) (R' : RunState) (Trace : List Nat),
      IRLinker.WorklistInv R.L → drainWorklist E Fuel R = some (b, R', Trace) →
      Trace.Nodup ∧ IRLinker.WorklistInv R'.L ∧
      (∀ x ∈ Trace, x ∈ R.L.Worklist ∨ x ∉ R.L.ValuesToLink) ∧
      (∀ x ∈ R.L.ValuesToLink, x ∈ R'.L.ValuesToLink) := by
  intro Fuel
  induction Fuel with
  | zero => intro R b R' Trace _ h; exact absurd h (by simp [drainWorklist])
  | succ Fuel ih =>
    intro R b R' Trace hinv h
    rcases drainWorklist_cases E Fuel R b R' Trace h with
      ⟨_, _, h2, h3⟩ | ⟨GV, hl, _, hd⟩ | ⟨GV, hl, _, _, _, h2, h3⟩ | ⟨GV, T, hl, _, _, hd, h3⟩
    · rw [h2, h3]
      exact ⟨List.nodup_nil, hinv, by simp, fun x hx => hx⟩
    · obtain ⟨hpi, _, _⟩ := popWorklist_inv R GV hl hinv
      obtain ⟨k1, k2, k3, k4⟩ := ih _ b R' Trace hpi hd
      refine ⟨k1, k2, ?_, k4⟩
      intro x hx
      rcases k3 x hx with h | h
      · left
        rw [worklist_pop R GV hl]
        exact List.mem_append.2 (Or.inl h)
      · exact Or.inr h
    · obtain ⟨hpi, _, _⟩ := popWorklist_inv R GV hl hinv
      obtain ⟨New, hp⟩ := mapValue_pushes E hE R.popWorklist GV
      rw [h2, h3]
      refine ⟨List.nodup_singleton GV, IRLinker.pushes_worklistInv _ _ _ hp hpi, ?_, ?_⟩
      · intro x hx
        left
        rw [List.mem_singleton.1 hx, worklist_pop R GV hl]
        exact List.mem_append.2 (Or.inr (List.mem_singleton.2 rfl))
      · intro x hx
        rw [hp.1]
        exact List.mem_append.2 (Or.inl hx)
    · obtain ⟨hpi, hnot, hreq⟩ := popWorklist_inv R GV hl hinv
      obtain ⟨New, hp⟩ := mapValue_pushes E hE R.popWorklist GV
      obtain ⟨k1, k2, k3, k4⟩ := ih _ b R' T (IRLinker.pushes_worklistInv _ _ _ hp hpi) hd
      have hsub : ∀ x ∈ R.L.ValuesToLink, x ∈ (E.MapValue R.popWorklist GV).L.ValuesToLink := by
        intro x hx
        rw [hp.1]
        exact List.mem_append.2 (Or.inl hx)
      rw [h3]
      refine ⟨List.nodup_cons.2 ⟨?_, k1⟩, k2, ?_, fun x hx => k4 x (hsub x hx)⟩
      · intro hmem
        rcases k3 GV hmem with h | h
        · rw [hp.2.1] at h
          rcases List.mem_append.1 h with h | h
          · exact hnot h
          · exact hp.2.2.2 GV h hreq
        · exact h (hsub GV hreq)
      · intro x hx
        rcases List.mem_cons.1 hx with h | h
        · left
          rw [h, worklist_pop R GV hl]
          exact List.mem_append.2 (Or.inr (List.mem_singleton.2 rfl))
        · rcases k3 x h with h | h
          · rw [hp.2.1] at h
            rcases List.mem_append.1 h with h | h
            · left
              rw [worklist_pop R GV hl]
              exact List.mem_append.2 (Or.inl h)
            · right
              exact hp.2.2.2 x h
          · right
            intro hxv
            exact h (hsub x hxv)

end RunState

end IRMover

namespace IRMover

namespace RunState

theorem worklist_pop_split (R : RunState) (GV g : Nat) (W A : List Nat)
    (hl : R.L.Worklist.getLast? = some GV) (hw : R.L.Worklist = W ++ (A ++ [g])) :
    R.popWorklist.L.Worklist = W ++ A ∧ g = GV := by
  have h1 := worklist_pop R GV hl
  rw [hw, ← List.append_assoc] at h1
  have h2 := List.append_inj' h1 rfl
  exact ⟨h2.1.symm, List.singleton_inj.1 h2.2⟩

/-- The loop works as a stack: with the worklist `W ++ A`, what is processed
splits into a first part that has nothing of `W` and a second part that has
nothing of `A`. -/
theorem drainWorklist_split (E : Externals) (hE : E.AddsThroughMaybeAdd) :
    ∀ (Fuel : Nat) (R : RunState) (b : Bool) (R' : RunState) (Trace W A : List Nat),
      IRLinker.WorklistInv R.L → R.L.Worklist = W ++ A →
      drainWorklist E Fuel R = some (b, R', Trace) →
      ∃ T1 T2, Trace = T1 ++ T2 ∧ (∀ x ∈ T1, x ∈ A ∨ x ∉ R.L.ValuesToLink) ∧
        (∀ x ∈ T2, x ∈ W ∨ x ∉ R.L.ValuesToLink) := by
  intro Fuel
  induction Fuel with
  | zero => intro R b R' Trace W A _ _ h; exact absurd h (by simp [drainWorklist])
  | succ Fuel ih =>
    intro R b R' Trace W A hinv hw h
    rcases List.eq_nil_or_concat A with hA | ⟨A', g, hA⟩
    · refine ⟨[], Trace, rfl, by simp, ?_⟩
      have ht := (drainWorklist_trace E hE (Fuel + 1) R b R' Trace hinv h).2.2.1
      rw [hw, hA, List.append_nil] at ht
      exact ht
    · rw [hA, List.concat_eq_append] at hw
      rcases drainWorklist_cases E Fuel R b R' Trace h with
        ⟨hl, _, _, _⟩ | ⟨GV, hl, _, hd⟩ | ⟨GV, hl, _, _, _, _, h3⟩ | ⟨GV, T, hl, _, _, hd, h3⟩
      · rw [hw] at hl
        simp at hl
      · obtain ⟨hpw, hg⟩ := worklist_pop_split R GV g W A' hl hw
        obtain ⟨hpi, _, _⟩ := popWorklist_inv R GV hl hinv
        obtain ⟨T1, T2, k1, k2, k3⟩ := ih _ b R' Trace W A' hpi hpw hd
        refine ⟨T1, T2, k1, ?_, k3⟩
        intro x hx
        rcases k2 x hx with h | h
        · left
          rw [hA, List.concat_eq_append]
          exact List.mem_append.2 (Or.inl h)
        · exact Or.inr h
      · obtain ⟨hpw, hg⟩ := worklist_pop_split R GV g W A' hl hw
        refine ⟨[GV], [], by rw [h3]; rfl, ?_, by simp⟩
        intro x hx
        left
        rw [List.mem_singleton.1 hx, hA, List.concat_eq_append, hg]
        exact List.mem_append.2 (Or.inr (List.mem_singleton.2 rfl))
      · obtain ⟨hpw, hg⟩ := worklist_pop_split R GV g W A' hl hw
        obtain ⟨hpi, hnot, hreq⟩ := popWorklist_inv R GV hl hinv
        obtain ⟨New, hp⟩ := mapValue_pushes E hE R.popWorklist GV
        have hw2 : (E.MapValue R.popWorklist GV).L.Worklist = W ++ (A' ++ New) := by
          rw [hp.2.1, hpw, List.append_assoc]
        have hsub : ∀ x ∈ R.L.ValuesToLink,
            x ∈ (E.MapValue R.popWorklist GV).L.ValuesToLink := by
          intro x hx
          rw [hp.1]
          exact List.mem_append.2 (Or.inl hx)
        obtain ⟨T1, T2, k1, k2, k3⟩ :=
          ih _ b R' T W (A' ++ New) (IRLinker.pushes_worklistInv _ _ _ hp hpi) hw2 hd
        refine ⟨GV :: T1, T2, by rw [h3, k1]; rfl, ?_, ?_⟩
        · intro x hx
          rcases List.mem_cons.1 hx with h | h
          · left
            rw [h, hA, List.concat_eq_append, hg]
            exact List.mem_append.2 (Or.inr (List.mem_singleton.2 rfl))
          · rcases k2 x h with h | h
            · rcases List.mem_append.1 h with h | h
              · left
                rw [hA, List.concat_eq_append]
                exact List.mem_append.2 (Or.inl h)
              · right
                exact hp.2.2.2 x h
            · right
              intro hxv
              exact h (hsub x hxv)
        · intro x hx
          rcases k3 x hx with h | h
          · exact Or.inl h
          · right
            intro hxv
            exact h (hsub x hxv)

/-- If nothing is added, the globals are processed in the order of the
reversed worklist. -/
theorem drainWorklist_sublist (E : Externals) (hE : E.AddsNothing) :
    ∀ (Fuel : Nat) (R : RunState) (b : Bool) (R' : RunState) (Trace : List Nat),
      drainWorklist E Fuel R = some (b, R', Trace) →
      Trace.Sublist R.L.Worklist.reverse ∧ R'.L.ValuesToLink = R.L.ValuesToLink := by
  intro Fuel
  induction Fuel with
  | zero => intro R b R' Trace h; exact absurd h (by simp [drainWorklist])
  | succ Fuel ih =>
    intro R b R' Trace h
    rcases drainWorklist_cases E Fuel R b R' Trace h with
      ⟨_, _, h2, h3⟩ | ⟨GV, hl, _, hd⟩ | ⟨GV, hl, _, _, _, h2, h3⟩ | ⟨GV, T, hl, _, _, hd, h3⟩
    · rw [h3, h2]
      exact ⟨List.nil_sublist _, rfl⟩
    · obtain ⟨k1, k2⟩ := ih _ b R' Trace hd
      rw [worklist_pop R GV hl, List.reverse_append]
      exact ⟨List.Sublist.cons _ k1, k2⟩
    · rw [h3, h2, worklist_pop R GV hl, List.reverse_append]
      exact ⟨List.Sublist.cons₂ _ (List.nil_sublist _), (hE R.popWorklist GV).1⟩
    · obtain ⟨k1, k2⟩ := ih _ b R' T hd
      rw [(hE R.popWorklist GV).2] at k1
      rw [h3, worklist_pop R GV hl, List.reverse_append]
      exact ⟨List.Sublist.cons₂ _ k1, k2.trans (hE R.popWorklist GV).1⟩

/-- A loop that ends without an error leaves the failure flag unset if it was
unset before, and leaves the worklist empty. -/
theorem drainWorklist_false (E : Externals) :
    ∀ (Fuel : Nat) (R R' : RunState) (Trace : List Nat),
      drainWorklist E Fuel R = some (false, R', Trace) →
      (R.L.HasError = false → R'.L.HasError = false) ∧ R'.L.Worklist = [] ∧
      (Trace ≠ [] → R'.L.HasError = false) := by
  intro Fuel
  induction Fuel with
  | zero => intro R R' Trace h; exact absurd h (by simp [drainWorklist])
  | succ Fuel ih =>
    intro R R' Trace h
    rcases drainWorklist_cases E Fuel R false R' Trace h with
      ⟨h1, _, h2, h3⟩ | ⟨GV, hl, _, hd⟩ | ⟨GV, hl, _, _, hb, _, _⟩ | ⟨GV, T, hl, _, he, hd, h3⟩
    · rw [h2, h3]
      exact ⟨fun h => h, List.getLast?_eq_none_iff.1 h1, fun h => absurd rfl h⟩
    · obtain ⟨k1, k2, k3⟩ := ih _ R' Trace hd
      exact ⟨k1, k2, k3⟩
    · exact absurd hb (by simp)
    · obtain ⟨k1, k2, k3⟩ := ih _ R' T hd
      exact ⟨fun _ => k1 he, k2, fun _ => k1 he⟩

/-- A loop that ends with an error ends right after the `MapValue` that set
the failure flag. -/
theorem drainWorklist_true (E : Externals) :
    ∀ (Fuel : Nat) (R R' : RunState) (Trace : List Nat),
      drainWorklist E Fuel R = some (true, R', Trace) →
      R'.L.HasError = true ∧
      ∃ n Rk T0 GV, n < Fuel ∧ drainSteps E n R = some (Rk, T0) ∧
        Rk.L.Worklist.getLast? = some GV ∧ Rk.popWorklist.alreadyMapped GV = false ∧
        R' = E.MapValue Rk.popWorklist GV ∧ Trace = T0 ++ [GV] := by
  intro Fuel
  induction Fuel with
  | zero => intro R R' Trace h; exact absurd h (by simp [drainWorklist])
  | succ Fuel ih =>
    intro R R' Trace h
    rcases drainWorklist_cases E Fuel R true R' Trace h with
      ⟨_, hb, _, _⟩ | ⟨GV, hl, hm, hd⟩ | ⟨GV, hl, hm, he, _, h2, h3⟩ | ⟨GV, T, hl, hm, he, hd, h3⟩
    · exact absurd hb (by simp)
    · obtain ⟨k1, n, Rk, T0, GV', hn, hs, k2, k3, k4, k5⟩ := ih _ R' Trace hd
      refine ⟨k1, n + 1, Rk, T0, GV', by omega, ?_, k2, k3, k4, k5⟩
      rw [drainSteps, hl]
      simp only [hm, if_true]
      exact hs
    · refine ⟨by rw [h2]; exact he, 0, R, [], GV, by omega, rfl, hl, hm, h2, by rw [h3]; rfl⟩
    · obtain ⟨k1, n, Rk, T0, GV', hn, hs, k2, k3, k4, k5⟩ := ih _ R' T hd
      refine ⟨k1, n + 1, Rk, GV :: T0, GV', by omega, ?_, k2, k3, k4, by rw [h3, k5]; rfl⟩
      rw [drainSteps, hl]
      simp only [hm, he, hs]
      rfl

/-- After `n` rounds that do not leave `run`, the loop goes on from the state
they reach. -/
theorem drainSteps_append (E : Externals) :
    ∀ (n : Nat) (R Rk : RunState) (T0 : List Nat) (f : Nat),
      drainSteps E n R = some (Rk, T0) →
      drainWorklist E (n + f) R =
        (drainWorklist E f Rk).map (fun r => (r.1, r.2.1, T0 ++ r.2.2)) := by
  intro n
  induction n with
  | zero =>
    intro R Rk T0 f h
    simp only [drainSteps, Option.some.injEq, Prod.mk.injEq] at h
    rw [← h.1, ← h.2, Nat.zero_add]
    cases drainWorklist E f R with
    | none => rfl
    | some r => rfl
  | succ n ih =>
    intro R Rk T0 f h
    have hf : n + 1 + f = (n + f) + 1 := by omega
    rw [hf]
    rw [drainSteps] at h
    cases hl : R.L.Worklist.getLast? with
    | none => rw [hl] at h; exact absurd h (by simp)
    | some GV =>
      rw [hl] at h
      simp only at h
      cases hm : R.popWorklist.alreadyMapped GV with
      | true =>
        simp only [hm, if_true] at h
        rw [drainWorklist_skip E _ R GV hl hm]
        exact ih _ _ _ f h
      | false =>
        simp only [hm] at h
        cases he : (E.MapValue R.popWorklist GV).L.HasError with
        | true => simp [he] at h
        | false =>
          simp only [he] at h
          cases hs : drainSteps E n (E.MapValue R.popWorklist GV) with
          | none => simp [hs] at h
          | some r =>
            obtain ⟨R3, T3⟩ := r
            simp only [hs, Bool.false_eq_true, if_false, Option.some.injEq, Prod.mk.injEq] at h
            rw [drainWorklist_next E _ R GV hl hm he, ih _ _ _ f hs, ← h.1, ← h.2]
            cases drainWorklist E f R3 with
            | none => rfl
            | some r => rfl

end RunState

end IRMover

namespace IRMover

namespace IRLinker

/-- The value `linkModuleFlagsMetadata` returns: false where a flag list is
missing or empty, and the failure flag otherwise; the method only adds
diagnostics. -/
theorem linkModuleFlagsMetadata_result (L : IRLinker) (M : ModuleFlags) (b : Bool)
    (L1 : IRLinker) (M1 : ModuleFlags) (h : linkModuleFlagsMetadata L M = some (b, L1, M1)) :
    (∃ e : List (DiagnosticSeverity × String), DiagnosticsExtend L L1 e) ∧
    ((M.SrcModFlags = none ∨ (M.DstModFlags.getD []).length = 0) → b = false ∧ L1 = L) ∧
    (M.SrcModFlags ≠ none → (M.DstModFlags.getD []).length ≠ 0 → b = L1.HasError) := by
  unfold linkModuleFlagsMetadata at h
  cases hS : M.SrcModFlags with
  | none =>
    rw [hS] at h
    simp only [Option.some.injEq, Prod.mk.injEq] at h
    rw [← h.1, ← h.2.1]
    exact ⟨⟨[], diagnosticsExtend_refl L⟩, fun _ => ⟨rfl, rfl⟩, fun hn => absurd rfl hn⟩
  | some Src =>
    rw [hS] at h
    simp only at h
    by_cases hlen : (M.DstModFlags.getD []).length = 0
    · rw [if_pos hlen] at h
      simp only [Option.some.injEq, Prod.mk.injEq] at h
      rw [← h.1, ← h.2.1]
      exact ⟨⟨[], diagnosticsExtend_refl L⟩, fun _ => ⟨rfl, rfl⟩, fun _ hn => absurd hlen hn⟩
    · rw [if_neg hlen] at h
      cases hc : collectDstFlags M.MD (M.DstModFlags.getD []) 0 [] [] with
      | none => rw [hc] at h; exact absurd h (by simp)
      | some FR =>
        obtain ⟨Flags, Requirements⟩ := FR
        rw [hc] at h
        simp only at h
        cases hm : mergeSrcFlags Src ⟨L, M.MD, M.DstModFlags.getD [], Flags, Requirements⟩ with
        | none => rw [hm] at h; exact absurd h (by simp)
        | some S =>
          rw [hm] at h
          simp only at h
          cases hr : checkRequirements S.MD S.Flags S.Requirements S.L with
          | none => rw [hr] at h; exact absurd h (by simp)
          | some L2 =>
            rw [hr] at h
            simp only [Option.some.injEq, Prod.mk.injEq] at h
            obtain ⟨e1, he1⟩ := mergeSrcFlags_diagnostics Src _ _ hm
            obtain ⟨e2, he2⟩ := checkRequirements_diagnostics _ _ _ _ _ hr
            rw [← h.1, ← h.2.1]
            refine ⟨⟨e1 ++ e2, diagnosticsExtend_trans he1 he2⟩, ?_, fun _ _ => rfl⟩
            intro hor
            rcases hor with h1 | h1
            · exact absurd h1 (by simp)
            · exact absurd h1 hlen

end IRLinker

namespace RunState

theorem mapValue_pushes_within (E : Externals) (U : List Nat) (hE : E.AddsWithin U)
    (R : RunState) (GV : Nat) :
    ∃ New, IRLinker.Pushes R.L (E.MapValue R GV).L New ∧ ∀ x ∈ New, x ∈ U := by
  obtain ⟨Added, hU, h1, h2⟩ := hE R GV
  obtain ⟨New, ⟨hv, hw, hn, hnew⟩, hs⟩ := IRLinker.foldl_maybeAdd_pushes Added R.L
  exact ⟨New, ⟨h1.trans hv, h2.trans hw, hn, hnew⟩, fun x hx => hU x (hs x hx)⟩

theorem addsWithin_adds (E : Externals) (U : List Nat) (hE : E.AddsWithin U) :
    E.AddsThroughMaybeAdd := by
  intro R GV
  obtain ⟨Added, _, h1, h2⟩ := hE R GV
  exact ⟨Added, h1, h2⟩

theorem addsNothing_adds (E : Externals) (hE : E.AddsNothing) : E.AddsWithin [] := by
  intro R GV
  exact ⟨[], by simp, (hE R GV).1, (hE R GV).2⟩

/-- The loop ends: if the value mapper adds only globals of `U`, a fuel above
the length of the worklist plus twice the number of globals of `U` that are
not requested yet is enough. -/
theorem drainWorklist_total (E : Externals) (U : List Nat) (hE : E.AddsWithin U) :
    ∀ (Fuel : Nat) (R : RunState), IRLinker.WorklistInv R.L → R.L.ValuesToLink.Nodup →
      (∀ x ∈ R.L.ValuesToLink, x ∈ U) →
      R.L.Worklist.length + 2 * (U.length - R.L.ValuesToLink.length) < Fuel →
      ∃ r, drainWorklist E Fuel R = some r := by
  intro Fuel
  induction Fuel with
  | zero => intro R _ _ _ h; exact absurd h (by omega)
  | succ Fuel ih =>
    intro R hinv hnd hsub hlt
    cases hl : R.L.Worklist.getLast? with
    | none => exact ⟨_, drainWorklist_empty E Fuel R hl⟩
    | some GV =>
      have hw := worklist_pop R GV hl
      have hlen : R.L.Worklist.length = R.popWorklist.L.Worklist.length + 1 := by
        rw [hw]; simp
      obtain ⟨hpi, _, _⟩ := popWorklist_inv R GV hl hinv
      cases hm : R.popWorklist.alreadyMapped GV with
      | true =>
        rw [drainWorklist_skip E Fuel R GV hl hm]
        apply ih _ hpi hnd hsub
        have : R.popWorklist.L.ValuesToLink = R.L.ValuesToLink := rfl
        rw [this]
        omega
      | false =>
        cases he : (E.MapValue R.popWorklist GV).L.HasError with
        | true => exact ⟨_, drainWorklist_fail E Fuel R GV hl hm he⟩
        | false =>
          rw [drainWorklist_next E Fuel R GV hl hm he]
          obtain ⟨New, hp, hU⟩ := mapValue_pushes_within E U hE R.popWorklist GV
          have hv : (E.MapValue R.popWorklist GV).L.ValuesToLink = R.L.ValuesToLink ++ New :=
            hp.1
          have hnd2 : (E.MapValue R.popWorklist GV).L.ValuesToLink.Nodup := by
            rw [hv]
            refine List.Nodup.append hnd hp.2.2.1 ?_
            intro a ha hb
            exact hp.2.2.2 a hb ha
          have hsub2 : ∀ x ∈ (E.MapValue R.popWorklist GV).L.ValuesToLink, x ∈ U := by
            intro x hx
            rw [hv] at hx
            rcases List.mem_append.1 hx with h | h
            · exact hsub x h
            · exact hU x h
          have hle : (E.MapValue R.popWorklist GV).L.ValuesToLink.length ≤ U.length :=
            (List.subperm_of_subset hnd2 hsub2).length_le
          have hvl : (E.MapValue R.popWorklist GV).L.ValuesToLink.length =
              R.L.ValuesToLink.length + New.length := by rw [hv]; simp
          have hwl : (E.MapValue R.popWorklist GV).L.Worklist.length =
              R.popWorklist.L.Worklist.length + New.length := by rw [hp.2.1]; simp
          obtain ⟨r, hr⟩ := ih _ (IRLinker.pushes_worklistInv _ _ _ hp hpi) hnd2 hsub2
            (by omega)
          exact ⟨_, by rw [hr]; rfl⟩

/-- More fuel does not change the result of the loop. -/
theorem drainWorklist_mono (E : Externals) :
    ∀ (Fuel : Nat) (R : RunState) (r : Bool × RunState × List Nat) (k : Nat),
      drainWorklist E Fuel R = some r → drainWorklist E (Fuel + k) R = some r := by
  intro Fuel
  induction Fuel with
  | zero => intro R r k h; exact absurd h (by simp [drainWorklist])
  | succ Fuel ih =>
    intro R r k h
    obtain ⟨b, R', Trace⟩ := r
    have hf : Fuel + 1 + k = (Fuel + k) + 1 := by omega
    rw [hf]
    rcases drainWorklist_cases E Fuel R b R' Trace h with
      ⟨hl, h1, h2, h3⟩ | ⟨GV, hl, hm, hd⟩ | ⟨GV, hl, hm, he, h1, h2, h3⟩ |
      ⟨GV, T, hl, hm, he, hd, h3⟩
    · rw [drainWorklist_empty E _ R hl, h1, h2, h3]
    · rw [drainWorklist_skip E _ R GV hl hm]
      exact ih _ _ k hd
    · rw [drainWorklist_fail E _ R GV hl hm he, h1, h2, h3]
    · rw [drainWorklist_next E _ R GV hl hm he, ih _ _ k hd, h3]
      rfl

/-- The ways `run` can end. -/
theorem run_cases (E : Externals) (TypeFuel Fuel : Nat) (R : RunState) (b : Bool)
    (R' : RunState) (Trace : List Nat) (h : run E TypeFuel Fuel R = some (b, R', Trace)) :
    ∃ R2, prepare E TypeFuel R = some R2 ∧
      ((b = true ∧ drainWorklist E Fuel R2 = some (true, R', Trace)) ∨
        ∃ R3, drainWorklist E Fuel R2 = some (false, R3, Trace) ∧
          runMetadata E { R3 with L := { R3.L with DoneLinkingBodies := true } } =
            some (b, R')) := by
  unfold run at h
  cases hp : prepare E TypeFuel R with
  | none => rw [hp] at h; exact absurd h (by simp)
  | some R2 =>
    rw [hp] at h
    simp only at h
    refine ⟨R2, rfl, ?_⟩
    cases hd : drainWorklist E Fuel R2 with
    | none => rw [hd] at h; exact absurd h (by simp)
    | some r =>
      obtain ⟨b1, R3, T⟩ := r
      rw [hd] at h
      cases b1 with
      | true =>
        simp only [Option.some.injEq, Prod.mk.injEq] at h
        left
        rw [← h.1, ← h.2.1, ← h.2.2]
        exact ⟨rfl, rfl⟩
      | false =>
        simp only at h
        right
        cases hm : runMetadata E { R3 with L := { R3.L with DoneLinkingBodies := true } } with
        | none => rw [hm] at h; exact absurd h (by simp)
        | some r =>
          obtain ⟨b2, R5⟩ := r
          rw [hm] at h
          simp only [Option.some.injEq, Prod.mk.injEq] at h
          rw [← h.1, ← h.2.1, ← h.2.2]
          exact ⟨R3, rfl, hm⟩

theorem prepare_worklistInv (E : Externals) (TypeFuel : Nat) (R R2 : RunState)
    (h : prepare E TypeFuel R = some R2) (hinv : IRLinker.WorklistInv R.L) :
    IRLinker.WorklistInv R2.L := by
  have hps := prepare_spec E TypeFuel R R2 h
  have hw := hps.2.2.2.2.2.2.2.2.2.2.1
  have hv := hps.2.2.2.2.2.2.2.2.2.2.2.1
  unfold IRLinker.WorklistInv
  rw [hw, hv]
  exact ⟨List.nodup_reverse.2 hinv.1, fun x hx => hinv.2 x (List.mem_reverse.1 hx)⟩

end RunState

end IRMover

namespace IRMover

namespace RunState

/-- Every global given to `MapValue` is requested at the end of the loop. -/
theorem drainWorklist_requested (E : Externals) (hE : E.AddsThroughMaybeAdd) :
    ∀ (Fuel : Nat) (R : RunState) (b : Bool) (R' : RunState) (Trace : List Nat),
      IRLinker.WorklistInv R.L → drainWorklist E Fuel R = some (b, R', Trace) →
      ∀ x ∈ Trace, x ∈ R'.L.ValuesToLink := by
  intro Fuel
  induction Fuel with
  | zero => intro R b R' Trace _ h; exact absurd h (by simp [drainWorklist])
  | succ Fuel ih =>
    intro R b R' Trace hinv h
    rcases drainWorklist_cases E Fuel R b R' Trace h with
      ⟨_, _, _, h3⟩ | ⟨GV, hl, _, hd⟩ | ⟨GV, hl, _, _, _, h2, h3⟩ | ⟨GV, T, hl, _, _, hd, h3⟩
    · rw [h3]
      intro x hx
      exact absurd hx (List.not_mem_nil x)
    · obtain ⟨hpi, _, _⟩ := popWorklist_inv R GV hl hinv
      exact ih _ b R' Trace hpi hd
    · obtain ⟨hpi, _, hreq⟩ := popWorklist_inv R GV hl hinv
      obtain ⟨New, hp⟩ := mapValue_pushes E hE R.popWorklist GV
      rw [h2, h3]
      intro x hx
      rw [List.mem_singleton.1 hx, hp.1]
      exact List.mem_append.2 (Or.inl hreq)
    · obtain ⟨hpi, _, hreq⟩ := popWorklist_inv R GV hl hinv
      obtain ⟨New, hp⟩ := mapValue_pushes E hE R.popWorklist GV
      have hinv2 := IRLinker.pushes_worklistInv _ _ _ hp hpi
      rw [h3]
      intro x hx
      rcases List.mem_cons.1 hx with h | h
      · rw [h]
        apply (drainWorklist_trace E hE Fuel _ b R' T hinv2 hd).2.2.2
        rw [hp.1]
        exact List.mem_append.2 (Or.inl hreq)
      · exact ih _ b R' T hinv2 hd x h

theorem exampleLazyExternals_adds : exampleLazyExternals.AddsWithin [201] := by
  intro R GV
  by_cases h : GV = 200
  · refine ⟨[201], by simp, ?_, ?_⟩
    · simp [exampleLazyExternals, h]
    · simp [exampleLazyExternals, h]
  · refine ⟨[], by simp, ?_, ?_⟩
    · simp [exampleLazyExternals, h]
    · simp [exampleLazyExternals, h]

/-- C23: if the value mapper reaches the worklist through `maybeAdd` only,
each global is given to `MapValue` at most once.  `maybeAdd` does nothing for
a global that is requested already and otherwise puts it on the requested set
and on the worklist, so it keeps the worklist free of duplicates and inside
the requested set, which holds after the constructor as well; a round of the
loop that pops a global with an entry in the value map or in the alias value
map goes on without `MapValue`; the globals given to `MapValue` by the loop,
and so by `run`, are pairwise different and requested; and the loop ends when
the value mapper adds only globals of a finite list. -/
theorem drainWorklist_materializes_once (E : Externals) (hE : E.AddsThroughMaybeAdd) :
    (∀ (L : IRLinker) (GV : Nat),
      (GV ∈ L.ValuesToLink → L.maybeAdd GV = L) ∧
      (GV ∉ L.ValuesToLink → L.maybeAdd GV =
        { L with ValuesToLink := L.ValuesToLink ++ [GV], Worklist := L.Worklist ++ [GV] }) ∧
      (L.WorklistInv → (L.maybeAdd GV).WorklistInv)) ∧
    (∀ (Context : LLVMContext) (DstM : Module) (Set : IdentifiedStructTypeSet) (SrcM : Module)
      (ValuesToLink : List Nat) (Postpass : Bool)
      (Diagnostics : List (DiagnosticSeverity × String)) (NextAddr : Nat),
      (IRLinker.create Context DstM Set SrcM ValuesToLink Postpass Diagnostics
        NextAddr).WorklistInv) ∧
    (∀ (Fuel : Nat) (R : RunState) (GV : Nat), R.L.Worklist.getLast? = some GV →
      R.popWorklist.alreadyMapped GV = true →
      drainWorklist E (Fuel + 1) R = drainWorklist E Fuel R.popWorklist) ∧
    (∀ (Fuel : Nat) (R : RunState) (b : Bool) (R' : RunState) (Trace : List Nat),
      R.L.WorklistInv → drainWorklist E Fuel R = some (b, R', Trace) →
      Trace.Nodup ∧ R'.L.WorklistInv ∧ ∀ x ∈ Trace, x ∈ R'.L.ValuesToLink) ∧
    (∀ (TypeFuel Fuel : Nat) (R : RunState) (b : Bool) (R' : RunState) (Trace : List Nat),
      R.L.WorklistInv → run E TypeFuel Fuel R = some (b, R', Trace) → Trace.Nodup) ∧
    (∀ (U : List Nat), E.AddsWithin U → ∀ (R : RunState), R.L.WorklistInv →
      R.L.ValuesToLink.Nodup → (∀ x ∈ R.L.ValuesToLink, x ∈ U) →
      ∃ r, drainWorklist E (R.L.Worklist.length + 2 * U.length + 1) R = some r) := by
  refine ⟨?_, ?_, ?_, ?_, ?_, ?_⟩
  · intro L GV
    exact ⟨(IRLinker.maybeAdd_spec L GV).1, (IRLinker.maybeAdd_spec L GV).2,
      IRLinker.maybeAdd_worklistInv L GV⟩
  · intro Context DstM Set SrcM ValuesToLink Postpass Diagnostics NextAddr
    exact (IRLinker.create_worklist Context DstM Set SrcM ValuesToLink Postpass Diagnostics
      NextAddr).2.2
  · intro Fuel R GV hl hm
    exact drainWorklist_skip E Fuel R GV hl hm
  · intro Fuel R b R' Trace hinv h
    obtain ⟨k1, k2, _, _⟩ := drainWorklist_trace E hE Fuel R b R' Trace hinv h
    exact ⟨k1, k2, drainWorklist_requested E hE Fuel R b R' Trace hinv h⟩
  · intro TypeFuel Fuel R b R' Trace hinv h
    obtain ⟨R2, hp, hc⟩ := run_cases E TypeFuel Fuel R b R' Trace h
    have hinv2 := prepare_worklistInv E TypeFuel R R2 hp hinv
    rcases hc with ⟨_, hd⟩ | ⟨R3, hd, _⟩
    · exact (drainWorklist_trace E hE Fuel R2 _ R' Trace hinv2 hd).1
    · exact (drainWorklist_trace E hE Fuel R2 _ R3 Trace hinv2 hd).1
  · intro U hU R hinv hnd hsub
    apply drainWorklist_total E U hU _ R hinv hnd hsub
    omega

/-- C23, at a run where the global 200 is requested and the value mapper
discovers the global 201 while it maps 200: the loop gives 200 and then 201
to `MapValue`, each once. -/
theorem drainWorklist_materializes_once_witness :
    (drainWorklist exampleLazyExternals 5
      (exampleRunState (exampleLinker [200]) (exampleHeader "dst" "" "")
        (exampleHeader "src" "" ""))).map (fun r => (r.1, r.2.2)) = some (false, [200, 201]) ∧
    ([200, 201] : List Nat).Nodup := by
  have h0 : (drainWorklist exampleLazyExternals 5
      (exampleRunState (exampleLinker [200]) (exampleHeader "dst" "" "")
        (exampleHeader "src" "" ""))).map (fun r => (r.1, r.2.2)) = some (false, [200, 201]) :=
    by decide
  refine ⟨h0, ?_⟩
  cases h : drainWorklist exampleLazyExternals 5
      (exampleRunState (exampleLinker [200]) (exampleHeader "dst" "" "")
        (exampleHeader "src" "" "")) with
  | none => rw [h] at h0; exact absurd h0 (by simp)
  | some r =>
    obtain ⟨b, R', Trace⟩ := r
    rw [h] at h0
    simp only [Option.map_some', Option.some.injEq, Prod.mk.injEq] at h0
    rw [← h0.2]
    exact ((drainWorklist_materializes_once exampleLazyExternals
      (addsWithin_adds _ _ exampleLazyExternals_adds)).2.2.2.1 5 _ b R' Trace
      ⟨by decide, by decide⟩ h).1

end RunState

end IRMover

namespace IRMover

namespace RunState

/-- C24: the constructor leaves on the worklist the first occurrences of the
request list, in its order; `run` reverses the worklist once before the loop
and every round takes the last global; so if the value mapper adds nothing,
the globals given to `MapValue` by `run` (and by `move`) come in the order of
the worklist the constructor made.  If the value mapper reaches the worklist
through `maybeAdd` only and the worklist is `W ++ A` at the head of the loop
(`A` lying on top of `W`), then what is processed from there on splits into a
first part without any global of `W` and a second part without any global of
`A`: what was discovered is processed before what was waiting. -/
theorem run_processing_order (E : Externals) (hE : E.AddsThroughMaybeAdd) :
    (∀ (Context : LLVMContext) (DstM : Module) (Set : IdentifiedStructTypeSet) (SrcM : Module)
      (ValuesToLink : List Nat) (Postpass : Bool)
      (Diagnostics : List (DiagnosticSeverity × String)) (NextAddr : Nat) (W : List Nat),
      W = (IRLinker.create Context DstM Set SrcM ValuesToLink Postpass Diagnostics
        NextAddr).Worklist →
      W.Nodup ∧ (∀ x, x ∈ W ↔ x ∈ ValuesToLink) ∧
      (∀ x y, x ∈ W → y ∈ W →
        (List.indexOf x W < List.indexOf y W ↔
          List.indexOf x ValuesToLink < List.indexOf y ValuesToLink))) ∧
    (∀ (TypeFuel : Nat) (R R2 : RunState), prepare E TypeFuel R = some R2 →
      R2.L.Worklist = R.L.Worklist.reverse) ∧
    (∀ (Fuel : Nat) (R : RunState) (GV : Nat), R.L.Worklist.getLast? = some GV →
      R.popWorklist.alreadyMapped GV = false →
      (E.MapValue R.popWorklist GV).L.HasError = false →
      drainWorklist E (Fuel + 1) R =
        (drainWorklist E Fuel (E.MapValue R.popWorklist GV)).map
          (fun r => (r.1, r.2.1, GV :: r.2.2))) ∧
    (E.AddsNothing →
      (∀ (TypeFuel Fuel : Nat) (R : RunState) (b : Bool) (R' : RunState) (Trace : List Nat),
        run E TypeFuel Fuel R = some (b, R', Trace) → Trace.Sublist R.L.Worklist) ∧
      (∀ (TypeFuel Fuel : Nat) (R : RunState) (ValuesToLink : List Nat) (b : Bool)
        (R' : RunState) (Trace : List Nat),
        move E TypeFuel Fuel R ValuesToLink = some (b, R', Trace) →
        Trace.Sublist (SmallSetVector.insertRange [] ValuesToLink))) ∧
    (∀ (Fuel : Nat) (R : RunState) (b : Bool) (R' : RunState) (Trace W A : List Nat),
      R.L.WorklistInv → R.L.Worklist = W ++ A →
      drainWorklist E Fuel R = some (b, R', Trace) →
      ∃ T1 T2, Trace = T1 ++ T2 ∧ (∀ x ∈ T1, x ∉ W) ∧ (∀ x ∈ T2, x ∉ A)) := by
  have hrun : E.AddsNothing →
      ∀ (TypeFuel Fuel : Nat) (R : RunState) (b : Bool) (R' : RunState) (Trace : List Nat),
        run E TypeFuel Fuel R = some (b, R', Trace) → Trace.Sublist R.L.Worklist := by
    intro hN TypeFuel Fuel R b R' Trace h
    obtain ⟨R2, hp, hc⟩ := run_cases E TypeFuel Fuel R b R' Trace h
    have hw := (prepare_spec E TypeFuel R R2 hp).2.2.2.2.2.2.2.2.2.2.1
    have key : ∀ bb RR, drainWorklist E Fuel R2 = some (bb, RR, Trace) →
        Trace.Sublist R.L.Worklist := by
      intro bb RR hd
      have := (drainWorklist_sublist E hN Fuel R2 bb RR Trace hd).1
      rw [hw, List.reverse_reverse] at this
      exact this
    rcases hc with ⟨_, hd⟩ | ⟨R3, hd, _⟩
    · exact key _ _ hd
    · exact key _ _ hd
  refine ⟨?_, ?_, ?_, ?_, ?_⟩
  · intro Context DstM Set SrcM ValuesToLink Postpass Diagnostics NextAddr W hW
    have hc := (IRLinker.create_worklist Context DstM Set SrcM ValuesToLink Postpass
      Diagnostics NextAddr).1
    have hf := insertRange_first_occurrences ValuesToLink [] [] List.nodup_nil
      (fun x => Iff.rfl) (fun x y hx _ => absurd hx (List.not_mem_nil x))
    rw [List.nil_append] at hf
    rw [hW, hc]
    exact hf
  · intro TypeFuel R R2 hp
    exact (prepare_spec E TypeFuel R R2 hp).2.2.2.2.2.2.2.2.2.2.1
  · intro Fuel R GV hl hm he
    exact drainWorklist_next E Fuel R GV hl hm he
  · intro hN
    refine ⟨hrun hN, ?_⟩
    intro TypeFuel Fuel R ValuesToLink b R' Trace h
    have := hrun hN TypeFuel Fuel _ b R' Trace h
    rw [← (IRLinker.create_worklist R.L.Context R.L.DstM R.L.TypeMap.DstStructTypesSet R.L.SrcM
      ValuesToLink R.L.IsMetadataLinkingPostpass R.L.Diagnostics R.L.NextAddr).1]
    exact this
  · intro Fuel R b R' Trace W A hinv hw h
    obtain ⟨T1, T2, k1, k2, k3⟩ := drainWorklist_split E hE Fuel R b R' Trace W A hinv hw h
    have hnd := List.nodup_append.1 (hw ▸ hinv.1)
    refine ⟨T1, T2, k1, ?_, ?_⟩
    · intro x hx hxW
      rcases k2 x hx with h | h
      · exact hnd.2.2 hxW h
      · exact h (hinv.2 x (by rw [hw]; exact List.mem_append.2 (Or.inl hxW)))
    · intro x hx hxA
      rcases k3 x hx with h | h
      · exact hnd.2.2 h hxA
      · exact h (hinv.2 x (by rw [hw]; exact List.mem_append.2 (Or.inr hxA)))

/-- C24, at the request list 200, 202, 200 with a value mapper that discovers
201 while it maps 200: the constructor keeps 200 and 202, and `move`
processes 200, then the discovered 201, then 202. -/
theorem run_processing_order_witness :
    (move exampleLazyExternals 10 10
      (exampleRunState (exampleLinker []) (exampleHeader "dst" "" "")
        (exampleHeader "src" "" "")) [200, 202, 200]).map (fun r => (r.1, r.2.2)) =
      some (false, [200, 201, 202]) ∧
    (IRLinker.create (exampleLinker []).Context (exampleLinker []).DstM ⟨[], []⟩
      (exampleLinker []).SrcM [200, 202, 200] false [] 300).Worklist = [200, 202] ∧
    ([200, 202] : List Nat).Nodup :=
  ⟨by decide, by decide,
    ((run_processing_order exampleLazyExternals
      (addsWithin_adds _ _ exampleLazyExternals_adds)).1 (exampleLinker []).Context
      (exampleLinker []).DstM ⟨[], []⟩ (exampleLinker []).SrcM [200, 202, 200] false [] 300
      [200, 202] (by decide)).1⟩

/-- The parts of `run` after the worklist never reset the failure flag. -/
theorem addMappedOperands_keepsError (E : Externals) (hE : E.KeepsError) (Name : String) :
    ∀ (ops : List (Option Nat)) (R : RunState), R.L.HasError = true →
      (addMappedOperands E Name ops R).L.HasError = true := by
  intro ops
  induction ops with
  | nil => intro R h; exact h
  | cons op rest ih =>
    intro R h
    rw [addMappedOperands]
    exact ih _ (hE.2.1 R op h)

theorem linkNamedLists_keepsError (E : Externals) (hE : E.KeepsError) (F : Nat) :
    ∀ (N : NamedMDList) (I : Nat) (R : RunState), R.L.HasError = true →
      (linkNamedLists E F I N R).L.HasError = true := by
  intro N
  induction N with
  | nil => intro I R h; exact h
  | cons NMD rest ih =>
    intro I R h
    rw [linkNamedLists]
    split
    · exact ih _ _ h
    · exact ih _ _ (addMappedOperands_keepsError E hE _ _ _ h)

theorem findNeededSubprograms_linker (R R1 : RunState) (h : findNeededSubprograms R = some R1) :
    R1.L = R.L ∧ R1.SrcNamedMD = R.SrcNamedMD ∧ R1.DstNamedMD = R.DstNamedMD ∧
    R1.ValIDToTempMDMap = R.ValIDToTempMDMap ∧ R1.MD = R.MD ∧ R1.DI = R.DI := by
  unfold findNeededSubprograms at h
  split at h
  · injection h with h
    rw [← h]
    exact ⟨rfl, rfl, rfl, rfl, rfl, rfl⟩
  · split at h
    · exact absurd h (by simp)
    · split at h
      · injection h with h
        rw [← h]
        exact ⟨rfl, rfl, rfl, rfl, rfl, rfl⟩
      · split at h
        · exact absurd h (by simp)
        · injection h with h
          rw [← h]
          exact ⟨rfl, rfl, rfl, rfl, rfl, rfl⟩

theorem stripNullSubprograms_linker (R R1 : RunState) (h : stripNullSubprograms R = some R1) :
    R1.L = R.L ∧ R1.SrcNamedMD = R.SrcNamedMD ∧ R1.DstNamedMD = R.DstNamedMD ∧
    R1.ValIDToTempMDMap = R.ValIDToTempMDMap ∧ R1.MD = R.MD ∧
    R1.MetadataToIDs = R.MetadataToIDs := by
  unfold stripNullSubprograms at h
  split at h
  · injection h with h
    rw [← h]
    exact ⟨rfl, rfl, rfl, rfl, rfl, rfl⟩
  · split at h
    · exact absurd h (by simp)
    · injection h with h
      rw [← h]
      exact ⟨rfl, rfl, rfl, rfl, rfl, rfl⟩

theorem linkNamedMDNodes_keepsError (E : Externals) (hE : E.KeepsError) (R R' : RunState)
    (h : linkNamedMDNodes E R = some R') (he : R.L.HasError = true) :
    R'.L.HasError = true := by
  unfold linkNamedMDNodes at h
  cases hf : findNeededSubprograms R with
  | none => rw [hf] at h; exact absurd h (by simp)
  | some R1 =>
    rw [hf] at h
    simp only at h
    rw [(stripNullSubprograms_linker _ _ h).1]
    apply linkNamedLists_keepsError E hE
    rw [(findNeededSubprograms_linker _ _ hf).1]
    exact he

theorem mapPostpassMetadata_keepsError (E : Externals) (hE : E.KeepsError) :
    ∀ (l : List (Nat × Nat)) (R R' : RunState), mapPostpassMetadata E l R = some R' →
      R.L.HasError = true → R'.L.HasError = true := by
  intro l
  induction l with
  | nil =>
    intro R R' h he
    rw [mapPostpassMetadata] at h
    injection h with h
    rw [← h]
    exact he
  | cons MDI rest ih =>
    intro R R' h he
    rw [mapPostpassMetadata] at h
    split at h
    · exact absurd h (by simp)
    · split at h
      · exact ih _ _ h he
      · exact ih _ _ h (hE.2.1 R _ he)

theorem linkModuleFlags_keepsError (R : RunState) (b : Bool) (R' : RunState)
    (h : linkModuleFlags R = some (b, R')) (he : R.L.HasError = true) :
    R'.L.HasError = true := by
  unfold linkModuleFlags at h
  split at h
  · simp only [Option.some.injEq, Prod.mk.injEq] at h
    rw [← h.2]
    exact he
  · split at h
    · split at h
      · exact absurd h (by simp)
      · rename_i b1 L1 M1 hl
        simp only [Option.some.injEq, Prod.mk.injEq] at h
        rw [← h.2]
        obtain ⟨⟨e, hext⟩, _, _⟩ := IRLinker.linkModuleFlagsMetadata_result _ _ _ _ _ hl
        exact IRLinker.diagnosticsExtend_hasError hext he
    · exact absurd h (by simp)

/-- The ways the metadata part of `run` can end. -/
theorem runMetadata_cases (E : Externals) (R : RunState) (b : Bool) (R' : RunState)
    (h : runMetadata E R = some (b, R')) :
    (R.L.shouldLinkMetadata R.ValIDToTempMDMap = false ∧ b = false ∧ R' = R) ∨
    (R.L.shouldLinkMetadata R.ValIDToTempMDMap = true ∧
      materializePostpass E R = (true, R') ∧ b = true) ∨
    (R.L.shouldLinkMetadata R.ValIDToTempMDMap = true ∧
      ∃ R1 R2 R3, materializePostpass E R = (false, R1) ∧ linkNamedMDNodes E R1 = some R2 ∧
        mapPostpass E R2 = some R3 ∧ linkModuleFlags R3 = some (b, R')) := by
  unfold runMetadata at h
  cases hs : R.L.shouldLinkMetadata R.ValIDToTempMDMap with
  | false =>
    rw [hs] at h
    simp only [Bool.false_eq_true, if_false, Option.some.injEq, Prod.mk.injEq] at h
    exact Or.inl ⟨rfl, h.1.symm, h.2.symm⟩
  | true =>
    rw [hs] at h
    simp only [if_true] at h
    right
    cases hm : materializePostpass E R with
    | mk f R1 =>
      rw [hm] at h
      cases f with
      | true =>
        simp only [Option.some.injEq, Prod.mk.injEq] at h
        left
        rw [← h.1, ← h.2]
        exact ⟨rfl, rfl, rfl⟩
      | false =>
        simp only at h
        right
        cases hn : linkNamedMDNodes E R1 with
        | none => rw [hn] at h; exact absurd h (by simp)
        | some R2 =>
          rw [hn] at h
          simp only at h
          cases hp : mapPostpass E R2 with
          | none => rw [hp] at h; exact absurd h (by simp)
          | some R3 =>
            rw [hp] at h
            exact ⟨rfl, R1, R2, R3, rfl, hn, hp, h⟩

theorem materializePostpass_keepsError (E : Externals) (hE : E.KeepsError) (R : RunState)
    (he : R.L.HasError = true) : (materializePostpass E R).2.L.HasError = true := by
  unfold materializePostpass
  split
  · simp only
    split
    · exact hE.2.2.1 R he
    · exact hE.2.2.2 _ (hE.2.2.1 R he)
  · exact he

theorem runMetadata_keepsError (E : Externals) (hE : E.KeepsError) (R : RunState) (b : Bool)
    (R' : RunState) (h : runMetadata E R = some (b, R')) (he : R.L.HasError = true) :
    R'.L.HasError = true := by
  rcases runMetadata_cases E R b R' h with ⟨_, _, h2⟩ | ⟨_, hm, _⟩ |
    ⟨_, R1, R2, R3, hm, hn, hp, hf⟩
  · rw [h2]; exact he
  · have := materializePostpass_keepsError E hE R he
    rw [hm] at this
    exact this
  · have h1 := materializePostpass_keepsError E hE R he
    rw [hm] at h1
    have h2 := linkNamedMDNodes_keepsError E hE _ _ hn h1
    have h3 : R3.L.HasError = true := by
      unfold mapPostpass at hp
      split at hp
      · exact mapPostpassMetadata_keepsError E hE _ _ _ hp h2
      · injection hp with hp
        rw [← hp]
        exact h2
    exact linkModuleFlags_keepsError R3 b R' hf h3

theorem drainWorklist_keepsError (E : Externals) (hE : E.KeepsError) :
    ∀ (Fuel : Nat) (R : RunState) (b : Bool) (R' : RunState) (Trace : List Nat),
      drainWorklist E Fuel R = some (b, R', Trace) → R.L.HasError = true →
      R'.L.HasError = true := by
  intro Fuel
  induction Fuel with
  | zero => intro R b R' Trace h; exact absurd h (by simp [drainWorklist])
  | succ Fuel ih =>
    intro R b R' Trace h he
    rcases drainWorklist_cases E Fuel R b R' Trace h with
      ⟨_, _, h2, _⟩ | ⟨GV, _, _, hd⟩ | ⟨GV, _, _, hh, _, h2, _⟩ | ⟨GV, T, _, _, _, hd, _⟩
    · rw [h2]; exact he
    · exact ih _ b R' Trace hd he
    · rw [h2]; exact hh
    · exact ih _ b R' T hd (hE.1 _ GV he)

end RunState

end IRMover

namespace IRMover

namespace RunState

theorem run_keepsError (E : Externals) (hE : E.KeepsError) (TypeFuel Fuel : Nat)
    (R : RunState) (b : Bool) (R' : RunState) (Trace : List Nat)
    (h : run E TypeFuel Fuel R = some (b, R', Trace)) (he : R.L.HasError = true) :
    R'.L.HasError = true := by
  obtain ⟨R2, hp, hc⟩ := run_cases E TypeFuel Fuel R b R' Trace h
  have h2 : R2.L.HasError = true := by
    rw [(prepare_spec E TypeFuel R R2 hp).2.2.2.2.2.2.2.2.2.2.2.2.1]
    exact he
  rcases hc with ⟨_, hd⟩ | ⟨R3, hd, hm⟩
  · exact drainWorklist_keepsError E hE Fuel R2 _ R' Trace hd h2
  · exact runMetadata_keepsError E hE _ b R' hm
      (drainWorklist_keepsError E hE Fuel R2 _ R3 Trace hd h2)

/-- A round that sets the failure flag ends `run`. -/
theorem run_fails_at (E : Externals) (TypeFuel n : Nat) (R R2 Rk : RunState) (T0 : List Nat)
    (GV : Nat) (hp : prepare E TypeFuel R = some R2)
    (hs : drainSteps E n R2 = some (Rk, T0))
    (htop : Rk.L.Worklist.getLast? = some GV)
    (hun : Rk.popWorklist.alreadyMapped GV = false)
    (herr : (E.MapValue Rk.popWorklist GV).L.HasError = true) (Fuel : Nat) (hF : n < Fuel) :
    run E TypeFuel Fuel R = some (true, E.MapValue Rk.popWorklist GV, T0 ++ [GV]) := by
  obtain ⟨k, hk⟩ : ∃ k, Fuel = n + (k + 1) := ⟨Fuel - n - 1, by omega⟩
  have hd : drainWorklist E Fuel R2 =
      some (true, E.MapValue Rk.popWorklist GV, T0 ++ [GV]) := by
    rw [hk, drainSteps_append E n R2 Rk T0 (k + 1) hs,
      drainWorklist_fail E k Rk GV htop hun herr]
    rfl
  unfold run
  rw [hp]
  simp only [hd]

/-- C26: if `run` reaches the worklist in the state `R2`, `n` rounds of the
loop go by without leaving it, and the next round gives the global `GV` to
`MapValue` with the failure flag set afterwards, then with any fuel above `n`
`run` returns true in exactly the state `MapValue` left: nothing is processed
after `GV`, the rest of the worklist stays unprocessed, `DoneLinkingBodies`
is not set, and named metadata and module flags are as `MapValue` left them.
The flag is never reset: `emitError` sets it, `emitWarning` and `maybeAdd`
keep it, and if the externals keep it set, then the loop, the metadata part
and the whole of `run` end with the flag set when they start with it set. -/
theorem run_sticky_failure (E : Externals) (TypeFuel n : Nat) (R R2 Rk : RunState)
    (T0 : List Nat) (GV : Nat) (hp : prepare E TypeFuel R = some R2)
    (hs : drainSteps E n R2 = some (Rk, T0))
    (htop : Rk.L.Worklist.getLast? = some GV)
    (hun : Rk.popWorklist.alreadyMapped GV = false)
    (herr : (E.MapValue Rk.popWorklist GV).L.HasError = true) :
    (∀ Fuel, n < Fuel →
      run E TypeFuel Fuel R = some (true, E.MapValue Rk.popWorklist GV, T0 ++ [GV])) ∧
    (∀ (L : IRLinker) (Message : String) (X : Nat),
      (L.emitError Message).HasError = true ∧ (L.emitWarning Message).HasError = L.HasError ∧
      (L.maybeAdd X).HasError = L.HasError) ∧
    (E.KeepsError →
      (∀ (Fuel : Nat) (S : RunState) (b : Bool) (S' : RunState) (Trace : List Nat),
        drainWorklist E Fuel S = some (b, S', Trace) → S.L.HasError = true →
        S'.L.HasError = true) ∧
      (∀ (S : RunState) (b : Bool) (S' : RunState), runMetadata E S = some (b, S') →
        S.L.HasError = true → S'.L.HasError = true) ∧
      (∀ (TF Fuel : Nat) (S : RunState) (b : Bool) (S' : RunState) (Trace : List Nat),
        run E TF Fuel S = some (b, S', Trace) → S.L.HasError = true →
        S'.L.HasError = true)) := by
  refine ⟨fun Fuel hF => run_fails_at E TypeFuel n R R2 Rk T0 GV hp hs htop hun herr Fuel hF,
    ?_, ?_⟩
  · intro L Message X
    refine ⟨rfl, rfl, ?_⟩
    unfold IRLinker.maybeAdd
    split <;> rfl
  · intro hE
    exact ⟨drainWorklist_keepsError E hE, runMetadata_keepsError E hE,
      fun TF Fuel S b S' Trace h he => run_keepsError E hE TF Fuel S b S' Trace h he⟩

/-- C26, at a run with the worklist 203, 200, 202 (203 on its back after the
reversal) in which the global 200 cannot be mapped: `run` returns true after
203 and 200, the global 202 stays on the worklist, and `DoneLinkingBodies`
is not set. -/
theorem run_sticky_failure_witness :
    (run exampleFailingExternals 10 10
      (exampleRunState (exampleLinker [203, 200, 202]) (exampleHeader "dst" "" "")
        (exampleHeader "src" "" ""))).map
      (fun r => (r.1, r.2.2, r.2.1.L.Worklist, r.2.1.L.DoneLinkingBodies, r.2.1.L.HasError)) =
      some (true, [203, 200], [202], false, true) := by
  rw [(run_sticky_failure exampleFailingExternals 10 1
    (exampleRunState (exampleLinker [203, 200, 202]) (exampleHeader "dst" "" "")
      (exampleHeader "src" "" "")) _ _ [203] 200 rfl rfl rfl rfl rfl).1 10 (by decide)]
  rfl

end RunState

end IRMover

namespace IRMover

namespace RunState

theorem nonNullOperands_eq (ops : List (Option Nat)) :
    ∀ l, nonNullOperands ops = some l → ops = l.map some := by
  induction ops with
  | nil =>
    intro l h
    rw [nonNullOperands] at h
    injection h with h
    rw [← h]
    rfl
  | cons o rest ih =>
    intro l h
    cases o with
    | none => rw [nonNullOperands] at h; exact absurd h (by simp)
    | some x =>
      rw [nonNullOperands] at h
      cases hr : nonNullOperands rest with
      | none => rw [hr] at h; exact absurd h (by simp)
      | some xs =>
        rw [hr] at h
        injection h with h
        rw [← h, ih xs hr]
        rfl

theorem flagOperands_empty (N : NamedMDList) (Dst : Option (List Nat))
    (h : flagOperands N = some Dst) :
    (Dst.getD []).length = 0 ↔ (N.getNamedMetadata "llvm.module.flags").getD [] = [] := by
  unfold flagOperands at h
  cases hg : N.getNamedMetadata "llvm.module.flags" with
  | none =>
    rw [hg] at h
    injection h with h
    rw [← h]
    simp
  | some Ops =>
    rw [hg] at h
    simp only at h
    cases hn : nonNullOperands Ops with
    | none => rw [hn] at h; exact absurd h (by simp)
    | some l =>
      rw [hn] at h
      simp only [Option.map_some', Option.some.injEq] at h
      rw [← h, nonNullOperands_eq Ops l hn]
      simp

/-- The value the flag merge of `run` returns: false if the source has no
module flags or the destination has none, and the failure flag otherwise. -/
theorem linkModuleFlags_result (R : RunState) (b : Bool) (R' : RunState)
    (h : linkModuleFlags R = some (b, R')) :
    (R.SrcNamedMD.getNamedMetadata "llvm.module.flags" = none → b = false ∧ R' = R) ∧
    ((R.DstNamedMD.getNamedMetadata "llvm.module.flags").getD [] = [] →
      b = false ∧ R'.L = R.L) ∧
    (R.SrcNamedMD.getNamedMetadata "llvm.module.flags" ≠ none →
      (R.DstNamedMD.getNamedMetadata "llvm.module.flags").getD [] ≠ [] →
      b = R'.L.HasError) := by
  unfold linkModuleFlags at h
  cases hs : R.SrcNamedMD.getNamedMetadata "llvm.module.flags" with
  | none =>
    rw [hs] at h
    simp only [Option.some.injEq, Prod.mk.injEq] at h
    rw [← h.1, ← h.2]
    exact ⟨fun _ => ⟨rfl, rfl⟩, fun _ => ⟨rfl, rfl⟩, fun hn => absurd rfl hn⟩
  | some SrcOps =>
    rw [hs] at h
    simp only at h
    cases hn : nonNullOperands SrcOps with
    | none => rw [hn] at h; exact absurd h (by simp)
    | some Src =>
      cases hd : flagOperands R.DstNamedMD with
      | none => rw [hn, hd] at h; exact absurd h (by simp)
      | some Dst =>
        rw [hn, hd] at h
        simp only at h
        cases hl : IRLinker.linkModuleFlagsMetadata R.L ⟨R.MD, Dst, some Src⟩ with
        | none => rw [hl] at h; exact absurd h (by simp)
        | some r =>
          obtain ⟨b1, L1, M1⟩ := r
          rw [hl] at h
          simp only [Option.some.injEq, Prod.mk.injEq] at h
          obtain ⟨_, k2, k3⟩ := IRLinker.linkModuleFlagsMetadata_result _ _ _ _ _ hl
          have hemp := flagOperands_empty R.DstNamedMD Dst hd
          rw [← h.1, ← h.2]
          refine ⟨fun hx => absurd hx (by simp), ?_, ?_⟩
          · intro he
            exact k2 (Or.inr (hemp.2 he))
          · intro _ hne
            exact k3 (by simp) (fun hz => hne (hemp.1 hz))

theorem materializePostpass_true (E : Externals) (R R' : RunState)
    (h : materializePostpass E R = (true, R')) :
    R.L.IsMetadataLinkingPostpass = true ∧ (E.materializeMetadata R).1 = true ∧
    R' = (E.materializeMetadata R).2 := by
  unfold materializePostpass at h
  split at h
  · rename_i hp
    simp only at h
    split at h
    · rename_i hm
      simp only [Prod.mk.injEq, true_and] at h
      exact ⟨hp, hm, h.symm⟩
    · simp at h
  · simp at h

/-- What `run` returns, path by path.  (1) `run` returns true when the
loop over the worklist ends with the failure flag set after a `MapValue`; the
flag is then set in the final state.  (2) Otherwise the loop leaves the flag
as it found it when it was unset (the steps before the loop only warn and
keep the flag), body linking is marked complete, and: if metadata is not
linked, `run` returns false; in the postpass, if materializing the metadata
fails, `run` returns true in the state the materializer left, whether or not
anything was reported; in the remaining case `run` returns what the flag
merge returns, which is false if the source has no module flags or the
destination has none (even if the failure flag was set while named metadata
was linked), and the failure flag otherwise.  (3) With enough fuel the loop
ends, and `run` returns as soon as the metadata part does. -/
theorem run_reports (E : Externals) (TypeFuel Fuel : Nat) (R : RunState) :
    (∀ (b : Bool) (R' : RunState) (Trace : List Nat),
      run E TypeFuel Fuel R = some (b, R', Trace) →
      ∃ R2, prepare E TypeFuel R = some R2 ∧ R2.L.HasError = R.L.HasError ∧
        ((b = true ∧ drainWorklist E Fuel R2 = some (true, R', Trace) ∧
            R'.L.HasError = true) ∨
          ∃ R3, drainWorklist E Fuel R2 = some (false, R3, Trace) ∧
            (R.L.HasError = false → R3.L.HasError = false) ∧
            ((R3.L.shouldLinkMetadata R3.ValIDToTempMDMap = false ∧ b = false ∧
                R' = { R3 with L := { R3.L with DoneLinkingBodies := true } }) ∨
              (R3.L.shouldLinkMetadata R3.ValIDToTempMDMap = true ∧
                R3.L.IsMetadataLinkingPostpass = true ∧
                (E.materializeMetadata
                  { R3 with L := { R3.L with DoneLinkingBodies := true } }).1 = true ∧
                R' = (E.materializeMetadata
                  { R3 with L := { R3.L with DoneLinkingBodies := true } }).2 ∧
                b = true) ∨
              (R3.L.shouldLinkMetadata R3.ValIDToTempMDMap = true ∧
                ∃ R5, linkModuleFlags R5 = some (b, R') ∧
                  (R5.SrcNamedMD.getNamedMetadata "llvm.module.flags" = none →
                    b = false ∧ R' = R5) ∧
                  ((R5.DstNamedMD.getNamedMetadata "llvm.module.flags").getD [] = [] →
                    b = false ∧ R'.L = R5.L) ∧
                  (R5.SrcNamedMD.getNamedMetadata "llvm.module.flags" ≠ none →
                    (R5.DstNamedMD.getNamedMetadata "llvm.module.flags").getD [] ≠ [] →
                    b = R'.L.HasError))))) ∧
    (∀ (U : List Nat) (R2 : RunState), prepare E TypeFuel R = some R2 → E.AddsWithin U →
      R.L.WorklistInv → R.L.ValuesToLink.Nodup → (∀ x ∈ R.L.ValuesToLink, x ∈ U) →
      R.L.Worklist.length + 2 * U.length < Fuel →
      ∃ r, drainWorklist E Fuel R2 = some r ∧
        (r.1 = true → run E TypeFuel Fuel R = some r) ∧
        (r.1 = false → run E TypeFuel Fuel R =
          (runMetadata E { r.2.1 with L := { r.2.1.L with DoneLinkingBodies := true } }).map
            (fun m => (m.1, m.2, r.2.2)))) := by
  constructor
  · intro b R' Trace h
    obtain ⟨R2, hp, hc⟩ := run_cases E TypeFuel Fuel R b R' Trace h
    have hps := prepare_spec E TypeFuel R R2 hp
    refine ⟨R2, hp, hps.2.2.2.2.2.2.2.2.2.2.2.2.1, ?_⟩
    rcases hc with ⟨hb, hd⟩ | ⟨R3, hd, hm⟩
    · exact Or.inl ⟨hb, hd, (drainWorklist_true E Fuel R2 R' Trace hd).1⟩
    · right
      refine ⟨R3, hd, ?_, ?_⟩
      · intro he
        apply (drainWorklist_false E Fuel R2 R3 Trace hd).1
        rw [hps.2.2.2.2.2.2.2.2.2.2.2.2.1]
        exact he
      · rcases runMetadata_cases E _ b R' hm with ⟨k1, k2, k3⟩ | ⟨k1, k2, k3⟩ |
          ⟨k1, R1, R4, R5, _, _, _, k5⟩
        · exact Or.inl ⟨k1, k2, k3⟩
        · obtain ⟨j1, j2, j3⟩ := materializePostpass_true E _ R' k2
          exact Or.inr (Or.inl ⟨k1, j1, j2, j3, k3⟩)
        · exact Or.inr (Or.inr ⟨k1, R5, k5, linkModuleFlags_result R5 b R' k5⟩)
  · intro U R2 hp hU hinv hnd hsub hlt
    have hps := prepare_spec E TypeFuel R R2 hp
    have hw := hps.2.2.2.2.2.2.2.2.2.2.1
    have hv := hps.2.2.2.2.2.2.2.2.2.2.2.1
    obtain ⟨r, hr⟩ := drainWorklist_total E U hU Fuel R2
      (prepare_worklistInv E TypeFuel R R2 hp hinv) (by rw [hv]; exact hnd)
      (by rw [hv]; exact hsub) (by rw [hw, hv, List.length_reverse]; omega)
    obtain ⟨b, R3, T⟩ := r
    refine ⟨_, hr, ?_, ?_⟩
    · intro hb
      simp only at hb
      unfold run
      rw [hp]
      simp only [hr, hb]
    · intro hb
      simp only at hb
      unfold run
      rw [hp]
      simp only [hr, hb]
      cases runMetadata E { R3 with L := { R3.L with DoneLinkingBodies := true } } with
      | none => rfl
      | some m => rfl

/-- A run without module flags in which nothing is requested returns false
with the failure flag unset. -/
theorem run_reports_witness :
    (run exampleExternals 10 10
      (exampleRunState (exampleLinker []) (exampleHeader "dst" "" "")
        (exampleHeader "src" "" ""))).map (fun r => (r.1, r.2.1.L.HasError)) =
      some (false, false) ∧
    ∃ R2, prepare exampleExternals 10
      (exampleRunState (exampleLinker []) (exampleHeader "dst" "" "")
        (exampleHeader "src" "" "")) = some R2 ∧
      R2.L.HasError = false := by
  have h0 : (run exampleExternals 10 10
      (exampleRunState (exampleLinker []) (exampleHeader "dst" "" "")
        (exampleHeader "src" "" ""))).map (fun r => (r.1, r.2.1.L.HasError)) =
      some (false, false) := by decide
  refine ⟨h0, ?_⟩
  cases h : run exampleExternals 10 10
      (exampleRunState (exampleLinker []) (exampleHeader "dst" "" "")
        (exampleHeader "src" "" "")) with
  | none => rw [h] at h0; exact absurd h0 (by simp)
  | some r =>
    obtain ⟨b, R', Trace⟩ := r
    obtain ⟨R2, hp, he, _⟩ := (run_reports exampleExternals 10 10
      (exampleRunState (exampleLinker []) (exampleHeader "dst" "" "")
        (exampleHeader "src" "" ""))).1 b R' Trace h
    exact ⟨R2, hp, he⟩

/-- C25: an error diagnostic is emitted and `run` still returns false.  The
source has a named metadata list whose operand refers to the source
`@llvm.global_ctors`, which nothing requested and which conflicts with the one
of the destination; the source has no module flags.  While the list is linked
the error `Appending variables with different element types!` is emitted by
`emitError` and the failure flag is set; the flag merge leaves through its
early `return false` and not through `return HasError`, and `run` ends with
`return false`. -/
theorem run_returns_false_after_error :
    (run exampleMetadataExternals 10 10 exampleMetadataRunState).map
      (fun r => (r.1, r.2.1.L.HasError, r.2.1.L.Diagnostics)) =
      some (false, true,
        [(DiagnosticSeverity.DS_Error, "Appending variables with different element types!")]) := by
  decide

end RunState

end IRMover

namespace IRMover

namespace DebugInfo

/-! ## Null subprograms -/

theorem filter_isSome_eq (l : List (Option Nat))
    (h : l.any (fun SP => SP.isNone) = false) : l.filter (fun SP => SP.isSome) = l := by
  rw [List.filter_eq_self]
  intro a ha
  rw [List.any_eq_false] at h
  cases a with
  | none => exact absurd rfl (h none ha)
  | some x => rfl

theorem stripCompileUnit_idem (CU : DICompileUnit) :
    stripCompileUnit (stripCompileUnit CU) = stripCompileUnit CU := by
  unfold stripCompileUnit
  simp

theorem castCompileUnit_replace (DI : DebugInfo) (N M : Nat) (SPs : List (Option Nat)) :
    (DI.replaceSubprograms N SPs).castCompileUnit M =
      if M = N then (DI.castCompileUnit N).map (fun CU => { CU with Subprograms := SPs })
      else DI.castCompileUnit M := by
  unfold replaceSubprograms castCompileUnit
  simp only
  induction DI.CompileUnits with
  | nil => simp
  | cons e rest ih =>
    rw [List.map_cons]
    by_cases heN : e.1 = N
    · by_cases hMN : M = N
      · simp [heN, hMN]
      · have : ¬ N = M := fun h => hMN h.symm
        rw [if_neg hMN] at ih ⊢
        simp only [heN, if_true, List.find?_cons, this, decide_False]
        exact ih
    · by_cases heM : e.1 = M
      · have hMN : ¬ M = N := fun h => heN (heM.trans h)
        simp [heN, heM, hMN]
      · simp only [heN, if_false, List.find?_cons, heM, decide_False]
        exact ih

/-- One round of the loop of `stripNullSubprograms`. -/
theorem castCompileUnit_strip (DI : DebugInfo) (N M : Nat) (CU : DICompileUnit)
    (hN : DI.castCompileUnit N = some CU) :
    (if CU.Subprograms.any (fun SP => SP.isNone) then
        DI.replaceSubprograms N (CU.Subprograms.filter (fun SP => SP.isSome))
      else DI).castCompileUnit M =
      if M = N then some (stripCompileUnit CU) else DI.castCompileUnit M := by
  cases hany : CU.Subprograms.any (fun SP => SP.isNone) with
  | true =>
    simp only [if_true]
    rw [castCompileUnit_replace, hN]
    rfl
  | false =>
    simp only [Bool.false_eq_true, if_false]
    by_cases hMN : M = N
    · rw [if_pos hMN, hMN, hN]
      unfold stripCompileUnit
      rw [filter_isSome_eq _ hany]
    · rw [if_neg hMN]

end DebugInfo

namespace RunState

theorem stripNullIn_spec :
    ∀ (ops : List (Option Nat)) (DI DI' : DebugInfo), stripNullIn ops DI = some DI' →
      ∀ M, DI'.castCompileUnit M =
        if some M ∈ ops then (DI.castCompileUnit M).map DebugInfo.stripCompileUnit
        else DI.castCompileUnit M := by
  intro ops
  induction ops with
  | nil =>
    intro DI DI' h M
    rw [stripNullIn] at h
    injection h with h
    rw [← h]
    simp
  | cons op rest ih =>
    intro DI DI' h M
    cases op with
    | none => rw [stripNullIn] at h; exact absurd h (by simp)
    | some N =>
      rw [stripNullIn] at h
      cases hN : DI.castCompileUnit N with
      | none => rw [hN] at h; exact absurd h (by simp)
      | some CU =>
        rw [hN] at h
        simp only at h
        have h1 := ih _ DI' h M
        rw [DebugInfo.castCompileUnit_strip DI N M CU hN] at h1
        rw [h1]
        by_cases hMN : M = N
        · rw [hMN] at h1 ⊢
          simp only [if_true, List.mem_cons, true_or, hN, Option.map_some',
            DebugInfo.stripCompileUnit_idem]
          split <;> rfl
        · have hne : ¬ (some M = some N) := fun hh => hMN (Option.some.inj hh)
          simp only [hMN, if_false, List.mem_cons, hne, false_or]

theorem stripNullIn_total :
    ∀ (ops : List (Option Nat)) (DI : DebugInfo), DI.CompileUnitsOK ops →
      ∃ DI', stripNullIn ops DI = some DI' := by
  intro ops
  induction ops with
  | nil => intro DI _; exact ⟨DI, rfl⟩
  | cons op rest ih =>
    intro DI hok
    obtain ⟨N, hop, hN⟩ := hok op (List.mem_cons_self _ _)
    rw [hop, stripNullIn]
    cases hc : DI.castCompileUnit N with
    | none => rw [hc] at hN; exact absurd hN (by simp)
    | some CU =>
      simp only
      apply ih
      intro op' hop'
      obtain ⟨N', hop2, hN'⟩ := hok op' (List.mem_cons_of_mem _ hop')
      refine ⟨N', hop2, ?_⟩
      rw [DebugInfo.castCompileUnit_strip DI N N' CU hc]
      split
      · rfl
      · exact hN'

/-- C31: `stripNullSubprograms` changes the debug info only, and there, for
every compile unit of the list `llvm.dbg.cu` of the destination, the list of
subprograms becomes the old one with the nulls taken out: it has no null
entry, it is a sublist of the old list (so the order of the remaining
subprograms is kept), the imported entities are kept, and a compile unit
without a null entry is left as it was; compile units outside the list are
not touched.  The method completes if every operand of the list is a compile
unit. -/
theorem stripNullSubprograms_compacts (R : RunState) :
    (R.DI.CompileUnitsOK ((R.DstNamedMD.getNamedMetadata "llvm.dbg.cu").getD []) →
      ∃ R', stripNullSubprograms R = some R') ∧
    ∀ R', stripNullSubprograms R = some R' →
      R' = { R with DI := R'.DI } ∧
      (∀ N, some N ∈ (R.DstNamedMD.getNamedMetadata "llvm.dbg.cu").getD [] →
        ∃ CU CU', R.DI.castCompileUnit N = some CU ∧ R'.DI.castCompileUnit N = some CU' ∧
          CU'.Subprograms = CU.Subprograms.filter (fun SP => SP.isSome) ∧
          none ∉ CU'.Subprograms ∧ CU'.Subprograms.Sublist CU.Subprograms ∧
          CU'.ImportedEntities = CU.ImportedEntities ∧
          (none ∉ CU.Subprograms → CU' = CU)) ∧
      (∀ N, some N ∉ (R.DstNamedMD.getNamedMetadata "llvm.dbg.cu").getD [] →
        R'.DI.castCompileUnit N = R.DI.castCompileUnit N) := by
  constructor
  · intro hok
    unfold stripNullSubprograms
    cases hg : R.DstNamedMD.getNamedMetadata "llvm.dbg.cu" with
    | none => exact ⟨R, rfl⟩
    | some CUs =>
      rw [hg] at hok
      obtain ⟨DI', h⟩ := stripNullIn_total CUs R.DI hok
      simp only [h]
      exact ⟨_, rfl⟩
  · intro R' h
    unfold stripNullSubprograms at h
    cases hg : R.DstNamedMD.getNamedMetadata "llvm.dbg.cu" with
    | none =>
      rw [hg] at h
      injection h with h
      rw [← h]
      refine ⟨rfl, ?_, fun _ _ => rfl⟩
      intro N hN
      exact absurd hN (List.not_mem_nil _)
    | some CUs =>
      rw [hg] at h
      simp only at h
      cases hs : stripNullIn CUs R.DI with
      | none => rw [hs] at h; exact absurd h (by simp)
      | some DI' =>
        rw [hs] at h
        injection h with h
        have hspec := stripNullIn_spec CUs R.DI DI' hs
        rw [← h]
        refine ⟨rfl, ?_, ?_⟩
        · intro N hN
          have hN' : some N ∈ CUs := hN
          have h1 := hspec N
          rw [if_pos hN'] at h1
          cases hc : R.DI.castCompileUnit N with
          | none =>
            -- the loop would have stopped at this operand
            exfalso
            have : ∀ (ops : List (Option Nat)) (DI : DebugInfo), some N ∈ ops →
                DI.castCompileUnit N = none → stripNullIn ops DI = none := by
              intro ops
              induction ops with
              | nil => intro DI hm; exact absurd hm (List.not_mem_nil _)
              | cons op rest ih =>
                intro DI hm hn
                cases op with
                | none => rfl
                | some K =>
                  rw [stripNullIn]
                  cases hK : DI.castCompileUnit K with
                  | none => rfl
                  | some CU =>
                    simp only
                    have hKN : N ≠ K := by
                      intro hh
                      rw [hh, hK] at hn
                      exact absurd hn (by simp)
                    apply ih
                    · rcases List.mem_cons.1 hm with hh | hh
                      · exact absurd (Option.some.inj hh) hKN
                      · exact hh
                    · rw [DebugInfo.castCompileUnit_strip DI K N CU hK, if_neg hKN]
                      exact hn
            rw [this CUs R.DI hN' hc] at hs
            exact absurd hs (by simp)
          | some CU =>
            rw [hc] at h1
            refine ⟨CU, DebugInfo.stripCompileUnit CU, rfl, h1, rfl, ?_, ?_, rfl, ?_⟩
            · intro hmem
              have := (List.mem_filter.1 hmem).2
              exact absurd this (by simp)
            · exact List.filter_sublist _
            · intro hnone
              unfold DebugInfo.stripCompileUnit
              have : CU.Subprograms.filter (fun SP => SP.isSome) = CU.Subprograms := by
                rw [List.filter_eq_self]
                intro a ha
                cases a with
                | none => exact absurd ha hnone
                | some x => rfl
              rw [this]
        · intro N hN
          have hN' : some N ∉ CUs := hN
          have h1 := hspec N
          rw [if_neg hN'] at h1
          exact h1

/-- C31, at a destination whose compile unit 12 lists the subprogram 23, a
null entry and the subprogram 24, and whose compile unit 11 lists the
subprogram 22 only: afterwards the unit 12 lists 23 and 24, and the unit 11
is as before. -/
theorem stripNullSubprograms_compacts_witness :
    (stripNullSubprograms exampleDebugRunState).map
      (fun r => (r.DI.castCompileUnit 11, r.DI.castCompileUnit 12)) =
      some (some ⟨[some 22], [30]⟩, some ⟨[some 23, some 24], []⟩) ∧
    ∃ R', stripNullSubprograms exampleDebugRunState = some R' :=
  ⟨by decide,
    (stripNullSubprograms_compacts exampleDebugRunState).1 (by
      intro op hop
      have hop' : op ∈ [some 11, some 12] := hop
      rcases List.mem_cons.1 hop' with h | h
      · exact ⟨11, h, by decide⟩
      · rw [List.mem_singleton.1 h]
        exact ⟨12, rfl, by decide⟩)⟩

end RunState

end IRMover

namespace IRMover

namespace RunState

/-! ## Unneeded subprograms -/

theorem smallPtrSet_insert_mem (S : SmallPtrSet) (X Y : Nat) :
    Y ∈ (SmallPtrSet.insert S X).1 ↔ Y ∈ S ∨ Y = X := by
  unfold SmallPtrSet.insert
  split
  · constructor
    · exact Or.inl
    · rintro (h | h)
      · exact h
      · rw [h]; assumption
  · simp

theorem dynCastSubprogram_eq (DI : DebugInfo) (N SP : Nat) :
    DI.dynCastSubprogram N = some SP ↔ N = SP ∧ SP ∈ DI.Subprograms := by
  unfold DebugInfo.dynCastSubprogram
  split
  · rename_i h
    constructor
    · intro hh
      have := Option.some.inj hh
      exact ⟨this, this ▸ h⟩
    · intro hh
      rw [hh.1]
  · rename_i h
    constructor
    · intro hh; exact absurd hh (by simp)
    · intro hh
      rw [hh.1] at h
      exact absurd hh.2 h

/-- The set `ImportedEntitySPs` of a compile unit holds the subprograms that
are the entity or the scope of one of its imported entities. -/
theorem importedEntitySPs_spec (DI : DebugInfo) :
    ∀ (IEs : List Nat) (S S' : SmallPtrSet), importedEntitySPs DI IEs S = some S' →
      ∀ SP, SP ∈ S' ↔ SP ∈ S ∨ (SP ∈ DI.Subprograms ∧ DI.ImportedBy IEs SP) := by
  intro IEs
  induction IEs with
  | nil =>
    intro S S' h SP
    rw [importedEntitySPs] at h
    injection h with h
    rw [← h]
    constructor
    · exact Or.inl
    · rintro (h | ⟨_, IE, hIE, _⟩)
      · exact h
      · exact absurd hIE (List.not_mem_nil _)
  | cons IE rest ih =>
    intro S S' h SP
    rw [importedEntitySPs] at h
    cases hc : DI.castImportedEntity IE with
    | none => rw [hc] at h; exact absurd h (by simp)
    | some ie =>
      rw [hc] at h
      simp only at h
      rw [ih _ S' h SP]
      have hstep : ∀ (T : SmallPtrSet) (X : Nat),
          SP ∈ (match DI.dynCastSubprogram X with
            | some Q => (SmallPtrSet.insert T Q).1
            | none => T) ↔ SP ∈ T ∨ (X = SP ∧ SP ∈ DI.Subprograms) := by
        intro T X
        cases hd : DI.dynCastSubprogram X with
        | none =>
          simp only
          constructor
          · exact Or.inl
          · rintro (h | h)
            · exact h
            · rw [(dynCastSubprogram_eq DI X SP).2 h] at hd
              exact absurd hd (by simp)
        | some Q =>
          simp only
          rw [smallPtrSet_insert_mem]
          have hQ := (dynCastSubprogram_eq DI X Q).1 hd
          constructor
          · rintro (h | h)
            · exact Or.inl h
            · right
              rw [h]
              exact hQ
          · rintro (h | h)
            · exact Or.inl h
            · right
              rw [← h.1, hQ.1]
      rw [hstep, hstep]
      constructor
      · rintro (((h | h) | h) | h)
        · exact Or.inl h
        · exact Or.inr ⟨h.2, IE, List.mem_cons_self _ _, ie, hc, Or.inl h.1⟩
        · exact Or.inr ⟨h.2, IE, List.mem_cons_self _ _, ie, hc, Or.inr h.1⟩
        · obtain ⟨h1, IE', hm, ie', hc', hor⟩ := h
          exact Or.inr ⟨h1, IE', List.mem_cons_of_mem _ hm, ie', hc', hor⟩
      · rintro (h | ⟨h1, IE', hm, ie', hc', hor⟩)
        · exact Or.inl (Or.inl (Or.inl h))
        · rcases List.mem_cons.1 hm with hh | hh
          · rw [hh, hc] at hc'
            have := Option.some.inj hc'
            rw [← this] at hor
            rcases hor with hor | hor
            · exact Or.inl (Or.inl (Or.inr ⟨hor, h1⟩))
            · exact Or.inl (Or.inr ⟨hor, h1⟩)
          · exact Or.inr ⟨h1, IE', hh, ie', hc', hor⟩

theorem importedEntitySPs_total (DI : DebugInfo) :
    ∀ (IEs : List Nat) (S : SmallPtrSet),
      (∀ IE ∈ IEs, (DI.castImportedEntity IE).isSome = true) →
      ∃ S', importedEntitySPs DI IEs S = some S' := by
  intro IEs
  induction IEs with
  | nil => intro S _; exact ⟨S, rfl⟩
  | cons IE rest ih =>
    intro S h
    rw [importedEntitySPs]
    cases hc : DI.castImportedEntity IE with
    | none =>
      have := h IE (List.mem_cons_self _ _)
      rw [hc] at this
      exact absurd this (by simp)
    | some ie =>
      simp only
      exact ih _ (fun IE' hm => h IE' (List.mem_cons_of_mem _ hm))

theorem mdMap_lookup_subscript (m : MDMapTy) (X Op : Option Nat) :
    (m.subscript X).lookup Op = m.lookup Op := by
  unfold MDMapTy.subscript
  split
  · rfl
  · rename_i h
    unfold MDMapTy.lookup
    rw [List.find?_append]
    cases hf : m.find? (fun e => decide (e.1 = Op)) with
    | some e => rfl
    | none =>
      simp only [Option.none_or, List.find?_cons, List.find?_nil]
      by_cases hX : X = Op
      · simp [hX]
      · simp [hX]

theorem insertUnneeded_mem (U : List (Option Nat)) (X Y : Option Nat) :
    Y ∈ insertUnneeded U X ↔ Y ∈ U ∨ Y = X := by
  unfold insertUnneeded
  split
  · constructor
    · exact Or.inl
    · rintro (h | h)
      · exact h
      · rw [h]; assumption
  · simp

theorem markUnneeded_spec (S : SmallPtrSet) :
    ∀ (ops : List (Option Nat)) (m : MDMapTy) (U : List (Option Nat)),
      (∀ Op, (markUnneeded S ops m U).1.lookup Op = m.lookup Op) ∧
      (∀ Op, Op ∈ (markUnneeded S ops m U).2 ↔
        Op ∈ U ∨ (Op ∈ ops ∧ m.lookup Op = none ∧ countSP S Op = false)) := by
  intro ops
  induction ops with
  | nil =>
    intro m U
    rw [markUnneeded]
    exact ⟨fun _ => rfl, fun Op => by simp⟩
  | cons X rest ih =>
    intro m U
    rw [markUnneeded]
    by_cases hc : ((m.lookup X).isNone && !(countSP S X)) = true
    · rw [if_pos hc]
      obtain ⟨h1, h2⟩ := ih (m.subscript X) (insertUnneeded U X)
      refine ⟨fun Op => (h1 Op).trans (mdMap_lookup_subscript m X Op), ?_⟩
      intro Op
      rw [h2 Op, insertUnneeded_mem, mdMap_lookup_subscript]
      simp only [Bool.and_eq_true, Option.isNone_iff_eq_none, Bool.not_eq_true'] at hc
      constructor
      · rintro ((h | h) | h)
        · exact Or.inl h
        · exact Or.inr ⟨by rw [h]; exact List.mem_cons_self _ _, by rw [h]; exact hc.1,
            by rw [h]; exact hc.2⟩
        · exact Or.inr ⟨List.mem_cons_of_mem _ h.1, h.2⟩
      · rintro (h | ⟨hm, hl, hn⟩)
        · exact Or.inl (Or.inl h)
        · rcases List.mem_cons.1 hm with hh | hh
          · exact Or.inl (Or.inr hh)
          · exact Or.inr ⟨hh, hl, hn⟩
    · rw [if_neg hc]
      obtain ⟨h1, h2⟩ := ih (m.subscript X) U
      refine ⟨fun Op => (h1 Op).trans (mdMap_lookup_subscript m X Op), ?_⟩
      intro Op
      rw [h2 Op, mdMap_lookup_subscript]
      simp only [Bool.and_eq_true, Option.isNone_iff_eq_none, Bool.not_eq_true', not_and,
        Bool.not_eq_false] at hc
      constructor
      · rintro (h | h)
        · exact Or.inl h
        · exact Or.inr ⟨List.mem_cons_of_mem _ h.1, h.2⟩
      · rintro (h | ⟨hm, hl, hn⟩)
        · exact Or.inl h
        · rcases List.mem_cons.1 hm with hh | hh
          · rw [hh] at hl hn
            rw [hc hl] at hn
            exact absurd hn (by simp)
          · exact Or.inr ⟨hh, hl, hn⟩

theorem countSP_false (DI : DebugInfo) (IEs : List Nat) (S : SmallPtrSet)
    (h : importedEntitySPs DI IEs [] = some S) (Op : Option Nat) :
    countSP S Op = false ↔
      ¬ ∃ SP, Op = some SP ∧ SP ∈ DI.Subprograms ∧ DI.ImportedBy IEs SP := by
  have hs := importedEntitySPs_spec DI IEs [] S h
  cases Op with
  | none =>
    simp [countSP]
  | some X =>
    simp only [countSP, decide_eq_false_iff_not, Option.some.injEq]
    rw [hs X]
    constructor
    · rintro hn ⟨SP, h1, h2, h3⟩
      rw [← h1] at h2 h3
      exact hn (Or.inr ⟨h2, h3⟩)
    · rintro hn (h | ⟨h2, h3⟩)
      · exact absurd h (List.not_mem_nil _)
      · exact hn ⟨X, rfl, h2, h3⟩

theorem findUnneededIn_spec (DI : DebugInfo) :
    ∀ (ops : List (Option Nat)) (m : MDMapTy) (U : List (Option Nat)) (m' : MDMapTy)
      (U' : List (Option Nat)), findUnneededIn DI ops m U = some (m', U') →
      (∀ Op, m'.lookup Op = m.lookup Op) ∧
      (∀ Op, Op ∈ U' ↔ Op ∈ U ∨ ∃ N CU, some N ∈ ops ∧ DI.castCompileUnit N = some CU ∧
        Op ∈ CU.Subprograms ∧ m.lookup Op = none ∧
        ¬ ∃ SP, Op = some SP ∧ SP ∈ DI.Subprograms ∧ DI.ImportedBy CU.ImportedEntities SP) := by
  intro ops
  induction ops with
  | nil =>
    intro m U m' U' h
    rw [findUnneededIn] at h
    simp only [Option.some.injEq, Prod.mk.injEq] at h
    rw [← h.1, ← h.2]
    refine ⟨fun _ => rfl, fun Op => ?_⟩
    constructor
    · exact Or.inl
    · rintro (h | ⟨N, _, hN, _⟩)
      · exact h
      · exact absurd hN (List.not_mem_nil _)
  | cons op rest ih =>
    intro m U m' U' h
    cases op with
    | none => rw [findUnneededIn] at h; exact absurd h (by simp)
    | some N =>
      rw [findUnneededIn] at h
      cases hc : DI.castCompileUnit N with
      | none => rw [hc] at h; exact absurd h (by simp)
      | some CU =>
        rw [hc] at h
        simp only at h
        cases hi : importedEntitySPs DI CU.ImportedEntities [] with
        | none => rw [hi] at h; exact absurd h (by simp)
        | some S =>
          rw [hi] at h
          simp only at h
          obtain ⟨k1, k2⟩ := ih _ _ m' U' h
          obtain ⟨j1, j2⟩ := markUnneeded_spec S CU.Subprograms m U
          refine ⟨fun Op => (k1 Op).trans (j1 Op), fun Op => ?_⟩
          rw [k2 Op, j2 Op, countSP_false DI CU.ImportedEntities S hi Op]
          constructor
          · rintro ((h | h) | ⟨N', CU', hN', hc', hm, hl, hn⟩)
            · exact Or.inl h
            · exact Or.inr ⟨N, CU, List.mem_cons_self _ _, hc, h⟩
            · rw [j1 Op] at hl
              exact Or.inr ⟨N', CU', List.mem_cons_of_mem _ hN', hc', hm, hl, hn⟩
          · rintro (h | ⟨N', CU', hN', hc', hm, hl, hn⟩)
            · exact Or.inl (Or.inl h)
            · rcases List.mem_cons.1 hN' with hh | hh
              · have hNN : N' = N := Option.some.inj hh
                rw [hNN, hc] at hc'
                have hCU := Option.some.inj hc'
                rw [← hCU] at hm hn
                exact Or.inl (Or.inr ⟨hm, hl, hn⟩)
              · right
                refine ⟨N', CU', hh, hc', hm, ?_, hn⟩
                rw [j1 Op]
                exact hl

theorem findUnneededIn_total (DI : DebugInfo) :
    ∀ (ops : List (Option Nat)) (m : MDMapTy) (U : List (Option Nat)), DI.ImportsOK ops →
      ∃ r, findUnneededIn DI ops m U = some r := by
  intro ops
  induction ops with
  | nil => intro m U _; exact ⟨_, rfl⟩
  | cons op rest ih =>
    intro m U hok
    obtain ⟨N, CU, hop, hc, hie⟩ := hok op (List.mem_cons_self _ _)
    rw [hop, findUnneededIn, hc]
    simp only
    obtain ⟨S, hS⟩ := importedEntitySPs_total DI CU.ImportedEntities [] hie
    rw [hS]
    simp only
    exact ih _ _ (fun op' hm => hok op' (List.mem_cons_of_mem _ hm))

end RunState

end IRMover

namespace IRMover

namespace RunState

/-- The unneeded set, unit by unit: in a merge that is not the postpass, let the source have the
list `llvm.dbg.cu` with the operands `CUs`.  After `findNeededSubprograms` an
entry is in the unneeded set if and only if it was there before or some
compile unit of `CUs` lists it, the metadata side of the value map has no
non-null entry for it, and it is not a subprogram that is the entity or the
scope of an imported entity of that same compile unit.  `isMetadataNeeded`
then returns false exactly for the tuples whose subprogram, as given by
`getDISubprogram`, is in the set.  The method completes if every operand is a
compile unit whose imported entities are imported entities. -/
theorem findNeededSubprograms_unneeded (R : RunState) (CUs : List (Option Nat))
    (hpost : R.L.IsMetadataLinkingPostpass = false)
    (hcu : R.SrcNamedMD.getNamedMetadata "llvm.dbg.cu" = some CUs) :
    (R.DI.ImportsOK CUs → ∃ R', findNeededSubprograms R = some R') ∧
    ∀ R', findNeededSubprograms R = some R' →
      (∀ Op : Option Nat, Op ∈ R'.UnneededSubprograms ↔
        Op ∈ R.UnneededSubprograms ∨
        ∃ N CU, some N ∈ CUs ∧ R.DI.castCompileUnit N = some CU ∧ Op ∈ CU.Subprograms ∧
          R.MDMap.lookup Op = none ∧
          ¬ ∃ SP, Op = some SP ∧ SP ∈ R.DI.Subprograms ∧
            R.DI.ImportedBy CU.ImportedEntities SP) ∧
      (∀ MD : Nat, isMetadataNeeded R' MD = false ↔
        isMDNode R'.MD MD = true ∧
        ∃ SP, R'.DI.getDISubprogram MD = some SP ∧ some SP ∈ R'.UnneededSubprograms) := by
  constructor
  · intro hok
    unfold findNeededSubprograms
    rw [hcu]
    simp only
    obtain ⟨r, hr⟩ := findUnneededIn_total R.DI CUs R.MDMap R.UnneededSubprograms hok
    rw [hr, hpost]
    exact ⟨_, rfl⟩
  · intro R' h
    unfold findNeededSubprograms at h
    rw [hcu] at h
    simp only at h
    cases hf : findUnneededIn R.DI CUs R.MDMap R.UnneededSubprograms with
    | none => rw [hf] at h; exact absurd h (by simp)
    | some r =>
      obtain ⟨m, U⟩ := r
      rw [hf, hpost] at h
      simp only [Bool.not_false, if_true, Option.some.injEq] at h
      obtain ⟨_, k2⟩ := findUnneededIn_spec R.DI CUs _ _ m U hf
      have hU : R'.UnneededSubprograms = U := by rw [← h]
      refine ⟨fun Op => by rw [hU]; exact k2 Op, ?_⟩
      intro MD
      unfold isMetadataNeeded
      by_cases he : R'.UnneededSubprograms.isEmpty = true
      · rw [if_pos he]
        have hnil : R'.UnneededSubprograms = [] := List.isEmpty_iff.1 he
        constructor
        · intro hh; exact absurd hh (by simp)
        · rintro ⟨_, SP, _, hm⟩
          rw [hnil] at hm
          exact absurd hm (List.not_mem_nil _)
      · rw [if_neg he]
        cases hn : isMDNode R'.MD MD with
        | false =>
          simp only [Bool.not_false, if_true]
          constructor
          · intro hh; exact absurd hh (by simp)
          · rintro ⟨hh, _⟩; exact absurd hh (by simp)
        | true =>
          simp only [Bool.not_true, Bool.false_eq_true, if_false, true_and]
          cases hg : R'.DI.getDISubprogram MD with
          | none =>
            simp only
            constructor
            · intro hh; exact absurd hh (by simp)
            · rintro ⟨SP, hh, _⟩; exact absurd hh (by simp)
          | some SP =>
            simp only [Bool.not_eq_false', decide_eq_true_eq, Option.some.injEq]
            constructor
            · intro hh; exact ⟨SP, rfl, hh⟩
            · rintro ⟨SP', h1, h2⟩
              rw [h1]; exact h2

/-- At a source with the compile units 10 (subprograms 20 and 21, no
imported entity) and 11 (subprogram 22, which is the scope of its imported
entity 30): the unneeded set becomes 20 and 21, so the subprogram 21 and its
local scope 40 are not needed, while the subprogram 22 and the string 41 are
needed. -/
theorem findNeededSubprograms_unneeded_witness :
    (findNeededSubprograms exampleDebugRunState).map
      (fun r => (r.UnneededSubprograms, isMetadataNeeded r 21, isMetadataNeeded r 40,
        isMetadataNeeded r 22, isMetadataNeeded r 41)) =
      some ([some 20, some 21], false, false, true, true) ∧
    ∃ R', findNeededSubprograms exampleDebugRunState = some R' :=
  ⟨by decide,
    (findNeededSubprograms_unneeded exampleDebugRunState [some 10, some 11] rfl rfl).1 (by
      intro op hop
      rcases List.mem_cons.1 hop with h | h
      · exact ⟨10, ⟨[some 20, some 21], []⟩, h, by decide, by
          intro IE hIE; exact absurd hIE (List.not_mem_nil _)⟩
      · rw [List.mem_singleton.1 h]
        exact ⟨11, ⟨[some 22], [30]⟩, rfl, by decide, by
          intro IE hIE
          rw [List.mem_singleton.1 hIE]
          decide⟩)⟩

/-- C30: a subprogram that is the entity of an imported entity ends in the
unneeded set.  The subprogram 20 is listed in the compile unit 10 and is the
entity of the imported entity 30, which belongs to the compile unit 11; it has
no entry in the value map.  After `findNeededSubprograms` it is in the
unneeded set, and `isMetadataNeeded` returns false for it: the set of
subprograms that imported entities refer to is collected per compile unit. -/
theorem findNeededSubprograms_drops_imported :
    exampleDebugInfo.castImportedEntity 30 = some ⟨22, 20⟩ ∧
    exampleDebugInfo.castCompileUnit 11 = some ⟨[some 22], [30]⟩ ∧
    exampleDebugInfo.castCompileUnit 10 = some ⟨[some 20, some 21], []⟩ ∧
    exampleDebugRunState.SrcNamedMD.getNamedMetadata "llvm.dbg.cu" = some [some 10, some 11] ∧
    (findNeededSubprograms exampleDebugRunState).map
      (fun r => (decide (some 20 ∈ r.UnneededSubprograms), isMetadataNeeded r 20)) =
      some (true, false) := by
  decide

end RunState

end IRMover

namespace IRMover

namespace NamedMDList

/-! ## Named metadata -/

theorem getNamedMetadata_map (N : NamedMDList) (Name X : String)
    (g : List (Option Nat) → List (Option Nat)) :
    getNamedMetadata (N.map (fun e => if e.1 = Name then (e.1, g e.2) else e)) X =
      if X = Name then (getNamedMetadata N X).map g else getNamedMetadata N X := by
  unfold getNamedMetadata
  induction N with
  | nil => simp
  | cons e rest ih =>
    rw [List.map_cons]
    by_cases heN : e.1 = Name
    · by_cases heX : e.1 = X
      · have hXN : X = Name := heX.symm.trans heN
        simp [heN, hXN]
      · have hXN : ¬ X = Name := fun h => heX (heN.trans h.symm)
        have hNX : ¬ Name = X := fun h => hXN h.symm
        rw [if_neg hXN] at ih ⊢
        simp only [heN, if_true, List.find?_cons, hNX, decide_False]
        exact ih
    · by_cases heX : e.1 = X
      · have hXN : ¬ X = Name := fun h => heN (heX.trans h)
        simp [heN, heX, hXN]
      · simp only [heN, if_false, List.find?_cons, heX, decide_False]
        exact ih

theorem getNamedMetadata_append (N : NamedMDList) (Name X : String) :
    getNamedMetadata (N ++ [(Name, [])]) X =
      match getNamedMetadata N X with
      | some ops => some ops
      | none => if X = Name then some [] else none := by
  unfold getNamedMetadata
  rw [List.find?_append]
  cases hf : N.find? (fun e => decide (e.1 = X)) with
  | some e => rfl
  | none =>
    simp only [Option.none_or, Option.map_none', List.find?_cons, List.find?_nil]
    by_cases h : Name = X
    · simp [h]
    · have : ¬ X = Name := fun hh => h hh.symm
      simp [h, this]

theorem getNamedMetadata_none (N : NamedMDList) (X : String) :
    getNamedMetadata N X = none ↔ N.any (fun e => decide (e.1 = X)) = false := by
  unfold getNamedMetadata
  induction N with
  | nil => simp
  | cons e rest ih =>
    by_cases h : e.1 = X
    · simp [List.find?_cons, h]
    · simp only [List.find?_cons, h, decide_False, List.any_cons, Bool.false_or]
      exact ih

theorem getNamedMetadata_getOrInsert (N : NamedMDList) (Name X : String) :
    getNamedMetadata (getOrInsertNamedMetadata N Name) X =
      if X = Name then some ((getNamedMetadata N Name).getD []) else getNamedMetadata N X := by
  unfold getOrInsertNamedMetadata
  cases hany : N.any (fun e => decide (e.1 = Name)) with
  | true =>
    simp only [if_true]
    by_cases hX : X = Name
    · rw [if_pos hX, hX]
      cases hg : getNamedMetadata N Name with
      | none =>
        rw [(getNamedMetadata_none N Name).1 hg] at hany
        exact absurd hany (by simp)
      | some ops => rfl
    · rw [if_neg hX]
  | false =>
    simp only [Bool.false_eq_true, if_false]
    rw [getNamedMetadata_append]
    by_cases hX : X = Name
    · rw [if_pos hX, hX, (getNamedMetadata_none N Name).2 hany]
      simp
    · simp only [hX, if_false]
      cases getNamedMetadata N X with
      | none => rfl
      | some ops => rfl

end NamedMDList

namespace RunState

/-- The inner loop of `linkNamedMDNodes` appends the images of the operands,
in their order, to the destination list of the given name. -/
theorem addMappedOperands_spec (E : Externals) (hE : E.KeepsNamedMD) (Name : String) :
    ∀ (ops : List (Option Nat)) (R : RunState),
      ∃ imgs : List (Option Nat),
        List.Forall₂ (fun op img => ∃ Ri : RunState, img = (E.MapMetadata Ri op).1) ops imgs ∧
        (addMappedOperands E Name ops R).DstNamedMD =
          R.DstNamedMD.map (fun e => if e.1 = Name then (e.1, e.2 ++ imgs) else e) := by
  intro ops
  induction ops with
  | nil =>
    intro R
    refine ⟨[], List.Forall₂.nil, ?_⟩
    rw [addMappedOperands]
    simp
  | cons op rest ih =>
    intro R
    rw [addMappedOperands]
    obtain ⟨imgs, hf, hd⟩ := ih
      { (E.MapMetadata R op).2 with
        DstNamedMD := (E.MapMetadata R op).2.DstNamedMD.addOperand Name (E.MapMetadata R op).1 }
    refine ⟨(E.MapMetadata R op).1 :: imgs, List.Forall₂.cons ⟨R, rfl⟩ hf, ?_⟩
    rw [hd]
    simp only [hE R op, NamedMDList.addOperand, List.map_map]
    apply List.map_congr_left
    intro e _
    by_cases h : e.1 = Name
    · simp [h]
    · simp [h]

/-- One round of the outer loop of `linkNamedMDNodes`, read through
`getNamedMetadata`. -/
theorem linkNamedList_step (E : Externals) (hE : E.KeepsNamedMD) (NMD : String × List (Option Nat))
    (R : RunState) :
    ∃ imgs : List (Option Nat),
      List.Forall₂ (fun op img => ∃ Ri : RunState, img = (E.MapMetadata Ri op).1) NMD.2 imgs ∧
      ∀ X, (addMappedOperands E NMD.1 NMD.2
          { R with DstNamedMD := R.DstNamedMD.getOrInsertNamedMetadata NMD.1 }).DstNamedMD.getNamedMetadata
            X =
        if X = NMD.1 then some ((R.DstNamedMD.getNamedMetadata NMD.1).getD [] ++ imgs)
        else R.DstNamedMD.getNamedMetadata X := by
  obtain ⟨imgs, hf, hd⟩ := addMappedOperands_spec E hE NMD.1 NMD.2
    { R with DstNamedMD := R.DstNamedMD.getOrInsertNamedMetadata NMD.1 }
  refine ⟨imgs, hf, ?_⟩
  intro X
  rw [hd, NamedMDList.getNamedMetadata_map _ NMD.1 X (fun l => l ++ imgs),
    NamedMDList.getNamedMetadata_getOrInsert]
  by_cases hX : X = NMD.1
  · simp [hX]
  · simp [hX]

/-- The outer loop of `linkNamedMDNodes` over lists with pairwise different
names. -/
theorem linkNamedLists_spec (E : Externals) (hE : E.KeepsNamedMD) (F : Nat) :
    ∀ (N : NamedMDList) (I : Nat) (R : RunState), (N.map Prod.fst).Nodup →
      (∀ X, (∀ k NMD, N.get? k = some NMD → I + k ≠ F → NMD.1 ≠ X) →
        (linkNamedLists E F I N R).DstNamedMD.getNamedMetadata X =
          R.DstNamedMD.getNamedMetadata X) ∧
      (∀ k NMD, N.get? k = some NMD → I + k ≠ F →
        ∃ imgs : List (Option Nat),
          List.Forall₂ (fun op img => ∃ Ri : RunState, img = (E.MapMetadata Ri op).1)
            NMD.2 imgs ∧
          (linkNamedLists E F I N R).DstNamedMD.getNamedMetadata NMD.1 =
            some ((R.DstNamedMD.getNamedMetadata NMD.1).getD [] ++ imgs)) := by
  intro N
  induction N with
  | nil =>
    intro I R _
    refine ⟨fun X _ => rfl, ?_⟩
    intro k NMD hk
    exact absurd hk (by simp)
  | cons NMD rest ih =>
    intro I R hnd
    have hnd' : NMD.1 ∉ rest.map Prod.fst ∧ (rest.map Prod.fst).Nodup :=
      List.nodup_cons.1 hnd
    have hrest : (rest.map Prod.fst).Nodup := hnd'.2
    have hshift : ∀ k, I + 1 + k = I + (k + 1) := fun k => by omega
    rw [linkNamedLists]
    by_cases hI : I = F
    · rw [if_pos hI]
      obtain ⟨k1, k2⟩ := ih (I + 1) R hrest
      constructor
      · intro X hX
        apply k1 X
        intro k NMD' hk hne
        exact hX (k + 1) NMD' (by simpa using hk) (by rw [← hshift]; exact hne)
      · intro k NMD' hk hne
        cases k with
        | zero => exact absurd (by simpa using hI) hne
        | succ k =>
          exact k2 k NMD' (by simpa using hk) (by rw [hshift]; exact hne)
    · rw [if_neg hI]
      obtain ⟨imgs0, hf0, hstep⟩ := linkNamedList_step E hE NMD R
      obtain ⟨k1, k2⟩ := ih (I + 1)
        (addMappedOperands E NMD.1 NMD.2
          { R with DstNamedMD := R.DstNamedMD.getOrInsertNamedMetadata NMD.1 }) hrest
      constructor
      · intro X hX
        have hne0 : NMD.1 ≠ X := hX 0 NMD (by simp) (by simpa using hI)
        rw [k1 X, hstep X, if_neg (fun h => hne0 h.symm)]
        intro k NMD' hk hne
        exact hX (k + 1) NMD' (by simpa using hk) (by rw [← hshift]; exact hne)
      · intro k NMD' hk hne
        cases k with
        | zero =>
          have hN : NMD' = NMD := by
            simp only [List.get?_cons_zero, Option.some.injEq] at hk
            exact hk.symm
          rw [hN]
          refine ⟨imgs0, hf0, ?_⟩
          rw [k1 NMD.1, hstep NMD.1, if_pos rfl]
          intro k' NMD2 hk' _ heq
          apply hnd'.1
          rw [← heq]
          exact List.mem_map_of_mem Prod.fst (List.get?_mem hk')
        | succ k =>
          have hk' : rest.get? k = some NMD' := by simpa using hk
          obtain ⟨imgs, hf, hres⟩ := k2 k NMD' hk' (by rw [hshift]; exact hne)
          refine ⟨imgs, hf, ?_⟩
          have hne1 : NMD'.1 ≠ NMD.1 := by
            intro heq
            apply hnd'.1
            rw [← heq]
            exact List.mem_map_of_mem Prod.fst (List.get?_mem hk')
          rw [hres, hstep NMD'.1, if_neg hne1]

theorem getModuleFlagsIndex_unique (N : NamedMDList) (hnd : (N.map Prod.fst).Nodup)
    (k : Nat) (NMD : String × List (Option Nat)) (hk : N.get? k = some NMD)
    (hname : NMD.1 = "llvm.module.flags") : getModuleFlagsIndex N = k := by
  unfold getModuleFlagsIndex
  induction N generalizing k with
  | nil => exact absurd hk (by simp)
  | cons e rest ih =>
    have hnd' : e.1 ∉ rest.map Prod.fst ∧ (rest.map Prod.fst).Nodup :=
      List.nodup_cons.1 hnd
    rw [List.findIdx_cons]
    cases k with
    | zero =>
      simp only [List.get?_cons_zero, Option.some.injEq] at hk
      rw [hk, hname]
      simp
    | succ k =>
      have hk' : rest.get? k = some NMD := by simpa using hk
      have hne : e.1 ≠ "llvm.module.flags" := by
        intro heq
        apply hnd'.1
        rw [heq, ← hname]
        exact List.mem_map_of_mem Prod.fst (List.get?_mem hk')
      simp only [hne, decide_False, cond_false]
      rw [ih hnd'.2 k hk']

end RunState

end IRMover

namespace IRMover

namespace RunState

theorem getModuleFlagsIndex_get? (N : NamedMDList) (NMD : String × List (Option Nat))
    (h : N.get? (getModuleFlagsIndex N) = some NMD) : NMD.1 = "llvm.module.flags" := by
  unfold getModuleFlagsIndex at h
  induction N with
  | nil => exact absurd h (by simp)
  | cons e rest ih =>
    rw [List.findIdx_cons] at h
    by_cases he : e.1 = "llvm.module.flags"
    · simp only [he, decide_True, cond_true, List.get?_cons_zero, Option.some.injEq] at h
      rw [← h]
      exact he
    · simp only [he, decide_False, cond_false, List.get?_cons_succ] at h
      exact ih h

/-- C29: let the metadata mapper leave the named metadata of the destination
alone and let the lists of the source have pairwise different names.  After
`linkNamedMDNodes`, for every list of the source that is not the module flags
list the destination has a list of that name, made of the operands it had
before (none if the list is new) followed by one image per operand of the
source list, each being the result of `MapMetadata` on that operand, in the
order of the source list; so the list grows by the length of the source list.
The module flags list of the destination, and every list whose name no source
list has, is as it was.  The method completes when `findNeededSubprograms`
does and every operand of the destination list `llvm.dbg.cu` is then a
compile unit. -/
theorem linkNamedMDNodes_appends (E : Externals) (R : RunState) (hE : E.KeepsNamedMD)
    (hnd : (R.SrcNamedMD.map Prod.fst).Nodup) :
    (∀ R1, findNeededSubprograms R = some R1 →
      (linkNamedLists E (getModuleFlagsIndex R1.SrcNamedMD) 0 R1.SrcNamedMD R1).DI.CompileUnitsOK
        (((linkNamedLists E (getModuleFlagsIndex R1.SrcNamedMD) 0 R1.SrcNamedMD
          R1).DstNamedMD.getNamedMetadata "llvm.dbg.cu").getD []) →
      ∃ R', linkNamedMDNodes E R = some R') ∧
    ∀ R', linkNamedMDNodes E R = some R' →
      (∀ NMD ∈ R.SrcNamedMD, NMD.1 ≠ "llvm.module.flags" →
        ∃ imgs : List (Option Nat),
          List.Forall₂ (fun op img => ∃ Ri : RunState, img = (E.MapMetadata Ri op).1)
            NMD.2 imgs ∧
          imgs.length = NMD.2.length ∧
          R'.DstNamedMD.getNamedMetadata NMD.1 =
            some ((R.DstNamedMD.getNamedMetadata NMD.1).getD [] ++ imgs)) ∧
      R'.DstNamedMD.getNamedMetadata "llvm.module.flags" =
        R.DstNamedMD.getNamedMetadata "llvm.module.flags" ∧
      (∀ X, (∀ NMD ∈ R.SrcNamedMD, NMD.1 ≠ X) →
        R'.DstNamedMD.getNamedMetadata X = R.DstNamedMD.getNamedMetadata X) := by
  constructor
  · intro R1 hf hok
    unfold linkNamedMDNodes
    rw [hf]
    simp only
    exact (stripNullSubprograms_compacts _).1 hok
  · intro R' h
    unfold linkNamedMDNodes at h
    cases hf : findNeededSubprograms R with
    | none => rw [hf] at h; exact absurd h (by simp)
    | some R1 =>
      rw [hf] at h
      simp only at h
      obtain ⟨_, hsrc, hdst, _⟩ := findNeededSubprograms_linker R R1 hf
      have hstrip := (stripNullSubprograms_linker _ R' h).2.2.1
      rw [hsrc] at h hstrip
      obtain ⟨k1, k2⟩ := linkNamedLists_spec E hE (getModuleFlagsIndex R.SrcNamedMD)
        R.SrcNamedMD 0 R1 hnd
      rw [hdst] at k1 k2
      rw [hstrip]
      refine ⟨?_, ?_, ?_⟩
      · intro NMD hmem hname
        obtain ⟨k, hk⟩ := List.mem_iff_get?.1 hmem
        have hne : 0 + k ≠ getModuleFlagsIndex R.SrcNamedMD := by
          intro heq
          rw [Nat.zero_add] at heq
          rw [heq] at hk
          exact hname (getModuleFlagsIndex_get? _ _ hk)
        obtain ⟨imgs, hfa, hres⟩ := k2 k NMD hk hne
        exact ⟨imgs, hfa, hfa.length_eq.symm, hres⟩
      · apply k1
        intro k NMD hk hne hname
        apply hne
        rw [Nat.zero_add]
        exact (getModuleFlagsIndex_unique _ hnd k NMD hk hname).symm
      · intro X hX
        apply k1
        intro k NMD hk _
        exact hX NMD (List.get?_mem hk)

/-- C29, at a source with the module flags list and the list `llvm.ident`
with the operands 1 and 2, and a destination with the list `llvm.ident` with
the operand 0: the destination list becomes 0, 1, 2 and the destination gets
no module flags list. -/
theorem linkNamedMDNodes_appends_witness :
    (linkNamedMDNodes exampleExternals exampleNamedRunState).map (fun r => r.DstNamedMD) =
      some [("llvm.ident", [some 0, some 1, some 2])] ∧
    ∃ R', linkNamedMDNodes exampleExternals exampleNamedRunState = some R' :=
  ⟨by decide,
    (linkNamedMDNodes_appends exampleExternals exampleNamedRunState (fun _ _ => rfl)
      (by decide)).1 exampleNamedRunState rfl (by
        intro op hop
        have hnil : ((linkNamedLists exampleExternals
            (getModuleFlagsIndex exampleNamedRunState.SrcNamedMD) 0
            exampleNamedRunState.SrcNamedMD exampleNamedRunState).DstNamedMD.getNamedMetadata
              "llvm.dbg.cu").getD [] = [] := by decide
        rw [hnil] at hop
        exact absurd hop (List.not_mem_nil _))⟩

end RunState

end IRMover

namespace IRMover

/-- C39: `triplesMatch` is reflexive and symmetric, where two triples are
equal if their architecture, sub-architecture, vendor, OS, environment and
object format are: `triplesMatch A A` holds, and `triplesMatch A B` and
`triplesMatch B A` agree, although only the vendor of the first argument
selects the comparison. -/
theorem triplesMatch_reflexive_symmetric (A B : Triple) :
    triplesMatch A A = true ∧ triplesMatch A B = triplesMatch B A := by
  constructor
  · unfold triplesMatch Triple.eq
    split <;> simp
  · unfold triplesMatch Triple.eq
    by_cases hA : A.Vendor = Triple.Apple
    · by_cases hB : B.Vendor = Triple.Apple
      · simp only [hA, hB, if_true]
        rw [Bool.eq_iff_iff]
        simp only [Bool.and_eq_true, decide_eq_true_eq]
        constructor
        · rintro ⟨⟨⟨h1, h2⟩, _⟩, h4⟩
          exact ⟨⟨⟨h1.symm, h2.symm⟩, trivial⟩, h4.symm⟩
        · rintro ⟨⟨⟨h1, h2⟩, _⟩, h4⟩
          exact ⟨⟨⟨h1.symm, h2.symm⟩, trivial⟩, h4.symm⟩
      · have hne : ¬ A.Vendor = B.Vendor := fun h => hB (h ▸ hA)
        have hne' : ¬ B.Vendor = A.Vendor := fun h => hne h.symm
        rw [if_pos hA, if_neg hB]
        simp [hne, hne']
    · by_cases hB : B.Vendor = Triple.Apple
      · have hne : ¬ A.Vendor = B.Vendor := fun h => hA (h ▸ hB)
        have hne' : ¬ B.Vendor = A.Vendor := fun h => hne h.symm
        rw [if_neg hA, if_pos hB]
        simp [hne, hne']
      · rw [if_neg hA, if_neg hB, Bool.eq_iff_iff]
        simp only [decide_eq_true_eq]
        constructor
        · rintro ⟨h1, h2, h3, h4, h5, h6⟩
          exact ⟨h1.symm, h2.symm, h3.symm, h4.symm, h5.symm, h6.symm⟩
        · rintro ⟨h1, h2, h3, h4, h5, h6⟩
          exact ⟨h1.symm, h2.symm, h3.symm, h4.symm, h5.symm, h6.symm⟩

namespace IRLinker

theorem typeMapGet_frame {fuel : Nat} {L L0 : IRLinker} {Ty T : Nat}
    (h : typeMapGet fuel L Ty = some (T, L0)) :
    L0 = { L with Context := L0.Context, TypeMap := L0.TypeMap } := by
  unfold typeMapGet at h
  split at h
  · exact absurd h (by simp)
  · simp only [Option.some.injEq, Prod.mk.injEq] at h
    rw [← h.2]

/-- A merge of appending variables without a destination global never returns
null. -/
theorem linkAppendingVarProto_nonnull_of_none
    (MapValue : IRLinker → Constant → Constant × IRLinker)
    (AddLazyFor : GlobalValue → List Nat) (fuel : Nat) (L L' : IRLinker) (SrcGV : GlobalValue)
    (r : Option Constant)
    (h : linkAppendingVarProto MapValue AddLazyFor fuel L none SrcGV = some (r, L')) :
    r.isSome = true := by
  unfold linkAppendingVarProto at h
  split at h
  · exact absurd h (by simp)
  · simp only [Option.none_bind] at h
    split at h
    · split at h
      · exact absurd h (by simp)
      · exact buildAppendingVar_nonnull h
    · exact absurd h (by simp)

/-- C37: a merge of appending variables that returns null has met a conflict
with a destination global `D` and has emitted exactly one error; the
destination module (its list of globals, with the global `D` and its
initializer), the replaced uses, the value map, the alias value map, the next
free address, the source module, the requested set and the worklist are
exactly as before the call, so no global was created.  And each conflict found
by the checks leads to this null result. -/
theorem linkAppendingVarProto_failure_atomic
    (MapValue : IRLinker → Constant → Constant × IRLinker)
    (AddLazyFor : GlobalValue → List Nat) (fuel : Nat) (L L' : IRLinker)
    (DstGV : Option GlobalValue) (SrcGV : GlobalValue)
    (h : linkAppendingVarProto MapValue AddLazyFor fuel L DstGV SrcGV = some (none, L')) :
    (L'.DstM.globals = L.DstM.globals ∧ L'.DstM.comdats = L.DstM.comdats ∧
      L'.Redirected = L.Redirected ∧ L'.ValueMap = L.ValueMap ∧
      L'.AliasValueMap = L.AliasValueMap ∧ L'.NextAddr = L.NextAddr ∧
      L'.SrcM.globals = L.SrcM.globals ∧ L'.ValuesToLink = L.ValuesToLink ∧
      L'.Worklist = L.Worklist ∧ L'.DoneLinkingBodies = L.DoneLinkingBodies) ∧
    L'.HasError = true ∧
    (∃ D Message, DstGV = some D ∧
      L'.Diagnostics = L.Diagnostics ++ [(DiagnosticSeverity.DS_Error, Message)]) ∧
    (∀ (D : GlobalValue) (T : Nat) (L0 : IRLinker) (Message : String),
      typeMapGet fuel L SrcGV.valueType = some (T, L0) →
      appendingConflict (appendingShape L0.Context T SrcGV.name).Context
        (appendingShape L0.Context T SrcGV.name).EltTy D SrcGV = some Message →
      linkAppendingVarProto MapValue AddLazyFor fuel L (some D) SrcGV =
        some (none,
          emitError { L0 with Context := (appendingShape L0.Context T SrcGV.name).Context }
            Message)) := by
  have hlast : ∀ (D : GlobalValue) (T : Nat) (L0 : IRLinker) (Message : String),
      typeMapGet fuel L SrcGV.valueType = some (T, L0) →
      appendingConflict (appendingShape L0.Context T SrcGV.name).Context
        (appendingShape L0.Context T SrcGV.name).EltTy D SrcGV = some Message →
      linkAppendingVarProto MapValue AddLazyFor fuel L (some D) SrcGV =
        some (none,
          emitError { L0 with Context := (appendingShape L0.Context T SrcGV.name).Context }
            Message) := by
    intro D T L0 Message hget hc
    rcases linkAppendingVarProto_cases MapValue AddLazyFor fuel L L0 D SrcGV T hget with
      ⟨M, hM, hres⟩ | ⟨hnone, _⟩
    · rw [hM] at hc
      rw [hres, Option.some.inj hc]
    · rw [hnone] at hc
      exact absurd hc (by simp)
  suffices hmain : (L'.DstM.globals = L.DstM.globals ∧ L'.DstM.comdats = L.DstM.comdats ∧
      L'.Redirected = L.Redirected ∧ L'.ValueMap = L.ValueMap ∧
      L'.AliasValueMap = L.AliasValueMap ∧ L'.NextAddr = L.NextAddr ∧
      L'.SrcM.globals = L.SrcM.globals ∧ L'.ValuesToLink = L.ValuesToLink ∧
      L'.Worklist = L.Worklist ∧ L'.DoneLinkingBodies = L.DoneLinkingBodies) ∧
    L'.HasError = true ∧
    (∃ D Message, DstGV = some D ∧
      L'.Diagnostics = L.Diagnostics ++ [(DiagnosticSeverity.DS_Error, Message)]) from
    ⟨hmain.1, hmain.2.1, hmain.2.2, hlast⟩
  clear hlast
  cases DstGV with
  | none =>
    have := linkAppendingVarProto_nonnull_of_none MapValue AddLazyFor fuel L L' SrcGV none h
    exact absurd this (by simp)
  | some D =>
    cases hget : typeMapGet fuel L SrcGV.valueType with
    | none =>
      unfold linkAppendingVarProto at h
      rw [hget] at h
      exact absurd h (by simp)
    | some r =>
      obtain ⟨T, L0⟩ := r
      have hfr := typeMapGet_frame hget
      have hsd := typeMapGet_sameDiagnostics hget
      rcases linkAppendingVarProto_cases MapValue AddLazyFor fuel L L0 D SrcGV T hget with
        ⟨M, hM, hres⟩ | ⟨_, hall⟩
      · rw [hres] at h
        simp only [Option.some.injEq, Prod.mk.injEq, true_and] at h
        rw [← h]
        refine ⟨?_, rfl, ⟨D, M, rfl, ?_⟩⟩
        · rw [hfr]
          exact ⟨rfl, rfl, rfl, rfl, rfl, rfl, rfl, rfl, rfl, rfl⟩
        · show L0.Diagnostics ++ [(DiagnosticSeverity.DS_Error, M)] = _
          rw [hsd.1]
      · have := (hall none L' h).1
        exact absurd this (by simp)

/-- C37, at the legacy destination list and the legacy source list: the merge
returns null with one error, and the destination module still has the one
global at the address 100 with its two elements, and the value map is empty. -/
theorem linkAppendingVarProto_failure_atomic_witness :
    ∃ L', linkAppendingVarProto MapValueId AddLazyForNone 2
        (exampleLegacyLinker exampleDstLegacyCtors) (some exampleDstLegacyCtors)
        exampleSrcLegacyCtors = some (none, L') ∧
      L'.DstM.globals = (exampleLegacyLinker exampleDstLegacyCtors).DstM.globals ∧
      L'.ValueMap = [] ∧ L'.NextAddr = 300 ∧ L'.HasError = true :=
  ⟨_, rfl,
    (linkAppendingVarProto_failure_atomic MapValueId AddLazyForNone 2
      (exampleLegacyLinker exampleDstLegacyCtors) _ (some exampleDstLegacyCtors)
      exampleSrcLegacyCtors rfl).1.1,
    rfl, rfl, rfl⟩

theorem appendingShape_getType_of_lt (ctx : LLVMContext) (T : Nat) (Name : String) (t : Nat)
    (ht : t < ctx.length) :
    (appendingShape ctx T Name).Context.getType t = ctx.getType t ∧
    ctx.length ≤ (appendingShape ctx T Name).Context.length := by
  unfold appendingShape
  simp only
  have h1 := getUniqued_getType_of_lt ctx
    ⟨TypeID.IntegerTyID, [], 0, false, false, false, false, 0, 8, ""⟩ t ht
  have l1 := getUniqued_length_le ctx
    ⟨TypeID.IntegerTyID, [], 0, false, false, false, false, 0, 8, ""⟩
  generalize TypeMapTy.getUniqued ctx
    ⟨TypeID.IntegerTyID, [], 0, false, false, false, false, 0, 8, ""⟩ = i8 at h1 l1 ⊢
  have h2 := getUniqued_getType_of_lt i8.2
    ⟨TypeID.PointerTyID, [i8.1], 0, false, false, false, false, 0, 0, ""⟩ t (by omega)
  have l2 := getUniqued_length_le i8.2
    ⟨TypeID.PointerTyID, [i8.1], 0, false, false, false, false, 0, 0, ""⟩
  generalize TypeMapTy.getUniqued i8.2
    ⟨TypeID.PointerTyID, [i8.1], 0, false, false, false, false, 0, 0, ""⟩ = vp at h2 l2 ⊢
  split
  · constructor
    · rw [getUniqued_getType_of_lt _ _ t (by omega), h2, h1]
    · exact le_trans (le_trans l1 l2) (getUniqued_length_le _ _)
  · exact ⟨h2.trans h1, le_trans l1 l2⟩

end IRLinker

end IRMover

namespace IRMover

namespace IRLinker

/-- C38: let the source be `llvm.global_ctors` or `llvm.global_dtors` whose
mapped element type has two fields, and let the destination global `D` be an
appending array whose element type has two fields as well.  Then the merge
returns null with the error `Appending variables with different element
types!`: the element type of the source has been upgraded to a struct of
three fields before the comparison, while the element type of the destination
is read as it is, with its two fields. -/
theorem linkAppendingVarProto_rejects_legacy_destination
    (MapValue : IRLinker → Constant → Constant × IRLinker)
    (AddLazyFor : GlobalValue → List Nat) (fuel : Nat) (L L0 : IRLinker)
    (D SrcGV : GlobalValue) (T : Nat)
    (hget : typeMapGet fuel L SrcGV.valueType = some (T, L0))
    (hname : SrcGV.name = "llvm.global_ctors" ∨ SrcGV.name = "llvm.global_dtors")
    (hsrc2 : L0.Context.getNumContainedTypes (L0.Context.getContainedType T 0) = 2)
    (hin : L0.Context.getContainedType T 0 < L0.Context.length)
    (hsapp : SrcGV.hasAppendingLinkage = true) (hdapp : D.hasAppendingLinkage = true)
    (hdin : D.valueType < L0.Context.length)
    (hdein : L0.Context.getContainedType D.valueType 0 < L0.Context.length)
    (hdst2 : L0.Context.getNumContainedTypes (L0.Context.getContainedType D.valueType 0) = 2) :
    linkAppendingVarProto MapValue AddLazyFor fuel L (some D) SrcGV =
      some (none,
        emitError { L0 with Context := (appendingShape L0.Context T SrcGV.name).Context }
          "Appending variables with different element types!") ∧
    (appendingShape L0.Context T SrcGV.name).IsOldStructor = true ∧
    (appendingShape L0.Context T SrcGV.name).Context.getNumContainedTypes
      (appendingShape L0.Context T SrcGV.name).EltTy = 3 ∧
    (appendingShape L0.Context T SrcGV.name).Context.getContainedType D.valueType 0 =
      L0.Context.getContainedType D.valueType 0 ∧
    (appendingShape L0.Context T SrcGV.name).Context.getNumContainedTypes
      ((appendingShape L0.Context T SrcGV.name).Context.getContainedType D.valueType 0) = 2 := by
  have hn : L0.Context.getNumContainedTypes (L0.Context.getContainedType T 0) ≠ 3 := by
    rw [hsrc2]; decide
  obtain ⟨Int8Ty, hold, _, _, _, _, helt, _, _⟩ :=
    appendingShape_legacy L0.Context T SrcGV.name hname hn hin
  have h3 : (appendingShape L0.Context T SrcGV.name).Context.getNumContainedTypes
      (appendingShape L0.Context T SrcGV.name).EltTy = 3 := by
    unfold LLVMContext.getNumContainedTypes
    rw [helt]
    rfl
  have hde : (appendingShape L0.Context T SrcGV.name).Context.getContainedType D.valueType 0 =
      L0.Context.getContainedType D.valueType 0 := by
    unfold LLVMContext.getContainedType
    rw [(appendingShape_getType_of_lt L0.Context T SrcGV.name D.valueType hdin).1]
  have h2 : (appendingShape L0.Context T SrcGV.name).Context.getNumContainedTypes
      ((appendingShape L0.Context T SrcGV.name).Context.getContainedType D.valueType 0) = 2 := by
    rw [hde]
    unfold LLVMContext.getNumContainedTypes
    rw [(appendingShape_getType_of_lt L0.Context T SrcGV.name _ hdein).1]
    exact hdst2
  have hne : (appendingShape L0.Context T SrcGV.name).EltTy ≠
      (appendingShape L0.Context T SrcGV.name).Context.getContainedType D.valueType 0 := by
    intro heq
    rw [heq, h2] at h3
    exact absurd h3 (by decide)
  have hc : appendingConflict (appendingShape L0.Context T SrcGV.name).Context
      (appendingShape L0.Context T SrcGV.name).EltTy D SrcGV =
      some "Appending variables with different element types!" := by
    unfold appendingConflict
    rw [if_neg (by simp [hsapp, hdapp]), if_pos hne]
  refine ⟨?_, hold, h3, hde, h2⟩
  rcases linkAppendingVarProto_cases MapValue AddLazyFor fuel L L0 D SrcGV T hget with
    ⟨M, hM, hres⟩ | ⟨hnone, _⟩
  · rw [hM] at hc
    rw [hres, Option.some.inj hc]
  · rw [hnone] at hc
    exact absurd hc (by simp)

/-- C38, at the legacy source list and the legacy destination list: the merge
returns null with the error about the element types. -/
theorem linkAppendingVarProto_rejects_legacy_destination_witness :
    (linkAppendingVarProto MapValueId AddLazyForNone 2
      (exampleLegacyLinker exampleDstLegacyCtors) (some exampleDstLegacyCtors)
      exampleSrcLegacyCtors).map (fun r => (r.1.isSome, r.2.HasError, r.2.Diagnostics)) =
      some (false, true,
        [(DiagnosticSeverity.DS_Error, "Appending variables with different element types!")]) := by
  rw [(linkAppendingVarProto_rejects_legacy_destination MapValueId AddLazyForNone 2
    (exampleLegacyLinker exampleDstLegacyCtors) (exampleLegacyLinker exampleDstLegacyCtors)
    exampleDstLegacyCtors exampleSrcLegacyCtors 12 rfl (Or.inl rfl) (by decide) (by decide)
    (by decide) (by decide) (by decide) (by decide) (by decide)).1]
  rfl

end IRLinker

end IRMover

namespace InstrProfWriter

/-! ## Lengths in the on-disk hash table -/

theorem length_writeLE64 (V : Nat) : (writeLE64 V).length = 8 := by
  unfold writeLE64
  simp

theorem readLE_writeLE64 (V : Nat) : readLE (writeLE64 V) = V % 2 ^ 64 := by
  have h : V % 2 ^ 64 < 2 ^ 64 := Nat.mod_lt _ (by decide)
  unfold writeLE64
  generalize V % 2 ^ 64 = x at h ⊢
  simp only [List.range, List.range.loop, List.map, readLE]
  norm_num at h ⊢
  omega

theorem length_writeBytes (Byte : Nat → Nat) (N : Nat) : (writeBytes Byte N).length = N := by
  unfold writeBytes
  simp

theorem dataLength_eq (C : ValueProfCodec) :
    ∀ (V : List (Nat × InstrProfRecord)) (M : Nat),
      dataLength C V M % 2 ^ 64 = (M + dataSize C V) % 2 ^ 64 := by
  intro V
  induction V with
  | nil =>
    intro M
    simp [dataLength, dataSize]
  | cons p rest ih =>
    intro M
    rw [dataLength, ih]
    have : dataSize C (p :: rest) =
        16 + 8 * p.2.Counts.length + C.getSize p.2 % 2 ^ 32 + dataSize C rest := by
      simp [dataSize]
    rw [this]
    omega

theorem dataLength_lt (C : ValueProfCodec) :
    ∀ (V : List (Nat × InstrProfRecord)) (M : Nat), M < 2 ^ 64 → dataLength C V M < 2 ^ 64 := by
  intro V
  induction V with
  | nil => intro M h; exact h
  | cons p rest ih =>
    intro M _
    rw [dataLength]
    exact ih _ (Nat.mod_lt _ (by decide))

theorem length_foldl_writeLE64 (Counts : List Nat) :
    ∀ Out : List Nat,
      (Counts.foldl (fun O I => O ++ writeLE64 I) Out).length = Out.length + 8 * Counts.length := by
  induction Counts with
  | nil => intro Out; simp
  | cons c rest ih =>
    intro Out
    rw [List.foldl_cons, ih, List.length_append, length_writeLE64, List.length_cons]
    omega

theorem length_emitRecord (C : ValueProfCodec) (Out : List Nat) (p : Nat × InstrProfRecord) :
    (emitRecord C Out p).length =
      Out.length + (16 + 8 * p.2.Counts.length + (C.serializeFrom p.2).TotalSize % 2 ^ 32) := by
  unfold emitRecord
  simp only [List.length_append, length_writeBytes, length_foldl_writeLE64, length_writeLE64]
  omega

theorem length_EmitData (C : ValueProfCodec) (K : List Nat) (M : Nat) :
    ∀ (V : List (Nat × InstrProfRecord)) (Out : List Nat),
      (∀ p ∈ V, (C.serializeFrom p.2).TotalSize % 2 ^ 32 = C.getSize p.2 % 2 ^ 32) →
      (EmitData C Out K V M).length = Out.length + dataSize C V := by
  intro V
  induction V with
  | nil => intro Out _; simp [EmitData, dataSize]
  | cons p rest ih =>
    intro Out h
    have hstep : EmitData C Out K (p :: rest) M = EmitData C (emitRecord C Out p) K rest M := rfl
    have : dataSize C (p :: rest) =
        16 + 8 * p.2.Counts.length + C.getSize p.2 % 2 ^ 32 + dataSize C rest := by
      simp [dataSize]
    rw [hstep, ih _ (fun q hq => h q (List.mem_cons_of_mem _ hq)), length_emitRecord,
      h p (List.mem_cons_self _ _), this]
    omega

/-- C40: let the key be shorter than `2 ^ 64` bytes and let the data of the
records, 16 bytes plus 8 bytes per counter plus the value data size of each
record, be less than `2 ^ 64` bytes in all; let the serialized value data of
every record have the size that `ValueProfData::getSize` reports for the
record.  Then `EmitKeyDataLength` returns the length of the key as `N` and the
size of the data as `M`, and writes `N` and then `M` as two words of eight
bytes, least significant byte first; `EmitKey` with this `N` writes exactly `N`
bytes, and `EmitData` writes exactly `M` bytes. -/
theorem EmitKeyDataLength_lengths (C : ValueProfCodec) (Out Out1 Out2 K : List Nat)
    (V : List (Nat × InstrProfRecord)) (hK : K.length < 2 ^ 64)
    (hV : dataSize C V < 2 ^ 64)
    (hsize : ∀ p ∈ V, (C.serializeFrom p.2).TotalSize % 2 ^ 32 = C.getSize p.2 % 2 ^ 32) :
    (EmitKeyDataLength C Out K V).1.1 = K.length ∧
    (EmitKeyDataLength C Out K V).1.2 =
      (V.map (fun p => 16 + 8 * p.2.Counts.length + C.getSize p.2 % 2 ^ 32)).sum ∧
    (EmitKeyDataLength C Out K V).2 =
      Out ++ writeLE64 (EmitKeyDataLength C Out K V).1.1 ++
        writeLE64 (EmitKeyDataLength C Out K V).1.2 ∧
    (writeLE64 (EmitKeyDataLength C Out K V).1.1).length = 8 ∧
    (writeLE64 (EmitKeyDataLength C Out K V).1.2).length = 8 ∧
    readLE (writeLE64 (EmitKeyDataLength C Out K V).1.1) = K.length ∧
    readLE (writeLE64 (EmitKeyDataLength C Out K V).1.2) = dataSize C V ∧
    (EmitKey Out1 K (EmitKeyDataLength C Out K V).1.1).length =
      Out1.length + (EmitKeyDataLength C Out K V).1.1 ∧
    (EmitData C Out2 K V (EmitKeyDataLength C Out K V).1.2).length =
      Out2.length + (EmitKeyDataLength C Out K V).1.2 := by
  have hN : (EmitKeyDataLength C Out K V).1.1 = K.length := by
    show K.length % 2 ^ 64 = K.length
    exact Nat.mod_eq_of_lt hK
  have hM : (EmitKeyDataLength C Out K V).1.2 = dataSize C V := by
    show dataLength C V 0 = dataSize C V
    have h1 := dataLength_eq C V 0
    have h2 := dataLength_lt C V 0 (by decide)
    rw [Nat.mod_eq_of_lt h2, Nat.zero_add, Nat.mod_eq_of_lt hV] at h1
    exact h1
  refine ⟨hN, hM, ?_, length_writeLE64 _, length_writeLE64 _, ?_, ?_, ?_, ?_⟩
  · rw [hN, hM]
    show Out ++ writeLE64 (K.length % 2 ^ 64) ++ writeLE64 (dataLength C V 0) = _
    rw [Nat.mod_eq_of_lt hK]
    have : dataLength C V 0 = dataSize C V := hM
    rw [this]
  · rw [hN, readLE_writeLE64, Nat.mod_eq_of_lt hK]
  · rw [hM, readLE_writeLE64, Nat.mod_eq_of_lt hV]
  · unfold EmitKey
    rw [List.length_append, length_writeBytes]
  · rw [hM, length_EmitData C K _ V Out2 hsize]

/-- C40, at the key of three bytes and two records with two counters and no
counter and value data of 5 and 0 bytes: `N` is 3, `M` is 16 + 16 + 5 + 16 =
53, the key takes 3 bytes and the data 53 bytes. -/
theorem EmitKeyDataLength_lengths_witness :
    (EmitKeyDataLength exampleCodec [] [102, 111, 111] [(7, ⟨[1, 2], 5⟩), (9, ⟨[], 0⟩)]).1 =
      (3, 53) ∧
    (EmitKey [] [102, 111, 111] 3).length = 3 ∧
    (EmitData exampleCodec [] [102, 111, 111] [(7, ⟨[1, 2], 5⟩), (9, ⟨[], 0⟩)] 53).length =
      53 := by
  have h := EmitKeyDataLength_lengths exampleCodec [] [] [] [102, 111, 111]
    [(7, ⟨[1, 2], 5⟩), (9, ⟨[], 0⟩)] (by decide) (by decide) (fun _ _ => rfl)
  have h1 : (EmitKeyDataLength exampleCodec [] [102, 111, 111]
      [(7, ⟨[1, 2], 5⟩), (9, ⟨[], 0⟩)]).1 = (3, 53) := by decide
  refine ⟨h1, ?_, ?_⟩
  · have := h.2.2.2.2.2.2.2.1
    rw [h1] at this
    exact this
  · have := h.2.2.2.2.2.2.2.2
    rw [h1] at this
    exact this

end InstrProfWriter

namespace IRMover
namespace TypeMapTy
open DenseMap

/-! ### The shape checks -/

/-- The checks of `areTypesIsomorphic` behind the two special cases for opaque
structs: a disagreement ends the walk with false, and nothing is recorded. -/
theorem areTypesIsomorphic_shape_false (ctx : LLVMContext) (fuel : Nat) (s : TypeMapTy)
    (DstTy SrcTy : Nat) (hid : (ctx.getType DstTy).id = (ctx.getType SrcTy).id)
    (hnone : s.MappedTypes.lookup SrcTy = none) (hne : DstTy ≠ SrcTy)
    (hso : ¬ ((ctx.getType SrcTy).id = TypeID.StructTyID ∧ (ctx.getType SrcTy).isOpaque = true))
    (hdo : ¬ ((ctx.getType SrcTy).id = TypeID.StructTyID ∧ (ctx.getType DstTy).isOpaque = true))
    (hdis : (ctx.getType SrcTy).contained.length ≠ (ctx.getType DstTy).contained.length ∨
      (ctx.getType DstTy).id = TypeID.IntegerTyID ∨
      extraPropertiesDisagree (ctx.getType DstTy) (ctx.getType SrcTy) = true) :
    areTypesIsomorphic ctx (fuel + 1) s DstTy SrcTy =
      some (false, { s with MappedTypes := s.MappedTypes.subscript SrcTy }) := by
  rw [areTypesIsomorphic]
  simp only []
  rw [if_neg (not_not.mpr hid), lookup_subscript, hnone]
  simp only []
  rw [if_neg hne, if_neg hso, if_neg hdo]
  by_cases h1 : (ctx.getType SrcTy).contained.length ≠ (ctx.getType DstTy).contained.length
  · rw [if_pos h1]
  · rw [if_neg h1]
    by_cases h2 : (ctx.getType DstTy).id = TypeID.IntegerTyID
    · rw [if_pos h2]
    · rw [if_neg h2]
      rcases hdis with h | h | h
      · exact absurd h h1
      · exact absurd h h2
      · rw [if_pos h]

/-- C33, amended: let the source type have no entry in the mapping and not be
the same node as the destination type.  `areTypesIsomorphic` returns false,
and records no entry for the source type, when the two types have different
kinds; are two integer types; are pointers with different address spaces; are
function types that differ in variadic-ness or in the number of contained
types; are struct types neither of which is opaque and which differ in the
literal flag, the packed flag or the number of elements; or are arrays or
vectors with different element counts. -/
theorem areTypesIsomorphic_shape_checks (ctx : LLVMContext) (fuel : Nat) (s : TypeMapTy)
    (DstTy SrcTy : Nat) (hnone : s.MappedTypes.lookup SrcTy = none) (hne : DstTy ≠ SrcTy)
    (hshape :
      (ctx.getType DstTy).id ≠ (ctx.getType SrcTy).id ∨
      ((ctx.getType DstTy).id = TypeID.IntegerTyID ∧
        (ctx.getType SrcTy).id = TypeID.IntegerTyID) ∨
      ((ctx.getType DstTy).id = TypeID.PointerTyID ∧
        (ctx.getType SrcTy).id = TypeID.PointerTyID ∧
        (ctx.getType DstTy).addressSpace ≠ (ctx.getType SrcTy).addressSpace) ∨
      ((ctx.getType DstTy).id = TypeID.FunctionTyID ∧
        (ctx.getType SrcTy).id = TypeID.FunctionTyID ∧
        ((ctx.getType DstTy).isVarArg ≠ (ctx.getType SrcTy).isVarArg ∨
          (ctx.getType SrcTy).contained.length ≠ (ctx.getType DstTy).contained.length)) ∨
      ((ctx.getType DstTy).id = TypeID.StructTyID ∧
        (ctx.getType SrcTy).id = TypeID.StructTyID ∧
        (ctx.getType SrcTy).isOpaque = false ∧ (ctx.getType DstTy).isOpaque = false ∧
        ((ctx.getType DstTy).isLiteral ≠ (ctx.getType SrcTy).isLiteral ∨
          (ctx.getType DstTy).isPacked ≠ (ctx.getType SrcTy).isPacked ∨
          (ctx.getType SrcTy).contained.length ≠ (ctx.getType DstTy).contained.length)) ∨
      ((ctx.getType DstTy).id = TypeID.ArrayTyID ∧
        (ctx.getType SrcTy).id = TypeID.ArrayTyID ∧
        (ctx.getType DstTy).numElements ≠ (ctx.getType SrcTy).numElements) ∨
      ((ctx.getType DstTy).id = TypeID.VectorTyID ∧
        (ctx.getType SrcTy).id = TypeID.VectorTyID ∧
        (ctx.getType DstTy).numElements ≠ (ctx.getType SrcTy).numElements)) :
    ∃ s', areTypesIsomorphic ctx (fuel + 1) s DstTy SrcTy = some (false, s') ∧
      s'.MappedTypes.lookup SrcTy = none ∧
      s'.SpeculativeTypes = s.SpeculativeTypes ∧
      s'.SrcDefinitionsToResolve = s.SrcDefinitionsToResolve ∧
      s'.DstResolvedOpaqueTypes = s.DstResolvedOpaqueTypes := by
  have hsub : ({ s with MappedTypes := s.MappedTypes.subscript SrcTy } :
      TypeMapTy).MappedTypes.lookup SrcTy = none := by
    show (s.MappedTypes.subscript SrcTy).lookup SrcTy = none
    rw [lookup_subscript]
    exact hnone
  have key : ∀ (hid : (ctx.getType DstTy).id = (ctx.getType SrcTy).id)
      (hso : ¬ ((ctx.getType SrcTy).id = TypeID.StructTyID ∧
        (ctx.getType SrcTy).isOpaque = true))
      (hdo : ¬ ((ctx.getType SrcTy).id = TypeID.StructTyID ∧
        (ctx.getType DstTy).isOpaque = true))
      (_ : (ctx.getType SrcTy).contained.length ≠ (ctx.getType DstTy).contained.length ∨
        (ctx.getType DstTy).id = TypeID.IntegerTyID ∨
        extraPropertiesDisagree (ctx.getType DstTy) (ctx.getType SrcTy) = true),
      ∃ s', areTypesIsomorphic ctx (fuel + 1) s DstTy SrcTy = some (false, s') ∧
        s'.MappedTypes.lookup SrcTy = none ∧
        s'.SpeculativeTypes = s.SpeculativeTypes ∧
        s'.SrcDefinitionsToResolve = s.SrcDefinitionsToResolve ∧
        s'.DstResolvedOpaqueTypes = s.DstResolvedOpaqueTypes := by
    intro hid hso hdo hdis
    exact ⟨_, areTypesIsomorphic_shape_false ctx fuel s DstTy SrcTy hid hnone hne hso hdo hdis,
      hsub, rfl, rfl, rfl⟩
  rcases hshape with h | ⟨hD, hS⟩ | ⟨hD, hS, ha⟩ | ⟨hD, hS, hv⟩ | ⟨hD, hS, hSo, hDo, hf⟩ |
    ⟨hD, hS, hn⟩ | ⟨hD, hS, hn⟩
  · refine ⟨s, ?_, hnone, rfl, rfl, rfl⟩
    rw [areTypesIsomorphic]
    simp only []
    rw [if_pos h]
  · exact key (hD.trans hS.symm) (fun h => by rw [hS] at h; exact absurd h.1 (by decide))
      (fun h => by rw [hS] at h; exact absurd h.1 (by decide)) (Or.inr (Or.inl hD))
  · refine key (hD.trans hS.symm) (fun h => by rw [hS] at h; exact absurd h.1 (by decide))
      (fun h => by rw [hS] at h; exact absurd h.1 (by decide)) (Or.inr (Or.inr ?_))
    unfold extraPropertiesDisagree
    rw [if_pos hD]
    exact decide_eq_true ha
  · rcases hv with hv | hv
    · refine key (hD.trans hS.symm) (fun h => by rw [hS] at h; exact absurd h.1 (by decide))
        (fun h => by rw [hS] at h; exact absurd h.1 (by decide)) (Or.inr (Or.inr ?_))
      unfold extraPropertiesDisagree
      rw [if_neg (by rw [hD]; decide), if_pos hD]
      exact decide_eq_true hv
    · exact key (hD.trans hS.symm) (fun h => by rw [hS] at h; exact absurd h.1 (by decide))
        (fun h => by rw [hS] at h; exact absurd h.1 (by decide)) (Or.inl hv)
  · have hso : ¬ ((ctx.getType SrcTy).id = TypeID.StructTyID ∧
        (ctx.getType SrcTy).isOpaque = true) := fun h => by
      rw [hSo] at h; exact absurd h.2 (by decide)
    have hdo : ¬ ((ctx.getType SrcTy).id = TypeID.StructTyID ∧
        (ctx.getType DstTy).isOpaque = true) := fun h => by
      rw [hDo] at h; exact absurd h.2 (by decide)
    rcases hf with hf | hf | hf
    · refine key (hD.trans hS.symm) hso hdo (Or.inr (Or.inr ?_))
      unfold extraPropertiesDisagree
      rw [if_neg (by rw [hD]; decide), if_neg (by rw [hD]; decide), if_pos hD]
      simp [hf]
    · refine key (hD.trans hS.symm) hso hdo (Or.inr (Or.inr ?_))
      unfold extraPropertiesDisagree
      rw [if_neg (by rw [hD]; decide), if_neg (by rw [hD]; decide), if_pos hD]
      simp [hf]
    · exact key (hD.trans hS.symm) hso hdo (Or.inl hf)
  · refine key (hD.trans hS.symm) (fun h => by rw [hS] at h; exact absurd h.1 (by decide))
      (fun h => by rw [hS] at h; exact absurd h.1 (by decide)) (Or.inr (Or.inr ?_))
    unfold extraPropertiesDisagree
    rw [if_neg (by rw [hD]; decide), if_neg (by rw [hD]; decide), if_neg (by rw [hD]; decide),
      if_pos hD]
    exact decide_eq_true hn
  · refine key (hD.trans hS.symm) (fun h => by rw [hS] at h; exact absurd h.1 (by decide))
      (fun h => by rw [hS] at h; exact absurd h.1 (by decide)) (Or.inr (Or.inr ?_))
    unfold extraPropertiesDisagree
    rw [if_neg (by rw [hD]; decide), if_neg (by rw [hD]; decide), if_neg (by rw [hD]; decide),
      if_neg (by rw [hD]; decide), if_pos hD]
    exact decide_eq_true hn

/-- C33, amended, at `{ i32 }` against `{ %S, float }`: two literal structs
that differ in the number of elements. -/
theorem areTypesIsomorphic_shape_checks_witness :
    (areTypesIsomorphic exampleOpaqueSourceCtx 1 (init ⟨[], []⟩) 6 3).map
      (fun r => (r.1, r.2.MappedTypes.lookup 3)) = some (false, none) ∧
    ∃ s', areTypesIsomorphic exampleOpaqueSourceCtx 1 (init ⟨[], []⟩) 6 3 = some (false, s') :=
  ⟨by decide,
    (areTypesIsomorphic_shape_checks exampleOpaqueSourceCtx 0 (init ⟨[], []⟩) 6 3 rfl (by decide)
      (Or.inr (Or.inr (Or.inr (Or.inr (Or.inl
        ⟨rfl, rfl, rfl, rfl, Or.inr (Or.inr (by decide))⟩)))))).imp (fun _ h => h.1)⟩

/-- Against C33 as stated: the source `%S` is an opaque struct without an
entry, the destination `{ i32 }` is a literal struct with one element, so the
two struct types differ in the literal flag and in the number of elements;
`areTypesIsomorphic` returns true and maps `%S` to `{ i32 }`. -/
theorem areTypesIsomorphic_opaque_ignores_shape :
    (exampleOpaqueSourceCtx.getType 6).isLiteral = true ∧
    (exampleOpaqueSourceCtx.getType 0).isLiteral = false ∧
    (exampleOpaqueSourceCtx.getType 6).contained.length = 1 ∧
    (exampleOpaqueSourceCtx.getType 0).contained.length = 0 ∧
    (init ⟨[], []⟩).MappedTypes.lookup 0 = none ∧
    (areTypesIsomorphic exampleOpaqueSourceCtx 1 (init ⟨[], []⟩) 6 0).map
      (fun r => (r.1, r.2.MappedTypes.lookup 0)) = some (true, some 6) := by
  decide

end TypeMapTy
end IRMover

namespace IRMover
namespace TypeMapTy
open DenseMap

/-! ### Opaque source structs -/

/-- C34, amended: an opaque source struct with no mapping entry unifies with
any destination struct type that is not the same node: `areTypesIsomorphic`
returns true, maps the source struct to that destination type and lists it as
speculative, changing nothing else; and when a top-level `addTypeMapping`
call whose walk recorded this entry fails, the entry is erased again. -/
theorem areTypesIsomorphic_opaque_source (ctx : LLVMContext) (fuel : Nat) (s : TypeMapTy)
    (DstTy SrcTy : Nat) (hS : (ctx.getType SrcTy).id = TypeID.StructTyID)
    (hSo : (ctx.getType SrcTy).isOpaque = true)
    (hD : (ctx.getType DstTy).id = TypeID.StructTyID)
    (hnone : s.MappedTypes.lookup SrcTy = none) (hne : DstTy ≠ SrcTy) :
    (∃ s', areTypesIsomorphic ctx (fuel + 1) s DstTy SrcTy = some (true, s') ∧
      s'.MappedTypes.lookup SrcTy = some DstTy ∧
      (∀ k, k ≠ SrcTy → s'.MappedTypes.lookup k = s.MappedTypes.lookup k) ∧
      s'.SpeculativeTypes = s.SpeculativeTypes ++ [SrcTy] ∧
      s'.SpeculativeDstOpaqueTypes = s.SpeculativeDstOpaqueTypes ∧
      s'.SrcDefinitionsToResolve = s.SrcDefinitionsToResolve ∧
      s'.DstResolvedOpaqueTypes = s.DstResolvedOpaqueTypes ∧
      s'.DstStructTypesSet = s.DstStructTypesSet) ∧
    (∀ (fuel0 : Nat) (s0 s1 : TypeMapTy) (D0 S0 : Nat), s0.SpeculativeTypes = [] →
      s0.SpeculativeDstOpaqueTypes = [] → s0.MappedTypes.lookup SrcTy = none →
      areTypesIsomorphic ctx fuel0 s0 D0 S0 = some (false, s1) →
      s1.MappedTypes.lookup SrcTy = some DstTy →
      ∃ tm, addTypeMapping ctx fuel0 s0 D0 S0 = some (ctx, tm) ∧
        tm.MappedTypes.lookup SrcTy = none) := by
  constructor
  · refine ⟨{ s with
        MappedTypes := (s.MappedTypes.subscript SrcTy).assign SrcTy DstTy
        SpeculativeTypes := s.SpeculativeTypes ++ [SrcTy] }, ?_, ?_, ?_, rfl, rfl, rfl, rfl, rfl⟩
    · rw [areTypesIsomorphic]
      simp only []
      rw [if_neg (not_not.mpr (hD.trans hS.symm)), lookup_subscript, hnone]
      simp only []
      rw [if_neg hne, if_pos ⟨hS, hSo⟩]
    · show lookup ((s.MappedTypes.subscript SrcTy).assign SrcTy DstTy) SrcTy = some DstTy
      rw [lookup_set, if_pos rfl]
    · intro k hk
      show lookup ((s.MappedTypes.subscript SrcTy).assign SrcTy DstTy) k = _
      rw [lookup_set, if_neg hk]
  · intro fuel0 s0 s1 D0 S0 hs hd h0 hwalk h1
    have hext := areTypesIsomorphic_extends ctx fuel0 s0 D0 S0 false s1 hwalk
    obtain ⟨n, e1, _, _, b1⟩ := hext.spec
    rw [hs, List.nil_append] at e1
    refine ⟨_, addTypeMapping_of_false hwalk, ?_⟩
    show lookup (List.foldl DenseMap.erase s1.MappedTypes s1.SpeculativeTypes) SrcTy = none
    rw [lookup_foldl_erase, e1]
    rcases b1 SrcTy DstTy h0 h1 with h | h
    · rw [if_pos h]
    · exact absurd h hne

/-- C34, amended, at the opaque `%S` against `{ i32 }`, with the failing
top-level call that unifies `{ { i32 }, float }` with `{ %S, double }`. -/
theorem areTypesIsomorphic_opaque_source_witness :
    (areTypesIsomorphic exampleOpaqueSourceCtx 4 (init ⟨[], []⟩) 7 4).map
      (fun r => (r.1, r.2.MappedTypes.lookup 0, r.2.SpeculativeTypes)) =
      some (false, some 6, [4, 0]) ∧
    (addTypeMapping exampleOpaqueSourceCtx 4 (init ⟨[], []⟩) 7 4).map
      (fun r => r.2.MappedTypes.lookup 0) = some none ∧
    (∃ s', areTypesIsomorphic exampleOpaqueSourceCtx 1 (init ⟨[], []⟩) 6 0 = some (true, s') ∧
      s'.MappedTypes.lookup 0 = some 6 ∧ s'.SpeculativeTypes = [0]) :=
  ⟨by decide, by decide,
    (areTypesIsomorphic_opaque_source exampleOpaqueSourceCtx 0 (init ⟨[], []⟩) 6 0 rfl rfl rfl rfl
      (by decide)).1.imp (fun _ h => ⟨h.1, h.2.1, h.2.2.2.1⟩)⟩

/-- Against C34 as stated: the opaque source struct `%S` has no entry and is
unified with the destination struct `%S`, the same node: `areTypesIsomorphic`
returns true and maps `%S` to it, but the entry is not speculative; the
top-level call that unifies `{ %S, float }` with `{ %S, double }` fails and
afterwards `%S` is still mapped. -/
theorem opaque_source_identity_entry_survives :
    (exampleOpaqueSourceCtx.getType 0).id = TypeID.StructTyID ∧
    (exampleOpaqueSourceCtx.getType 0).isOpaque = true ∧
    (init ⟨[], []⟩).MappedTypes.lookup 0 = none ∧
    (areTypesIsomorphic exampleOpaqueSourceCtx 1 (init ⟨[], []⟩) 0 0).map
      (fun r => (r.1, r.2.MappedTypes.lookup 0, r.2.SpeculativeTypes)) =
      some (true, some 0, []) ∧
    (areTypesIsomorphic exampleOpaqueSourceCtx 4 (init ⟨[], []⟩) 3 4).map
      (fun r => (r.1, r.2.MappedTypes.lookup 0, r.2.SpeculativeTypes)) =
      some (false, some 0, [4]) ∧
    (addTypeMapping exampleOpaqueSourceCtx 4 (init ⟨[], []⟩) 3 4).map
      (fun r => r.2.MappedTypes.lookup 0) = some (some 0) := by
  decide

end TypeMapTy
end IRMover

namespace IRMover
namespace TypeMapTy
open DenseMap

/-! ### The arena under `get` -/

theorem getType_of_ge (c : LLVMContext) (u : Nat) (h : c.length ≤ u) :
    c.getType u = TypeNode.void := by
  unfold LLVMContext.getType
  rw [List.getD_eq_getElem?_getD, List.getElem?_eq_none h]
  rfl

theorem lt_of_isStruct_id {c : LLVMContext} {u : Nat}
    (h : (c.getType u).id = TypeID.StructTyID) : u < c.length := by
  by_contra hn
  rw [getType_of_ge c u (Nat.le_of_not_lt hn)] at h
  cases h

theorem lt_of_isOpaque {c : LLVMContext} {u : Nat}
    (h : (c.getType u).isOpaque = true) : u < c.length := by
  by_contra hn
  rw [getType_of_ge c u (Nat.le_of_not_lt hn)] at h
  cases h

theorem getType_append_of_lt (c : LLVMContext) (n : TypeNode) (u : Nat) (h : u < c.length) :
    (c ++ [n]).getType u = c.getType u := by
  unfold LLVMContext.getType
  rw [List.getD_eq_getElem?_getD, List.getD_eq_getElem?_getD, List.getElem?_append_left h]

theorem getType_append_length (c : LLVMContext) (n : TypeNode) :
    (c ++ [n]).getType c.length = n := by
  unfold LLVMContext.getType
  rw [List.getD_eq_getElem?_getD, List.getElem?_append_right (Nat.le_refl _)]
  simp

theorem length_setBody (c : LLVMContext) (t : Nat) (e : List Nat) (p : Bool) :
    (c.setBody t e p).length = c.length := by
  unfold LLVMContext.setBody
  exact List.length_modify _ _ _

theorem getType_setBody_of_ne (ctx : LLVMContext) (t u : Nat) (e : List Nat) (p : Bool)
    (h : u ≠ t) : (ctx.setBody t e p).getType u = ctx.getType u := by
  unfold LLVMContext.setBody LLVMContext.getType
  simp only [List.getD_eq_getElem?_getD]
  rw [List.getElem?_modify]
  have hne : ¬ t = u := fun e => h e.symm
  simp only [hne, if_false]
  cases ctx[u]? <;> rfl

theorem getType_setBody_self (ctx : LLVMContext) (t : Nat) (e : List Nat) (p : Bool)
    (h : t < ctx.length) :
    (ctx.setBody t e p).getType t =
      { ctx.getType t with contained := e, isPacked := p, isOpaque := false } := by
  unfold LLVMContext.setBody LLVMContext.getType
  simp only [List.getD_eq_getElem?_getD]
  rw [List.getElem?_modify]
  simp only [if_true]
  rw [List.getElem?_eq_getElem h]
  rfl

theorem getType_setBody_id (c : LLVMContext) (t u : Nat) (e : List Nat) (p : Bool) :
    ((c.setBody t e p).getType u).id = (c.getType u).id ∧
    ((c.setBody t e p).getType u).isLiteral = (c.getType u).isLiteral ∧
    (((c.setBody t e p).getType u).isOpaque = true → (c.getType u).isOpaque = true) := by
  by_cases h : u = t
  · subst h
    by_cases hl : u < c.length
    · rw [getType_setBody_self c u e p hl]
      exact ⟨rfl, rfl, fun h => by cases h⟩
    · rw [getType_of_ge _ u (by rw [length_setBody]; exact Nat.le_of_not_lt hl),
        getType_of_ge c u (Nat.le_of_not_lt hl)]
      exact ⟨rfl, rfl, fun h => h⟩
  · rw [getType_setBody_of_ne c t u e p h]
    exact ⟨rfl, rfl, fun h => h⟩

theorem isOpaque_setBody_self (c : LLVMContext) (t : Nat) (e : List Nat) (p : Bool) :
    ((c.setBody t e p).getType t).isOpaque = false := by
  by_cases hl : t < c.length
  · rw [getType_setBody_self c t e p hl]
  · rw [getType_of_ge _ t (by rw [length_setBody]; exact Nat.le_of_not_lt hl)]
    rfl

theorem grows_refl (c : LLVMContext) : c.Grows c :=
  ⟨Nat.le_refl _, fun u _ => ⟨(c.getType u).name, rfl⟩⟩

theorem grows_trans {c1 c2 c3 : LLVMContext} (h1 : c1.Grows c2) (h2 : c2.Grows c3) :
    c1.Grows c3 := by
  refine ⟨Nat.le_trans h1.1 h2.1, fun u hu => ?_⟩
  obtain ⟨n1, e1⟩ := h1.2 u hu
  obtain ⟨n2, e2⟩ := h2.2 u (Nat.lt_of_lt_of_le hu h1.1)
  exact ⟨n2, by rw [e2, e1]⟩

theorem grows_of_sameShape {c1 c2 : LLVMContext} (h : c1.SameShape c2) : c1.Grows c2 :=
  ⟨Nat.le_of_eq h.1.symm, fun u _ => h.2 u⟩

theorem grows_setName {c c' : LLVMContext} (h : c.Grows c') (t : Nat) (n : String) :
    c.Grows (c'.setName t n) :=
  grows_trans h (grows_of_sameShape (sameShape_setName c' t n))

theorem grows_append {c c' : LLVMContext} (h : c.Grows c') (n : TypeNode) :
    c.Grows (c' ++ [n]) := by
  refine grows_trans h ⟨by rw [List.length_append]; exact Nat.le_add_right _ _, fun u hu => ?_⟩
  exact ⟨(c'.getType u).name, by rw [getType_append_of_lt c' n u hu]⟩

theorem grows_getUniqued {c c' : LLVMContext} (h : c.Grows c') (node : TypeNode) :
    c.Grows (getUniqued c' node).2 := by
  unfold getUniqued
  split
  · exact h
  · exact grows_append h node

theorem grows_createStruct {c c' : LLVMContext} (h : c.Grows c') :
    c.Grows (createStruct c').2 :=
  grows_append h _

theorem grows_setBody {c c' : LLVMContext} (h : c.Grows c') (t : Nat) (e : List Nat) (p : Bool)
    (ht : c.length ≤ t) : c.Grows (c'.setBody t e p) := by
  refine ⟨by rw [length_setBody]; exact h.1, fun u hu => ?_⟩
  rw [getType_setBody_of_ne c' t u e p (by omega)]
  exact h.2 u hu

theorem grows_id {c c' : LLVMContext} (h : c.Grows c') {u : Nat} (hu : u < c.length) :
    (c'.getType u).id = (c.getType u).id ∧
    (c'.getType u).isOpaque = (c.getType u).isOpaque ∧
    (c'.getType u).isLiteral = (c.getType u).isLiteral ∧
    (c'.getType u).isPacked = (c.getType u).isPacked ∧
    (c'.getType u).contained = (c.getType u).contained := by
  obtain ⟨n, e⟩ := h.2 u hu
  rw [e]
  exact ⟨rfl, rfl, rfl, rfl, rfl⟩

theorem finishType_ctx_grows {c : LLVMContext} (st : GetState) (DTy STy : Nat)
    (ETypes : List Nat) (h : c.Grows st.ctx) (ht : c.length ≤ DTy) :
    c.Grows (finishType st DTy STy ETypes).ctx := by
  unfold finishType
  dsimp only
  split
  · exact grows_setName (grows_setName (grows_setBody h _ _ _ ht) _ _) _ _
  · exact grows_setBody h _ _ _ ht

end TypeMapTy
end IRMover

namespace IRMover
namespace TypeMapTy
open DenseMap

/-! ### Well-formed arenas -/

theorem literalOK_of_nodes {c c' : LLVMContext}
    (h : ∀ t, (c'.getType t).id = TypeID.StructTyID → (c'.getType t).isLiteral = true →
      (c'.getType t).isOpaque = true →
      (c.getType t).id = TypeID.StructTyID ∧ (c.getType t).isLiteral = true ∧
        (c.getType t).isOpaque = true)
    (hc : LiteralOK c) : LiteralOK c' := by
  intro t hid hlit
  cases ho : (c'.getType t).isOpaque with
  | false => rfl
  | true =>
    obtain ⟨a, b, d⟩ := h t hid hlit ho
    rw [hc t a b] at d
    cases d

theorem literalOK_setName {c : LLVMContext} (hc : LiteralOK c) (t : Nat) (n : String) :
    LiteralOK (c.setName t n) := by
  refine literalOK_of_nodes (fun u hid hlit ho => ?_) hc
  obtain ⟨nm, e⟩ := (sameShape_setName c t n).2 u
  rw [e] at hid hlit ho
  exact ⟨hid, hlit, ho⟩

theorem literalOK_setBody {c : LLVMContext} (hc : LiteralOK c) (t : Nat) (e : List Nat)
    (p : Bool) : LiteralOK (c.setBody t e p) := by
  refine literalOK_of_nodes (fun u hid hlit ho => ?_) hc
  obtain ⟨a, b, d⟩ := getType_setBody_id c t u e p
  exact ⟨a ▸ hid, b ▸ hlit, d ho⟩

theorem literalOK_append {c : LLVMContext} (hc : LiteralOK c) (n : TypeNode)
    (hn : n.id = TypeID.StructTyID → n.isLiteral = true → n.isOpaque = false) :
    LiteralOK (c ++ [n]) := by
  intro u hid hlit
  rcases Nat.lt_trichotomy u c.length with hu | hu | hu
  · rw [getType_append_of_lt c n u hu] at hid hlit ⊢
    exact hc u hid hlit
  · subst hu
    rw [getType_append_length] at hid hlit ⊢
    exact hn hid hlit
  · rw [getType_of_ge (c ++ [n]) u (by rw [List.length_append, List.length_singleton]; omega)]
    rfl

theorem literalOK_getUniqued {c : LLVMContext} (hc : LiteralOK c) (n : TypeNode)
    (hn : n.id = TypeID.StructTyID → n.isLiteral = true → n.isOpaque = false) :
    LiteralOK (getUniqued c n).2 := by
  unfold getUniqued
  split
  · exact hc
  · exact literalOK_append hc n hn

theorem literalOK_createStruct {c : LLVMContext} (hc : LiteralOK c) :
    LiteralOK (createStruct c).2 :=
  literalOK_append hc _ (fun _ h => by cases h)

theorem indexOK_of_nodes {c c' : LLVMContext} {S : IdentifiedStructTypeSet}
    (hlen : c.length ≤ c'.length)
    (h : ∀ t, t < c.length → (c'.getType t).isOpaque = true → (c.getType t).isOpaque = true)
    (hc : IndexOK c S) : IndexOK c' S := by
  intro t ht
  obtain ⟨a, b⟩ := hc t ht
  refine ⟨Nat.lt_of_lt_of_le a hlen, ?_⟩
  cases ho : (c'.getType t).isOpaque with
  | false => rfl
  | true => rw [h t a ho] at b; cases b

theorem indexOK_setName {c : LLVMContext} {S : IdentifiedStructTypeSet} (hc : IndexOK c S)
    (t : Nat) (n : String) : IndexOK (c.setName t n) S := by
  refine indexOK_of_nodes (Nat.le_of_eq (length_setName c t n).symm) (fun u _ ho => ?_) hc
  rw [sameShape_isOpaque_eq (sameShape_setName c t n)] at ho
  exact ho

theorem indexOK_setBody {c : LLVMContext} {S : IdentifiedStructTypeSet} (hc : IndexOK c S)
    (t : Nat) (e : List Nat) (p : Bool) : IndexOK (c.setBody t e p) S :=
  indexOK_of_nodes (Nat.le_of_eq (length_setBody c t e p).symm)
    (fun u _ ho => (getType_setBody_id c t u e p).2.2 ho) hc

theorem indexOK_append {c : LLVMContext} {S : IdentifiedStructTypeSet} (hc : IndexOK c S)
    (n : TypeNode) : IndexOK (c ++ [n]) S :=
  indexOK_of_nodes (by rw [List.length_append]; exact Nat.le_add_right _ _)
    (fun u hu ho => by rw [getType_append_of_lt c n u hu] at ho; exact ho) hc

theorem indexOK_getUniqued {c : LLVMContext} {S : IdentifiedStructTypeSet} (hc : IndexOK c S)
    (n : TypeNode) : IndexOK (getUniqued c n).2 S := by
  unfold getUniqued
  split
  · exact hc
  · exact indexOK_append hc n

theorem mem_insertNonOpaque {c : LLVMContext} {S : IdentifiedStructTypeSet} {Ty t : Nat}
    (h : t ∈ (IdentifiedStructTypeSet.insertNonOpaque c S Ty).NonOpaqueStructTypes) :
    t ∈ S.NonOpaqueStructTypes ∨ t = Ty := by
  unfold IdentifiedStructTypeSet.insertNonOpaque at h
  split at h
  · exact Or.inl h
  · rcases List.mem_append.1 h with h | h
    · exact Or.inl h
    · exact Or.inr (List.mem_singleton.1 h)

theorem mem_insertNonOpaque_of_mem {c : LLVMContext} {S : IdentifiedStructTypeSet} {t : Nat}
    (Ty : Nat) (h : t ∈ S.NonOpaqueStructTypes) :
    t ∈ (IdentifiedStructTypeSet.insertNonOpaque c S Ty).NonOpaqueStructTypes := by
  unfold IdentifiedStructTypeSet.insertNonOpaque
  split
  · exact h
  · exact List.mem_append_left _ h

theorem insertNonOpaque_opaqueSet (c : LLVMContext) (S : IdentifiedStructTypeSet) (Ty : Nat) :
    (IdentifiedStructTypeSet.insertNonOpaque c S Ty).OpaqueStructTypes = S.OpaqueStructTypes := by
  unfold IdentifiedStructTypeSet.insertNonOpaque
  split <;> rfl

theorem indexOK_insert {c : LLVMContext} {S : IdentifiedStructTypeSet} (hc : IndexOK c S)
    {Ty : Nat} (hlt : Ty < c.length) (ho : (c.getType Ty).isOpaque = false) :
    IndexOK c (IdentifiedStructTypeSet.insertNonOpaque c S Ty) := by
  intro t ht
  rcases mem_insertNonOpaque ht with h | h
  · exact hc t h
  · subst h
    exact ⟨hlt, ho⟩

theorem finishType_ok {st : GetState} (hok : st.OK) (DTy STy : Nat) (ETypes : List Nat)
    (hlt : DTy < st.ctx.length) : (finishType st DTy STy ETypes).OK := by
  have hD : ∀ c : LLVMContext, c.length = st.ctx.length →
      (c.getType DTy).isOpaque = false → LiteralOK c → IndexOK c st.tm.DstStructTypesSet →
      GetState.OK { st with
        ctx := c
        tm := { st.tm with
          DstStructTypesSet :=
            IdentifiedStructTypeSet.addNonOpaque c st.tm.DstStructTypesSet DTy } } :=
    fun c hl ho h1 h2 => ⟨h1, indexOK_insert h2 (by rw [hl]; exact hlt) ho⟩
  unfold finishType
  dsimp only
  split
  · refine hD _ ?_ ?_ ?_ ?_
    · rw [length_setName, length_setName, length_setBody]
    · rw [sameShape_isOpaque_eq (sameShape_setName _ _ _),
        sameShape_isOpaque_eq (sameShape_setName _ _ _)]
      exact isOpaque_setBody_self _ _ _ _
    · exact literalOK_setName (literalOK_setName (literalOK_setBody hok.literal _ _ _) _ _) _ _
    · exact indexOK_setName (indexOK_setName (indexOK_setBody hok.index _ _ _) _ _) _ _
  · refine hD _ ?_ ?_ ?_ ?_
    · rw [length_setBody]
    · exact isOpaque_setBody_self _ _ _ _
    · exact literalOK_setBody hok.literal _ _ _
    · exact indexOK_setBody hok.index _ _ _

theorem ok_of_check {st : GetState} (h : st.check = true) : st.OK := by
  unfold GetState.check at h
  rw [Bool.and_eq_true, List.all_eq_true, List.all_eq_true] at h
  constructor
  · intro t hid hlit
    have hlt := lt_of_isStruct_id hid
    have hmem : st.ctx.getType t ∈ st.ctx := by
      unfold LLVMContext.getType
      rw [List.getD_eq_getElem _ _ hlt]
      exact List.getElem_mem _
    have := h.1 _ hmem
    rw [hid, hlit] at this
    simpa using this
  · intro t ht
    have := h.2 t ht
    simpa using this

end TypeMapTy
end IRMover

namespace IRMover
namespace TypeMapTy
open DenseMap

/-! ### What `get` keeps -/

theorem getInv_refl (st : GetState) : GetInv st st where
  grows := grows_refl _
  mono := fun _ _ h => h
  visited := fun _ h => h
  fresh := fun k v h1 h2 => by rw [h1] at h2; cases h2
  nonOpaque := fun _ h => h
  addedOpaque := fun _ h => Or.inl h
  queue := rfl
  resolved := rfl

theorem getInv_trans {a b c : GetState} (h1 : GetInv a b) (h2 : GetInv b c) : GetInv a c where
  grows := grows_trans h1.grows h2.grows
  mono := fun k v h => h2.mono k v (h1.mono k v h)
  visited := fun x h => h2.visited x (h1.visited x h)
  fresh := by
    intro k v ha hc
    cases hb : b.tm.MappedTypes.lookup k with
    | some w =>
      have := h2.mono k w hb
      rw [hc] at this
      cases this
      exact h1.fresh k v ha hb
    | none =>
      intro hv
      have hv' : v < b.ctx.length := Nat.lt_of_lt_of_le hv h1.grows.1
      obtain ⟨e1, e2, e3, _, _⟩ := grows_id h1.grows hv
      rcases h2.fresh k v hb hc hv' with h | ⟨e, hvis, hlit⟩
      · left
        rw [← e1, ← e2]
        exact h
      · right
        refine ⟨e, fun hm => hvis (h1.visited k hm), ?_⟩
        rw [← e, ← e3, e]
        exact hlit
  nonOpaque := fun t h => h2.nonOpaque t (h1.nonOpaque t h)
  addedOpaque := by
    intro t ht
    rcases h2.addedOpaque t ht with h | h | h
    · exact h1.addedOpaque t h
    · exact Or.inr (Or.inl (Nat.le_trans h1.grows.1 h))
    · by_cases hlt : t < a.ctx.length
      · right; right
        rw [← (grows_id h1.grows hlt).2.1]
        exact h
      · exact Or.inr (Or.inl (Nat.le_of_not_lt hlt))
  queue := h2.queue.trans h1.queue
  resolved := h2.resolved.trans h1.resolved

/-- One more piece of work on the state `cur` reached from `st`. -/
theorem getInv_step {st cur cur' : GetState} (h : GetInv st cur)
    (hctx : st.ctx.Grows cur'.ctx)
    (hmap : ∀ k, cur'.tm.MappedTypes.lookup k = cur.tm.MappedTypes.lookup k ∨
      (cur.tm.MappedTypes.lookup k = none ∧
        ∀ v, cur'.tm.MappedTypes.lookup k = some v → FreshVal st k v))
    (hvis : ∀ x ∈ cur.Visited, x ∈ cur'.Visited)
    (hno : ∀ t ∈ cur.tm.DstStructTypesSet.NonOpaqueStructTypes,
      t ∈ cur'.tm.DstStructTypesSet.NonOpaqueStructTypes)
    (hop : ∀ t ∈ cur'.tm.DstStructTypesSet.OpaqueStructTypes,
      t ∈ cur.tm.DstStructTypesSet.OpaqueStructTypes ∨ st.ctx.length ≤ t ∨
        (st.ctx.getType t).isOpaque = true)
    (hq : cur'.tm.SrcDefinitionsToResolve = cur.tm.SrcDefinitionsToResolve)
    (hr : cur'.tm.DstResolvedOpaqueTypes = cur.tm.DstResolvedOpaqueTypes) :
    GetInv st cur' where
  grows := hctx
  mono := by
    intro k v hk
    have hc := h.mono k v hk
    rcases hmap k with e | ⟨e, _⟩
    · rw [e]; exact hc
    · rw [e] at hc; cases hc
  visited := fun x hx => hvis x (h.visited x hx)
  fresh := by
    intro k v hk hc
    rcases hmap k with e | ⟨_, e⟩
    · rw [e] at hc; exact h.fresh k v hk hc
    · exact e v hc
  nonOpaque := fun t ht => hno t (h.nonOpaque t ht)
  addedOpaque := by
    intro t ht
    rcases hop t ht with h' | h'
    · exact h.addedOpaque t h'
    · exact Or.inr h'
  queue := hq.trans h.queue
  resolved := hr.trans h.resolved

theorem lookup_setEntry_cases (cur : GetState) (Ty V : Nat) {st : GetState}
    (hl : cur.tm.MappedTypes.lookup Ty = none) (hf : FreshVal st Ty V) (k : Nat) :
    (cur.setEntry Ty V).tm.MappedTypes.lookup k = cur.tm.MappedTypes.lookup k ∨
      (cur.tm.MappedTypes.lookup k = none ∧
        ∀ v, (cur.setEntry Ty V).tm.MappedTypes.lookup k = some v → FreshVal st k v) := by
  unfold GetState.setEntry
  simp only [lookup_assign]
  by_cases hk : k = Ty
  · subst hk
    right
    refine ⟨hl, fun v hv => ?_⟩
    rw [if_pos rfl] at hv
    split at hv
    · cases hv; exact hf
    · cases hv
  · left
    rw [if_neg hk]

/-- Recording the result `V` for `Ty`, possibly after a change `c` of the
arena and `S` of the struct index. -/
theorem getInv_setEntry {st cur : GetState} (h : GetInv st cur) (Ty V : Nat)
    (c : LLVMContext) (S : IdentifiedStructTypeSet)
    (hl : cur.tm.MappedTypes.lookup Ty = none) (hf : FreshVal st Ty V)
    (hctx : st.ctx.Grows c)
    (hno : ∀ t ∈ cur.tm.DstStructTypesSet.NonOpaqueStructTypes, t ∈ S.NonOpaqueStructTypes)
    (hop : ∀ t ∈ S.OpaqueStructTypes,
      t ∈ cur.tm.DstStructTypesSet.OpaqueStructTypes ∨ st.ctx.length ≤ t ∨
        (st.ctx.getType t).isOpaque = true) :
    GetInv st (({ cur with ctx := c, tm := { cur.tm with DstStructTypesSet := S } } :
      GetState).setEntry Ty V) :=
  getInv_step h hctx
    (lookup_setEntry_cases
      ({ cur with ctx := c, tm := { cur.tm with DstStructTypesSet := S } } : GetState)
      Ty V hl hf)
    (fun _ hx => hx) hno hop rfl rfl

theorem freshVal_of_ge {st : GetState} {k v : Nat} (h : st.ctx.length ≤ v) : FreshVal st k v :=
  fun hv => absurd hv (Nat.not_lt.2 h)

theorem freshVal_of_nonOpaque {st : GetState} {c : LLVMContext} (hg : st.ctx.Grows c)
    {k v : Nat} (h : (c.getType v).isOpaque = false) : FreshVal st k v := by
  intro hv
  left
  rw [← (grows_id hg hv).2.1, h]
  exact fun hh => by cases hh.2

end TypeMapTy
end IRMover

namespace IRMover
namespace TypeMapTy
open DenseMap

theorem ok_setEntry {st : GetState} (h : st.OK) (Ty V : Nat) : (st.setEntry Ty V).OK :=
  ⟨h.literal, h.index⟩

theorem getUniqued_inv {st cur : GetState} (hinv : GetInv st cur) (hok : cur.OK) (Ty : Nat)
    (node : TypeNode) (hl : cur.tm.MappedTypes.lookup Ty = none)
    (hn : node.isOpaque = false) :
    GetInv st (({ cur with ctx := (getUniqued cur.ctx node).2 } : GetState).setEntry Ty
      (getUniqued cur.ctx node).1) ∧
    GetState.OK (({ cur with ctx := (getUniqued cur.ctx node).2 } : GetState).setEntry Ty
      (getUniqued cur.ctx node).1) := by
  constructor
  · exact getInv_setEntry hinv Ty _ _ cur.tm.DstStructTypesSet hl
      (freshVal_of_nonOpaque (grows_getUniqued hinv.grows node)
        (by rw [IRLinker.getUniqued_getType]; exact hn))
      (grows_getUniqued hinv.grows node) (fun _ h => h) (fun _ h => Or.inl h)
  · exact ⟨literalOK_getUniqued hok.literal node (fun _ _ => hn),
      indexOK_getUniqued hok.index node⟩

theorem finishType_inv {st cur : GetState} (hinv : GetInv st cur) (DTy STy : Nat)
    (ETypes : List Nat) (hge : st.ctx.length ≤ DTy) :
    GetInv st (finishType cur DTy STy ETypes) :=
  getInv_step hinv (finishType_ctx_grows cur DTy STy ETypes hinv.grows hge)
    (fun _ => Or.inl rfl) (fun _ h => h)
    (fun _ h => mem_insertNonOpaque_of_mem DTy h)
    (fun t h => Or.inl (by
      have e := insertNonOpaque_opaqueSet (finishType cur DTy STy ETypes).ctx
        cur.tm.DstStructTypesSet DTy
      exact e ▸ h))
    rfl rfl

theorem mem_addOpaque {S : IdentifiedStructTypeSet} {Ty t : Nat}
    (h : t ∈ (S.addOpaque Ty).OpaqueStructTypes) : t ∈ S.OpaqueStructTypes ∨ t = Ty := by
  unfold IdentifiedStructTypeSet.addOpaque SmallPtrSet.insert at h
  dsimp only at h
  split at h
  · exact Or.inl h
  · rcases List.mem_append.1 h with h | h
    · exact Or.inl h
    · exact Or.inr (List.mem_singleton.1 h)

/-- The tail of `get` keeps the types the call started with. -/
theorem rebuild_inv {st cur st' : GetState} {Ty r : Nat} {E : List Nat} {A U : Bool}
    (hinv : GetInv st cur) (hok : cur.OK) (hl : cur.tm.MappedTypes.lookup Ty = none)
    (hU : U = false → Ty ∉ st.Visited ∧ (st.ctx.getType Ty).isLiteral = false)
    (h : rebuild cur Ty E A U = some (r, st')) : GetInv st st' ∧ st'.OK := by
  unfold rebuild at h
  simp only [] at h
  split at h
  · simp only [Option.some.injEq, Prod.mk.injEq] at h
    rw [← h.2]
    exact getUniqued_inv hinv hok Ty _ hl rfl
  · simp only [Option.some.injEq, Prod.mk.injEq] at h
    rw [← h.2]
    exact getUniqued_inv hinv hok Ty _ hl rfl
  · simp only [Option.some.injEq, Prod.mk.injEq] at h
    rw [← h.2]
    exact getUniqued_inv hinv hok Ty _ hl rfl
  · simp only [Option.some.injEq, Prod.mk.injEq] at h
    rw [← h.2]
    exact getUniqued_inv hinv hok Ty _ hl rfl
  · rename_i hid
    split at h
    · simp only [Option.some.injEq, Prod.mk.injEq] at h
      rw [← h.2]
      exact getUniqued_inv hinv hok Ty _ hl rfl
    · rename_i hnu
      have hU' := hU (by simpa using hnu)
      split at h
      · rename_i hop
        simp only [Option.some.injEq, Prod.mk.injEq] at h
        rw [← h.2]
        constructor
        · refine getInv_setEntry hinv Ty Ty cur.ctx _ hl
            (fun _ => Or.inr ⟨rfl, hU'.1, hU'.2⟩) hinv.grows (fun _ h => h) ?_
          intro t ht
          rcases mem_addOpaque ht with h' | h'
          · exact Or.inl h'
          · right
            subst h'
            by_cases hlt : t < st.ctx.length
            · right
              rw [← (grows_id hinv.grows hlt).2.1]
              exact hop
            · exact Or.inl (Nat.le_of_not_lt hlt)
        · exact ⟨hok.literal, hok.index⟩
      · rename_i hop
        have hno : (cur.ctx.getType Ty).isOpaque = false := by simpa using hop
        split at h
        · rename_i OldT hfind
          simp only [Option.some.injEq, Prod.mk.injEq] at h
          rw [← h.2]
          have hmem : OldT ∈ cur.tm.DstStructTypesSet.NonOpaqueStructTypes :=
            List.mem_of_find?_eq_some hfind
          constructor
          · exact getInv_setEntry hinv Ty OldT _ cur.tm.DstStructTypesSet hl
              (freshVal_of_nonOpaque hinv.grows (hok.index OldT hmem).2)
              (grows_setName hinv.grows Ty "") (fun _ h => h) (fun _ h => Or.inl h)
          · exact ⟨literalOK_setName hok.literal Ty "", indexOK_setName hok.index Ty ""⟩
        · split at h
          · simp only [Option.some.injEq, Prod.mk.injEq] at h
            rw [← h.2]
            constructor
            · exact getInv_setEntry hinv Ty Ty cur.ctx _ hl
                (freshVal_of_nonOpaque hinv.grows hno) hinv.grows
                (fun _ h => mem_insertNonOpaque_of_mem Ty h)
                (fun t h => Or.inl (by
                  have e := insertNonOpaque_opaqueSet cur.ctx cur.tm.DstStructTypesSet Ty
                  exact e ▸ h))
            · exact ⟨hok.literal, indexOK_insert hok.index (lt_of_isStruct_id hid) hno⟩
          · simp only [Option.some.injEq, Prod.mk.injEq] at h
            rw [← h.2]
            have h1 : GetInv st ({ cur with ctx := (createStruct cur.ctx).2 } : GetState) :=
              getInv_step hinv (grows_createStruct hinv.grows) (fun _ => Or.inl rfl)
                (fun _ h => h) (fun _ h => h) (fun _ h => Or.inl h) rfl rfl
            have hge : st.ctx.length ≤ (createStruct cur.ctx).1 := hinv.grows.1
            have h2 := finishType_inv h1 (createStruct cur.ctx).1 Ty E hge
            have ok1 : GetState.OK ({ cur with ctx := (createStruct cur.ctx).2 } : GetState) :=
              ⟨literalOK_createStruct hok.literal, indexOK_append hok.index _⟩
            have ok2 := finishType_ok ok1 (createStruct cur.ctx).1 Ty E
              (by show cur.ctx.length < (cur.ctx ++ [_]).length
                  rw [List.length_append, List.length_singleton]; omega)
            constructor
            · exact getInv_step h2 h2.grows
                (lookup_setEntry_cases _ Ty _ hl (freshVal_of_ge hge))
                (fun _ h => h) (fun _ h => h) (fun _ h => Or.inl h) rfl rfl
            · exact ok_setEntry ok2 _ _
  · cases h

end TypeMapTy
end IRMover

namespace IRMover
namespace TypeMapTy
open DenseMap

theorem getInv_subscript {st cur : GetState} (h : GetInv st cur) (Ty : Nat) :
    GetInv st ({ cur with tm := { cur.tm with
      MappedTypes := cur.tm.MappedTypes.subscript Ty } } : GetState) :=
  getInv_step h h.grows (fun _ => Or.inl (lookup_subscript _ _ _)) (fun _ h => h)
    (fun _ h => h) (fun _ h => Or.inl h) rfl rfl

theorem freshVal_uniqued {st : GetState} (hok : st.OK) {Ty : Nat}
    (hU : (!st.ctx.isStruct Ty || (st.ctx.getType Ty).isLiteral) = true) :
    FreshVal st Ty Ty := by
  intro _
  left
  intro hh
  unfold LLVMContext.isStruct at hU
  rw [hh.1] at hU
  simp only [decide_True, Bool.not_true, Bool.false_or] at hU
  rw [hok.literal Ty hh.1 hU] at hh
  cases hh.2

/-- The part of `get` after the loop keeps the types the call started with:
an entry found for `Ty` that is an opaque struct was made during the call. -/
theorem finishGet_inv {st st1 st2 st' : GetState} {Ty r : Nat} {E : List Nat} {A U : Bool}
    (hok0 : st.OK) (h01 : GetInv st st1) (h12 : GetInv st1 st2) (hok2 : st2.OK)
    (hl1 : st1.tm.MappedTypes.lookup Ty = none) (hctx : st1.ctx = st.ctx)
    (hU : U = (!st.ctx.isStruct Ty || (st.ctx.getType Ty).isLiteral))
    (hUf : U = false → Ty ∉ st.Visited ∧ Ty ∈ st1.Visited)
    (h : finishGet st2 Ty E A U = some (r, st')) : GetInv st st' ∧ st'.OK := by
  have h02 := getInv_trans h01 h12
  have h03 := getInv_subscript h02 Ty
  have ok3 : GetState.OK ({ st2 with tm := { st2.tm with
      MappedTypes := st2.tm.MappedTypes.subscript Ty } } : GetState) :=
    ⟨hok2.literal, hok2.index⟩
  have hlitF : U = false → (st.ctx.getType Ty).isLiteral = false := by
    intro hf
    rw [hf] at hU
    have := hU.symm
    simp only [Bool.or_eq_false_iff] at this
    exact this.2
  unfold finishGet at h
  simp only [] at h
  rw [lookup_subscript] at h
  cases hl2 : st2.tm.MappedTypes.lookup Ty with
  | some Entry =>
    rw [hl2] at h
    simp only [] at h
    split at h
    · rename_i hcond
      simp only [Bool.and_eq_true, LLVMContext.isStruct, decide_eq_true_eq] at hcond
      have hid2 : (st2.ctx.getType Entry).id = TypeID.StructTyID := hcond.1
      have hop2 : (st2.ctx.getType Entry).isOpaque = true := hcond.2
      have hge : st.ctx.length ≤ Entry := by
        by_contra hlt
        have hlt1 : Entry < st1.ctx.length := by rw [hctx]; exact Nat.lt_of_not_le hlt
        obtain ⟨e1, e2, e3, _, _⟩ := grows_id h12.grows hlt1
        rcases h12.fresh Ty Entry hl1 hl2 hlt1 with hno | ⟨e, hvis, hlit⟩
        · exact hno ⟨e1 ▸ hid2, e2 ▸ hop2⟩
        · cases hUc : U with
          | false => exact hvis (hUf hUc).2
          | true =>
            rw [hUc] at hU
            have hU' := hU.symm
            unfold LLVMContext.isStruct at hU'
            rw [← hctx, ← e, ← e1, hid2] at hU'
            simp only [decide_True, Bool.not_true, Bool.false_or] at hU'
            rw [← e, hU'] at hlit
            cases hlit
      simp only [Option.some.injEq, Prod.mk.injEq] at h
      rw [← h.2]
      exact ⟨finishType_inv h03 Entry Ty E hge,
        finishType_ok ok3 Entry Ty E (lt_of_isStruct_id hid2)⟩
    · simp only [Option.some.injEq, Prod.mk.injEq] at h
      rw [← h.2]
      exact ⟨h03, ok3⟩
  | none =>
    rw [hl2] at h
    simp only [] at h
    have hl3 : ({ st2 with tm := { st2.tm with
        MappedTypes := st2.tm.MappedTypes.subscript Ty } } : GetState).tm.MappedTypes.lookup Ty =
        none := by
      show (st2.tm.MappedTypes.subscript Ty).lookup Ty = none
      rw [lookup_subscript]; exact hl2
    split at h
    · rename_i hcond
      simp only [Bool.and_eq_true] at hcond
      have hUt : (!st.ctx.isStruct Ty || (st.ctx.getType Ty).isLiteral) = true := by
        rw [← hU]; exact hcond.2
      simp only [Option.some.injEq, Prod.mk.injEq] at h
      rw [← h.2]
      exact ⟨getInv_step h03 h03.grows
          (lookup_setEntry_cases _ Ty Ty hl3 (freshVal_uniqued hok0 hUt))
          (fun _ h => h) (fun _ h => h) (fun _ h => Or.inl h) rfl rfl,
        ok_setEntry ok3 _ _⟩
    · exact rebuild_inv h03 ok3 hl3 (fun hf => ⟨(hUf hf).1, hlitF hf⟩) h

theorem getLoop_inv {rec : GetState → Nat → Option (Nat × GetState)}
    (hrec : ∀ st Ty r st', st.OK → rec st Ty = some (r, st') → GetInv st st' ∧ st'.OK)
    (Ty : Nat) :
    ∀ (Is ETypes : List Nat) (b : Bool) (st : GetState) (E' : List Nat) (b' : Bool)
      (st' : GetState), st.OK → getLoop rec Ty Is ETypes b st = some (E', b', st') →
      GetInv st st' ∧ st'.OK := by
  intro Is
  induction Is with
  | nil =>
    intro ETypes b st E' b' st' hok h
    simp only [getLoop, Option.some.injEq, Prod.mk.injEq] at h
    rw [← h.2.2]
    exact ⟨getInv_refl st, hok⟩
  | cons I rest ih =>
    intro ETypes b st E' b' st' hok h
    rw [getLoop] at h
    cases hr : rec st (st.ctx.getContainedType Ty I) with
    | none => rw [hr] at h; cases h
    | some res =>
      obtain ⟨E1, st1⟩ := res
      rw [hr] at h
      simp only [] at h
      obtain ⟨a1, a2⟩ := hrec _ _ _ _ hok hr
      obtain ⟨b1, b2⟩ := ih _ _ _ _ _ _ a2 h
      exact ⟨getInv_trans a1 b1, b2⟩

/-- The frame of `get`: a call keeps every type of the arena it started with,
up to its name, keeps every entry of the mapping, and leaves the arena and
the struct index well-formed. -/
theorem getVisited_inv :
    ∀ (fuel : Nat) (st : GetState) (Ty r : Nat) (st' : GetState), st.OK →
      getVisited fuel st Ty = some (r, st') → GetInv st st' ∧ st'.OK := by
  intro fuel
  induction fuel with
  | zero => intro st Ty r st' _ h; simp [getVisited] at h
  | succ fuel ih =>
    intro st Ty r st' hok h
    have h0S := getInv_subscript (getInv_refl st) Ty
    have okS : GetState.OK ({ st with tm := { st.tm with
        MappedTypes := st.tm.MappedTypes.subscript Ty } } : GetState) :=
      ⟨hok.literal, hok.index⟩
    rw [getVisited] at h
    simp only [] at h
    rw [lookup_subscript] at h
    cases hl : st.tm.MappedTypes.lookup Ty with
    | some E =>
      rw [hl] at h
      simp only [Option.some.injEq, Prod.mk.injEq] at h
      rw [← h.2]
      exact ⟨h0S, okS⟩
    | none =>
      rw [hl] at h
      simp only [] at h
      have hl0 : ({ st with tm := { st.tm with
          MappedTypes := st.tm.MappedTypes.subscript Ty } } : GetState).tm.MappedTypes.lookup Ty =
          none := by
        show (st.tm.MappedTypes.subscript Ty).lookup Ty = none
        rw [lookup_subscript]; exact hl
      generalize hU : (!st.ctx.isStruct Ty || (st.ctx.getType Ty).isLiteral) = U at h
      cases U
      · simp only [Bool.not_false, Bool.true_and, Bool.false_eq_true, if_false, and_false] at h
        split at h
        · simp only [Option.some.injEq, Prod.mk.injEq] at h
          rw [← h.2]
          exact ⟨getInv_setEntry h0S Ty _ _ st.tm.DstStructTypesSet hl0
              (freshVal_of_ge (Nat.le_refl _)) (grows_createStruct (grows_refl _))
              (fun _ h => h) (fun _ h => Or.inl h),
            @ok_setEntry ({ st with
              ctx := (createStruct st.ctx).2
              tm := { st.tm with MappedTypes := st.tm.MappedTypes.subscript Ty } } : GetState)
              ⟨literalOK_createStruct hok.literal, indexOK_append hok.index _⟩ _ _⟩
        · rename_i hnv
          have hnv' : Ty ∉ st.Visited := by simpa using hnv
          split at h
          · cases h
          · rename_i E' b' st2 hloop
            have h01 : GetInv st ({ st with
                tm := { st.tm with MappedTypes := st.tm.MappedTypes.subscript Ty }
                Visited := (SmallPtrSet.insert st.Visited Ty).1 } : GetState) :=
              getInv_step h0S (grows_refl _) (fun _ => Or.inl rfl)
                (fun x hx => by
                  show x ∈ (SmallPtrSet.insert st.Visited Ty).1
                  unfold SmallPtrSet.insert
                  split
                  · exact hx
                  · exact List.mem_append_left _ hx)
                (fun _ h => h) (fun _ h => Or.inl h) rfl rfl
            have ok1 : GetState.OK ({ st with
                tm := { st.tm with MappedTypes := st.tm.MappedTypes.subscript Ty }
                Visited := (SmallPtrSet.insert st.Visited Ty).1 } : GetState) :=
              ⟨hok.literal, hok.index⟩
            obtain ⟨h12, ok2⟩ := getLoop_inv (fun a b c d hk hh => ih a b c d hk hh) Ty
              _ _ _ _ _ _ _ ok1 hloop
            refine finishGet_inv hok h01 h12 ok2 hl0 rfl hU.symm (fun _ => ⟨hnv', ?_⟩) h
            show Ty ∈ (SmallPtrSet.insert st.Visited Ty).1
            unfold SmallPtrSet.insert
            rw [if_neg hnv']
            exact List.mem_append_right _ (List.mem_singleton.2 rfl)
      · simp only [Bool.not_true, Bool.false_and, Bool.false_eq_true, if_false, if_true,
          and_true] at h
        split at h
        · simp only [Option.some.injEq, Prod.mk.injEq] at h
          rw [← h.2]
          exact ⟨getInv_step h0S h0S.grows
              (lookup_setEntry_cases _ Ty Ty hl0 (freshVal_uniqued hok hU))
              (fun _ h => h) (fun _ h => h) (fun _ h => Or.inl h) rfl rfl,
            ok_setEntry okS _ _⟩
        · split at h
          · cases h
          · rename_i E' b' st2 hloop
            obtain ⟨h12, ok2⟩ := getLoop_inv (fun a b c d hk hh => ih a b c d hk hh) Ty
              _ _ _ _ _ _ _ okS hloop
            exact finishGet_inv hok h0S h12 ok2 hl0 rfl hU.symm
              (fun hf => by cases hf) h

end TypeMapTy
end IRMover

namespace IRMover
namespace TypeMapTy
open DenseMap

/-! ### The queue of structs awaiting a body -/

theorem map_lookup_mono {f g : Nat → Option Nat} (hfg : ∀ k v, f k = some v → g k = some v) :
    ∀ (q o : List Nat), q.map f = o.map some → q.map g = o.map some := by
  intro q
  induction q with
  | nil => intro o h; exact h
  | cons a rest ih =>
    intro o h
    cases o with
    | nil => simp at h
    | cons b o' =>
      simp only [List.map_cons, List.cons.injEq] at h ⊢
      exact ⟨hfg a b h.1, ih o' h.2⟩

theorem claimsOK_nil (ctx : LLVMContext) {s s' : TypeMapTy}
    (hm : ∀ k v, s.MappedTypes.lookup k = some v → s'.MappedTypes.lookup k = some v)
    (hq : s'.SrcDefinitionsToResolve = s.SrcDefinitionsToResolve)
    (hr : s'.DstResolvedOpaqueTypes = s.DstResolvedOpaqueTypes) : ClaimsOK ctx s s' :=
  ⟨hm, [], [], by rw [hq, List.append_nil], by rw [hr, List.append_nil], rfl, List.nodup_nil,
    fun _ h => (by cases h), fun _ h => (by cases h), fun _ h => (by cases h)⟩

theorem claimsOK_trans {ctx : LLVMContext} {s s1 s2 : TypeMapTy} (h1 : ClaimsOK ctx s s1)
    (h2 : ClaimsOK ctx s1 s2) : ClaimsOK ctx s s2 := by
  obtain ⟨m1, o1, q1, a1, b1, c1, d1, e1, f1, g1⟩ := h1
  obtain ⟨m2, o2, q2, a2, b2, c2, d2, e2, f2, g2⟩ := h2
  refine ⟨fun k v h => m2 k v (m1 k v h), o1 ++ o2, q1 ++ q2, ?_, ?_, ?_, ?_, ?_, ?_, ?_⟩
  · rw [a2, a1, List.append_assoc]
  · rw [b2, b1, List.append_assoc]
  · rw [List.map_append, List.map_append, c2, map_lookup_mono m2 q1 o1 c1]
  · refine List.nodup_append.2 ⟨d1, d2, ?_⟩
    intro x hx1 hx2
    exact e2 x hx2 (by rw [b1]; exact List.mem_append_right _ hx1)
  · intro x hx
    rcases List.mem_append.1 hx with h | h
    · exact e1 x h
    · intro hR
      exact e2 x h (by rw [b1]; exact List.mem_append_left _ hR)
  · intro S hS
    rcases List.mem_append.1 hS with h | h
    · exact f1 S h
    · exact f2 S h
  · intro D hD
    rcases List.mem_append.1 hD with h | h
    · exact g1 D h
    · exact g2 D h

theorem isoLoop_claimsOK {ctx : LLVMContext}
    {rec : TypeMapTy → Nat → Nat → Option (Bool × TypeMapTy)}
    (hrec : ∀ s d t r s', rec s d t = some (r, s') → ClaimsOK ctx s s') :
    ∀ (pairs : List (Nat × Nat)) (s : TypeMapTy) (r : Bool) (s' : TypeMapTy),
      isoLoop rec pairs s = some (r, s') → ClaimsOK ctx s s' := by
  intro pairs
  induction pairs with
  | nil =>
    intro s r s' h
    simp only [isoLoop, Option.some.injEq, Prod.mk.injEq] at h
    rw [← h.2]
    exact claimsOK_nil ctx (fun _ _ h => h) rfl rfl
  | cons p rest ih =>
    intro s r s' h
    obtain ⟨d, t⟩ := p
    rw [isoLoop] at h
    cases hr : rec s d t with
    | none => rw [hr] at h; cases h
    | some res =>
      obtain ⟨b, s1⟩ := res
      rw [hr] at h
      cases b with
      | false =>
        simp only [Option.some.injEq, Prod.mk.injEq] at h
        rw [← h.2]
        exact hrec s d t false s1 hr
      | true =>
        simp only at h
        exact claimsOK_trans (hrec s d t true s1 hr) (ih s1 r s' h)

theorem lookup_set_mono {m : DenseMap} {S D : Nat} (hl : m.lookup S = none) (k v : Nat)
    (h : m.lookup k = some v) : ((m.subscript S).assign S D).lookup k = some v := by
  rw [lookup_set]
  by_cases hk : k = S
  · subst hk; rw [hl] at h; cases h
  · rw [if_neg hk]; exact h

/-- Every claim of an opaque destination struct made by `areTypesIsomorphic`
is for a non-opaque source struct, which is queued and mapped to it. -/
theorem areTypesIsomorphic_claimsOK (ctx : LLVMContext) :
    ∀ (fuel : Nat) (s : TypeMapTy) (DstTy SrcTy : Nat) (r : Bool) (s' : TypeMapTy),
      areTypesIsomorphic ctx fuel s DstTy SrcTy = some (r, s') → ClaimsOK ctx s s' := by
  intro fuel
  induction fuel with
  | zero => intro s D S r s' h; simp [areTypesIsomorphic] at h
  | succ fuel ih =>
    intro s D S r s' h
    have hsub : ∀ k v, s.MappedTypes.lookup k = some v →
        (s.MappedTypes.subscript S).lookup k = some v := by
      intro k v hk; rw [lookup_subscript]; exact hk
    rcases areTypesIsomorphic_cases h with
      ⟨_, _, e⟩ | ⟨_, _, _, _, e⟩ | ⟨_, hl, hds, _, e⟩ | ⟨_, hl, hds, hst, hop, _, e⟩ |
      ⟨_, _, _, _, _, _, _, _, e⟩ | ⟨hid, hl, hds, hst, hno, hdo, hmem, _, e⟩ |
      ⟨_, _, _, _, _, _, _, e⟩ | ⟨_, hl, hds, hso, hdo, _, _, _, e⟩
    · rw [e]; exact claimsOK_nil ctx (fun _ _ h => h) rfl rfl
    · rw [e]; exact claimsOK_nil ctx hsub rfl rfl
    · rw [e]; exact claimsOK_nil ctx (lookup_set_mono hl) rfl rfl
    · rw [e]; exact claimsOK_nil ctx (lookup_set_mono hl) rfl rfl
    · rw [e]; exact claimsOK_nil ctx hsub rfl rfl
    · rw [e]
      refine ⟨lookup_set_mono hl, [D], [S], rfl, rfl, ?_, List.nodup_singleton D, ?_, ?_, ?_⟩
      · show [lookup ((s.MappedTypes.subscript S).assign S D) S] = [some D]
        rw [lookup_set, if_pos rfl]
      · intro x hx
        rw [List.mem_singleton.1 hx]
        exact hmem
      · intro x hx
        rw [List.mem_singleton.1 hx]
        exact ⟨hst, hno⟩
      · intro x hx
        rw [List.mem_singleton.1 hx]
        exact ⟨hid.trans hst, hdo⟩
    · rw [e]; exact claimsOK_nil ctx hsub rfl rfl
    · have h1 : ClaimsOK ctx s { s with
          MappedTypes := (s.MappedTypes.subscript S).assign S D
          SpeculativeTypes := s.SpeculativeTypes ++ [S] } :=
        claimsOK_nil ctx (lookup_set_mono hl) rfl rfl
      exact claimsOK_trans h1 (isoLoop_claimsOK ih _ _ r s' e)

theorem init_queueInv (ctx : LLVMContext) (S : IdentifiedStructTypeSet) :
    QueueInv ctx (init S) :=
  ⟨⟨rfl, rfl⟩, rfl, List.nodup_nil, fun _ h => (by cases h), fun _ h => (by cases h)⟩

/-- The state of the queue is kept by every `addTypeMapping` call, whether
the two types are found isomorphic or not. -/
theorem addTypeMapping_queueInv {ctx ctx1 : LLVMContext} {fuel : Nat} {tm tm1 : TypeMapTy}
    {d t : Nat} (hq : QueueInv ctx tm)
    (h : addTypeMapping ctx fuel tm d t = some (ctx1, tm1)) : QueueInv ctx1 tm1 := by
  cases hr : areTypesIsomorphic ctx fuel tm d t with
  | none => rw [addTypeMapping, hr] at h; cases h
  | some res =>
    obtain ⟨b, s1⟩ := res
    cases b with
    | false =>
      obtain ⟨tm', e, hQ, hR, h1, h2, _, hM⟩ :=
        addTypeMapping_rollback ctx fuel tm s1 d t hq.speculative.1 hq.speculative.2 hr
      rw [e] at h
      simp only [Option.some.injEq, Prod.mk.injEq] at h
      obtain ⟨hc, ht⟩ := h
      subst hc; subst ht
      refine ⟨⟨h1, h2⟩, ?_, by rw [hR]; exact hq.distinct, by rw [hQ]; exact hq.source,
        by rw [hR]; exact hq.destination⟩
      rw [hQ, hR]
      refine map_lookup_mono ?_ _ _ hq.mapped
      intro k v hk
      rcases hM k with h' | h'
      · rw [h', hk]
      · rw [h'.1] at hk; cases hk
    | true =>
      rw [addTypeMapping_of_true hr] at h
      simp only [Option.some.injEq, Prod.mk.injEq] at h
      obtain ⟨hc, ht⟩ := h
      subst hc; subst ht
      obtain ⟨m1, o, q, a1, b1, c1, d1, e1, f1, g1⟩ :=
        areTypesIsomorphic_claimsOK ctx fuel tm d t true s1 hr
      have hsh := sameShape_clearSpeculativeNames s1.SpeculativeTypes ctx
      refine ⟨⟨rfl, rfl⟩, ?_, ?_, ?_, ?_⟩
      · show s1.SrcDefinitionsToResolve.map s1.MappedTypes.lookup =
          s1.DstResolvedOpaqueTypes.map some
        rw [a1, b1, List.map_append, List.map_append, c1,
          map_lookup_mono m1 _ _ hq.mapped]
      · show s1.DstResolvedOpaqueTypes.Nodup
        rw [b1]
        exact List.nodup_append.2 ⟨hq.distinct, d1, fun x hx1 hx2 => e1 x hx2 hx1⟩
      · intro S hS
        have hS' : S ∈ s1.SrcDefinitionsToResolve := hS
        rw [a1] at hS'
        rw [sameShape_id_eq hsh, sameShape_isOpaque_eq hsh]
        rcases List.mem_append.1 hS' with h' | h'
        · exact hq.source S h'
        · exact f1 S h'
      · intro D hD
        have hD' : D ∈ s1.DstResolvedOpaqueTypes := hD
        rw [b1] at hD'
        rw [sameShape_id_eq hsh, sameShape_isOpaque_eq hsh]
        rcases List.mem_append.1 hD' with h' | h'
        · exact hq.destination D h'
        · exact g1 D h'

theorem addTypeMappings_queueInv {fuel : Nat} :
    ∀ (pairs : List (Nat × Nat)) (ctx ctx1 : LLVMContext) (tm tm1 : TypeMapTy),
      QueueInv ctx tm → addTypeMappings fuel pairs ctx tm = some (ctx1, tm1) →
      QueueInv ctx1 tm1 := by
  intro pairs
  induction pairs with
  | nil =>
    intro ctx ctx1 tm tm1 hq h
    simp only [addTypeMappings, Option.some.injEq, Prod.mk.injEq] at h
    rw [← h.1, ← h.2]
    exact hq
  | cons p rest ih =>
    intro ctx ctx1 tm tm1 hq h
    obtain ⟨d, t⟩ := p
    rw [addTypeMappings] at h
    cases hr : addTypeMapping ctx fuel tm d t with
    | none => rw [hr] at h; cases h
    | some res =>
      obtain ⟨c2, t2⟩ := res
      rw [hr] at h
      exact ih c2 ctx1 t2 tm1 (addTypeMapping_queueInv hq hr) h

end TypeMapTy
end IRMover

namespace IRMover
namespace TypeMapTy
open DenseMap

/-! ### `linkDefinedTypeBodies` -/

theorem get_inv {fuel : Nat} {ctx ctx' : LLVMContext} {tm tm' : TypeMapTy} {Ty r : Nat}
    (hok : GetState.OK ⟨ctx, tm, []⟩) (h : get fuel ctx tm Ty = some (r, ctx', tm')) :
    GetInv ⟨ctx, tm, []⟩ ⟨ctx', tm', []⟩ ∧ GetState.OK ⟨ctx', tm', []⟩ ∧
      tm'.MappedTypes.lookup Ty = some r := by
  unfold get at h
  cases hg : getVisited fuel ⟨ctx, tm, []⟩ Ty with
  | none => rw [hg] at h; cases h
  | some res =>
    obtain ⟨r1, st⟩ := res
    rw [hg] at h
    simp only [Option.some.injEq, Prod.mk.injEq] at h
    obtain ⟨e1, e2, e3⟩ := h
    subst e1; subst e2; subst e3
    obtain ⟨hi, ho⟩ := getVisited_inv fuel _ Ty r1 st hok hg
    exact ⟨⟨hi.grows, hi.mono, fun x hx => (by cases hx), hi.fresh, hi.nonOpaque, hi.addedOpaque,
      hi.queue, hi.resolved⟩, ⟨ho.literal, ho.index⟩,
      (getVisited_records fuel _ Ty r1 st hg).1⟩

theorem getContainedType_grows {c c' : LLVMContext} (h : c.Grows c') {S : Nat}
    (hS : S < c.length) (I : Nat) : c'.getContainedType S I = c.getContainedType S I := by
  unfold LLVMContext.getContainedType
  rw [(grows_id h hS).2.2.2.2]

theorem map_getContainedType_range (ctx : LLVMContext) (S : Nat) :
    (List.range (ctx.getNumContainedTypes S)).map (ctx.getContainedType S) =
      (ctx.getType S).contained := by
  unfold LLVMContext.getNumContainedTypes LLVMContext.getContainedType
  apply List.ext_getElem
  · simp
  · intro n h1 h2
    simp only [List.getElem_map, List.getElem_range]
    rw [List.getD_eq_getElem _ _ h2]

theorem mapElements_inv (fuel S : Nat) :
    ∀ (Is Elements : List Nat) (ctx : LLVMContext) (tm : TypeMapTy) (E' : List Nat)
      (ctx' : LLVMContext) (tm' : TypeMapTy), GetState.OK ⟨ctx, tm, []⟩ → S < ctx.length →
      mapElements fuel S Is Elements ctx tm = some (E', ctx', tm') →
      GetInv ⟨ctx, tm, []⟩ ⟨ctx', tm', []⟩ ∧ GetState.OK ⟨ctx', tm', []⟩ ∧
      ∃ New : List Nat, E' = Elements ++ New ∧
        (Is.map (ctx.getContainedType S)).map tm'.MappedTypes.lookup = New.map some := by
  intro Is
  induction Is with
  | nil =>
    intro Elements ctx tm E' ctx' tm' hok _ h
    simp only [mapElements, Option.some.injEq, Prod.mk.injEq] at h
    obtain ⟨e1, e2, e3⟩ := h
    subst e1; subst e2; subst e3
    exact ⟨getInv_refl _, hok, [], (List.append_nil _).symm, rfl⟩
  | cons I rest ih =>
    intro Elements ctx tm E' ctx' tm' hok hS h
    rw [mapElements] at h
    cases hg : get fuel ctx tm (ctx.getContainedType S I) with
    | none => rw [hg] at h; cases h
    | some res =>
      obtain ⟨E, ctx1, tm1⟩ := res
      rw [hg] at h
      simp only [] at h
      obtain ⟨a1, a2, a3⟩ := get_inv hok hg
      have hS1 : S < ctx1.length := Nat.lt_of_lt_of_le hS a1.grows.1
      obtain ⟨b1, b2, New, b3, b4⟩ := ih _ ctx1 tm1 E' ctx' tm' a2 hS1 h
      refine ⟨getInv_trans a1 b1, b2, E :: New, ?_, ?_⟩
      · rw [b3, List.append_assoc]; rfl
      · simp only [List.map_cons, List.cons.injEq]
        refine ⟨b1.mono _ _ a3, ?_⟩
        rw [← b4]
        congr 1
        apply List.map_congr_left
        intro J _
        exact (getContainedType_grows a1.grows hS J).symm

theorem linkBodiesTrace_snd (fuel : Nat) :
    ∀ (Q : List Nat) (ctx : LLVMContext) (tm : TypeMapTy),
      (linkBodiesTrace fuel Q ctx tm).map Prod.snd = linkBodies fuel Q ctx tm := by
  intro Q
  induction Q with
  | nil => intro ctx tm; rfl
  | cons S rest ih =>
    intro ctx tm
    rw [linkBodiesTrace, linkBodies]
    simp only []
    cases (tm.MappedTypes.subscript S).lookup S with
    | none => rfl
    | some D =>
      simp only []
      cases mapElements fuel S (List.range (ctx.getNumContainedTypes S)) [] ctx
          { tm with MappedTypes := tm.MappedTypes.subscript S } with
      | none => rfl
      | some res =>
        obtain ⟨E, ctx1, tm1⟩ := res
        simp only []
        rw [← ih]
        generalize linkBodiesTrace fuel rest _ _ = T
        cases T with
        | none => rfl
        | some r => rfl

end TypeMapTy
end IRMover

namespace IRMover
namespace TypeMapTy
open DenseMap

theorem indexOK_switch {c : LLVMContext} {S : IdentifiedStructTypeSet} (hc : IndexOK c S)
    {D : Nat} (hlt : D < c.length) (ho : (c.getType D).isOpaque = false) :
    IndexOK c (IdentifiedStructTypeSet.switchToNonOpaque c S D) :=
  fun t ht => indexOK_insert hc hlt ho t ht

theorem mem_or_match_insertNonOpaque (c : LLVMContext) (S : IdentifiedStructTypeSet) (D : Nat) :
    D ∈ (IdentifiedStructTypeSet.insertNonOpaque c S D).NonOpaqueStructTypes ∨
    ∃ X ∈ S.NonOpaqueStructTypes,
      (c.getType X).contained = (c.getType D).contained ∧
      (c.getType X).isPacked = (c.getType D).isPacked := by
  unfold IdentifiedStructTypeSet.insertNonOpaque
  split
  · rename_i hany
    right
    obtain ⟨X, hX, hk⟩ := List.any_eq_true.1 hany
    unfold IdentifiedStructTypeSet.keyMatches at hk
    simp only [Bool.and_eq_true, decide_eq_true_eq] at hk
    exact ⟨X, hX, hk.2, hk.1⟩
  · left
    exact List.mem_append_right _ (List.mem_singleton.2 rfl)

theorem not_mem_switch_opaqueSet (c : LLVMContext) (S : IdentifiedStructTypeSet) (D : Nat) :
    D ∉ (IdentifiedStructTypeSet.switchToNonOpaque c S D).OpaqueStructTypes := by
  unfold IdentifiedStructTypeSet.switchToNonOpaque SmallPtrSet.erase
  intro h
  have := (List.mem_filter.1 h).2
  simp at this

theorem mem_of_mem_switch_opaqueSet {c : LLVMContext} {S : IdentifiedStructTypeSet} {D t : Nat}
    (h : t ∈ (IdentifiedStructTypeSet.switchToNonOpaque c S D).OpaqueStructTypes) :
    t ∈ S.OpaqueStructTypes := by
  unfold IdentifiedStructTypeSet.switchToNonOpaque SmallPtrSet.erase at h
  have := (List.mem_filter.1 h).1
  rw [insertNonOpaque_opaqueSet] at this
  exact this

theorem linkedBodies_nil (ctx : LLVMContext) (tm : TypeMapTy)
    (hok : GetState.OK ⟨ctx, tm, []⟩) : LinkedBodies [] [] ctx tm ctx tm where
  length := Nat.le_refl _
  frame := fun u _ _ => ⟨(ctx.getType u).name, rfl⟩
  mono := fun _ _ h => h
  ok := hok
  opaqueSet := fun t ht => ⟨fun h => (by cases h), Or.inl ht⟩
  nonOpaqueSet := fun _ h => h
  bodies := fun p hp => (by cases hp)

/-- The loop of `linkDefinedTypeBodies`: every queued destination struct is
opaque when its body is set, and afterwards it has the mapped body of its
source struct; the types that are not queued destinations are untouched. -/
theorem linkBodiesTrace_spec (fuel : Nat) :
    ∀ (Q Ds : List Nat) (ctx : LLVMContext) (tm : TypeMapTy) (tr : List (Nat × Bool))
      (ctx' : LLVMContext) (tm' : TypeMapTy), GetState.OK ⟨ctx, tm, []⟩ →
      Q.map tm.MappedTypes.lookup = Ds.map some → Ds.Nodup →
      (∀ S ∈ Q, (ctx.getType S).id = TypeID.StructTyID ∧ (ctx.getType S).isOpaque = false) →
      (∀ D ∈ Ds, (ctx.getType D).id = TypeID.StructTyID ∧ (ctx.getType D).isOpaque = true) →
      linkBodiesTrace fuel Q ctx tm = some (tr, ctx', tm') →
      tr = Ds.map (fun D => (D, true)) ∧ LinkedBodies Q Ds ctx tm ctx' tm' := by
  intro Q
  induction Q with
  | nil =>
    intro Ds ctx tm tr ctx' tm' hok hmap _ _ _ h
    have hDs : Ds = [] := by
      cases Ds with
      | nil => rfl
      | cons a b => simp at hmap
    subst hDs
    simp only [linkBodiesTrace, Option.some.injEq, Prod.mk.injEq] at h
    obtain ⟨e1, e2, e3⟩ := h
    subst e1; subst e2; subst e3
    exact ⟨rfl, linkedBodies_nil ctx tm hok⟩
  | cons S rest ih =>
    intro Ds ctx tm tr ctx' tm' hok hmap hnd hsrc hdst h
    cases Ds with
    | nil => simp at hmap
    | cons D ds =>
      simp only [List.map_cons, List.cons.injEq] at hmap
      obtain ⟨hSD, hmapR⟩ := hmap
      have hSin := hsrc S (List.mem_cons_self _ _)
      have hDin := hdst D (List.mem_cons_self _ _)
      have hSlt : S < ctx.length := lt_of_isStruct_id hSin.1
      have hDlt : D < ctx.length := lt_of_isOpaque hDin.2
      have hndD : D ∉ ds := (List.nodup_cons.1 hnd).1
      rw [linkBodiesTrace] at h
      simp only [] at h
      rw [lookup_subscript, hSD] at h
      simp only [] at h
      have ok0 : GetState.OK ⟨ctx, { tm with MappedTypes := tm.MappedTypes.subscript S }, []⟩ :=
        ⟨hok.literal, hok.index⟩
      cases hm : mapElements fuel S (List.range (ctx.getNumContainedTypes S)) [] ctx
          { tm with MappedTypes := tm.MappedTypes.subscript S } with
      | none => rw [hm] at h; cases h
      | some res =>
        obtain ⟨E, ctx1, tm1⟩ := res
        rw [hm] at h
        simp only [] at h
        obtain ⟨G, ok1, New, eE, emap⟩ := mapElements_inv fuel S _ [] ctx _ E ctx1 tm1 ok0 hSlt hm
        rw [List.nil_append] at eE
        subst eE
        rw [map_getContainedType_range] at emap
        have g01 : ctx.Grows ctx1 := G.grows
        have hDlt1 : D < ctx1.length := Nat.lt_of_lt_of_le hDlt g01.1
        generalize hc2 : ctx1.setBody D E (ctx1.getType S).isPacked = ctx2 at h
        have len2 : ctx2.length = ctx1.length := by rw [← hc2, length_setBody]
        have hD2 : ctx2.getType D = { ctx1.getType D with
            contained := E, isPacked := (ctx1.getType S).isPacked, isOpaque := false } := by
          rw [← hc2, getType_setBody_self _ _ _ _ hDlt1]
        have hne2 : ∀ u, u ≠ D → ctx2.getType u = ctx1.getType u := by
          intro u hu; rw [← hc2, getType_setBody_of_ne _ _ _ _ _ hu]
        have hop2 : ∀ u, (ctx2.getType u).isOpaque = true → (ctx1.getType u).isOpaque = true := by
          intro u hu; rw [← hc2] at hu; exact (getType_setBody_id _ _ _ _ _).2.2 hu
        have hDop2 : (ctx2.getType D).isOpaque = false := by rw [hD2]
        have ok2 : GetState.OK ⟨ctx2, { tm1 with DstStructTypesSet :=
            IdentifiedStructTypeSet.switchToNonOpaque ctx2 tm1.DstStructTypesSet D }, []⟩ := by
          constructor
          · show LiteralOK ctx2
            rw [← hc2]
            exact literalOK_setBody ok1.literal _ _ _
          · show IndexOK ctx2 _
            refine indexOK_switch ?_ (by rw [len2]; exact hDlt1) hDop2
            rw [← hc2]
            exact indexOK_setBody ok1.index _ _ _
        have hsame : ∀ u, u < ctx.length → u ≠ D →
            ∃ nm : String, ctx2.getType u = { ctx.getType u with name := nm } := by
          intro u hu hne
          rw [hne2 u hne]
          exact g01.2 u hu
        have hmono1 : ∀ k v, tm.MappedTypes.lookup k = some v →
            tm1.MappedTypes.lookup k = some v := by
          intro k v hk
          exact G.mono k v (by
            show (tm.MappedTypes.subscript S).lookup k = some v
            rw [lookup_subscript]; exact hk)
        split at h
        · cases h
        · rename_i tr1 ctx3 tm3 hrec
          simp only [Option.some.injEq, Prod.mk.injEq] at h
          obtain ⟨e1, e2, e3⟩ := h
          subst e1; subst e2; subst e3
          have hsrc2 : ∀ S' ∈ rest, (ctx2.getType S').id = TypeID.StructTyID ∧
              (ctx2.getType S').isOpaque = false := by
            intro S' hS'
            obtain ⟨a, b⟩ := hsrc S' (List.mem_cons_of_mem _ hS')
            have hne : S' ≠ D := by
              intro e; rw [e, hDin.2] at b; cases b
            obtain ⟨nm, e⟩ := hsame S' (lt_of_isStruct_id a) hne
            rw [e]
            exact ⟨a, b⟩
          have hdst2 : ∀ D' ∈ ds, (ctx2.getType D').id = TypeID.StructTyID ∧
              (ctx2.getType D').isOpaque = true := by
            intro D' hD'
            obtain ⟨a, b⟩ := hdst D' (List.mem_cons_of_mem _ hD')
            have hne : D' ≠ D := by
              intro e; rw [e] at hD'; exact hndD hD'
            obtain ⟨nm, e⟩ := hsame D' (lt_of_isOpaque b) hne
            rw [e]
            exact ⟨a, b⟩
          obtain ⟨etr, LB⟩ := ih ds ctx2 _ tr1 ctx3 tm3 ok2
            (map_lookup_mono hmono1 _ _ hmapR) (List.nodup_cons.1 hnd).2 hsrc2 hdst2 hrec
          have hlen02 : ctx.length ≤ ctx2.length := by rw [len2]; exact g01.1
          obtain ⟨nD, eD⟩ := LB.frame D (by rw [len2]; exact hDlt1) hndD
          refine ⟨?_, ?_⟩
          · rw [etr, (grows_id g01 hDlt).2.1, hDin.2]
            rfl
          · constructor
            · exact Nat.le_trans hlen02 LB.length
            · intro u hu hnot
              have hneD : u ≠ D := fun e => hnot (by rw [e]; exact List.mem_cons_self _ _)
              have hnds : u ∉ ds := fun hm' => hnot (List.mem_cons_of_mem _ hm')
              obtain ⟨n1, e1⟩ := hsame u hu hneD
              obtain ⟨n2, e2⟩ := LB.frame u (Nat.lt_of_lt_of_le hu hlen02) hnds
              exact ⟨n2, by rw [e2, e1]⟩
            · exact fun k v hk => LB.mono k v (hmono1 k v hk)
            · exact LB.ok
            · intro t ht
              obtain ⟨hnds, hor⟩ := LB.opaqueSet t ht
              constructor
              · intro hmem
                rcases List.mem_cons.1 hmem with e | e
                · subst e
                  rcases hor with h' | h' | h'
                  · exact not_mem_switch_opaqueSet _ _ _ h'
                  · exact absurd (Nat.lt_of_lt_of_le hDlt hlen02) (Nat.not_lt.2 h')
                  · rw [hDop2] at h'; cases h'
                · exact hnds e
              · rcases hor with h' | h' | h'
                · exact G.addedOpaque t (mem_of_mem_switch_opaqueSet h')
                · exact Or.inr (Or.inl (Nat.le_trans hlen02 h'))
                · by_cases hlt : t < ctx.length
                  · right; right
                    rw [← (grows_id g01 hlt).2.1]
                    exact hop2 t h'
                  · exact Or.inr (Or.inl (Nat.le_of_not_lt hlt))
            · intro t ht
              exact LB.nonOpaqueSet t (mem_insertNonOpaque_of_mem D (G.nonOpaque t ht))
            · intro p hp
              rw [List.zip_cons_cons] at hp
              rcases List.mem_cons.1 hp with e | hp'
              · subst e
                refine ⟨by rw [eD, hD2], ?_, ?_, ?_⟩
                · rw [eD, hD2]
                  exact (map_lookup_mono LB.mono _ _ emap).symm
                · rw [eD, hD2]
                  exact (grows_id g01 hSlt).2.2.2.1
                · rcases mem_or_match_insertNonOpaque ctx2 tm1.DstStructTypesSet D with h' | h'
                  · exact Or.inl (LB.nonOpaqueSet D h')
                  · obtain ⟨X, hX, c1, c2⟩ := h'
                    by_cases hXD : X = D
                    · subst hXD
                      exact Or.inl (LB.nonOpaqueSet X (mem_insertNonOpaque_of_mem X hX))
                    · right
                      obtain ⟨hXlt, hXop⟩ := ok1.index X hX
                      have hXds : X ∉ ds := by
                        intro hm'
                        have := (hdst2 X hm').2
                        rw [hne2 X hXD, hXop] at this
                        cases this
                      obtain ⟨nX, eX⟩ := LB.frame X (by rw [len2]; exact hXlt) hXds
                      refine ⟨X, LB.nonOpaqueSet X (mem_insertNonOpaque_of_mem D hX), hXD, ?_, ?_⟩
                      · rw [eX, eD]; exact c1
                      · rw [eX, eD]; exact c2
              · obtain ⟨b1, b2, b3, b4⟩ := LB.bodies p hp'
                have hpS : p.1 ∈ rest := (List.of_mem_zip (a := p.1) (b := p.2) hp').1
                obtain ⟨a, b⟩ := hsrc p.1 (List.mem_cons_of_mem _ hpS)
                have hne : p.1 ≠ D := by
                  intro e; rw [e, hDin.2] at b; cases b
                obtain ⟨nm, e⟩ := hsame p.1 (lt_of_isStruct_id a) hne
                rw [e] at b2 b3
                exact ⟨b1, b2, b3, b4⟩

end TypeMapTy
end IRMover

namespace IRMover
namespace TypeMapTy
open DenseMap

/-! ### Struct reuse in `get` -/

end TypeMapTy
end IRMover

namespace IRMover
namespace TypeMapTy
open DenseMap

end TypeMapTy
end IRMover

namespace IRMover
namespace TypeMapTy
open DenseMap

end TypeMapTy
end IRMover

namespace IRMover
namespace TypeMapTy
open DenseMap

/-! ### Types of the base arena as results of `get` -/

end TypeMapTy
end IRMover

namespace IRMover
namespace TypeMapTy
open DenseMap

end TypeMapTy
end IRMover

namespace IRMover
namespace TypeMapTy
open DenseMap

end TypeMapTy
end IRMover

namespace IRMover
namespace TypeMapTy
open DenseMap

end TypeMapTy
end IRMover

namespace IRMover
namespace TypeMapTy
open DenseMap

end TypeMapTy
end IRMover

namespace IRMover
namespace TypeMapTy
open DenseMap

/-- A struct that is reached again through its own elements: `%S = { %U* }`
is reached again through `%U = { %S*, %T }` while its elements are mapped, and
gets the struct `5` made for the cycle; its mapped element list `[8]` is made
of a type made by the call.  The struct `9`, made for `%T = { %U* }` during
the call, has the same body. -/
theorem get_recursive_struct_fresh :
    (exampleRecursiveCtx.getType 0).id = TypeID.StructTyID ∧
    (exampleRecursiveCtx.getType 0).isLiteral = false ∧
    (exampleRecursiveCtx.getType 0).isOpaque = false ∧
    (init ⟨[], []⟩).MappedTypes.lookup 0 = none ∧
    exampleRecursiveCtx.length = 5 ∧
    (getLoop (getVisited 9) 0 (List.range (exampleRecursiveCtx.getNumContainedTypes 0)) [] false
      ⟨exampleRecursiveCtx, ⟨[(0, none)], [], [], [], [], ⟨[], []⟩⟩, [0]⟩).map
      (fun r => (r.1,
        IdentifiedStructTypeSet.findNonOpaque r.2.2.ctx r.2.2.tm.DstStructTypesSet r.1
          (exampleRecursiveCtx.getType 0).isPacked,
        r.2.2.tm.MappedTypes.lookup 0)) = some ([8], some 9, some 5) ∧
    (get 10 exampleRecursiveCtx (init ⟨[], []⟩) 0).map
      (fun r => (r.1, (r.2.1.getType 9).contained, (r.2.1.getType 9).isPacked,
        (r.2.1.getType 9).isOpaque, (r.2.1.getType 5).contained, r.2.2.DstStructTypesSet)) =
      some (5, [8], false, false, [8], ⟨[], [9, 7]⟩) := by
  refine ⟨by decide, by decide, by decide, by decide, by decide, by decide, by decide⟩

end TypeMapTy
end IRMover

namespace IRMover
namespace TypeMapTy
open DenseMap

theorem mem_zip_of_map {f : Nat → Option Nat} :
    ∀ (Q Ds : List Nat), Q.map f = Ds.map some → ∀ S D, S ∈ Q → f S = some D →
      (S, D) ∈ Q.zip Ds := by
  intro Q
  induction Q with
  | nil => intro Ds _ S D hS; cases hS
  | cons a rest ih =>
    intro Ds h S D hS hf
    cases Ds with
    | nil => simp at h
    | cons b ds =>
      simp only [List.map_cons, List.cons.injEq] at h
      rw [List.zip_cons_cons]
      rcases List.mem_cons.1 hS with e | e
      · subst e
        rw [hf] at h
        rw [Option.some.inj h.1]
        exact List.mem_cons_self _ _
      · exact List.mem_cons_of_mem _ (ih ds h.2 S D e hf)

theorem isSome_of_map_eq {f : Nat → Option Nat} :
    ∀ (l o : List Nat), l.map f = o.map some → ∀ e ∈ l, ∃ d, f e = some d := by
  intro l
  induction l with
  | nil => intro o _ e he; cases he
  | cons a rest ih =>
    intro o h e he
    cases o with
    | nil => simp at h
    | cons b o' =>
      simp only [List.map_cons, List.cons.injEq] at h
      rcases List.mem_cons.1 he with h' | h'
      · subst h'; exact ⟨b, h.1⟩
      · exact ih o' h.2 e h'

theorem linkBodiesTrace_of_linkBodies {fuel : Nat} {Q : List Nat} {ctx ctx' : LLVMContext}
    {tm tm' : TypeMapTy} (h : linkBodies fuel Q ctx tm = some (ctx', tm')) :
    ∃ tr, linkBodiesTrace fuel Q ctx tm = some (tr, ctx', tm') := by
  rw [← linkBodiesTrace_snd] at h
  cases ht : linkBodiesTrace fuel Q ctx tm with
  | none => rw [ht] at h; cases h
  | some r =>
    obtain ⟨tr, c, t⟩ := r
    rw [ht] at h
    simp only [Option.map_some', Option.some.injEq, Prod.mk.injEq] at h
    exact ⟨tr, by rw [h.1, h.2]⟩

/-- C35, amended: let the arena and the struct index be well-formed and the
queue be in the state kept by `addTypeMapping`.  After
`linkDefinedTypeBodies`, for every queued source struct `S`, with `D` the
destination struct `S` is mapped to: `D` is not opaque; the element list of
`D` is the mapped element list of `S`, that is `get(e)` for each element `e`
of `S` in order; the packed flag of `D` equals the one of `S`; `D` has left
the opaque set of the struct index, and `D` is in the non-opaque set unless
that set holds another struct with the elements and the packed flag of `D`;
and the queue and the resolved set are empty. -/
theorem linkDefinedTypeBodies_spec (fuel : Nat) (ctx ctx' : LLVMContext) (tm tm' : TypeMapTy)
    (hok : GetState.OK ⟨ctx, tm, []⟩) (hq : QueueInv ctx tm)
    (h : linkDefinedTypeBodies fuel ctx tm = some (ctx', tm')) :
    tm'.SrcDefinitionsToResolve = [] ∧ tm'.DstResolvedOpaqueTypes = [] ∧
    ∀ S D, S ∈ tm.SrcDefinitionsToResolve → tm.MappedTypes.lookup S = some D →
      tm'.MappedTypes.lookup S = some D ∧
      (ctx'.getType D).isOpaque = false ∧
      (ctx'.getType D).contained.map some =
        (ctx.getType S).contained.map tm'.MappedTypes.lookup ∧
      (∀ f, (ctx.getType S).contained.map (fun e => (get (f + 1) ctx' tm' e).map Prod.fst) =
        (ctx'.getType D).contained.map some) ∧
      (ctx'.getType S).contained = (ctx.getType S).contained ∧
      (ctx'.getType D).isPacked = (ctx'.getType S).isPacked ∧
      D ∉ tm'.DstStructTypesSet.OpaqueStructTypes ∧
      (D ∈ tm'.DstStructTypesSet.NonOpaqueStructTypes ∨
        ∃ X ∈ tm'.DstStructTypesSet.NonOpaqueStructTypes, X ≠ D ∧
          (ctx'.getType X).contained = (ctx'.getType D).contained ∧
          (ctx'.getType X).isPacked = (ctx'.getType D).isPacked) := by
  unfold linkDefinedTypeBodies at h
  cases hb : linkBodies fuel tm.SrcDefinitionsToResolve ctx tm with
  | none => rw [hb] at h; cases h
  | some r =>
    obtain ⟨c1, t1⟩ := r
    rw [hb] at h
    simp only [Option.some.injEq, Prod.mk.injEq] at h
    obtain ⟨e1, e2⟩ := h
    subst e1; subst e2
    obtain ⟨tr, htr⟩ := linkBodiesTrace_of_linkBodies hb
    obtain ⟨_, LB⟩ := linkBodiesTrace_spec fuel _ _ ctx tm tr c1 t1 hok hq.mapped hq.distinct
      hq.source hq.destination htr
    refine ⟨rfl, rfl, ?_⟩
    intro S D hS hSD
    have hz := mem_zip_of_map _ _ hq.mapped S D hS hSD
    obtain ⟨b1, b2, b3, b4⟩ := LB.bodies (S, D) hz
    have hD : D ∈ tm.DstResolvedOpaqueTypes := (List.of_mem_zip hz).2
    obtain ⟨s1, s2⟩ := hq.source S hS
    have hSnot : S ∉ tm.DstResolvedOpaqueTypes := by
      intro hm
      rw [(hq.destination S hm).2] at s2
      cases s2
    obtain ⟨nm, eS⟩ := LB.frame S (lt_of_isStruct_id s1) hSnot
    refine ⟨LB.mono S D hSD, b1, b2, ?_, by rw [eS], by rw [b3, eS], ?_, b4⟩
    · intro f
      rw [b2]
      apply List.map_congr_left
      intro e he
      obtain ⟨d, hd⟩ := isSome_of_map_eq _ _ b2.symm e he
      have hd' : ({ t1 with SrcDefinitionsToResolve := [], DstResolvedOpaqueTypes := [] } :
          TypeMapTy).MappedTypes.lookup e = some d := hd
      rw [get_of_entry f c1 _ e d hd']
      exact hd.symm
    · exact fun hm => (LB.opaqueSet D hm).1 hD

end TypeMapTy
end IRMover

namespace IRMover
namespace TypeMapTy
open DenseMap

/-- C35, amended, at `%S = { i32 }` queued for the opaque `%D`, with
`%X = { i32 }` in the non-opaque set: `%D` gets the body `{ i32 }` and leaves
the opaque set, and `%X` stays in its place in the non-opaque set. -/
theorem linkDefinedTypeBodies_spec_witness :
    linkDefinedTypeBodies 2 (exampleReuseCtx.setName 3 "")
      ⟨[(3, some 2)], [], [], [3], [2], ⟨[2], [1]⟩⟩ =
      some (((exampleReuseCtx.setName 3 "").setBody 2 [0] false),
        ⟨[(3, some 2), (0, some 0)], [], [], [], [], ⟨[], [1]⟩⟩) ∧
    ((((exampleReuseCtx.setName 3 "").setBody 2 [0] false).getType 2).isOpaque = false ∧
      (((exampleReuseCtx.setName 3 "").setBody 2 [0] false).getType 2).contained.map some =
        ((exampleReuseCtx.setName 3 "").getType 3).contained.map
          (⟨[(3, some 2), (0, some 0)], [], [], [], [], ⟨[], [1]⟩⟩ :
            TypeMapTy).MappedTypes.lookup ∧
      2 ∉ (⟨[(3, some 2), (0, some 0)], [], [], [], [], ⟨[], [1]⟩⟩ :
        TypeMapTy).DstStructTypesSet.OpaqueStructTypes) :=
  have h : linkDefinedTypeBodies 2 (exampleReuseCtx.setName 3 "")
      ⟨[(3, some 2)], [], [], [3], [2], ⟨[2], [1]⟩⟩ =
      some (((exampleReuseCtx.setName 3 "").setBody 2 [0] false),
        ⟨[(3, some 2), (0, some 0)], [], [], [], [], ⟨[], [1]⟩⟩) := by decide
  have hq : QueueInv (exampleReuseCtx.setName 3 "")
      ⟨[(3, some 2)], [], [], [3], [2], ⟨[2], [1]⟩⟩ :=
    ⟨⟨rfl, rfl⟩, by decide, by decide, by decide, by decide⟩
  have hs := (linkDefinedTypeBodies_spec 2 (exampleReuseCtx.setName 3 "") _
    ⟨[(3, some 2)], [], [], [3], [2], ⟨[2], [1]⟩⟩ _ (ok_of_check (by decide)) hq h).2.2
    3 2 (by decide) (by decide)
  ⟨h, hs.2.1, hs.2.2.1, hs.2.2.2.2.2.2.1⟩

/-- Against C35 as stated: the destination holds `%X = type { i32 }` in the
non-opaque set of its struct index and the opaque `%D` in the opaque set;
`addTypeMapping(%D, %S)` queues the source struct `%S = type { i32 }` for
`%D`.  After `linkDefinedTypeBodies` the struct `%D` has the body `{ i32 }`
and has left the opaque set, but it is not in the non-opaque set, which is
keyed by shape and already held `%X`: `hasType(%D)` is false. -/
theorem linkDefinedTypeBodies_leaves_destination_out :
    addTypeMappings 2 [(2, 3)] exampleReuseCtx (init ⟨[2], [1]⟩) =
      some (exampleReuseCtx.setName 3 "", ⟨[(3, some 2)], [], [], [3], [2], ⟨[2], [1]⟩⟩) ∧
    (linkDefinedTypeBodies 2 (exampleReuseCtx.setName 3 "")
      ⟨[(3, some 2)], [], [], [3], [2], ⟨[2], [1]⟩⟩).map
      (fun r => ((r.1.getType 2).isOpaque, (r.1.getType 2).contained,
        r.2.DstStructTypesSet, IdentifiedStructTypeSet.hasType r.1 r.2.DstStructTypesSet 2)) =
      some (false, [0], ⟨[], [1]⟩, false) := by
  refine ⟨by decide, by decide⟩

end TypeMapTy
end IRMover

namespace IRMover
namespace TypeMapTy
open DenseMap

theorem literalOK_of_sameShape {c c' : LLVMContext} (h : c.SameShape c') (hc : LiteralOK c) :
    LiteralOK c' := by
  refine literalOK_of_nodes (fun u hid hlit ho => ?_) hc
  obtain ⟨nm, e⟩ := h.2 u
  rw [e] at hid hlit ho
  exact ⟨hid, hlit, ho⟩

theorem indexOK_of_sameShape {c c' : LLVMContext} {S : IdentifiedStructTypeSet}
    (h : c.SameShape c') (hc : IndexOK c S) : IndexOK c' S :=
  indexOK_of_nodes (Nat.le_of_eq h.1.symm)
    (fun u _ ho => by rw [sameShape_isOpaque_eq h] at ho; exact ho) hc

theorem addTypeMapping_index {ctx ctx1 : LLVMContext} {fuel : Nat} {tm tm1 : TypeMapTy}
    {d t : Nat} (h : addTypeMapping ctx fuel tm d t = some (ctx1, tm1)) :
    tm1.DstStructTypesSet = tm.DstStructTypesSet := by
  cases hr : areTypesIsomorphic ctx fuel tm d t with
  | none => rw [addTypeMapping, hr] at h; cases h
  | some res =>
    obtain ⟨b, s1⟩ := res
    have hext := areTypesIsomorphic_extends ctx fuel tm d t b s1 hr
    cases b with
    | false =>
      rw [addTypeMapping_of_false hr] at h
      simp only [Option.some.injEq, Prod.mk.injEq] at h
      rw [← h.2]
      exact hext.index
    | true =>
      rw [addTypeMapping_of_true hr] at h
      simp only [Option.some.injEq, Prod.mk.injEq] at h
      rw [← h.2]
      exact hext.index

theorem addTypeMappings_index {fuel : Nat} :
    ∀ (pairs : List (Nat × Nat)) (ctx ctx1 : LLVMContext) (tm tm1 : TypeMapTy),
      addTypeMappings fuel pairs ctx tm = some (ctx1, tm1) →
      tm1.DstStructTypesSet = tm.DstStructTypesSet := by
  intro pairs
  induction pairs with
  | nil =>
    intro ctx ctx1 tm tm1 h
    simp only [addTypeMappings, Option.some.injEq, Prod.mk.injEq] at h
    rw [← h.2]
  | cons p rest ih =>
    intro ctx ctx1 tm tm1 h
    obtain ⟨d, t⟩ := p
    rw [addTypeMappings] at h
    cases hr : addTypeMapping ctx fuel tm d t with
    | none => rw [hr] at h; cases h
    | some res =>
      obtain ⟨c2, t2⟩ := res
      rw [hr] at h
      exact (ih c2 ctx1 t2 tm1 h).trans (addTypeMapping_index hr)

/-- C32: start from a fresh mapper over a well-formed arena and struct index
and make any run of `addTypeMapping` calls.  At that point the queued source
structs are not opaque and are mapped, in order, to the structs of the
resolved set, which are pairwise distinct and opaque.  Hence in
`linkDefinedTypeBodies` the structs that are given a body are the
destinations of the queued structs, in order: each of them is still opaque
when `setBody` is called on it, and none of them is given a body twice. -/
theorem queued_destinations_get_one_body (fuel : Nat) (pairs : List (Nat × Nat))
    (ctx0 ctx : LLVMContext) (Set : IdentifiedStructTypeSet) (tm : TypeMapTy)
    (hlit : LiteralOK ctx0) (hidx : IndexOK ctx0 Set)
    (h : addTypeMappings fuel pairs ctx0 (init Set) = some (ctx, tm)) :
    (tm.SrcDefinitionsToResolve.map tm.MappedTypes.lookup =
        tm.DstResolvedOpaqueTypes.map some ∧
      tm.DstResolvedOpaqueTypes.Nodup ∧
      (∀ S ∈ tm.SrcDefinitionsToResolve,
        (ctx.getType S).id = TypeID.StructTyID ∧ (ctx.getType S).isOpaque = false) ∧
      (∀ D ∈ tm.DstResolvedOpaqueTypes,
        (ctx.getType D).id = TypeID.StructTyID ∧ (ctx.getType D).isOpaque = true)) ∧
    ∀ fuel' ctx' tm', linkDefinedTypeBodies fuel' ctx tm = some (ctx', tm') →
      ∃ tr tm1, linkBodiesTrace fuel' tm.SrcDefinitionsToResolve ctx tm = some (tr, ctx', tm1) ∧
        linkBodies fuel' tm.SrcDefinitionsToResolve ctx tm = some (ctx', tm1) ∧
        tr.map (fun e => some e.1) = tm.SrcDefinitionsToResolve.map tm.MappedTypes.lookup ∧
        (∀ e ∈ tr, e.2 = true) ∧ (tr.map Prod.fst).Nodup := by
  have hq := addTypeMappings_queueInv pairs ctx0 ctx (init Set) tm (init_queueInv ctx0 Set) h
  obtain ⟨_, _, _, hsh, _⟩ := addTypeMappings_keeps pairs ctx0 ctx (init Set) tm rfl rfl h
  have hix := addTypeMappings_index pairs ctx0 ctx (init Set) tm h
  have hok : GetState.OK ⟨ctx, tm, []⟩ := by
    constructor
    · exact literalOK_of_sameShape hsh hlit
    · show IndexOK ctx tm.DstStructTypesSet
      rw [hix]
      exact indexOK_of_sameShape hsh hidx
  refine ⟨⟨hq.mapped, hq.distinct, hq.source, hq.destination⟩, ?_⟩
  intro fuel' ctx' tm' hl
  unfold linkDefinedTypeBodies at hl
  cases hb : linkBodies fuel' tm.SrcDefinitionsToResolve ctx tm with
  | none => rw [hb] at hl; cases hl
  | some r =>
    obtain ⟨c1, t1⟩ := r
    rw [hb] at hl
    simp only [Option.some.injEq, Prod.mk.injEq] at hl
    obtain ⟨e1, _⟩ := hl
    subst e1
    obtain ⟨tr, htr⟩ := linkBodiesTrace_of_linkBodies hb
    obtain ⟨etr, _⟩ := linkBodiesTrace_spec fuel' _ _ ctx tm tr c1 t1 hok hq.mapped hq.distinct
      hq.source hq.destination htr
    refine ⟨tr, t1, htr, rfl, ?_, ?_, ?_⟩
    · rw [hq.mapped, etr, List.map_map]
      rfl
    · intro e he
      rw [etr] at he
      obtain ⟨D, _, hD⟩ := List.mem_map.1 he
      rw [← hD]
    · rw [etr, List.map_map]
      have : (Prod.fst ∘ fun D : Nat => (D, true)) = id := rfl
      rw [this, List.map_id]
      exact hq.distinct

/-- C32, at the call `addTypeMapping(%D, %S)` for the opaque `%D` and
`%S = { i32 }`, followed by `linkDefinedTypeBodies`. -/
theorem queued_destinations_get_one_body_witness :
    addTypeMappings 2 [(2, 3)] exampleReuseCtx (init ⟨[2], [1]⟩) =
      some (exampleReuseCtx.setName 3 "", ⟨[(3, some 2)], [], [], [3], [2], ⟨[2], [1]⟩⟩) ∧
    (linkBodiesTrace 2 [3] (exampleReuseCtx.setName 3 "")
      ⟨[(3, some 2)], [], [], [3], [2], ⟨[2], [1]⟩⟩).map Prod.fst = some [(2, true)] ∧
    ∃ tr tm1, linkBodiesTrace 2 [3] (exampleReuseCtx.setName 3 "")
        ⟨[(3, some 2)], [], [], [3], [2], ⟨[2], [1]⟩⟩ =
        some (tr, (exampleReuseCtx.setName 3 "").setBody 2 [0] false, tm1) ∧
      (∀ e ∈ tr, e.2 = true) ∧ (tr.map Prod.fst).Nodup :=
  have h : addTypeMappings 2 [(2, 3)] exampleReuseCtx (init ⟨[2], [1]⟩) =
      some (exampleReuseCtx.setName 3 "", ⟨[(3, some 2)], [], [], [3], [2], ⟨[2], [1]⟩⟩) := by
    decide
  have hl : linkDefinedTypeBodies 2 (exampleReuseCtx.setName 3 "")
      ⟨[(3, some 2)], [], [], [3], [2], ⟨[2], [1]⟩⟩ =
      some (((exampleReuseCtx.setName 3 "").setBody 2 [0] false),
        ⟨[(3, some 2), (0, some 0)], [], [], [], [], ⟨[], [1]⟩⟩) := by decide
  have hok : GetState.OK ⟨exampleReuseCtx, init ⟨[2], [1]⟩, []⟩ := ok_of_check (by decide)
  have hs := (queued_destinations_get_one_body 2 [(2, 3)] exampleReuseCtx _ ⟨[2], [1]⟩ _
    hok.literal hok.index h).2 2 _ _ hl
  ⟨h, by decide, hs.imp (fun _ h1 => h1.imp (fun _ h2 => ⟨h2.1, h2.2.2.2.1, h2.2.2.2.2⟩))⟩

end TypeMapTy
end IRMover
